import Mathlib

/-!
# XBeeBoot: the escaped-API transport between avrdude and the bootloader

A shallow embedding of the two sides of the XBeeBoot tunnel:

* `Xbee`: the host side, `avrdude/xbee.c` (`sendAPIRequest`, `sendPacket`,
  `xbeedev_poll`, `xbeedev_send`);
* `Xbeeboot`: the target side, `bootloaders/xbeeboot/xbeeboot.c` (`escGetch`,
  `escPutch`, `transmit`, `sendAck`, `poll`, `pushBuffer`).

An `unsigned char` / `uint8_t` is a `Fin 256`, whose arithmetic wraps modulo 256
as the C arithmetic does.  Serial input is an explicit list that the functions
consume; serial output is an explicit log that they extend.  The bootloader
keeps its variables at fixed addresses (`RAMSTART + SPM_PAGESIZE * k`), so its
data memory is one map from addresses to bytes.  Loops that wait for input are
bounded by a `fuel` argument.
-/

set_option maxRecDepth 100000

/-- An `unsigned char` (host) or `uint8_t` (target): arithmetic is modulo 256. -/
abbrev Byte := Fin 256

/-- Sum of the numeric values of a byte string, as a natural number. -/
def byteSum (p : List Byte) : Nat := (p.map Fin.val).sum

/-- The conversion of an `int` to `unsigned char`: reduction modulo 256. -/
def toUChar (x : Int) : Byte := Fin.ofNat (x % 256).toNat

/-! ## The wire format in the words of the specification -/

/-- Escaped encoding of one byte: a byte in {0x7E, 0x7D, 0x11, 0x13} becomes
`0x7D, b XOR 0x20`, every other byte is itself. -/
def escapeByte (b : Byte) : List Byte :=
  if b = 0x7e ∨ b = 0x7d ∨ b = 0x11 ∨ b = 0x13 then [0x7d, b ^^^ 0x20] else [b]

/-- Escaped encoding of a byte string. -/
def escapeBytes (x : List Byte) : List Byte := x.flatMap escapeByte

/-- The checksum byte of a payload: `(0xFF - sum(p)) mod 256`. -/
def checksumByte (p : List Byte) : Byte := toUChar (0xFF - (byteSum p : Int))

/-- The API frame of a payload `p`: `0x7E`, then the escaped encodings of the two
length bytes `[0x00, L]`, of `p`, and of the checksum byte. -/
def apiFrame (p : List Byte) : List Byte :=
  0x7e :: (escapeBytes [0x00, toUChar (p.length : Int)] ++ escapeBytes p ++
    escapeBytes [checksumByte p])

/-- Sequence successor in the words of the specification: `n + 1` for
`0 <= n <= 254`, and 1 for 255. -/
def seqSucc (n : Byte) : Byte := if n = 255 then 1 else n + 1

/-- A byte stream on the wire carries no unescaped control byte: its first byte
is 0x7E and no later byte is; no byte after the first is 0x11 or 0x13; and
every 0x7D is followed by one of 0x5E, 0x5D, 0x31, 0x33. -/
def WireClean (wire : List Byte) : Prop :=
  wire.head? = some 0x7e ∧ (∀ b ∈ wire.tail, b ≠ 0x7e ∧ b ≠ 0x11 ∧ b ≠ 0x13) ∧
    ∀ i, i < wire.length → wire.getD i 0 = 0x7d →
      i + 1 < wire.length ∧
        (wire.getD (i + 1) 0 = 0x5e ∨ wire.getD (i + 1) 0 = 0x5d ∨
          wire.getD (i + 1) 0 = 0x31 ∨ wire.getD (i + 1) 0 = 0x33)

namespace Xbee

/-! ## Host side: `avrdude/xbee.c` -/

/-- The idiom `while ((++x & 0xff) == 0);` on an `unsigned char`, with the number
of loop iterations bounded by `fuel`; `none` when the bound is reached. -/
def skipZeroLoop : Nat → Byte → Option Byte
  | 0, _ => none
  | fuel + 1, x =>
    let x1 := x + 1
    if x1.val &&& 0xff = 0 then skipZeroLoop fuel x1 else some x1

/-- The idiom `while ((++x & 0xff) == 0);` unrolled: the second increment, taken
when the first one wrapped to zero, yields 1 and ends the loop
(`host_skipZeroLoop_eq` shows that two iterations always suffice). -/
def nextSequence (x : Byte) : Byte :=
  let x1 := x + 1
  if x1.val &&& 0xff = 0 then x1 + 1 else x1

/-- The fields of `struct XBeeBootSession` other than the serial device.
`xbee_address` has 10 entries and `inBuffer` 256; entries are read with a
default of 0. -/
structure XBeeBootSession where
  xbee_address : List Byte
  directMode : Bool
  outSequence : Byte
  inSequence : Byte
  inInIndex : Nat
  inOutIndex : Nat
  inBuffer : List Byte
  deriving DecidableEq, Repr

/-- `XBeeBootSessionInit`; the arrays, which C leaves uninitialised, start as zeros. -/
def XBeeBootSessionInit : XBeeBootSession :=
  { xbee_address := List.replicate 10 0
    directMode := true
    outSequence := 0
    inSequence := 0
    inInIndex := 0
    inOutIndex := 0
    inBuffer := List.replicate 256 0 }

/-- The host program state the transport works on: the session, the file-scope
`txSequence`, and the log of byte strings handed to `serialDevice->send`, one
entry per call, oldest first. -/
structure Host where
  xbs : XBeeBootSession
  txSequence : Byte
  sent : List (List Byte)
  deriving DecidableEq, Repr

/-- The locals `fp`, `checksum` and `length` of `sendAPIRequest`: `out` is the
bytes stored through `fp` since `fp` was last assigned, in order. -/
structure Encoder where
  out : List Byte
  checksum : Byte
  length : Byte
  deriving DecidableEq, Repr

/-- The macro `fpput(x)` of `sendAPIRequest`. -/
def fpput (e : Encoder) (v : Byte) : Encoder :=
  { out := if v = 0x7d ∨ v = 0x7e ∨ v = 0x11 ∨ v = 0x13
      then e.out ++ [0x7d, v ^^^ 0x20]
      else e.out ++ [v]
    checksum := e.checksum - v
    length := e.length + 1 }

/-- The guarded form `if (x >= 0) fpput(x);` used for the `int` arguments. -/
def fpputOpt (e : Encoder) (x : Int) : Encoder :=
  if x ≥ 0 then fpput e (toUChar x) else e

/-- The encoder state of `sendAPIRequest` just after the data loop, before the
checksum is stored: `out` is the escaped payload written from `&frame[5]`. -/
def encodePayload (xbs : XBeeBootSession) (apiType : Byte)
    (apiOption prePayload1 prePayload2 packetType sequence appType : Int)
    (data : List Byte) : Encoder :=
  let e : Encoder := { out := [], checksum := 0xff, length := 0 }
  let e := fpput e apiType
  let e := fpputOpt e apiOption
  let e := if apiType ≠ 0x08
    then (List.range 10).foldl (fun e index => fpput e (xbs.xbee_address.getD index 0)) e
    else e
  let e := fpputOpt e prePayload1
  let e := fpputOpt e prePayload2
  let e := fpputOpt e packetType
  let e := fpputOpt e sequence
  let e := fpputOpt e appType
  data.foldl fpput e

/-- The bytes `sendAPIRequest` hands to `serialDevice->send`.  `data` is the
`dataLength` bytes read through the `data` pointer.  The escaped body is written
from `&frame[5]` into `unsigned char frame[256]` and the escaped frame start from
`&frame[0]`; the result is `none` when a store would fall outside the array or
the frame start would not fit in front of the body. -/
def sendAPIRequest (xbs : XBeeBootSession) (apiType : Byte)
    (apiOption prePayload1 prePayload2 packetType sequence appType : Int)
    (data : List Byte) : Option (List Byte) :=
  let e := encodePayload xbs apiType apiOption prePayload1 prePayload2 packetType
    sequence appType data
  let unescapedLength := e.length
  let e := fpput e e.checksum
  let finalLength := e.out.length
  let s : Encoder := { out := [0x7e], checksum := e.checksum, length := e.length }
  let s := fpput s 0
  let s := fpput s unescapedLength
  let startLength := s.out.length
  if 5 + finalLength ≤ 256 ∧ startLength ≤ 5 then some (s.out ++ e.out) else none

/-- `sendPacket`: bump `txSequence`, build the 0x90 (direct mode) or 0x10 frame and
send it.  `none` when `sendAPIRequest` leaves its frame array. -/
def sendPacket (h : Host) (packetType sequence : Byte) (appType : Int)
    (data : List Byte) : Option Host :=
  let apiType : Byte := if h.xbs.directMode then 0x90 else 0x10
  let prePayload1 : Int := if h.xbs.directMode then -1 else 0
  let prePayload2 : Int := if h.xbs.directMode then -1 else 0
  let txSequence := nextSequence h.txSequence
  match sendAPIRequest h.xbs apiType txSequence.val prePayload1 prePayload2
      packetType.val sequence.val appType data with
  | some wire => some { h with txSequence := txSequence, sent := h.sent ++ [wire] }
  | none => none

/-- Where `xbeedev_poll` stands between two serial reads: at `before_frame`
(hunting for 0x7E) or inside the `do ... while (index < frameSize)` loop, with
the bytes stored in `frame` so far (`index` is their number). -/
inductive ParserState where
  | beforeFrame
  | inFrame (frame : List Byte) (escaped : Bool) (frameSize : Nat)
  deriving DecidableEq, Repr

/-- What one received byte does to the frame reader: the reader goes on, or the
`do ... while` loop ends with a complete frame. -/
inductive ParseStep where
  | more (st : ParserState)
  | complete (frame : List Byte) (frameSize : Nat)
  deriving DecidableEq, Repr

/-- What the unescape step of `xbeedev_poll` (lines 299-312) does with one byte
read inside a frame. -/
inductive Unescaped where
  | restart
  | leadIn
  | value (byte : Byte)
  deriving DecidableEq, Repr

/-- The unescape step of `xbeedev_poll`: 0x7E restarts the frame, a byte after a
lead-in is XORed with 0x20, 0x7D is a lead-in, any other byte is itself. -/
def unescapeByte (escaped : Bool) (byte : Byte) : Unescaped :=
  if byte = 0x7e then .restart
  else if escaped then .value (byte ^^^ 0x20)
  else if byte = 0x7d then .leadIn
  else .value byte

/-- The unescape step run over a byte string, starting with the given `escaped`
flag: the unescaped bytes and the final flag, or `none` if the restart branch
(`goto start_of_frame`) is taken. -/
def unescape : Bool → List Byte → Option (List Byte × Bool)
  | escaped, [] => some ([], escaped)
  | escaped, byte :: rest =>
    match unescapeByte escaped byte with
    | .restart => none
    | .leadIn => unescape true rest
    | .value v =>
      match unescape false rest with
      | some (out, e) => some (v :: out, e)
      | none => none

/-- One serial byte through the frame reader of `xbeedev_poll` (lines 281-328). -/
def parseByte : ParserState → Byte → ParseStep
  | .beforeFrame, byte =>
    if byte ≠ 0x7e then .more .beforeFrame else .more (.inFrame [] false 2)
  | .inFrame frame escaped frameSize, byte =>
    match unescapeByte escaped byte with
    | .restart => .more (.inFrame [] false 2)
    | .leadIn => .more (.inFrame frame true frameSize)
    | .value byte =>
      if frame.length ≥ 256 then .more .beforeFrame
      else
        let frame := frame ++ [byte]
        let index := frame.length
        if index = 2 then
          let frameSize := ((frame.getD 0 0).val <<< 8 ||| (frame.getD 1 0).val) + 2 + 1
          if frameSize ≥ 256 then .more .beforeFrame
          else if index < frameSize then .more (.inFrame frame false frameSize)
          else .complete frame frameSize
        else if index < frameSize then .more (.inFrame frame false frameSize)
        else .complete frame frameSize

/-- The checksum loop at the end of a frame: `checksum = 1` plus `frame[cIndex]`
for `cIndex` from 2 up to `index`; the frame passes when the result is 0. -/
def frameChecksum (frame : List Byte) : Byte :=
  (frame.drop 2).foldl (fun checksum b => checksum + b) 1

/-- How a call of `xbeedev_poll` (or a function built on it) ends: `return rc`,
`exit(status)`, or a store outside `frame` in `sendAPIRequest`. -/
inductive Outcome where
  | ret (rc : Int)
  | exit (status : Int)
  | undefined
  deriving DecidableEq, Repr

/-- The state of a running `xbeedev_poll`: the frame reader, the host state, the
room left in the caller's buffer (`buflen`) and the bytes stored through `buf`
so far. -/
structure PollCfg where
  st : ParserState
  host : Host
  buflen : Nat
  written : List Byte
  deriving DecidableEq, Repr

/-- The result of feeding one byte to a running `xbeedev_poll`. -/
inductive PollStep where
  | running (c : PollCfg)
  | done (o : Outcome) (c : PollCfg)
  deriving DecidableEq, Repr

/-- The copy loop of lines 471-487: each data byte goes to the caller's buffer
while `buflen > 0`, else into the ring buffer `inBuffer`; `none` is the
`exit(1)` of a buffer overrun. -/
def deliver : XBeeBootSession → Nat → List Byte → List Byte →
    Option (XBeeBootSession × Nat × List Byte)
  | xbs, buflen, written, [] => some (xbs, buflen, written)
  | xbs, buflen, written, data :: rest =>
    if buflen > 0 then deliver xbs (buflen - 1) (written ++ [data]) rest
    else
      let inBuffer := xbs.inBuffer.set xbs.inInIndex data
      let inInIndex := xbs.inInIndex + 1
      let inInIndex := if inInIndex = 256 then 0 else inInIndex
      if inInIndex = xbs.inOutIndex then none
      else deliver { xbs with inBuffer := inBuffer, inInIndex := inInIndex } buflen written rest

/-- The application part of a 0x10 / 0x90 frame (lines 439-497): `dataStart` is
the offset of the application data in `frame`, `dataLength` its length. -/
def processData (bufNonNull : Bool) (waitForAck : Int) (c : PollCfg)
    (frame : List Byte) (dataStart dataLength : Nat) : PollStep :=
  if dataLength ≥ 2 then
    let protocolType := frame.getD dataStart 0
    let sequence := frame.getD (dataStart + 1) 0
    if protocolType = 0 then
      if waitForAck ≥ 0 ∧ waitForAck = (sequence.val : Int) then .done (.ret 0) c
      else .running c
    else if protocolType = 1 ∧ dataLength ≥ 4 ∧ frame.getD (dataStart + 2) 0 = 24 then
      let nextSeq := nextSequence c.host.xbs.inSequence
      if sequence = nextSeq then
        let xbs := { c.host.xbs with inSequence := nextSeq }
        let textLength := dataLength - 3
        let text := (frame.drop (dataStart + 3)).take textLength
        match deliver xbs c.buflen c.written text with
        | none => .done (.exit 1) { c with host := { c.host with xbs := xbs } }
        | some (xbs, buflen, written) =>
          match sendPacket { c.host with xbs := xbs } 0 sequence (-1) [] with
          | none => .done .undefined { c with host := { c.host with xbs := xbs } }
          | some host =>
            let c := { c with host := host, buflen := buflen, written := written }
            if buflen = 0 ∧ bufNonNull then .done (.ret 0) c else .running c
      else .running c
    else .running c
  else .running c

/-- The dispatch on `frameType` of a checksum-valid frame (lines 346-498). -/
def processFrame (bufNonNull : Bool) (waitForAck waitForSequence : Int) (c : PollCfg)
    (frame : List Byte) (frameSize : Nat) : PollStep :=
  let frameType := frame.getD 2 0
  if frameType = 0x97 ∧ frameSize > 16 then
    let resultCode := frame.getD 16 0
    if waitForSequence ≥ 0 ∧ waitForSequence = ((frame.getD 3 0).val : Int)
    then .done (.ret (-512 + (resultCode.val : Int))) c
    else .running c
  else if frameType = 0x88 ∧ frameSize > 6 then
    if waitForSequence ≥ 0 ∧ waitForSequence = ((frame.getD 3 0).val : Int)
    then .done (.ret 0) c
    else .running c
  else if frameType = 0x8b ∧ frameSize > 7 then .running c
  else if frameType = 0x10 then
    let header := 2 + 1 + 1 + 8 + 2 + 1 + 1
    if frameSize ≤ header + 1 then .running c
    else processData bufNonNull waitForAck c frame header (frameSize - header - 1)
  else if frameType = 0x90 then
    let header := 2 + 1 + 8 + 2 + 1
    if frameSize ≤ header + 1 then .running c
    else if (frame.drop (2 + 1)).take 8 ≠ c.host.xbs.xbee_address.take 8 then .running c
    else
      let rx16Bit := (frame.drop (2 + 1 + 8)).take 2
      let tx16Bit := (c.host.xbs.xbee_address.drop 8).take 2
      let xbs := if rx16Bit ≠ tx16Bit
        then { c.host.xbs with xbee_address := c.host.xbs.xbee_address.take 8 ++ rx16Bit }
        else c.host.xbs
      let c := { c with host := { c.host with xbs := xbs } }
      processData bufNonNull waitForAck c frame header (frameSize - header - 1)
  else .running c

/-- One serial byte through a running `xbeedev_poll`: the frame reader, then, for
a complete frame, the checksum test and the dispatch; after a frame the loop
`for (;;)` goes back to `before_frame`. -/
def pollByte (bufNonNull : Bool) (waitForAck waitForSequence : Int) (c : PollCfg)
    (byte : Byte) : PollStep :=
  match parseByte c.st byte with
  | .more st => .running { c with st := st }
  | .complete frame frameSize =>
    let c := { c with st := .beforeFrame }
    if frameChecksum frame ≠ 0 then .running c
    else processFrame bufNonNull waitForAck waitForSequence c frame frameSize

/-- The final state of a call of `xbeedev_poll` and the serial input it has not
read. -/
structure PollResult where
  outcome : Outcome
  cfg : PollCfg
  rest : List (Option Byte)
  deriving DecidableEq, Repr

/-- The loop of `xbeedev_poll` over the serial input.  An input event is
`some b`, a byte delivered by `serialDevice->recv`, or `none`, a `recv` that
fails; a failing `recv` returns -1 (a timeout), and so does every `recv` once
the input is used up. -/
def pollLoop (bufNonNull : Bool) (waitForAck waitForSequence : Int) :
    PollCfg → List (Option Byte) → PollResult
  | c, [] => { outcome := .ret (-1), cfg := c, rest := [] }
  | c, none :: rest => { outcome := .ret (-1), cfg := c, rest := rest }
  | c, some byte :: rest =>
    match pollByte bufNonNull waitForAck waitForSequence c byte with
    | .running c1 => pollLoop bufNonNull waitForAck waitForSequence c1 rest
    | .done o c1 => { outcome := o, cfg := c1, rest := rest }

/-- `xbeedev_poll(xbs, buf, buflen, waitForAck, waitForSequence)`; `bufNonNull`
says whether `buf` is not `NULL`. -/
def xbeedev_poll (h : Host) (bufNonNull : Bool) (buflen : Nat)
    (waitForAck waitForSequence : Int) (input : List (Option Byte)) : PollResult :=
  pollLoop bufNonNull waitForAck waitForSequence
    { st := .beforeFrame, host := h, buflen := buflen, written := [] } input

/-- The end of a call of `xbeedev_send`: how it ended, the host state and the
serial input it has not read. -/
structure SendResult where
  outcome : Outcome
  host : Host
  rest : List (Option Byte)
  deriving DecidableEq, Repr

/-- The loop `for (;;)` of `xbeedev_send` for one chunk (lines 820-834): send the
REQUEST, poll for its ACK, leave the loop when the poll returns 0, else re-send
the last ACK (if `inSequence` is not 0) and start over.  `fuel` bounds the
number of passes; `none` when the bound is reached. -/
def sendBlock (sequence : Byte) (block : List Byte) :
    Nat → Host → List (Option Byte) → Option SendResult
  | 0, _, _ => none
  | fuel + 1, h, input =>
    match sendPacket h 1 sequence 23 block with
    | none => some { outcome := .undefined, host := h, rest := input }
    | some h1 =>
      let r := xbeedev_poll h1 false 0 sequence.val (-1) input
      match r.outcome with
      | .ret rc =>
        if rc = 0 then some { outcome := .ret 0, host := r.cfg.host, rest := r.rest }
        else if r.cfg.host.xbs.inSequence ≠ 0 then
          match sendPacket r.cfg.host 0 r.cfg.host.xbs.inSequence (-1) [] with
          | none => some { outcome := .undefined, host := r.cfg.host, rest := r.rest }
          | some h2 => sendBlock sequence block fuel h2 r.rest
        else sendBlock sequence block fuel r.cfg.host r.rest
      | o => some { outcome := o, host := r.cfg.host, rest := r.rest }

/-- The loop `while (buflen > 0)` of `xbeedev_send`; `buf` is the `buflen` bytes
that remain to be sent.  The first argument bounds the passes of each chunk's
inner loop, the second the number of chunks (`buflen` passes are enough, as
every pass removes at least one byte). -/
def sendLoop (fuel : Nat) : Nat → Host → List Byte → List (Option Byte) → Option SendResult
  | _, h, [], input => some { outcome := .ret 0, host := h, rest := input }
  | 0, _, _ :: _, _ => none
  | n + 1, h, b :: buf, input =>
    let sequence := nextSequence h.xbs.outSequence
    let h := { h with xbs := { h.xbs with outSequence := sequence } }
    let blockLength := if (b :: buf).length > 64 then 64 else (b :: buf).length
    match sendBlock sequence ((b :: buf).take blockLength) fuel h input with
    | none => none
    | some r =>
      match r.outcome with
      | .ret _ => sendLoop fuel n r.host ((b :: buf).drop blockLength) r.rest
      | o => some { outcome := o, host := r.host, rest := r.rest }

/-- `xbeedev_send(fdp, buf, buflen)`, with at most `fuel` transmissions of each
chunk; `none` when that bound is reached. -/
def xbeedev_send (fuel : Nat) (h : Host) (buf : List Byte) (input : List (Option Byte)) :
    Option SendResult :=
  sendLoop fuel buf.length h buf input

/-- How the loop `while (xbs->inInIndex != xbs->inOutIndex)` of `xbeedev_recv`
ends: with `return 0` inside the loop (`full`), with the ring buffer empty, or
with a store through `buf` when `buflen` is 0 (`overrun`).  `out` is the bytes
stored through `buf`, in order. -/
inductive Drained where
  | full (xbs : XBeeBootSession) (out : List Byte)
  | empty (xbs : XBeeBootSession) (buflen : Nat) (out : List Byte)
  | overrun
  deriving DecidableEq, Repr

/-- The loop `while (xbs->inInIndex != xbs->inOutIndex)` of `xbeedev_recv` (lines
852-858); the first argument is `buflen`.  Every pass decrements `buflen` and
returns when it reaches 0, so the loop ends within `buflen` passes. -/
def drainRing : Nat → XBeeBootSession → List Byte → Drained
  | 0, xbs, out => if xbs.inInIndex ≠ xbs.inOutIndex then .overrun else .empty xbs 0 out
  | n + 1, xbs, out =>
    if xbs.inInIndex ≠ xbs.inOutIndex then
      let out := out ++ [xbs.inBuffer.getD xbs.inOutIndex 0]
      let inOutIndex := xbs.inOutIndex + 1
      let inOutIndex := if inOutIndex = 256 then 0 else inOutIndex
      let xbs := { xbs with inOutIndex := inOutIndex }
      if n = 0 then .full xbs out else drainRing n xbs out
    else .empty xbs (n + 1) out

/-- The end of a call of `xbeedev_recv`: how it ended, the host state, the
contents of the caller's buffer and the serial input it has not read. -/
structure RecvResult where
  outcome : Outcome
  host : Host
  buf : List Byte
  rest : List (Option Byte)
  deriving DecidableEq, Repr

/-- The loop `for (retries = 0; retries < 30; retries++)` of `xbeedev_recv` (lines
861-872); the first argument is the number of passes left, `region` the
contents of the caller's buffer from `buf` on (`buflen` bytes).  Every pass
hands the same `buf` and `buflen` to `xbeedev_poll`, whose stores start at
`buf[0]` again. -/
def recvLoop : Nat → Host → List Byte → List (Option Byte) → RecvResult
  | 0, h, region, input => { outcome := .ret (-1), host := h, buf := region, rest := input }
  | retries + 1, h, region, input =>
    let r := xbeedev_poll h true region.length (-1) (-1) input
    let region := r.cfg.written ++ region.drop r.cfg.written.length
    match r.outcome with
    | .ret rc =>
      if rc = 0 then { outcome := .ret 0, host := r.cfg.host, buf := region, rest := r.rest }
      else if r.cfg.host.xbs.inSequence ≠ 0 then
        match sendPacket r.cfg.host 0 r.cfg.host.xbs.inSequence (-1) [] with
        | none => { outcome := .undefined, host := r.cfg.host, buf := region, rest := r.rest }
        | some h2 => recvLoop retries h2 region r.rest
      else recvLoop retries r.cfg.host region r.rest
    | o => { outcome := o, host := r.cfg.host, buf := region, rest := r.rest }

/-- `xbeedev_recv(fdp, buf, buflen)`; `buf` is the contents of the caller's
buffer before the call and `buflen` its length. -/
def xbeedev_recv (h : Host) (buf : List Byte) (input : List (Option Byte)) : RecvResult :=
  match drainRing buf.length h.xbs [] with
  | .full xbs out =>
    { outcome := .ret 0, host := { h with xbs := xbs }, buf := out ++ buf.drop out.length,
      rest := input }
  | .overrun => { outcome := .undefined, host := h, buf := buf, rest := input }
  | .empty xbs _ out =>
    let r := recvLoop 30 { h with xbs := xbs } (buf.drop out.length) input
    { r with buf := out ++ r.buf }

/-- The macro `XBEE_AT_RETURN_CODE(x)`. -/
def XBEE_AT_RETURN_CODE (x : Int) : Int := if x ≥ -512 ∧ x ≤ -256 then x + 512 else -1

/-- The loop `for (retries = 0; retries < 30; retries++)` of `sendAT` (lines
576-584); the first argument is the number of passes left. -/
def sendATLoop (sequence : Byte) : Nat → Host → List (Option Byte) → SendResult
  | 0, h, input => { outcome := .ret (-1), host := h, rest := input }
  | retries + 1, h, input =>
    let r := xbeedev_poll h false 0 (-1) sequence.val input
    match r.outcome with
    | .ret rc =>
      let xbeeRc : Int := XBEE_AT_RETURN_CODE rc
      if xbeeRc = 0 then { outcome := .ret 0, host := r.cfg.host, rest := r.rest }
      else if rc ≠ -1 then { outcome := .ret rc, host := r.cfg.host, rest := r.rest }
      else sendATLoop sequence retries r.cfg.host r.rest
    | o => { outcome := o, host := r.cfg.host, rest := r.rest }

/-- `sendAT(xbs, at1, at2, value)`: nothing in direct mode; else a Remote AT
Command frame (0x17, apply changes 0x02) and up to 30 polls for its response. -/
def sendAT (h : Host) (at1 at2 : Byte) (value : Int) (input : List (Option Byte)) :
    SendResult :=
  if h.xbs.directMode then { outcome := .ret 0, host := h, rest := input }
  else
    let sequence := nextSequence h.txSequence
    let buf := [at1, at2] ++ (if value ≥ 0 then [toUChar value] else [])
    match sendAPIRequest h.xbs 0x17 sequence.val (-1) (-1) (-1) 0x02 (-1) buf with
    | none => { outcome := .undefined, host := { h with txSequence := sequence }, rest := input }
    | some wire =>
      sendATLoop sequence 30 { h with txSequence := sequence, sent := h.sent ++ [wire] } input

/-- The loop `for (retries = 0; retries < 5; retries++)` of `localAT` (lines
531-535); the first argument is the number of passes left. -/
def localATLoop (sequence : Byte) : Nat → Host → List (Option Byte) → SendResult
  | 0, h, input => { outcome := .ret (-1), host := h, rest := input }
  | retries + 1, h, input =>
    let r := xbeedev_poll h false 0 (-1) sequence.val input
    match r.outcome with
    | .ret rc =>
      if rc = 0 then { outcome := .ret 0, host := r.cfg.host, rest := r.rest }
      else localATLoop sequence retries r.cfg.host r.rest
    | o => { outcome := o, host := r.cfg.host, rest := r.rest }

/-- `localAT(xbs, at1, at2, value)`: nothing in direct mode; else a Local AT
Command frame (0x08) and up to 5 polls for its response. -/
def localAT (h : Host) (at1 at2 : Byte) (value : Int) (input : List (Option Byte)) :
    SendResult :=
  if h.xbs.directMode then { outcome := .ret 0, host := h, rest := input }
  else
    let sequence := nextSequence h.txSequence
    let buf := [at1, at2] ++ (if value ≥ 0 then [toUChar value] else [])
    match sendAPIRequest h.xbs 0x08 (-1) (-1) (-1) (-1) sequence.val (-1) buf with
    | none => { outcome := .undefined, host := { h with txSequence := sequence }, rest := input }
    | some wire =>
      localATLoop sequence 5 { h with txSequence := sequence, sent := h.sent ++ [wire] } input

/-- `xbeeATError(rc)`: 0 when `rc` carries no XBee AT response code, 1 when it
carries one (which is then reported). -/
def xbeeATError (rc : Int) : Int :=
  if XBEE_AT_RETURN_CODE rc < 0 then 0 else 1

/-- The value of a hexadecimal digit as the address loop of `xbeedev_open` reads
it (lines 677-685); `none` is the `break` on any other character. -/
def hexVal (hex : Byte) : Option Nat :=
  if 0x30 ≤ hex.val ∧ hex.val ≤ 0x39 then some (hex.val - 0x30)
  else if 0x41 ≤ hex.val ∧ hex.val ≤ 0x46 then some (hex.val - 0x41 + 10)
  else if 0x61 ≤ hex.val ∧ hex.val ≤ 0x66 then some (hex.val - 0x61 + 10)
  else none

/-- The locals of the address loop of `xbeedev_open` when it ends: `addrIndex`,
`nybble`, the characters between `address` and `ttySeparator`, and the
session's address array. -/
structure AddressScan where
  addrIndex : Nat
  nybble : Int
  remaining : List Byte
  xbee_address : List Byte
  deriving DecidableEq, Repr

/-- The loop `while (address != ttySeparator)` of `xbeedev_open` (lines 674-694);
the first argument is the characters from `address` up to `ttySeparator`. -/
def scanAddress : List Byte → Nat → Int → List Byte → AddressScan
  | [], addrIndex, nybble, xbee_address =>
    { addrIndex := addrIndex, nybble := nybble, remaining := [], xbee_address := xbee_address }
  | hex :: rest, addrIndex, nybble, xbee_address =>
    match hexVal hex with
    | none =>
      { addrIndex := addrIndex, nybble := nybble, remaining := rest,
        xbee_address := xbee_address }
    | some val =>
      if nybble = -1 then scanAddress rest addrIndex val xbee_address
      else
        let xbee_address := xbee_address.set addrIndex (toUChar ((nybble.toNat * 16 ||| val : Nat)))
        if addrIndex + 1 = 8 then
          { addrIndex := addrIndex + 1, nybble := -1, remaining := rest,
            xbee_address := xbee_address }
        else scanAddress rest (addrIndex + 1) (-1) xbee_address

/-- The port syntax check and address setup of `xbeedev_open` (lines 646-710);
`port` is the characters of the string before its terminating NUL, 0x40 is
`'@'`.  `none` is `return -1`. -/
def parsePort (port : List Byte) : Option XBeeBootSession :=
  if 0x40 ∉ port then none
  else
    let address := port.takeWhile (fun ch => ch ≠ 0x40)
    let xbs := XBeeBootSessionInit
    let parsed : Option XBeeBootSession :=
      if address = [] then
        some { xbs with xbee_address := List.replicate 8 0 ++ xbs.xbee_address.drop 8,
                        directMode := true }
      else
        let scan := scanAddress address 0 (-1) xbs.xbee_address
        if scan.addrIndex ≠ 8 ∨ scan.remaining ≠ [] ∨ scan.nybble ≠ -1 then none
        else some { xbs with xbee_address := scan.xbee_address, directMode := false }
    match parsed with
    | none => none
    | some xbs => some { xbs with xbee_address := (xbs.xbee_address.set 8 0xff).set 9 0xfe }

/-- The end of a call of `xbeedev_open`: how it ended, the host state (the
session is the one stored in `fdp->pfd` when the call returns 0), whether
`serialDevice->open` was called, and the serial input not read. -/
structure OpenResult where
  outcome : Outcome
  host : Host
  opened : Bool
  rest : List (Option Byte)
  deriving DecidableEq, Repr

/-- `xbeedev_open(port, pinfo, fdp)`.  `mallocOk` says whether `malloc` returns a
session, `openRc` is what `serialDevice->open` returns, `txSequence` the value
of the file-scope counter at the call. -/
def xbeedev_open (port : List Byte) (mallocOk : Bool) (openRc : Int) (txSequence : Byte)
    (input : List (Option Byte)) : OpenResult :=
  let h0 : Host := { xbs := XBeeBootSessionInit, txSequence := txSequence, sent := [] }
  match parsePort port with
  | none => { outcome := .ret (-1), host := h0, opened := false, rest := input }
  | some xbs =>
    if mallocOk = false then { outcome := .ret (-1), host := h0, opened := false, rest := input }
    else
      let h : Host := { h0 with xbs := xbs }
      if openRc < 0 then { outcome := .ret openRc, host := h, opened := true, rest := input }
      else if xbs.directMode then { outcome := .ret 0, host := h, opened := true, rest := input }
      else
        let r := localAT h 0x41 0x50 2 input
        match r.outcome with
        | .ret rc =>
          if rc < 0 then { outcome := .ret rc, host := r.host, opened := true, rest := r.rest }
          else
            let r := sendAT r.host 0x44 0x36 0 r.rest
            match r.outcome with
            | .ret rc =>
              if rc < 0 then
                if xbeeATError rc ≠ 0 then
                  { outcome := .ret (-1), host := r.host, opened := true, rest := r.rest }
                else { outcome := .ret rc, host := r.host, opened := true, rest := r.rest }
              else { outcome := .ret 0, host := r.host, opened := true, rest := r.rest }
            | o => { outcome := o, host := r.host, opened := true, rest := r.rest }
        | o => { outcome := o, host := r.host, opened := true, rest := r.rest }

/-- The end of a call of `xbeedev_set_dtr_rts`: how it ended, the host state, the
argument handed to the serial device's `set_dtr_rts` (`none` when it is not
called), and the serial input not read. -/
structure DtrResult where
  outcome : Outcome
  host : Host
  serial : Option Int
  rest : List (Option Byte)
  deriving DecidableEq, Repr

/-- `xbeedev_set_dtr_rts(fdp, is_on)`; `serialRc` is what the serial device's
`set_dtr_rts` returns. -/
def xbeedev_set_dtr_rts (h : Host) (is_on : Int) (serialRc : Int)
    (input : List (Option Byte)) : DtrResult :=
  if h.xbs.directMode then
    { outcome := .ret serialRc, host := h, serial := some is_on, rest := input }
  else
    let r := sendAT h 0x44 0x33 (if is_on ≠ 0 then 5 else 4) input
    match r.outcome with
    | .ret rc =>
      if rc < 0 then
        if xbeeATError rc ≠ 0 then
          { outcome := .ret (-1), host := r.host, serial := none, rest := r.rest }
        else { outcome := .ret rc, host := r.host, serial := none, rest := r.rest }
      else { outcome := .ret 0, host := r.host, serial := none, rest := r.rest }
    | o => { outcome := o, host := r.host, serial := none, rest := r.rest }

/-! ### Host side: definitions used to state the theorems -/

/-- A stored frame (two length bytes, payload, checksum byte) carries an
application ACK for `sequence`: its data, at offset 16 in a 0x10 frame and at
offset 14 in a 0x90 frame from the configured 64-bit address, has at least two
bytes, the first 0 (ACK) and the second `sequence`. -/
def IsAckFor (xbs : XBeeBootSession) (frame : List Byte) (frameSize : Nat)
    (sequence : Byte) : Prop :=
  (frame.getD 2 0 = 0x10 ∧ frameSize ≥ 16 + 2 + 1 ∧ frame.getD 16 0 = 0 ∧
      frame.getD 17 0 = sequence) ∨
    (frame.getD 2 0 = 0x90 ∧ frameSize ≥ 14 + 2 + 1 ∧
      (frame.drop 3).take 8 = xbs.xbee_address.take 8 ∧ frame.getD 14 0 = 0 ∧
      frame.getD 15 0 = sequence)

/-- The application message inside a frame sent by `sendPacket`: the frame
without its 0x7E is unescaped, the two length bytes, the header (API type,
frame sequence, 10 address bytes and, outside direct mode, radius and options)
and the final checksum byte are dropped. -/
def appMessage (directMode : Bool) (wire : List Byte) : List Byte :=
  match unescape false wire.tail with
  | some (u, _) => ((u.drop 2).dropLast).drop (if directMode then 12 else 14)
  | none => []

/-- An application message is a REQUEST (1) of type FIRMWARE_DELIVER (23). -/
def isRequestDeliver (m : List Byte) : Bool :=
  decide (3 ≤ m.length ∧ m.getD 0 0 = 1 ∧ m.getD 2 0 = 23)

/-- The REQUEST messages of a buffer in the words of the specification: one per
chunk of at most 64 bytes, each `[1, sequence, 23]` followed by the chunk, with
successive sequence numbers after `s`.  The first argument bounds the number of
chunks. -/
def requestMessages : Nat → Byte → List Byte → List (List Byte)
  | _, _, [] => []
  | 0, _, _ :: _ => []
  | n + 1, s, b :: buf =>
    ([1, seqSucc s, 23] ++ (b :: buf).take 64) ::
      requestMessages n (seqSucc s) ((b :: buf).drop 64)

/-- The state carried by a `PollStep`. -/
def PollStep.cfg : PollStep → PollCfg
  | .running c => c
  | .done _ c => c

/-- Host state `h1` continues `h`: same mode, same `outSequence`, and the log of
sent frames extended only by frames that do not carry a REQUEST of type
FIRMWARE_DELIVER. -/
def HostExt (h h1 : Host) : Prop :=
  h1.xbs.directMode = h.xbs.directMode ∧ h1.xbs.outSequence = h.xbs.outSequence ∧
    ∃ extra, h1.sent = h.sent ++ extra ∧
      ∀ e ∈ extra, isRequestDeliver (appMessage h.xbs.directMode e) = false

/-- The ACK frame for application sequence `s` as the target transmits it (API
type 0x10, address bytes `01 00 .. 00`), as serial input events. -/
def ackInput (s : Byte) : List (Option Byte) :=
  ([0x7e, 0x00, 0x10, 0x10, 0, 1, 0, 0, 0, 0, 0, 0, 0, 0, 0, 0, 0, 0, s, 0xee - s] :
    List Byte).map some

/-- A buffer of 100 bytes: 0, 1, ..., 99. -/
def buffer100 : List Byte := (List.range 100).map (fun i => (i : Byte))

/-- The frame reader of `xbeedev_poll` fed with bytes that all arrive: the reader
state after the last of them, or `none` when one of them completes a frame. -/
def readerRun : ParserState → List Byte → Option ParserState
  | st, [] => some st
  | st, byte :: q =>
    match parseByte st byte with
    | .more st1 => readerRun st1 q
    | .complete _ _ => none

/-- A running `xbeedev_poll` fed with bytes that all arrive: the state reached
after the last of them, or `none` when the call ends before. -/
def pollRun (bufNonNull : Bool) (waitForAck waitForSequence : Int) :
    PollCfg → List Byte → Option PollCfg
  | c, [] => some c
  | c, byte :: q =>
    match pollByte bufNonNull waitForAck waitForSequence c byte with
    | .running c1 => pollRun bufNonNull waitForAck waitForSequence c1 q
    | .done _ _ => none

/-- The host state right after `XBeeBootSessionInit`: direct mode, all-zero
address, `txSequence` 0 and nothing sent. -/
def initHost : Host := { xbs := XBeeBootSessionInit, txSequence := 0, sent := [] }

/-- The byte an `int` argument of `sendAPIRequest` contributes to the payload:
none when it is negative. -/
def optionalByte (x : Int) : List Byte := if x ≥ 0 then [toUChar x] else []

/-- The unescaped payload of a call of `sendAPIRequest`: API type, optional
option/sequence byte, the 10-byte address unless the type is 0x08, the optional
pre-payload and application header bytes, the data. -/
def apiPayload (xbs : XBeeBootSession) (apiType : Byte)
    (apiOption prePayload1 prePayload2 packetType sequence appType : Int)
    (data : List Byte) : List Byte :=
  [apiType] ++ optionalByte apiOption ++
    (if apiType ≠ 0x08 then (List.range 10).map (fun index => xbs.xbee_address.getD index 0)
     else []) ++
    optionalByte prePayload1 ++ optionalByte prePayload2 ++ optionalByte packetType ++
    optionalByte sequence ++ optionalByte appType ++ data

/-- The bytes waiting in the ring buffer `inBuffer`, oldest first: those from
`inOutIndex` up to `inInIndex`, going round at 256. -/
def ringPending (xbs : XBeeBootSession) : List Byte :=
  (List.range ((xbs.inInIndex + 256 - xbs.inOutIndex) % 256)).map
    (fun j => xbs.inBuffer.getD ((xbs.inOutIndex + j) % 256) 0)

/-- The ring buffer is as declared: `inBuffer` has 256 entries and both indices
are below 256. -/
def RingOk (xbs : XBeeBootSession) : Prop :=
  xbs.inBuffer.length = 256 ∧ xbs.inInIndex < 256 ∧ xbs.inOutIndex < 256

/-- The payload bytes of the application message that starts at offset
`dataStart` of a stored frame: what follows the three bytes `[type, sequence,
appType]`, without the frame's checksum byte. -/
def dataText (frame : List Byte) (frameSize dataStart : Nat) : List Byte :=
  (frame.drop (dataStart + 3)).take (frameSize - dataStart - 1 - 3)


/-- The payload of a 0x10 frame that carries the one-byte data message
`[1, s, 24, 0x41]`: REQUEST, sequence `s`, FIRMWARE_REPLY, one byte. -/
def replyPayload (s : Byte) : List Byte :=
  [0x10, 1, 0, 0, 0, 0, 0, 0, 0, 0, 0, 0, 0, 0, 1, s, 24, 0x41]

/-- The payload of a 0x90 frame from 64-bit address `01 00 .. 00` and 16-bit
address `hi lo` that carries the one-byte data message `[1, s, 24, 0x41]`. -/
def rxPayload (hi lo s : Byte) : List Byte :=
  [0x90, 1, 0, 0, 0, 0, 0, 0, 0, hi, lo, 0, 1, s, 24, 0x41]

/-- A fresh host whose ring buffer holds 255 bytes: one more byte fills it. -/
def fullHost : Host := { initHost with xbs := { XBeeBootSessionInit with inInIndex := 255 } }

/-- A running poll of a fresh host with room for `buflen` bytes that has read
all of the frame for `replyPayload 1` but the checksum byte. -/
def replyCfg (buflen : Nat) : PollCfg :=
  { st := .inFrame ([0, 18] ++ replyPayload 1) false 21, host := initHost, buflen := buflen,
    written := [] }

/-- The application sequence number of a stored data frame: the byte at offset
17 of a 0x10 frame, at offset 15 of any other frame (a 0x90 frame has it
there). -/
def dataSequence (frame : List Byte) : Byte :=
  if frame.getD 2 0 = 0x10 then frame.getD 17 0 else frame.getD 15 0

/-- A running poll of a fresh host with room for `buflen` bytes that has read
all of the frame for `replyPayload 2` but the checksum byte. -/
def duplicateCfg (buflen : Nat) : PollCfg :=
  { st := .inFrame ([0, 18] ++ replyPayload 2) false 21, host := initHost, buflen := buflen,
    written := [] }

/-- Whether a call ended with `return`. -/
def Outcome.isRet : Outcome → Bool
  | .ret _ => true
  | _ => false

/-- The application messages of a log of sent frames, read against the value
`s` of `inSequence` before the first of them: a message `[0, succ(s)]` is the ACK
of a data frame just accepted and moves `s` to `succ(s)`; a message `[0, s]` with
`s` not 0 is a re-sent ACK; a REQUEST of type FIRMWARE_DELIVER must carry a
sequence other than 0.  The result is the value of `s` after the last message,
or `none` when a message is none of these. -/
def ackChain : Byte → List (List Byte) → Option Byte
  | s, [] => some s
  | s, m :: ms =>
    if m = [0, nextSequence s] then ackChain (nextSequence s) ms
    else if s ≠ 0 ∧ m = [0, s] then ackChain s ms
    else if isRequestDeliver m = true ∧ m.getD 1 0 ≠ 0 then ackChain s ms
    else none

/-- Host state `h1` follows `h` under the ACK discipline: the mode is the same
and the frames sent in between form an `ackChain` from the `inSequence` of `h`;
when `strict`, the chain ends at the `inSequence` of `h1`. -/
def Follows (h h1 : Host) (strict : Bool) : Prop :=
  h1.xbs.directMode = h.xbs.directMode ∧
    ∃ extra e, h1.sent = h.sent ++ extra ∧
      ackChain h.xbs.inSequence (extra.map (appMessage h.xbs.directMode)) = some e ∧
      (strict = true → h1.xbs.inSequence = e)


/-- What a step `p` of a poll from host state `h` may do to the log of sent
frames and to `inSequence`, given the application sequence `sequence` of the
frame just read: nothing is sent and `inSequence` is unchanged (or the poll ends
with `exit(1)`); or `sequence` is `succ(inSequence)`, it becomes `inSequence`,
exactly one frame is sent, the ACK `[0, sequence]`, and the poll goes on or
returns 0. -/
def AckStep (h : Host) (p : PollStep) (sequence : Byte) : Prop :=
  p.cfg.host.xbs.directMode = h.xbs.directMode ∧
    ((p.cfg.host.sent = h.sent ∧
        (p.cfg.host.xbs.inSequence = h.xbs.inSequence ∨ ∃ c1, p = .done (.exit 1) c1)) ∨
      (∃ ack, sequence = nextSequence h.xbs.inSequence ∧ p.cfg.host.sent = h.sent ++ [ack] ∧
        appMessage h.xbs.directMode ack = [0, sequence] ∧
        p.cfg.host.xbs.inSequence = sequence ∧
        (p = .running p.cfg ∨ p = .done (.ret 0) p.cfg)))

/-- The application sequence of the frame that `byte` completes in reader state
`st`; 0 when it completes none. -/
def completedSequence (st : ParserState) (byte : Byte) : Byte :=
  match parseByte st byte with
  | .complete frame _ => dataSequence frame
  | .more _ => 0

/-- Whether a step of a poll goes on or ends with `return`. -/
def PollStep.isRet : PollStep → Bool
  | .running _ => true
  | .done o _ => o.isRet

/-- A running poll of a fresh host in over-the-air mode (64-bit address
`01 00 .. 00`, 16-bit address still `ff fe`) that has read all of the 0x90 frame
from that address with 16-bit source `hi lo` but the checksum byte. -/
def learnCfg (hi lo : Byte) : PollCfg :=
  { st := .inFrame ([0, 16] ++ rxPayload hi lo 1) false 19
    host := { initHost with xbs := { XBeeBootSessionInit with
      xbee_address := [1, 0, 0, 0, 0, 0, 0, 0, 0xff, 0xfe], directMode := false } }
    buflen := 0
    written := [] }


/-- A host in over-the-air mode that has learned the 16-bit address `12 34` of
the device with 64-bit address `01 00 .. 00`. -/
def learnedHost : Host :=
  { initHost with xbs := { XBeeBootSessionInit with
      xbee_address := [1, 0, 0, 0, 0, 0, 0, 0, 0x12, 0x34], directMode := false } }

/-- The frames the reader of `xbeedev_poll` completes on the given input, in
order, up to the first failing `recv`. -/
def framesOf : ParserState → List (Option Byte) → List (List Byte)
  | _, [] => []
  | _, none :: _ => []
  | st, some byte :: rest =>
    match parseByte st byte with
    | .more st1 => framesOf st1 rest
    | .complete frame _ => frame :: framesOf .beforeFrame rest

/-- A hexadecimal digit, in either case. -/
def isHexDigit (ch : Byte) : Bool :=
  (0x30 ≤ ch.val ∧ ch.val ≤ 0x39) ∨ (0x41 ≤ ch.val ∧ ch.val ≤ 0x46) ∨
    (0x61 ≤ ch.val ∧ ch.val ≤ 0x66)

/-- The value of a hexadecimal digit. -/
def hexDigitValue (ch : Byte) : Nat :=
  if ch.val ≤ 0x39 then ch.val - 0x30
  else if ch.val ≤ 0x46 then ch.val - 0x41 + 10
  else ch.val - 0x61 + 10

/-- The bytes written by pairs of hexadecimal digits: byte `i` is
`16 * value(digit 2i) + value(digit 2i+1)`. -/
def addressOfDigits : List Byte → List Byte
  | c1 :: c2 :: rest =>
    ((16 * hexDigitValue c1 + hexDigitValue c2 : Nat) : Byte) :: addressOfDigits rest
  | _ => []

/-- The session a port string stands for, in the words of the specification:
the string must contain `'@'`; the text before the first `'@'` is empty (direct
mode, 64-bit address zero) or exactly 16 hexadecimal digits (the 64-bit
address); the 16-bit address starts as `ff fe`. -/
def portSession (port : List Byte) : Option XBeeBootSession :=
  if 0x40 ∈ port then
    let address := port.takeWhile (fun ch => ch ≠ 0x40)
    if address = [] then
      some { XBeeBootSessionInit with
        xbee_address := List.replicate 8 0 ++ [0xff, 0xfe], directMode := true }
    else if address.length = 16 ∧ address.all isHexDigit = true then
      some { XBeeBootSessionInit with
        xbee_address := addressOfDigits address ++ [0xff, 0xfe], directMode := false }
    else none
  else none

/-- The port string `0013A200400A0127@/dev/ttyU0` as character codes. -/
def examplePort : List Byte :=
  [0x30, 0x30, 0x31, 0x33, 0x41, 0x32, 0x30, 0x30, 0x34, 0x30, 0x30, 0x41, 0x30, 0x31, 0x32,
    0x37, 0x40, 0x2f, 0x64, 0x65, 0x76, 0x2f, 0x74, 0x74, 0x79, 0x55, 0x30]

/-- What a call of `xbeedev_poll` can return: 0, -1, or -512 plus a status
byte. -/
def PollCode (rc : Int) : Prop := rc = 0 ∨ rc = -1 ∨ ∃ s : Byte, rc = -512 + (s.val : Int)

/-- The unescaped payload of a frame on the wire: what stands between the two
length bytes and the checksum byte. -/
def wirePayload (wire : List Byte) : List Byte :=
  match unescape false wire.tail with
  | some (u, _) => (u.drop 2).dropLast
  | none => []

/-- Host state `h1` comes after `h` with the same mode, and every frame sent in
between is a packet of `sendPacket`: its API type is 0x90 in direct mode and
0x10 otherwise. -/
def PacketExt (h h1 : Host) : Prop :=
  h1.xbs.directMode = h.xbs.directMode ∧
    ∃ extra, h1.sent = h.sent ++ extra ∧
      ∀ w ∈ extra, (wirePayload w).getD 0 0 = (if h.xbs.directMode then 0x90 else 0x10)

/-- The payload of the 0x10 frame that carries the REQUEST `[1, s, 24]` of type
FIRMWARE_REPLY with the given text, as the bootloader builds it: frame id 0, the
10 address bytes `addr`, radius 0, options 0. -/
def replyData (addr : List Byte) (s : Byte) (text : List Byte) : List Byte :=
  [0x10, 0] ++ addr ++ [0, 0, 1, s, 24] ++ text

/-- The serial input of the overwrite scenario of `xbeedev_recv`: a frame with
sequence 1 and the text `a`, a `recv` that times out, a frame with sequence 2
and the text `bc`. -/
def overwriteInput : List (Option Byte) :=
  (apiFrame (replyData (List.replicate 10 0) 1 [0x61])).map some ++ [none] ++
    (apiFrame (replyData (List.replicate 10 0) 2 [0x62, 0x63])).map some

/-- The end of a call of `xbeedev_drain`: how it ended, the host state and the
serial input it has not read. -/
structure DrainResult where
  outcome : Outcome
  host : Host
  rest : List (Option Byte)
  deriving DecidableEq, Repr

/-- The loop `do { xbs->inOutIndex = xbs->inInIndex = 0; } while
(xbeedev_poll(xbs, &flush, 1, -1, -1) == 0);` of `xbeedev_drain` and its
`return 0` (lines 885-889), with the number of passes bounded by `fuel`; `none`
when the bound is reached. -/
def drainLoop : Nat → Host → List (Option Byte) → Option DrainResult
  | 0, _, _ => none
  | fuel + 1, h, input =>
    let h := { h with xbs := { h.xbs with inInIndex := 0, inOutIndex := 0 } }
    let r := xbeedev_poll h true 1 (-1) (-1) input
    match r.outcome with
    | .ret rc =>
      if rc = 0 then drainLoop fuel r.cfg.host r.rest
      else some { outcome := .ret 0, host := r.cfg.host, rest := r.rest }
    | o => some { outcome := o, host := r.cfg.host, rest := r.rest }

/-- `xbeedev_drain(fdp, display)`.  A poll that returns 0 has read at least one
input event, so one more pass than there are input events is enough
(`drainLoop_returns` shows that the bound is never reached). -/
def xbeedev_drain (h : Host) (input : List (Option Byte)) : Option DrainResult :=
  drainLoop (input.length + 1) h input

/-- The relation between `index` (the number of bytes stored in `frame`) and
`frameSize` that holds whenever the reader loop of `xbeedev_poll` waits for a
byte: `index < frameSize <= 255`, and `frameSize` is still 2 while fewer than 2
bytes are stored. -/
def ParserOk : ParserState → Prop
  | .beforeFrame => True
  | .inFrame frame _ frameSize =>
    frame.length < frameSize ∧ frameSize ≤ 255 ∧ (frame.length < 2 → frameSize = 2)

/-- The state of the poll that `xbeedev_drain` runs, as long as it has accepted
no data: one byte of room in the caller's buffer, the ring buffer as declared
and empty with both indices 0, and the reader in step (`ParserOk`). -/
def Draining (c : PollCfg) : Prop :=
  c.buflen = 1 ∧ c.host.xbs.inInIndex = 0 ∧ c.host.xbs.inOutIndex = 0 ∧
    c.host.xbs.inBuffer.length = 256 ∧ ParserOk c.st

/-- The indices at which the application part of `xbeedev_poll` (lines 439-497)
reads `frame`: `dataStart[0]` and `dataStart[1]`, then `dataStart[2]` when the
tests in front of it pass, then `dataStart[3 + index]` for every `index` below
`textLength` when the data is accepted. -/
def dataReads (c : PollCfg) (frame : List Byte) (dataStart dataLength : Nat) : List Nat :=
  if dataLength ≥ 2 then
    let protocolType := frame.getD dataStart 0
    let sequence := frame.getD (dataStart + 1) 0
    [dataStart, dataStart + 1] ++
      (if protocolType = 0 then []
       else if protocolType = 1 ∧ dataLength ≥ 4 then
         [dataStart + 2] ++
           (if frame.getD (dataStart + 2) 0 = 24 ∧ sequence = nextSequence c.host.xbs.inSequence
            then (List.range (dataLength - 3)).map (fun index => dataStart + 3 + index)
            else [])
       else [])
  else []

/-- The indices at which `xbeedev_poll` reads `frame` once the reader loop has
ended (lines 331-498): the checksum loop over `frame[2 .. index)`, then, for a
frame that passes, `frame[2]` and the reads of the branch taken (those of the
messages included). -/
def frameReads (c : PollCfg) (frame : List Byte) (frameSize : Nat) : List Nat :=
  (List.range (frame.length - 2)).map (fun cIndex => 2 + cIndex) ++
    (if frameChecksum frame ≠ 0 then []
     else
      let frameType := frame.getD 2 0
      [2] ++
        (if frameType = 0x97 ∧ frameSize > 16 then [16, 3]
         else if frameType = 0x88 ∧ frameSize > 6 then [4, 5, 6, 3]
         else if frameType = 0x8b ∧ frameSize > 7 then [3, 7]
         else if frameType = 0x10 then
           let header := 2 + 1 + 1 + 8 + 2 + 1 + 1
           if frameSize ≤ header + 1 then []
           else dataReads c frame header (frameSize - header - 1)
         else if frameType = 0x90 then
           let header := 2 + 1 + 8 + 2 + 1
           if frameSize ≤ header + 1 then []
           else (List.range 8).map (fun k => 2 + 1 + k) ++
             (if (frame.drop (2 + 1)).take 8 ≠ c.host.xbs.xbee_address.take 8 then []
              else (List.range 2).map (fun k => 2 + 1 + 8 + k) ++
                dataReads c frame header (frameSize - header - 1))
         else []))

end Xbee

namespace Xbeeboot

/-! ## Target side: `bootloaders/xbeeboot/xbeeboot.c` -/

/-- The two constants that place the bootloader's variables in RAM.  `RAMSTART`
is 0x100 in the source unless the part defines it; `SPM_PAGESIZE` comes from the
part's `<avr/io.h>`, which is not among the sources, and is left open.
Addresses are natural numbers: for the parts the bootloader is built for they
stay far below 2^16, so pointer arithmetic does not wrap. -/
structure Layout where
  RAMSTART : Nat
  SPM_PAGESIZE : Nat
  deriving DecidableEq, Repr

/-- The layout of an ATmega328P: `RAMSTART` 0x100, `SPM_PAGESIZE` 128. -/
def atmega328p : Layout := { RAMSTART := 0x100, SPM_PAGESIZE := 128 }

/-- Address of `lastIncomingSequence`, `(*(uint8_t*)(RAMSTART+SPM_PAGESIZE*3+0))`. -/
def lastIncomingSequence (d : Layout) : Nat := d.RAMSTART + d.SPM_PAGESIZE * 3 + 0

/-- Address of `lastOutgoingSequence`. -/
def lastOutgoingSequence (d : Layout) : Nat := d.RAMSTART + d.SPM_PAGESIZE * 3 + 1

/-- Address of `frameMode`. -/
def frameMode (d : Layout) : Nat := d.RAMSTART + d.SPM_PAGESIZE * 3 + 2

/-- Address of `outputIndex`. -/
def outputIndex (d : Layout) : Nat := d.RAMSTART + d.SPM_PAGESIZE * 3 + 3

/-- Address of `packetBuffer[i]`. -/
def packetBuffer (d : Layout) (i : Nat) : Nat := d.RAMSTART + d.SPM_PAGESIZE * 4 + i

/-- Address of `packet[i]`. -/
def packet (d : Layout) (i : Nat) : Nat := d.RAMSTART + d.SPM_PAGESIZE * 5 + i

/-- Address of `outputBuffer[i]`. -/
def outputBuffer (d : Layout) (i : Nat) : Nat := d.RAMSTART + d.SPM_PAGESIZE * 6 + i

/-- Address of `lastAddress[i]`, where `lastAddress` is `&outputBuffer[2]`. -/
def lastAddress (d : Layout) (i : Nat) : Nat := outputBuffer d (2 + i)

/-- Address of `outputPayload[i]`, where `outputPayload` is `&outputBuffer[14]`. -/
def outputPayload (d : Layout) (i : Nat) : Nat := outputBuffer d (14 + i)

/-- Address of `outputText[i]`, where `outputText` is `&outputBuffer[17]`. -/
def outputText (d : Layout) (i : Nat) : Nat := outputBuffer d (17 + i)

/-- `FRAME_UNKNOWN`. -/
def FRAME_UNKNOWN : Byte := 0xfe

/-- `FRAME_UART`. -/
def FRAME_UART : Byte := 0xfd

/-- `FRAME_FRAME`. -/
def FRAME_FRAME : Byte := 0

/-- `XBEEBOOT_MAX_CHUNK`. -/
def XBEEBOOT_MAX_CHUNK : Byte := 54

/-- `TXHEADER_BYTES`. -/
def TXHEADER_BYTES : Byte := 14

/-- The bootloader's world: the data memory by address, the bytes the UART will
still deliver (`rx`, in order of arrival) and the bytes written to the UART so
far (`tx`, oldest first). -/
structure Target where
  ram : Nat → Byte
  rx : List Byte
  tx : List Byte

/-- A store of one byte to data memory. -/
def Target.store (t : Target) (addr : Nat) (v : Byte) : Target :=
  { t with ram := fun a => if a = addr then v else t.ram a }

/-- `uartPutch` (hardware UART): the byte goes out once the transmitter is free. -/
def uartPutch (t : Target) (ch : Byte) : Target := { t with tx := t.tx ++ [ch] }

/-- `uartGetch` (hardware UART): the next received byte; `none` when no byte
ever arrives, in which case the busy-wait on `RXC0` does not end. -/
def uartGetch (t : Target) : Option Byte × Target :=
  match t.rx with
  | [] => (none, t)
  | ch :: rx => (some ch, { t with rx := rx })

/-- `escGetch`. -/
def escGetch (t : Target) : Option Byte × Target :=
  match uartGetch t with
  | (none, t) => (none, t)
  | (some ch, t) =>
    if ch ≠ 0x7d then (some ch, t)
    else
      match uartGetch t with
      | (none, t) => (none, t)
      | (some ch2, t) => (some (0x20 ^^^ ch2), t)

/-- `escPutch`. -/
def escPutch (t : Target) (ch : Byte) : Target :=
  if ch = 0x7d ∨ ch = 0x7e ∨ ch = 0x11 ∨ ch = 0x13 then
    uartPutch (uartPutch t 0x7d) (ch ^^^ 0x20)
  else uartPutch t ch

/-- The loop of `transmit`: for `index` from the given value while
`index < length`, subtract `outputBuffer[index]` from the checksum and send it
escaped; `count` is the number of iterations left. -/
def transmitLoop (d : Layout) : Nat → Nat → Byte → Target → Byte × Target
  | 0, _, checksum, t => (checksum, t)
  | count + 1, index, checksum, t =>
    let val := t.ram (outputBuffer d index)
    transmitLoop d count (index + 1) (checksum - val) (escPutch t val)

/-- `transmit`. -/
def transmit (d : Layout) (t : Target) (length : Byte) : Target :=
  let t := t.store (outputBuffer d 0) 0x10
  let t := t.store (outputBuffer d 1) 0
  let t := t.store (outputBuffer d 12) 0
  let t := t.store (outputBuffer d 13) 0
  let t := uartPutch t 0x7e
  let t := escPutch t 0
  let t := escPutch t length
  let (checksum, t) := transmitLoop d length.val 0 0xff t
  escPutch t checksum

/-- `sendAck`. -/
def sendAck (d : Layout) (t : Target) (sequence : Byte) : Target :=
  let t := t.store (outputPayload d 0) 0
  let t := t.store (outputPayload d 1) sequence
  transmit d t (TXHEADER_BYTES + 2)

/-- The idiom `while ((++x & 0xff) == 0);` on a `uint8_t`, with the number of
loop iterations bounded by `fuel`; `none` when the bound is reached. -/
def skipZeroLoop : Nat → Byte → Option Byte
  | 0, _ => none
  | fuel + 1, x =>
    let x1 := x + 1
    if x1.val &&& 0xff = 0 then skipZeroLoop fuel x1 else some x1

/-- The idiom `while ((++x & 0xff) == 0);` unrolled: the second increment, taken
when the first one wrapped to zero, yields 1 and ends the loop
(`target_skipZeroLoop_eq` shows that two iterations always suffice). -/
def nextSequence (x : Byte) : Byte :=
  let x1 := x + 1
  if x1.val &&& 0xff = 0 then x1 + 1 else x1

/-- The payload loop of `poll`: for `index` from the given value while
`index < length`, read an unescaped byte, store it in `packet[index]` and
subtract it from the checksum; `count` is the number of iterations left.
The result is the final checksum, or `none` when the input ends first. -/
def readPacket (d : Layout) : Nat → Nat → Byte → Target → Option Byte × Target
  | 0, _, checksum, t => (some checksum, t)
  | count + 1, index, checksum, t =>
    match escGetch t with
    | (none, t) => (none, t)
    | (some dataByte, t) =>
      readPacket d count (index + 1) (checksum - dataByte) (t.store (packet d index) dataByte)

/-- The loop `lastAddress[index] = packet[PACKOFF_ADDRESS + index]`. -/
def copyAddress (d : Layout) : Nat → Nat → Target → Target
  | 0, _, t => t
  | count + 1, index, t =>
    copyAddress d count (index + 1) (t.store (lastAddress d index) (t.ram (packet d (1 + index))))

/-- The loop `packetBuffer[dataLength - 1 - index] = packet[PACKOFF_PAYLOAD + 3 + index]`. -/
def copyPayload (d : Layout) (dataLength : Nat) : Nat → Nat → Target → Target
  | 0, _, t => t
  | count + 1, index, t =>
    copyPayload d dataLength count (index + 1)
      (t.store (packetBuffer d (dataLength - 1 - index)) (t.ram (packet d (12 + 3 + index))))

/-- How a call of `poll` ends: it returns a value, it waits for a UART byte that
never arrives, or the bound on loop iterations of the model is reached. -/
inductive PollOutcome where
  | returned (rc : Byte)
  | blocked
  | outOfFuel
  deriving DecidableEq, Repr

/-- The end of a call of `poll`: how it ended and the state it left. -/
structure PollResult where
  outcome : PollOutcome
  t : Target

/-- What `poll` does with a frame whose checksum matched (lines 940-1032):
`none` is `continue`, with the new `sawInvalid`; `some rc` is `return rc`. -/
def pollFrame (d : Layout) (waitForAck : Byte) (length : Byte) (sawInvalid : Byte)
    (t : Target) : Option Byte × Byte × Target :=
  if t.ram (packet d 0) ≠ 0x90 then (none, sawInvalid, t)
  else
    let packetType := t.ram (packet d 12)
    let sequence := t.ram (packet d (12 + 1))
    if length = 12 + 2 then
      if waitForAck = 0 then (none, sawInvalid, t)
      else if packetType ≠ 0 then (none, sawInvalid, t)
      else if waitForAck = sequence then (some 0, sawInvalid, t)
      else if sawInvalid ≠ 0 then (some 1, sawInvalid + 1, t)
      else (none, sawInvalid + 1, t)
    else if length.val ≥ 12 + 4 then
      if packetType ≠ 1 then (none, sawInvalid, t)
      else if t.ram (packet d (12 + 2)) ≠ 23 then (none, sawInvalid, t)
      else
        let t := copyAddress d 10 0 t
        let lastSequence := t.ram (lastIncomingSequence d)
        let nextSeq := nextSequence lastSequence
        if sequence ≠ nextSeq then
          if sawInvalid ≠ 0 then (none, sawInvalid + 1, sendAck d t lastSequence)
          else (none, sawInvalid + 1, t)
        else if t.ram (frameMode d) ≠ FRAME_FRAME then (none, sawInvalid, t)
        else
          let dataLength := length - 12 - 3
          let t := copyPayload d dataLength.val dataLength.val 0 t
          let t := t.store (frameMode d) dataLength
          let t := sendAck d t nextSeq
          let t := t.store (lastIncomingSequence d) nextSeq
          if waitForAck = 0 then (some 0, sawInvalid, t) else (none, sawInvalid, t)
    else (none, sawInvalid, t)

/-- How one pass through the body of the `for (;;)` loop of `poll` ends:
`continue` (with the new `sawInvalid`), `return rc`, or a wait for a UART byte
that never arrives. -/
inductive Iteration where
  | again (sawInvalid : Byte) (t : Target)
  | returned (rc : Byte) (t : Target)
  | blocked (t : Target)

/-- The body of the `for (;;)` loop of `poll` (lines 908-1032). -/
def pollIteration (d : Layout) (waitForAck : Byte) (sawInvalid : Byte) (t : Target) :
    Iteration :=
  match uartGetch t with
  | (none, t) => .blocked t
  | (some ch, t) =>
    if ch ≠ 0x7e then .again sawInvalid t
    else
      match escGetch t with
      | (none, t) => .blocked t
      | (some msb, t) =>
        if msb ≠ 0 then .again sawInvalid t
        else
          match escGetch t with
          | (none, t) => .blocked t
          | (some length, t) =>
            match readPacket d length.val 0 0xff t with
            | (none, t) => .blocked t
            | (some checksum, t) =>
              match escGetch t with
              | (none, t) => .blocked t
              | (some c, t) =>
                if checksum ≠ c then .again sawInvalid t
                else
                  match pollFrame d waitForAck length sawInvalid t with
                  | (some rc, _, t) => .returned rc t
                  | (none, sawInvalid, t) => .again sawInvalid t

/-- The `for (;;)` loop of `poll`, with the number of iterations bounded by
`fuel`. -/
def pollLoop (d : Layout) (waitForAck : Byte) : Nat → Byte → Target → PollResult
  | 0, _, t => { outcome := .outOfFuel, t := t }
  | fuel + 1, sawInvalid, t =>
    match pollIteration d waitForAck sawInvalid t with
    | .again sawInvalid t => pollLoop d waitForAck fuel sawInvalid t
    | .returned rc t => { outcome := .returned rc, t := t }
    | .blocked t => { outcome := .blocked, t := t }

/-- `poll(waitForAck)`: every iteration of its loop reads at least one byte, so
one more iteration than there are input bytes is enough
(`pollLoop_fuel`). -/
def poll (d : Layout) (t : Target) (waitForAck : Byte) : PollResult :=
  pollLoop d waitForAck (t.rx.length + 1) 0 t

/-- How a call of `pushBuffer` ends: it returns, it waits (inside `poll`) for a
UART byte that never arrives, or the bound on loop iterations of the model is
reached. -/
inductive PushOutcome where
  | done
  | blocked
  | outOfFuel
  deriving DecidableEq, Repr

/-- The end of a call of `pushBuffer`: how it ended and the state it left. -/
structure PushResult where
  outcome : PushOutcome
  t : Target

/-- The loop `do { ... transmit(...); } while (poll(sequence));` of `pushBuffer`,
with the number of iterations bounded by `fuel`. -/
def pushLoop (d : Layout) (sequence : Byte) : Nat → Target → PushResult
  | 0, t => { outcome := .outOfFuel, t := t }
  | fuel + 1, t =>
    let t := t.store (outputPayload d 0) 1
    let t := t.store (outputPayload d 1) sequence
    let t := t.store (outputPayload d 2) 24
    let t := transmit d t (TXHEADER_BYTES + 3 + t.ram (outputIndex d))
    let r := poll d t sequence
    match r.outcome with
    | .returned rc =>
      if rc ≠ 0 then pushLoop d sequence fuel r.t else { outcome := .done, t := r.t }
    | .blocked => { outcome := .blocked, t := r.t }
    | .outOfFuel => { outcome := .outOfFuel, t := r.t }

/-- `pushBuffer(max)`: nothing when `outputIndex <= max`; else the sequence is
advanced, the chunk is transmitted until `poll` reports its ACK, and
`outputIndex` is reset.  A `poll` that returns non-zero has read at least one
frame, so one more iteration than there are input bytes is enough. -/
def pushBuffer (d : Layout) (t : Target) (max : Byte) : PushResult :=
  if t.ram (outputIndex d) ≤ max then { outcome := .done, t := t }
  else
    let sequence := nextSequence (t.ram (lastOutgoingSequence d))
    let t := t.store (lastOutgoingSequence d) sequence
    let r := pushLoop d sequence (t.rx.length + 1) t
    match r.outcome with
    | .done => { outcome := .done, t := r.t.store (outputIndex d) 0 }
    | o => { outcome := o, t := r.t }

/-- `putch`: in UART mode the byte goes out as it is; else it is stored at
`outputText[outputIndex++]` and `pushBuffer(XBEEBOOT_MAX_CHUNK)` is called. -/
def putch (d : Layout) (t : Target) (ch : Byte) : PushResult :=
  if t.ram (frameMode d) = FRAME_UART then { outcome := .done, t := uartPutch t ch }
  else
    let index := t.ram (outputIndex d)
    let t := t.store (outputText d index.val) ch
    let t := t.store (outputIndex d) (index + 1)
    pushBuffer d t XBEEBOOT_MAX_CHUNK

/-- How a call of `getch` ends: it returns a byte, it waits for a UART byte that
never arrives, or the bound on loop iterations of the model is reached. -/
inductive GetchOutcome where
  | returned (ch : Byte)
  | blocked
  | outOfFuel
  deriving DecidableEq, Repr

/-- The end of a call of `getch`: how it ended and the state it left. -/
structure GetchResult where
  outcome : GetchOutcome
  t : Target

/-- The statement `return packetBuffer[--frameMode];` under `default:`. -/
def getchDefault (d : Layout) (t : Target) : GetchResult :=
  let t := t.store (frameMode d) (t.ram (frameMode d) - 1)
  { outcome := .returned (t.ram (packetBuffer d (t.ram (frameMode d)).val)), t := t }

/-- The statements under `case FRAME_FRAME:` of `getch`: `poll(0)`, then the fall
through to `default:`. -/
def getchFrame (d : Layout) (t : Target) : GetchResult :=
  let r := poll d t 0
  match r.outcome with
  | .returned _ => getchDefault d r.t
  | .blocked => { outcome := .blocked, t := r.t }
  | .outOfFuel => { outcome := .outOfFuel, t := r.t }

/-- The `switch (frameMode)` of `getch` from the label `loop:`, with the number
of passes through `goto loop` bounded by `fuel`. -/
def getchLoop (d : Layout) : Nat → Target → GetchResult
  | 0, t => { outcome := .outOfFuel, t := t }
  | fuel + 1, t =>
    let mode := t.ram (frameMode d)
    if mode = FRAME_UART then
      match uartGetch t with
      | (none, t) => { outcome := .blocked, t := t }
      | (some ch, t) => { outcome := .returned ch, t := t }
    else if mode = FRAME_UNKNOWN then
      match uartGetch t with
      | (none, t) => { outcome := .blocked, t := t }
      | (some ch, t) =>
        if ch = 0x30 then { outcome := .returned ch, t := t.store (frameMode d) FRAME_UART }
        else if ch = 0x7e ∨ ch = 0x90 then getchFrame d (t.store (frameMode d) FRAME_FRAME)
        else getchLoop d fuel t
    else if mode = FRAME_FRAME then getchFrame d t
    else getchDefault d t

/-- `getch`: `pushBuffer(0)`, then the `switch (frameMode)`.  Every pass through
`goto loop` has read a byte, so one more pass than there are input bytes is
enough. -/
def getch (d : Layout) (t : Target) : GetchResult :=
  let r := pushBuffer d t 0
  match r.outcome with
  | .done => getchLoop d (r.t.rx.length + 1) r.t
  | .blocked => { outcome := .blocked, t := r.t }
  | .outOfFuel => { outcome := .outOfFuel, t := r.t }

/-! ### Target side: definitions used to state the theorems -/

/-- Decoding byte by byte: `count` successive calls of `escGetch`. -/
def escGetchN : Nat → Target → Option (List Byte) × Target
  | 0, t => (some [], t)
  | count + 1, t =>
    match escGetch t with
    | (none, t) => (none, t)
    | (some b, t) =>
      match escGetchN count t with
      | (none, t) => (none, t)
      | (some x, t) => (some (b :: x), t)

/-- The stores `base[index] = p[0]`, `base[index + 1] = p[1]`, ... in this order. -/
def Target.storeAll (t : Target) (base : Nat → Nat) : Nat → List Byte → Target
  | _, [] => t
  | index, b :: p => Target.storeAll (t.store (base index) b) base (index + 1) p

/-- A target in frame mode that has received nothing yet: all of the data
memory is zero, so `frameMode` is `FRAME_FRAME` and `lastIncomingSequence` 0. -/
def idleTarget : Target := { ram := fun _ => 0, rx := [], tx := [] }

/-- The frame that the host in direct mode sends for the first chunk `[0x30, 0x20]`:
application sequence 1, frame sequence 1, 17 payload bytes. -/
def firstRequest : List Byte :=
  [0x7e, 0x00, 0x7d, 0x31, 0x90, 0x01, 0, 0, 0, 0, 0, 0, 0, 0, 0, 0, 0x01, 0x01, 0x17, 0x30, 0x20,
    0x05]

/-- The payload of a 0x90 frame from 64-bit address `00 .. 00`, 16-bit address
`12 34`, that carries the REQUEST `[1, s, 23]` of type FIRMWARE_DELIVER with
the given data bytes. -/
def deliverPayload (s : Byte) (data : List Byte) : List Byte :=
  [0x90, 0, 0, 0, 0, 0, 0, 0, 0, 0x12, 0x34, 0, 1, s, 23] ++ data

/-- Successive calls of `putch`, one per byte, each continuing from the state
the previous one left. -/
def putchAll (d : Layout) (t : Target) (bytes : List Byte) : Target :=
  bytes.foldl (fun t ch => (putch d t ch).t) t

/-- The state a pass through the loop of `poll` leaves. -/
def Iteration.t : Iteration → Target
  | .again _ t => t
  | .returned _ t => t
  | .blocked t => t

/-- The conditions of the specification for `poll` to accept, in state `t`, the
frame with length bytes `msb`, `len`, payload `p` and checksum byte `c`: length
MSB 0, checksum valid, API type 0x90, length at least 16, REQUEST (1) of type
FIRMWARE_DELIVER (23), sequence the successor of `lastIncomingSequence`, and
`frameMode` 0. -/
def AcceptsData (d : Layout) (t : Target) (msb len : Byte) (p : List Byte) (c : Byte) : Prop :=
  msb = 0 ∧ c = checksumByte p ∧ p.getD 0 0 = 0x90 ∧ 16 ≤ len.val ∧ p.getD 12 0 = 1 ∧
    p.getD 14 0 = 23 ∧ p.getD 13 0 = nextSequence (t.ram (lastIncomingSequence d)) ∧
    t.ram (frameMode d) = FRAME_FRAME



/-- Successive calls of `getch`: the bytes they return, in order, and the final
state; `none` when one of them does not return. -/
def getchN (d : Layout) : Nat → Target → Option (List Byte) × Target
  | 0, t => (some [], t)
  | count + 1, t =>
    match (getch d t).outcome with
    | .returned ch =>
      match getchN d count (getch d t).t with
      | (some x, t1) => (some (ch :: x), t1)
      | (none, t1) => (none, t1)
    | _ => (none, (getch d t).t)

/-- The bytes 1, 2, ..., `n`. -/
def countBytes (n : Nat) : List Byte := (List.range n).map (fun i => ((i + 1 : Nat) : Byte))


/-- A target in frame mode that has received nothing yet, with the frame for
`deliverPayload 1 data` (sequence 1, the expected one) as its whole UART
input. -/
def requestTarget (data : List Byte) : Target :=
  { idleTarget with rx := apiFrame (deliverPayload 1 data) }

/-- The state `main` sets up before its loop on the ATmega328P layout:
`frameMode` is `FRAME_UNKNOWN`, `lastOutgoingSequence`, `lastIncomingSequence`
and `outputIndex` are 0; the rest of the data memory is taken as zero, `rx` is
the UART input to come. -/
def bootTarget (rx : List Byte) : Target :=
  { idleTarget.store (frameMode atmega328p) FRAME_UNKNOWN with rx := rx }

/-- Successive calls of `putch`, one per byte, as long as each of them returns:
how the last call made ended, and the state it left. -/
def putchEach (d : Layout) : List Byte → Target → PushResult
  | [], t => { outcome := .done, t := t }
  | ch :: rest, t =>
    match (putch d t ch).outcome with
    | .done => putchEach d rest (putch d t ch).t
    | o => { outcome := o, t := (putch d t ch).t }

/-- The bytes given to `putch`, then the call `pushBuffer(0)` with which the next
`getch` starts and which transmits what is still waiting in `outputBuffer`. -/
def putchFlush (d : Layout) (bytes : List Byte) (t : Target) : PushResult :=
  match (putchEach d bytes t).outcome with
  | .done => pushBuffer d (putchEach d bytes t).t 0
  | o => { outcome := o, t := (putchEach d bytes t).t }

/-- The 10 bytes of `lastAddress`. -/
def addressBytes (d : Layout) (t : Target) : List Byte :=
  (List.range 10).map (fun i => t.ram (lastAddress d i))

/-- The `k` bytes waiting in `outputText`. -/
def pendingText (d : Layout) (t : Target) (k : Nat) : List Byte :=
  (List.range k).map (fun i => t.ram (outputText d i))

/-- The memory `pushBuffer` leaves alone when it transmits a chunk and reads its
ACK: everything but `outputIndex`, `lastOutgoingSequence`, the first 14 bytes of
`packet`, and the header bytes 0, 1 and 12 to 16 of `outputBuffer`. -/
def FlushKeeps (d : Layout) (a : Nat) : Prop :=
  a ≠ outputIndex d ∧ a ≠ lastOutgoingSequence d ∧ (a < packet d 0 ∨ packet d 14 ≤ a) ∧
    (a < outputBuffer d 0 ∨ outputBuffer d 17 ≤ a ∨
      (outputBuffer d 2 ≤ a ∧ a < outputBuffer d 12))

/-- State `t1` is `t0` with the bytes `bytes` waiting in `outputText`: they were
stored by calls of `putch` that transmitted nothing. -/
def Pending (d : Layout) (t0 t1 : Target) (bytes : List Byte) : Prop :=
  (t1.ram (outputIndex d)).val = bytes.length ∧
    (∀ j, j < bytes.length → t1.ram (outputText d j) = bytes.getD j 0) ∧
    (∀ a, a ≠ outputIndex d → (∀ j, j < bytes.length → a ≠ outputText d j) →
      t1.ram a = t0.ram a) ∧
    t1.rx = t0.rx ∧ t1.tx = t0.tx

/-- How a call of `poll`, `pushBuffer` or `putch` may change `frameMode` from `m`
to `m1`: not at all, or from `FRAME_FRAME` (0) to a payload length between 1
and 240. -/
def ModeKept (m m1 : Byte) : Prop :=
  m1 = m ∨ (m = FRAME_FRAME ∧ 1 ≤ m1.val ∧ m1.val ≤ 240)



/-- A call made by the main loop of the bootloader: `getch()` or `putch(ch)`. -/
inductive Call where
  | getch
  | putch (ch : Byte)
  deriving DecidableEq, Repr

/-- The state a call leaves, whether it returns or waits for a byte that never
arrives. -/
def Call.state (d : Layout) (t : Target) : Call → Target
  | .getch => (Xbeeboot.getch d t).t
  | .putch ch => (Xbeeboot.putch d t ch).t

/-- Whether a call returns. -/
def Call.returns (d : Layout) (t : Target) : Call → Bool
  | .getch =>
    match (Xbeeboot.getch d t).outcome with
    | .returned _ => true
    | _ => false
  | .putch ch =>
    match (Xbeeboot.putch d t ch).outcome with
    | .done => true
    | _ => false

/-- A sequence of calls, each made in the state the previous one left; the
sequence ends early at a call that does not return.  The result is the state
reached. -/
def runCalls (d : Layout) : List Call → Target → Target
  | [], t => t
  | c :: rest, t => if c.returns d t then runCalls d rest (c.state d t) else c.state d t



/-- The conditions under which `poll` copies the source address of the frame
with length bytes `msb`, `len`, payload `p` and checksum byte `c` (lines
915-984): length MSB 0, checksum valid, API type 0x90, length at least 16,
REQUEST (1) of type FIRMWARE_DELIVER (23). -/
def LearnsAddress (msb len : Byte) (p : List Byte) (c : Byte) : Prop :=
  msb = 0 ∧ c = checksumByte p ∧ p.getD 0 0 = 0x90 ∧ 16 ≤ len.val ∧ p.getD 12 0 = 1 ∧
    p.getD 14 0 = 23

end Xbeeboot

/-! ## Both sides on one link -/

namespace Link

/-- The frames `xbeedev_send` hands to the serial device in direct mode when
every chunk is acknowledged at once, in the words of the specification: one
synthesised 0x90 frame per chunk of at most 64 bytes, with frame sequence
`succ(q)`, the 10 address bytes, and the application header `[1, succ(s), 23]`
at payload offset 12.  The first argument bounds the number of chunks. -/
def requestFrames : Nat → Byte → Byte → List Byte → List Byte → List (List Byte)
  | _, _, _, _, [] => []
  | 0, _, _, _, _ :: _ => []
  | n + 1, q, s, addr, b :: buf =>
    apiFrame ([0x90, seqSucc q] ++ addr ++ [1, seqSucc s, 23] ++ (b :: buf).take 64) ::
      requestFrames n (seqSucc q) (seqSucc s) addr ((b :: buf).drop 64)

/-- The layout of an ATmega8: `RAMSTART` as the source defines it by default,
`SPM_PAGESIZE` 64. -/
def atmega8 : Xbeeboot.Layout := { RAMSTART := 0x100, SPM_PAGESIZE := 64 }

/-- The frames the bootloader transmits for the bytes given to `putch` from an
empty output buffer, each chunk acknowledged at once: one 0x10 frame per chunk
of 55 bytes (the last one, transmitted by the flush, may be shorter), with the
application header `[1, succ(s), 24]` at payload offset 14.  The first argument
bounds the number of chunks. -/
def replyFrames : Nat → List Byte → Byte → List Byte → List (List Byte)
  | _, _, _, [] => []
  | 0, _, _, _ :: _ => []
  | n + 1, addr, s, b :: bytes =>
    apiFrame (Xbee.replyData addr (seqSucc s) ((b :: bytes).take 55)) ::
      replyFrames n addr (seqSucc s) ((b :: bytes).drop 55)

/-- The ACK frames the host in direct mode sends for those chunks: one
synthesised 0x90 frame per chunk, with frame sequence `succ(q)`, the 10 address
bytes and the application part `[0, succ(s)]`. -/
def ackFrames : Nat → Byte → Byte → List Byte → List Byte → List (List Byte)
  | _, _, _, _, [] => []
  | 0, _, _, _, _ :: _ => []
  | n + 1, q, s, addr, b :: bytes =>
    apiFrame ([0x90, seqSucc q] ++ addr ++ [0, seqSucc s]) ::
      ackFrames n (seqSucc q) (seqSucc s) addr ((b :: bytes).drop 55)


/-- The ACKs of a host in direct mode, address zero, for four chunks: frame
sequences and application sequences 1 to 4. -/
def fourAcks : List Byte :=
  (ackFrames 4 0 0 (List.replicate 10 0) (List.replicate 220 0x41)).flatten

/-- The ACKs a fresh host in direct mode sends in the timeout scenario: for
sequence 1, for sequence 1 again after the timeout, for sequence 2. -/
def timeoutAcks : List Byte :=
  apiFrame ([0x90, 1] ++ List.replicate 10 0 ++ [0, 1]) ++
    apiFrame ([0x90, 2] ++ List.replicate 10 0 ++ [0, 1]) ++
    apiFrame ([0x90, 3] ++ List.replicate 10 0 ++ [0, 2])

/-- The bootloader in the timeout scenario after `putch('a')` and the flush, with
the three ACKs of the host as UART input. -/
def afterFirst : Xbeeboot.Target :=
  (Xbeeboot.putchFlush Xbeeboot.atmega328p [0x61]
    { Xbeeboot.idleTarget with rx := timeoutAcks }).t

/-- The bootloader in the timeout scenario after `putch('b')`, `putch('c')` and
the flush. -/
def afterSecond : Xbeeboot.Target :=
  (Xbeeboot.putchFlush Xbeeboot.atmega328p [0x62, 0x63] afterFirst).t

end Link

/-! # Theorems -/

section Bytes

theorem toUChar_val (x : Int) : (toUChar x).val = (x % 256).toNat := by
  unfold toUChar
  show (x % 256).toNat % 256 = _
  omega

theorem byte_sum_val (p : List Byte) : (p.sum).val = byteSum p % 256 := by
  induction p with
  | nil => rfl
  | cons b p ih =>
    simp only [List.sum_cons, byteSum, List.map_cons] at *
    rw [Fin.val_add, ih]
    omega

theorem byte_sub_val (a b : Byte) : (a - b).val = (a.val + (256 - b.val)) % 256 := by
  rw [Fin.sub_def]
  simp
  omega

theorem checksumByte_eq (p : List Byte) : checksumByte p = 0xff - p.sum := by
  apply Fin.ext
  rw [byte_sub_val, byte_sum_val, checksumByte, toUChar_val]
  show _ = (255 + _) % 256
  omega

theorem escapeBytes_cons (b : Byte) (x : List Byte) :
    escapeBytes (b :: x) = escapeByte b ++ escapeBytes x := by
  simp [escapeBytes, List.flatMap_cons]

theorem escapeBytes_append (x y : List Byte) :
    escapeBytes (x ++ y) = escapeBytes x ++ escapeBytes y := by
  simp [escapeBytes]

end Bytes

namespace Xbee

/-! ## C1: the host escape round trip -/

theorem fpput_out (e : Encoder) (v : Byte) : (fpput e v).out = e.out ++ escapeByte v := by
  unfold fpput escapeByte
  by_cases h : v = 0x7d ∨ v = 0x7e ∨ v = 0x11 ∨ v = 0x13
  · have h2 : v = 0x7e ∨ v = 0x7d ∨ v = 0x11 ∨ v = 0x13 := by tauto
    simp [h, h2]
  · have h2 : ¬ (v = 0x7e ∨ v = 0x7d ∨ v = 0x11 ∨ v = 0x13) := by tauto
    simp [h, h2]

theorem foldl_fpput (x : List Byte) (e : Encoder) :
    x.foldl fpput e =
      { out := e.out ++ escapeBytes x, checksum := e.checksum - x.sum,
        length := e.length + (x.length : Byte) } := by
  induction x generalizing e with
  | nil => simp [escapeBytes]
  | cons v x ih =>
    rw [List.foldl_cons, ih, fpput_out]
    have h2 : (fpput e v).checksum = e.checksum - v := rfl
    have h3 : (fpput e v).length = e.length + 1 := rfl
    rw [h2, h3]
    simp only [escapeBytes_cons, List.append_assoc, List.sum_cons, List.length_cons,
      Encoder.mk.injEq, true_and]
    constructor
    · abel
    · push_cast; abel

theorem unescape_escapeByte (b : Byte) (rest : List Byte) :
    unescape false (escapeByte b ++ rest) =
      match unescape false rest with
      | some (out, e) => some (b :: out, e)
      | none => none := by
  have key : ∀ b : Byte,
      ((b = 0x7e ∨ b = 0x7d ∨ b = 0x11 ∨ b = 0x13) →
        unescapeByte true (b ^^^ 0x20) = .value b) ∧
      (¬ (b = 0x7e ∨ b = 0x7d ∨ b = 0x11 ∨ b = 0x13) → unescapeByte false b = .value b) := by
    decide
  by_cases h : b = 0x7e ∨ b = 0x7d ∨ b = 0x11 ∨ b = 0x13
  · have h1 : unescapeByte false 0x7d = .leadIn := by decide
    simp only [escapeByte, h, if_true, List.cons_append, List.nil_append, unescape, h1,
      (key b).1 h]
  · simp only [escapeByte, h, if_false, List.cons_append, List.nil_append, unescape,
      (key b).2 h]

theorem unescape_escapeBytes (x : List Byte) :
    unescape false (escapeBytes x) = some (x, false) := by
  induction x with
  | nil => rfl
  | cons b x ih => rw [escapeBytes_cons, unescape_escapeByte, ih]

theorem frameStart_not_mem_escapeBytes (x : List Byte) : (0x7e : Byte) ∉ escapeBytes x := by
  have key : ∀ b : Byte, (0x7e : Byte) ∉ escapeByte b := by decide
  induction x with
  | nil => simp [escapeBytes]
  | cons b x ih =>
    rw [escapeBytes_cons, List.mem_append]
    exact fun h => h.elim (key b) ih

theorem unescape_leadIn : ∀ b : Byte,
    unescape false [0x7d, b] = if b = 0x7e then none else some ([b ^^^ 0x20], false) := by
  decide

/-- C1. Host escape round trip: for every byte string `x`, the bytes that `fpput`
stores for `x` are unescaped by the unescape step of `xbeedev_poll` to exactly
`x`, ending outside an escape; the stored bytes contain no 0x7E, so the restart
branch is not taken (`unescape` would be `none`).  A lone 0x7D followed by a
byte `b` other than 0x7E is unescaped to `b XOR 0x20`. -/
theorem host_escape_roundtrip (x : List Byte) (b : Byte) :
    unescape false (x.foldl fpput { out := [], checksum := 0xff, length := 0 }).out
        = some (x, false) ∧
      (0x7e : Byte) ∉ (x.foldl fpput { out := [], checksum := 0xff, length := 0 }).out ∧
      unescape false [0x7d, b] = (if b = 0x7e then none else some ([b ^^^ 0x20], false)) := by
  rw [foldl_fpput]
  simp only [List.nil_append]
  exact ⟨unescape_escapeBytes x, frameStart_not_mem_escapeBytes x, unescape_leadIn b⟩

end Xbee

namespace Xbee

/-! ## C3: the frame built by `sendAPIRequest` -/

theorem fpputOpt_eq (e : Encoder) (x : Int) : fpputOpt e x = (optionalByte x).foldl fpput e := by
  unfold fpputOpt optionalByte
  split <;> rfl

theorem foldl_range_fpput (f : Nat → Byte) (n : Nat) (e : Encoder) :
    (List.range n).foldl (fun e index => fpput e (f index)) e
      = ((List.range n).map f).foldl fpput e := by
  rw [List.foldl_map]

theorem encodePayload_eq (xbs : XBeeBootSession) (apiType : Byte)
    (apiOption prePayload1 prePayload2 packetType sequence appType : Int) (data : List Byte) :
    encodePayload xbs apiType apiOption prePayload1 prePayload2 packetType sequence appType data
      = (apiPayload xbs apiType apiOption prePayload1 prePayload2 packetType sequence appType
          data).foldl fpput { out := [], checksum := 0xff, length := 0 } := by
  unfold encodePayload apiPayload
  simp only [fpputOpt_eq, List.foldl_append, List.foldl_cons, List.foldl_nil]
  split
  · rw [foldl_range_fpput]
  · rfl

theorem escapeByte_length_le (b : Byte) : (escapeByte b).length ≤ 2 := by
  unfold escapeByte; split <;> simp

theorem escapeByte_length_pos (b : Byte) : 1 ≤ (escapeByte b).length := by
  unfold escapeByte; split <;> simp

theorem length_le_escapeBytes (x : List Byte) : x.length ≤ (escapeBytes x).length := by
  induction x with
  | nil => simp [escapeBytes]
  | cons b x ih =>
    rw [escapeBytes_cons, List.length_append, List.length_cons]
    have := escapeByte_length_pos b
    omega

theorem sendAPIRequest_eq (xbs : XBeeBootSession) (apiType : Byte)
    (apiOption prePayload1 prePayload2 packetType sequence appType : Int) (data : List Byte) :
    sendAPIRequest xbs apiType apiOption prePayload1 prePayload2 packetType sequence appType data
      = let p := apiPayload xbs apiType apiOption prePayload1 prePayload2 packetType sequence
          appType data
        if 5 + (escapeBytes p ++ escapeBytes [checksumByte p]).length ≤ 256 then
          some (0x7e :: (escapeBytes [0x00, (p.length : Byte)] ++ escapeBytes p ++
            escapeBytes [checksumByte p]))
        else none := by
  unfold sendAPIRequest
  rw [encodePayload_eq, foldl_fpput]
  simp only [fpput_out, List.nil_append, zero_add, checksumByte_eq]
  have h1 : ∀ a b : Byte, ([0x7e] ++ escapeByte a ++ escapeByte b).length ≤ 5 := by
    intro a b
    have := escapeByte_length_le a
    have := escapeByte_length_le b
    simp only [List.length_append, List.length_singleton]
    omega
  simp only [h1, and_true]
  simp [escapeBytes]

theorem natCast_eq_toUChar (n : Nat) : (n : Byte) = toUChar (n : Int) := by
  apply Fin.ext
  rw [toUChar_val, Fin.val_natCast]
  omega

theorem checksumByte_add_sum (p : List Byte) : ((checksumByte p).val + byteSum p) % 256 = 255 := by
  rw [checksumByte, toUChar_val]
  omega

/-- C3 (as stated, refuted). A call in the shape of `localAT` (API type 0x08,
sequence 1) with 249 data bytes has an unescaped payload of 251 bytes, within
the claimed bound of 255, yet `sendAPIRequest` does not produce the frame: the
checksum byte would be stored at `frame[256]`, outside `unsigned char frame[256]`. -/
theorem sendAPIRequest_frame_counterexample :
    (apiPayload XBeeBootSessionInit 0x08 (-1) (-1) (-1) (-1) 1 (-1)
        (List.replicate 249 0)).length = 251 ∧
      sendAPIRequest XBeeBootSessionInit 0x08 (-1) (-1) (-1) (-1) 1 (-1)
        (List.replicate 249 0) = none ∧
      sendAPIRequest XBeeBootSessionInit 0x08 (-1) (-1) (-1) (-1) 1 (-1)
        (List.replicate 249 0) ≠
        some (apiFrame (apiPayload XBeeBootSessionInit 0x08 (-1) (-1) (-1) (-1) 1 (-1)
          (List.replicate 249 0))) := by
  decide

/-- C3 (amended). Host frame structure: for every call of `sendAPIRequest` whose
escaped payload and escaped checksum fit in the 251 bytes `frame[5..256)`, the
bytes handed to the serial device are exactly `apiFrame p`: 0x7E, then the
escaped encodings of `[0x00, L]`, of the payload `p` and of the checksum byte
`(0xFF - sum p) mod 256`; then `L <= 250` and checksum + sum p = 0xFF mod 256. -/
theorem sendAPIRequest_frame (xbs : XBeeBootSession) (apiType : Byte)
    (apiOption prePayload1 prePayload2 packetType sequence appType : Int) (data : List Byte)
    (hfit : 5 + (escapeBytes (apiPayload xbs apiType apiOption prePayload1 prePayload2
        packetType sequence appType data) ++
      escapeBytes [checksumByte (apiPayload xbs apiType apiOption prePayload1 prePayload2
        packetType sequence appType data)]).length ≤ 256) :
    sendAPIRequest xbs apiType apiOption prePayload1 prePayload2 packetType sequence appType data
        = some (apiFrame (apiPayload xbs apiType apiOption prePayload1 prePayload2 packetType
            sequence appType data)) ∧
      (apiPayload xbs apiType apiOption prePayload1 prePayload2 packetType sequence appType
        data).length ≤ 250 ∧
      ((checksumByte (apiPayload xbs apiType apiOption prePayload1 prePayload2 packetType
        sequence appType data)).val +
        byteSum (apiPayload xbs apiType apiOption prePayload1 prePayload2 packetType sequence
          appType data)) % 256 = 255 := by
  refine ⟨?_, ?_, checksumByte_add_sum _⟩
  · rw [sendAPIRequest_eq]
    simp only [hfit, if_true, apiFrame, natCast_eq_toUChar]
  · have h1 := length_le_escapeBytes (apiPayload xbs apiType apiOption prePayload1 prePayload2
      packetType sequence appType data)
    have h2 := escapeByte_length_pos (checksumByte (apiPayload xbs apiType apiOption prePayload1
      prePayload2 packetType sequence appType data))
    simp only [List.length_append, escapeBytes, List.flatMap_cons, List.flatMap_nil,
      List.append_nil] at hfit h1
    omega

/-- Witness for C3 (amended): the local AT command `AP 2` with sequence 1. -/
theorem sendAPIRequest_frame_witness :
    5 + (escapeBytes (apiPayload XBeeBootSessionInit 0x08 (-1) (-1) (-1) (-1) 1 (-1)
        [0x41, 0x50, 0x02]) ++
      escapeBytes [checksumByte (apiPayload XBeeBootSessionInit 0x08 (-1) (-1) (-1) (-1) 1 (-1)
        [0x41, 0x50, 0x02])]).length ≤ 256 ∧
    sendAPIRequest XBeeBootSessionInit 0x08 (-1) (-1) (-1) (-1) 1 (-1) [0x41, 0x50, 0x02]
      = some [0x7e, 0x00, 0x05, 0x08, 0x01, 0x41, 0x50, 0x02, 0x63] :=
  ⟨by decide,
    (sendAPIRequest_frame XBeeBootSessionInit 0x08 (-1) (-1) (-1) (-1) 1 (-1) [0x41, 0x50, 0x02]
      (by decide)).1.trans (by decide)⟩

end Xbee

namespace Xbeeboot

/-! ## C2: the target escape round trip -/

theorem escPutch_eq (t : Target) (ch : Byte) :
    escPutch t ch = { t with tx := t.tx ++ escapeByte ch } := by
  unfold escPutch escapeByte uartPutch
  by_cases h : ch = 0x7d ∨ ch = 0x7e ∨ ch = 0x11 ∨ ch = 0x13
  · have h2 : ch = 0x7e ∨ ch = 0x7d ∨ ch = 0x11 ∨ ch = 0x13 := by tauto
    simp [h, h2]
  · have h2 : ¬ (ch = 0x7e ∨ ch = 0x7d ∨ ch = 0x11 ∨ ch = 0x13) := by tauto
    simp [h, h2]

theorem foldl_escPutch (x : List Byte) (t : Target) :
    x.foldl escPutch t = { t with tx := t.tx ++ escapeBytes x } := by
  induction x generalizing t with
  | nil => simp [escapeBytes]
  | cons b x ih => rw [List.foldl_cons, ih, escPutch_eq, escapeBytes_cons]; simp

theorem escGetch_escapeByte (b : Byte) (t : Target) (rest : List Byte) :
    escGetch { t with rx := escapeByte b ++ rest } = (some b, { t with rx := rest }) := by
  have key : ∀ b : Byte,
      ((b = 0x7e ∨ b = 0x7d ∨ b = 0x11 ∨ b = 0x13) → 0x20 ^^^ (b ^^^ 0x20) = b) ∧
      (¬ (b = 0x7e ∨ b = 0x7d ∨ b = 0x11 ∨ b = 0x13) → b ≠ 0x7d) := by
    decide
  by_cases h : b = 0x7e ∨ b = 0x7d ∨ b = 0x11 ∨ b = 0x13
  · rw [escapeByte, if_pos h]
    simp [escGetch, uartGetch, (key b).1 h]
  · rw [escapeByte, if_neg h]
    simp [escGetch, uartGetch, (key b).2 h]

theorem escGetchN_escapeBytes (x : List Byte) (t : Target) (rest : List Byte) :
    escGetchN x.length { t with rx := escapeBytes x ++ rest } = (some x, { t with rx := rest }) := by
  induction x generalizing t with
  | nil => simp [escGetchN, escapeBytes]
  | cons b x ih =>
    rw [escapeBytes_cons, List.append_assoc, List.length_cons, escGetchN, escGetch_escapeByte]
    have := ih { t with rx := escapeBytes x ++ rest }
    simp only at this ⊢
    rw [this]

/-- C2. Target escape round trip: `escPutch(b)` writes `escapeByte b`; feeding
these bytes to `escGetch` returns `b` and consumes exactly them; hence the
encoding of a byte string `x` by successive `escPutch` calls is decoded to `x`
by `x.length` successive `escGetch` calls, which consume exactly the encoding. -/
theorem target_escape_roundtrip (b : Byte) (x : List Byte) (w t : Target) (rest : List Byte) :
    (escPutch w b).tx = w.tx ++ escapeByte b ∧
      escGetch { t with rx := escapeByte b ++ rest } = (some b, { t with rx := rest }) ∧
      (x.foldl escPutch w).tx = w.tx ++ escapeBytes x ∧
      escGetchN x.length { t with rx := escapeBytes x ++ rest }
        = (some x, { t with rx := rest }) := by
  refine ⟨?_, escGetch_escapeByte b t rest, ?_, escGetchN_escapeBytes x t rest⟩
  · rw [escPutch_eq]
  · rw [foldl_escPutch]

/-! ## C4: the frame emitted by `transmit` -/

theorem transmitLoop_eq (d : Layout) (count index : Nat) (checksum : Byte) (t : Target) :
    transmitLoop d count index checksum t =
      (checksum - ((List.range' index count).map (fun i => t.ram (outputBuffer d i))).sum,
        { t with tx := t.tx ++
            escapeBytes ((List.range' index count).map (fun i => t.ram (outputBuffer d i))) }) := by
  induction count generalizing index checksum t with
  | zero => simp [transmitLoop, escapeBytes]
  | succ count ih =>
    rw [transmitLoop, ih, escPutch_eq, List.range'_succ, List.map_cons, List.sum_cons,
      escapeBytes_cons]
    simp only [List.append_assoc, Prod.mk.injEq, and_true]
    abel

/-- The data memory after `transmit`: the four header stores. -/
theorem transmit_ram (d : Layout) (t : Target) (n : Byte) :
    (transmit d t n).ram =
      ((((t.store (outputBuffer d 0) 0x10).store (outputBuffer d 1) 0).store
        (outputBuffer d 12) 0).store (outputBuffer d 13) 0).ram := by
  simp [transmit, transmitLoop_eq, escPutch_eq, uartPutch, Target.store]

theorem transmit_tx (d : Layout) (t : Target) (n : Byte) :
    (transmit d t n).tx = t.tx ++
      apiFrame ((List.range n.val).map (fun i => (transmit d t n).ram (outputBuffer d i))) := by
  rw [transmit_ram]
  simp only [transmit, transmitLoop_eq, escPutch_eq, uartPutch, Target.store, apiFrame,
    checksumByte_eq, List.length_map, List.length_range, List.range_eq_range']
  have hn : toUChar (n.val : Int) = n := by
    apply Fin.ext
    rw [toUChar_val]
    omega
  rw [List.length_range', hn]
  simp [escapeBytes]

/-- C4. Target frame structure: for every length `n`, `transmit(n)` emits 0x7E
followed by the escaped encodings of `[0x00, n]`, of `outputBuffer[0..n)` and
of the checksum `(0xFF - sum) mod 256` (that is, `apiFrame` of
`outputBuffer[0..n)`), where `outputBuffer[0] = 0x10`, `outputBuffer[1] = 0`,
`outputBuffer[12] = 0`, `outputBuffer[13] = 0` and bytes 2..11 (`lastAddress`)
are as before the call; checksum plus payload sum is 0xFF modulo 256. -/
theorem transmit_frame (d : Layout) (t : Target) (n : Byte) :
    (transmit d t n).tx = t.tx ++
        apiFrame ((List.range n.val).map (fun i => (transmit d t n).ram (outputBuffer d i))) ∧
      (transmit d t n).ram (outputBuffer d 0) = 0x10 ∧
      (transmit d t n).ram (outputBuffer d 1) = 0 ∧
      (transmit d t n).ram (outputBuffer d 12) = 0 ∧
      (transmit d t n).ram (outputBuffer d 13) = 0 ∧
      (List.range 10).map (fun i => (transmit d t n).ram (lastAddress d i)) =
        (List.range 10).map (fun i => t.ram (lastAddress d i)) ∧
      ((checksumByte ((List.range n.val).map
          (fun i => (transmit d t n).ram (outputBuffer d i)))).val +
        byteSum ((List.range n.val).map
          (fun i => (transmit d t n).ram (outputBuffer d i)))) % 256 = 255 := by
  refine ⟨transmit_tx d t n, ?_, ?_, ?_, ?_, ?_, ?_⟩
  · simp [transmit_ram, Target.store, outputBuffer]
  · simp [transmit_ram, Target.store, outputBuffer]
  · simp [transmit_ram, Target.store, outputBuffer]
  · simp [transmit_ram, Target.store, outputBuffer]
  · rw [transmit_ram]
    apply List.map_congr_left
    intro i hi
    rw [List.mem_range] at hi
    simp only [Target.store, lastAddress, outputBuffer]
    have h0 : ¬ (d.RAMSTART + d.SPM_PAGESIZE * 6 + (2 + i) = d.RAMSTART + d.SPM_PAGESIZE * 6 + 0) := by omega
    have h1 : ¬ (d.RAMSTART + d.SPM_PAGESIZE * 6 + (2 + i) = d.RAMSTART + d.SPM_PAGESIZE * 6 + 1) := by omega
    have h12 : ¬ (d.RAMSTART + d.SPM_PAGESIZE * 6 + (2 + i) = d.RAMSTART + d.SPM_PAGESIZE * 6 + 12) := by omega
    have h13 : ¬ (d.RAMSTART + d.SPM_PAGESIZE * 6 + (2 + i) = d.RAMSTART + d.SPM_PAGESIZE * 6 + 13) := by omega
    simp only [h0, h1, h12, h13, if_false]
  · rw [checksumByte, toUChar_val]; omega

/-! ## C5: checksum validation on both sides -/

theorem storeAll_rx (t : Target) (base : Nat → Nat) (index : Nat) (p rx : List Byte) :
    Target.storeAll { t with rx := rx } base index p
      = { Target.storeAll t base index p with rx := rx } := by
  induction p generalizing t index with
  | nil => rfl
  | cons b p ih =>
    simp only [Target.storeAll]
    exact ih (t.store (base index) b) (index + 1)

theorem readPacket_escapeBytes (d : Layout) (p : List Byte) (index : Nat) (checksum : Byte)
    (t : Target) (rest : List Byte) :
    readPacket d p.length index checksum { t with rx := escapeBytes p ++ rest }
      = (some (checksum - p.sum),
          { Target.storeAll t (packet d) index p with rx := rest }) := by
  induction p generalizing index checksum t with
  | nil => simp [readPacket, escapeBytes, Target.storeAll]
  | cons b p ih =>
    rw [escapeBytes_cons, List.append_assoc, List.length_cons, readPacket, escGetch_escapeByte]
    simp only [Target.storeAll, List.sum_cons]
    have := ih (index + 1) (checksum - b) (t.store (packet d index) b)
    simp only [Target.store] at this ⊢
    rw [this]
    congr 2
    abel

end Xbeeboot

namespace Xbee

theorem frameChecksum_eq (l0 l1 : Byte) (q : List Byte) :
    frameChecksum (l0 :: l1 :: q) = 1 + q.sum := by
  unfold frameChecksum
  simp only [List.drop_succ_cons, List.drop_zero]
  generalize (1 : Byte) = a
  induction q generalizing a with
  | nil => simp
  | cons b q ih => rw [List.foldl_cons, ih, List.sum_cons]; abel

end Xbee

theorem checksum_test_iff (p : List Byte) (c : Byte) :
    (1 + (p ++ [c]).sum = (0 : Byte) ↔ (1 + byteSum p + c.val) % 256 = 0) ∧
    ((0xff : Byte) - p.sum = c ↔ (1 + byteSum p + c.val) % 256 = 0) ∧
    (c = checksumByte p ↔ (1 + byteSum p + c.val) % 256 = 0) := by
  have hs := byte_sum_val p
  refine ⟨?_, ?_, ?_⟩
  · rw [List.sum_append, List.sum_singleton, Fin.ext_iff, Fin.val_add, Fin.val_add, hs]
    show _ % 256 = 0 ↔ _
    omega
  · rw [Fin.ext_iff, byte_sub_val, hs]
    show (255 + _) % 256 = _ ↔ _
    omega
  · rw [Fin.ext_iff, checksumByte, toUChar_val]
    omega

/-- C5. Checksum validation: for every unescaped payload `p` and checksum byte
`c`, the host's test (`frameChecksum` of the stored frame: two length bytes,
`p`, `c`) passes iff `(1 + sum p + c) mod 256 = 0`; the checksum that the
target's payload loop computes while reading the encoding of `p` equals `c`
iff the same condition holds; the condition is `c = (0xFF - sum p) mod 256`;
so the host passes the frame iff the target does. -/
theorem checksum_validation (d : Xbeeboot.Layout) (t : Xbeeboot.Target) (p : List Byte)
    (c l0 l1 : Byte) (rest : List Byte) :
    (Xbee.frameChecksum (l0 :: l1 :: (p ++ [c])) = 0 ↔ (1 + byteSum p + c.val) % 256 = 0) ∧
      ((Xbeeboot.readPacket d p.length 0 0xff { t with rx := escapeBytes p ++ rest }).1 = some c ↔
        (1 + byteSum p + c.val) % 256 = 0) ∧
      ((1 + byteSum p + c.val) % 256 = 0 ↔ c = checksumByte p) ∧
      (Xbee.frameChecksum (l0 :: l1 :: (p ++ [c])) = 0 ↔
        (Xbeeboot.readPacket d p.length 0 0xff { t with rx := escapeBytes p ++ rest }).1
          = some c) := by
  have h := checksum_test_iff p c
  have h1 : Xbee.frameChecksum (l0 :: l1 :: (p ++ [c])) = 0 ↔
      (1 + byteSum p + c.val) % 256 = 0 := by
    rw [Xbee.frameChecksum_eq]; exact h.1
  have h2 : (Xbeeboot.readPacket d p.length 0 0xff { t with rx := escapeBytes p ++ rest }).1
      = some c ↔ (1 + byteSum p + c.val) % 256 = 0 := by
    rw [Xbeeboot.readPacket_escapeBytes]
    simp only [Option.some.injEq]
    exact h.2.1
  exact ⟨h1, h2, h.2.2.symm, h1.trans h2.symm⟩

namespace Xbee

/-! ## C6: resynchronisation of the host parser -/

theorem pollLoop_append (bufNonNull : Bool) (wa ws : Int) (c c1 : PollCfg) (q : List Byte)
    (tail : List (Option Byte)) (hq : pollRun bufNonNull wa ws c q = some c1) :
    pollLoop bufNonNull wa ws c (q.map some ++ tail) = pollLoop bufNonNull wa ws c1 tail := by
  induction q generalizing c with
  | nil =>
    simp only [pollRun, Option.some.injEq] at hq
    simp [hq]
  | cons b q ih =>
    simp only [pollRun] at hq
    simp only [List.map_cons, List.cons_append, pollLoop]
    cases hb : pollByte bufNonNull wa ws c b with
    | running c2 =>
      rw [hb] at hq
      exact ih c2 hq
    | done o c2 => rw [hb] at hq; exact absurd hq (by simp)

theorem pollByte_frameStart (bufNonNull : Bool) (wa ws : Int) (c : PollCfg)
    (frame : List Byte) (escaped : Bool) (frameSize : Nat)
    (hmid : c.st = .inFrame frame escaped frameSize) :
    pollByte bufNonNull wa ws c 0x7e = .running { c with st := .inFrame [] false 2 } ∧
    pollByte bufNonNull wa ws { c with st := .beforeFrame } 0x7e
      = .running { c with st := .inFrame [] false 2 } := by
  constructor
  · simp [pollByte, hmid, parseByte, unescapeByte]
  · simp [pollByte, parseByte]

theorem pollRun_of_readerRun (bufNonNull : Bool) (wa ws : Int) (c : PollCfg) (q : List Byte)
    (st : ParserState) (hq : readerRun c.st q = some st) :
    pollRun bufNonNull wa ws c q = some { c with st := st } := by
  induction q generalizing c with
  | nil =>
    simp only [readerRun, Option.some.injEq] at hq
    simp [pollRun, ← hq]
  | cons b q ih =>
    simp only [readerRun] at hq
    cases hp : parseByte c.st b with
    | more st1 =>
      rw [hp] at hq
      have hb : pollByte bufNonNull wa ws c b = .running { c with st := st1 } := by
        simp [pollByte, hp]
      simp only [pollRun, hb]
      exact ih { c with st := st1 } hq
    | complete frame fs => rw [hp] at hq; simp at hq

theorem pollLoop_resync (bufNonNull : Bool) (waitForAck waitForSequence : Int) (c c1 : PollCfg)
    (q : List Byte) (frame : List Byte) (escaped : Bool) (frameSize : Nat)
    (tail : List (Option Byte))
    (hq : pollRun bufNonNull waitForAck waitForSequence c q = some c1)
    (hmid : c1.st = .inFrame frame escaped frameSize) :
    pollLoop bufNonNull waitForAck waitForSequence c (q.map some ++ some 0x7e :: tail)
      = pollLoop bufNonNull waitForAck waitForSequence { c1 with st := .beforeFrame }
          (some 0x7e :: tail) := by
  rw [pollLoop_append bufNonNull waitForAck waitForSequence c c1 q _ hq]
  have h := pollByte_frameStart bufNonNull waitForAck waitForSequence c1 frame escaped frameSize hmid
  simp only [pollLoop, h.1, h.2]

/-- C6. Host resync on 0x7E.  Let the bytes `q` leave the frame reader of
`xbeedev_poll` in the middle of a frame: after a start delimiter, before the
declared length is complete, possibly right after an escape lead-in, no frame
having been completed.  Then a call that reads `q` followed by 0x7E and any
further input `tail` gives exactly the result of the call that reads that 0x7E
and `tail` alone: same return value, same host state and frames sent, same
bytes delivered, same unread input.  More generally, whatever a running poll
did while reading `q2`, if its reader is inside a frame afterwards then a 0x7E
makes it go on as a poll at `before_frame` does in the state reached. -/
theorem host_resync (bufNonNull : Bool) (waitForAck waitForSequence : Int) (h : Host)
    (buflen : Nat) (q : List Byte) (frame : List Byte) (escaped : Bool) (frameSize : Nat)
    (tail : List (Option Byte))
    (hq : readerRun .beforeFrame q = some (.inFrame frame escaped frameSize)) :
    xbeedev_poll h bufNonNull buflen waitForAck waitForSequence
        (q.map some ++ some 0x7e :: tail)
      = xbeedev_poll h bufNonNull buflen waitForAck waitForSequence (some 0x7e :: tail) ∧
    (∀ (c c1 : PollCfg) (q2 : List Byte) (fr : List Byte) (e : Bool) (fs : Nat),
      pollRun bufNonNull waitForAck waitForSequence c q2 = some c1 →
      c1.st = .inFrame fr e fs →
      pollLoop bufNonNull waitForAck waitForSequence c (q2.map some ++ some 0x7e :: tail)
        = pollLoop bufNonNull waitForAck waitForSequence { c1 with st := .beforeFrame }
            (some 0x7e :: tail)) := by
  constructor
  · unfold xbeedev_poll
    exact pollLoop_resync bufNonNull waitForAck waitForSequence _ _ q frame escaped frameSize
      tail (pollRun_of_readerRun bufNonNull waitForAck waitForSequence _ q _ hq) rfl
  · intro c c1 q2 fr e fs h1 h2
    exact pollLoop_resync bufNonNull waitForAck waitForSequence c c1 q2 fr e fs tail h1 h2

/-- Witness for C6: after `0x55 0x7E 0x00 0x7D` the reader is inside a frame, just
after an escape lead-in; the ACK frame for sequence 1 that follows is accepted. -/
theorem host_resync_witness :
    readerRun .beforeFrame [0x55, 0x7e, 0x00, 0x7d] = some (.inFrame [0x00] true 2) ∧
    (xbeedev_poll initHost false 0 1 (-1)
      ([0x55, 0x7e, 0x00, 0x7d].map some ++ some 0x7e ::
        [0x00, 0x10, 0x10, 0, 1, 0, 0, 0, 0, 0, 0, 0, 0, 0, 0, 0, 0, 1, 0xed].map some)).outcome
      = .ret 0 :=
  ⟨by decide, by
    rw [(host_resync false 1 (-1) initHost 0 [0x55, 0x7e, 0x00, 0x7d] [0x00] true 2 _
      (by decide)).1]
    decide⟩

end Xbee

namespace Xbeeboot

/-! ## C7: the target parser and 0x7E inside a frame -/

theorem uartGetch_some {t t1 : Target} {ch : Byte} (h : uartGetch t = (some ch, t1)) :
    t.rx = ch :: t1.rx ∧ t1.ram = t.ram ∧ t1.tx = t.tx := by
  unfold uartGetch at h
  split at h
  · simp at h
  · rename_i c rx hrx
    simp only [Prod.mk.injEq, Option.some.injEq] at h
    obtain ⟨h1, h2⟩ := h
    subst h1 h2
    simp [hrx]

theorem uartGetch_none {t t1 : Target} (h : uartGetch t = (none, t1)) :
    t1 = t ∧ t.rx = [] := by
  unfold uartGetch at h
  split at h
  · rename_i hrx
    simp only [Prod.mk.injEq, true_and] at h
    exact ⟨h.symm, hrx⟩
  · simp at h

theorem escGetch_some {t t1 : Target} {b : Byte} (h : escGetch t = (some b, t1)) :
    t1.rx.length < t.rx.length ∧ t1.ram = t.ram ∧ t1.tx = t.tx := by
  unfold escGetch at h
  split at h
  · simp at h
  · rename_i ch t2 h2
    obtain ⟨a1, a2, a3⟩ := uartGetch_some h2
    split at h
    · simp only [Prod.mk.injEq, Option.some.injEq] at h
      obtain ⟨-, rfl⟩ := h
      simp [a1, a2, a3]
    · split at h
      · simp at h
      · rename_i ch3 t3 h3
        obtain ⟨b1, b2, b3⟩ := uartGetch_some h3
        simp only [Prod.mk.injEq, Option.some.injEq] at h
        obtain ⟨-, rfl⟩ := h
        refine ⟨?_, by rw [b2, a2], by rw [b3, a3]⟩
        rw [a1, b1]
        simp only [List.length_cons]
        omega

theorem store_rx (t : Target) (a : Nat) (v : Byte) : (t.store a v).rx = t.rx := rfl
theorem store_tx (t : Target) (a : Nat) (v : Byte) : (t.store a v).tx = t.tx := rfl

theorem readPacket_some (d : Layout) (count index : Nat) (cs cs1 : Byte) (t t1 : Target)
    (h : readPacket d count index cs t = (some cs1, t1)) :
    t1.rx.length ≤ t.rx.length ∧ t1.tx = t.tx := by
  induction count generalizing index cs t with
  | zero =>
    simp only [readPacket, Prod.mk.injEq, Option.some.injEq] at h
    obtain ⟨-, rfl⟩ := h
    simp
  | succ count ih =>
    simp only [readPacket] at h
    split at h
    · simp at h
    · rename_i b t2 h2
      have h3 := escGetch_some h2
      have h4 := ih _ _ _ h
      simp only [store_rx, store_tx] at h4
      constructor
      · omega
      · rw [h4.2, h3.2.2]


theorem transmit_rx (d : Layout) (t : Target) (n : Byte) : (transmit d t n).rx = t.rx := by
  simp [transmit, transmitLoop_eq, escPutch_eq, uartPutch, Target.store]

theorem sendAck_rx (d : Layout) (t : Target) (s : Byte) : (sendAck d t s).rx = t.rx := by
  simp [sendAck, transmit_rx, Target.store]

theorem copyAddress_rx (d : Layout) (count index : Nat) (t : Target) :
    (copyAddress d count index t).rx = t.rx := by
  induction count generalizing index t with
  | zero => rfl
  | succ count ih => rw [copyAddress, ih]; rfl

theorem copyPayload_rx (d : Layout) (n count index : Nat) (t : Target) :
    (copyPayload d n count index t).rx = t.rx := by
  induction count generalizing index t with
  | zero => rfl
  | succ count ih => rw [copyPayload, ih]; rfl

theorem pollFrame_rx (d : Layout) (w length s : Byte) (t : Target) :
    (pollFrame d w length s t).2.2.rx = t.rx := by
  unfold pollFrame
  dsimp only
  split_ifs <;> simp [sendAck_rx, copyAddress_rx, copyPayload_rx, store_rx]

theorem pollIteration_again (d : Layout) (w s s1 : Byte) (t t1 : Target)
    (h : pollIteration d w s t = .again s1 t1) : t1.rx.length < t.rx.length := by
  unfold pollIteration at h
  split at h
  · simp at h
  · rename_i ch t2 h2
    obtain ⟨a1, -, -⟩ := uartGetch_some h2
    have l2 : t2.rx.length < t.rx.length := by rw [a1]; simp
    split at h
    · simp only [Iteration.again.injEq] at h
      rw [← h.2]; exact l2
    · split at h
      · simp at h
      · rename_i msb t3 h3
        have l3 := (escGetch_some h3).1
        split at h
        · simp only [Iteration.again.injEq] at h
          rw [← h.2]; omega
        · split at h
          · simp at h
          · rename_i len t4 h4
            have l4 := (escGetch_some h4).1
            split at h
            · simp at h
            · rename_i cs t5 h5
              have l5 := (readPacket_some d _ _ _ _ _ _ h5).1
              split at h
              · simp at h
              · rename_i c t6 h6
                have l6 := (escGetch_some h6).1
                split at h
                · simp only [Iteration.again.injEq] at h
                  rw [← h.2]; omega
                · have l7 := pollFrame_rx d w len s t6
                  split at h
                  · simp at h
                  · rename_i s7 t7 h7
                    rw [h7] at l7
                    simp only [Iteration.again.injEq] at h
                    simp only at l7
                    rw [← h.2, l7]; omega

theorem pollLoop_fuel (d : Layout) (w : Byte) (fuel k : Nat) (s : Byte) (t : Target)
    (h : t.rx.length < fuel) :
    pollLoop d w (fuel + k) s t = pollLoop d w fuel s t := by
  induction fuel generalizing s t with
  | zero => omega
  | succ fuel ih =>
    rw [Nat.add_right_comm, pollLoop, pollLoop]
    cases hit : pollIteration d w s t with
    | again s1 t1 =>
      have := pollIteration_again d w s s1 t t1 hit
      exact ih s1 t1 (by omega)
    | returned rc t1 => rfl
    | blocked t1 => rfl

theorem pollLoop_ne_outOfFuel (d : Layout) (w : Byte) (fuel : Nat) (s : Byte) (t : Target)
    (h : t.rx.length < fuel) :
    (pollLoop d w fuel s t).outcome ≠ .outOfFuel := by
  induction fuel generalizing s t with
  | zero => omega
  | succ fuel ih =>
    rw [pollLoop]
    cases hit : pollIteration d w s t with
    | again s1 t1 =>
      have := pollIteration_again d w s s1 t t1 hit
      exact ih s1 t1 (by omega)
    | returned rc t1 => simp
    | blocked t1 => simp

theorem escGetch_none {t t1 : Target} (h : escGetch t = (none, t1)) : t1.tx = t.tx := by
  unfold escGetch at h
  split at h
  · rename_i t2 h2
    simp only [Prod.mk.injEq, true_and] at h
    rw [← h, (uartGetch_none h2).1]
  · rename_i ch t2 h2
    obtain ⟨-, -, a3⟩ := uartGetch_some h2
    split at h
    · simp at h
    · split at h
      · rename_i t3 h3
        simp only [Prod.mk.injEq, true_and] at h
        rw [← h, (uartGetch_none h3).1, a3]
      · simp at h

theorem readPacket_none (d : Layout) (count index : Nat) (cs : Byte) (t t1 : Target)
    (h : readPacket d count index cs t = (none, t1)) : t1.tx = t.tx := by
  induction count generalizing index cs t with
  | zero => simp [readPacket] at h
  | succ count ih =>
    simp only [readPacket] at h
    split at h
    · rename_i t2 h2
      simp only [Prod.mk.injEq, true_and] at h
      rw [← h, escGetch_none h2]
    · rename_i b t2 h2
      rw [ih _ _ _ h, store_tx, (escGetch_some h2).2.2]

theorem readPacket_some_length (d : Layout) (count index : Nat) (cs cs1 : Byte) (t t1 : Target)
    (h : readPacket d count index cs t = (some cs1, t1)) :
    t1.rx.length + count ≤ t.rx.length := by
  induction count generalizing index cs t with
  | zero =>
    simp only [readPacket, Prod.mk.injEq, Option.some.injEq] at h
    obtain ⟨-, rfl⟩ := h
    simp
  | succ count ih =>
    simp only [readPacket] at h
    split at h
    · simp at h
    · rename_i b t2 h2
      have h3 := (escGetch_some h2).1
      have h4 := ih _ _ _ h
      simp only [store_rx] at h4
      omega

theorem pollLoop_hunt (d : Layout) (w : Byte) (g rest : List Byte) (fuel : Nat) (s : Byte)
    (t : Target) (hg : ∀ b ∈ g, b ≠ 0x7e) :
    pollLoop d w (fuel + g.length) s { t with rx := g ++ rest }
      = pollLoop d w fuel s { t with rx := rest } := by
  induction g generalizing fuel with
  | nil => rfl
  | cons b g ih =>
    have hb : b ≠ 0x7e := hg b (List.mem_cons_self b g)
    rw [List.length_cons, ← Nat.add_assoc, pollLoop]
    have hit : pollIteration d w s { t with rx := b :: g ++ rest }
        = .again s { t with rx := g ++ rest } := by
      simp [pollIteration, uartGetch, hb]
    rw [hit]
    exact ih fuel (fun c hc => hg c (List.mem_cons_of_mem b hc))

theorem poll_hunt (d : Layout) (w : Byte) (g rest : List Byte) (t : Target)
    (hg : ∀ b ∈ g, b ≠ 0x7e) :
    poll d { t with rx := g ++ rest } w = poll d { t with rx := rest } w := by
  unfold poll
  have := pollLoop_hunt d w g rest (rest.length + 1) 0 t hg
  simp only [List.length_append] at this ⊢
  rw [← this]
  congr 1
  omega

theorem poll_msb_frameStart (d : Layout) (w : Byte) (rest : List Byte) (t : Target) :
    poll d { t with rx := 0x7e :: 0x7e :: rest } w = poll d { t with rx := rest } w := by
  unfold poll
  simp only [List.length_cons]
  rw [pollLoop]
  have hit : pollIteration d w 0 { t with rx := 0x7e :: 0x7e :: rest }
      = .again 0 { t with rx := rest } := by
    simp [pollIteration, uartGetch, escGetch]
  rw [hit]
  exact pollLoop_fuel d w (rest.length + 1) 1 0 _ (by simp)

theorem poll_lsb_frameStart (d : Layout) (w : Byte) (f : List Byte) (t : Target)
    (hf : f.length ≤ 126) :
    (poll d { t with rx := 0x7e :: 0x00 :: 0x7e :: f } w).outcome = .blocked ∧
      (poll d { t with rx := 0x7e :: 0x00 :: 0x7e :: f } w).t.tx = t.tx := by
  unfold poll
  simp only [List.length_cons]
  rw [pollLoop]
  have e1 : uartGetch { t with rx := 0x7e :: 0x00 :: 0x7e :: f }
      = (some 0x7e, { t with rx := 0x00 :: 0x7e :: f }) := rfl
  have e2 : escGetch { t with rx := 0x00 :: 0x7e :: f }
      = (some 0x00, { t with rx := 0x7e :: f }) := by
    simp [escGetch, uartGetch]
  have e3 : escGetch { t with rx := 0x7e :: f } = (some 0x7e, { t with rx := f }) := by
    simp [escGetch, uartGetch]
  have hit : ∃ t1, pollIteration d w 0 { t with rx := 0x7e :: 0x00 :: 0x7e :: f }
      = .blocked t1 ∧ t1.tx = t.tx := by
    unfold pollIteration
    simp only [e1, e2, e3, ne_eq, not_true_eq_false, if_false]
    cases hrp : readPacket d (0x7e : Byte).val 0 0xff { t with rx := f } with
    | mk r t5 =>
      cases r with
      | none =>
        exact ⟨t5, rfl, readPacket_none d _ _ _ { t with rx := f } t5 hrp⟩
      | some cs =>
        have h5 := readPacket_some_length d _ _ _ _ { t with rx := f } t5 hrp
        have h5t := (readPacket_some d _ _ _ _ { t with rx := f } t5 hrp).2
        have h126 : ((0x7e : Byte)).val = 126 := rfl
        rw [h126] at h5
        simp only at h5 h5t
        have hnil : t5.rx = [] := List.eq_nil_of_length_eq_zero (by omega)
        have hesc : escGetch t5 = (none, t5) := by
          simp [escGetch, uartGetch, hnil]
        exact ⟨t5, by simp only [hesc], h5t⟩
  obtain ⟨t1, h1, h2⟩ := hit
  rw [h1]
  exact ⟨rfl, h2⟩

/-- The frame `firstRequest` is what the host in direct mode sends first for the
chunk `[0x30, 0x20]`. -/
theorem firstRequest_sent :
    (Xbee.sendPacket Xbee.initHost 1 1 23 [0x30, 0x20]).map (fun h => h.sent)
      = some [firstRequest] := by
  decide

/-- C7 (as stated, refuted). On an idle ATmega328P target `firstRequest`, read
alone, is accepted: `poll(0)` returns 0 after sending the ACK for sequence 1.
When its 0x7E arrives while `poll` is reading the length MSB (after a lone
0x7E), the length LSB, the payload or the checksum of an earlier frame, `poll`
does not restart at that byte: the frame is not accepted, nothing is sent and
`poll` ends up waiting for input. -/
theorem target_no_resync_counterexample :
    ((poll atmega328p { idleTarget with rx := firstRequest } 0).outcome = .returned 0 ∧
      (poll atmega328p { idleTarget with rx := firstRequest } 0).t.tx =
        [0x7e, 0x00, 0x10, 0x10, 0, 1, 0, 0, 0, 0, 0, 0, 0, 0, 0, 0, 0, 0, 1, 0xed]) ∧
    ((poll atmega328p { idleTarget with rx := [0x7e] ++ firstRequest } 0).outcome = .blocked ∧
      (poll atmega328p { idleTarget with rx := [0x7e] ++ firstRequest } 0).t.tx = []) ∧
    ((poll atmega328p { idleTarget with rx := [0x7e, 0x00] ++ firstRequest } 0).outcome
        = .blocked ∧
      (poll atmega328p { idleTarget with rx := [0x7e, 0x00] ++ firstRequest } 0).t.tx = []) ∧
    ((poll atmega328p { idleTarget with rx := [0x7e, 0x00, 0x03, 0x90, 0x01] ++ firstRequest }
        0).outcome = .blocked ∧
      (poll atmega328p { idleTarget with rx := [0x7e, 0x00, 0x03, 0x90, 0x01] ++ firstRequest }
        0).t.tx = []) ∧
    ((poll atmega328p { idleTarget with rx := [0x7e, 0x00, 0x02, 0x90, 0x01] ++ firstRequest }
        0).outcome = .blocked ∧
      (poll atmega328p { idleTarget with rx := [0x7e, 0x00, 0x02, 0x90, 0x01] ++ firstRequest }
        0).t.tx = []) := by
  decide

/-- C7 (amended). The target's `poll` looks for the start delimiter only at the
top of its loop: bytes other than 0x7E that arrive there are discarded, and the
input from the next 0x7E on is processed as if read alone.  A 0x7E that arrives
inside a frame does not restart parsing at that byte: in the length-MSB
position it ends the frame (non-zero MSB) and is consumed, so that `poll`
continues with the bytes after it; in the length-LSB position it is taken as
the length 126, so that a frame `f` of at most 126 bytes starting at that 0x7E
is swallowed, nothing is sent and `poll` waits for more input. -/
theorem target_resync (d : Layout) (w : Byte) (g rest f : List Byte) (t : Target)
    (hg : ∀ b ∈ g, b ≠ 0x7e) (hf : f.length ≤ 126) :
    poll d { t with rx := g ++ rest } w = poll d { t with rx := rest } w ∧
      poll d { t with rx := 0x7e :: 0x7e :: rest } w = poll d { t with rx := rest } w ∧
      (poll d { t with rx := 0x7e :: 0x00 :: 0x7e :: f } w).outcome = .blocked ∧
      (poll d { t with rx := 0x7e :: 0x00 :: 0x7e :: f } w).t.tx = t.tx :=
  ⟨poll_hunt d w g rest t hg, poll_msb_frameStart d w rest t, poll_lsb_frameStart d w f t hf⟩

/-- Witness for C7 (amended): two stray bytes in front of `firstRequest` are
discarded and the frame is accepted. -/
theorem target_resync_witness :
    (∀ b ∈ [(0x00 : Byte), 0x55], b ≠ 0x7e) ∧ firstRequest.length ≤ 126 ∧
      (poll atmega328p { idleTarget with rx := [0x00, 0x55] ++ firstRequest } 0).outcome
        = .returned 0 :=
  ⟨by decide, by decide, by
    rw [(target_resync atmega328p 0 [0x00, 0x55] firstRequest firstRequest idleTarget
      (by decide) (by decide)).1]
    decide⟩

end Xbeeboot

/-! ## C8: the sequence successor -/

theorem host_skipZeroLoop_eq (k : Nat) (x : Byte) :
    Xbee.skipZeroLoop (k + 2) x = some (Xbee.nextSequence x) := by
  have key : ∀ x : Byte, (x + 1).val &&& 0xff = 0 → ¬ ((x + 1 + 1).val &&& 0xff = 0) := by
    decide
  unfold Xbee.nextSequence
  by_cases h : (x + 1).val &&& 0xff = 0
  · simp [Xbee.skipZeroLoop, h, key x h]
  · simp [Xbee.skipZeroLoop, h]

theorem target_skipZeroLoop_eq (k : Nat) (x : Byte) :
    Xbeeboot.skipZeroLoop (k + 2) x = some (Xbeeboot.nextSequence x) := by
  have key : ∀ x : Byte, (x + 1).val &&& 0xff = 0 → ¬ ((x + 1 + 1).val &&& 0xff = 0) := by
    decide
  unfold Xbeeboot.nextSequence
  by_cases h : (x + 1).val &&& 0xff = 0
  · simp [Xbeeboot.skipZeroLoop, h, key x h]
  · simp [Xbeeboot.skipZeroLoop, h]

theorem nextSequence_facts : ∀ n : Byte,
    Xbee.nextSequence n = seqSucc n ∧ Xbeeboot.nextSequence n = seqSucc n ∧
      (seqSucc n).val = (if n.val = 255 then 1 else n.val + 1) ∧
      1 ≤ (seqSucc n).val ∧ (seqSucc n).val ≤ 255 ∧ seqSucc n ≠ 0 := by
  decide

/-- C8. Sequence successor: the idiom `while ((++x & 0xff) == 0);`, by which the
host advances `outSequence` (`sendLoop`), `inSequence` (`processData`) and
`txSequence` (`sendPacket`) and the target advances `lastIncomingSequence`
(`pollFrame`) and `lastOutgoingSequence` (`pushBuffer`), ends after at most two
iterations and computes on both sides the same function `seqSucc`, with
`seqSucc n = n + 1` for `n <= 254` and `seqSucc 255 = 1`; its value is in
1..255 and never 0. -/
theorem sequence_successor (n : Byte) (k : Nat) :
    Xbee.skipZeroLoop (k + 2) n = some (seqSucc n) ∧
      Xbeeboot.skipZeroLoop (k + 2) n = some (seqSucc n) ∧
      Xbee.nextSequence n = seqSucc n ∧ Xbeeboot.nextSequence n = seqSucc n ∧
      (seqSucc n).val = (if n.val = 255 then 1 else n.val + 1) ∧
      1 ≤ (seqSucc n).val ∧ (seqSucc n).val ≤ 255 ∧ seqSucc n ≠ 0 := by
  have h := nextSequence_facts n
  refine ⟨?_, ?_, h⟩
  · rw [host_skipZeroLoop_eq, h.1]
  · rw [target_skipZeroLoop_eq, h.2.1]

namespace Xbee

/-! ## C9 and C10: `xbeedev_send` -/

/-! ### What releases a poll that waits for an ACK -/

theorem int_val_eq_iff (a b : Byte) : ((a.val : Int) = (b.val : Int)) ↔ a = b := by
  constructor
  · intro h
    apply Fin.ext
    exact_mod_cast h
  · intro h; rw [h]

theorem processData_ret_zero (seq : Byte) (c : PollCfg) (frame : List Byte)
    (dataStart dataLength : Nat) :
    (∃ c1, processData false (seq.val : Int) c frame dataStart dataLength = .done (.ret 0) c1) ↔
      (dataLength ≥ 2 ∧ frame.getD dataStart 0 = 0 ∧ frame.getD (dataStart + 1) 0 = seq) := by
  unfold processData
  have hnn : (seq.val : Int) ≥ 0 := by omega
  by_cases h2 : dataLength ≥ 2
  · simp only [h2, if_true, true_and]
    by_cases hp : frame.getD dataStart 0 = 0
    · simp only [hp, if_true, true_and, hnn, int_val_eq_iff]
      by_cases hs : seq = frame.getD (dataStart + 1) 0
      · rw [if_pos hs]
        exact ⟨fun _ => hs.symm, fun _ => ⟨c, rfl⟩⟩
      · rw [if_neg hs]
        constructor
        · rintro ⟨c1, h⟩
          simp at h
        · intro h
          exact absurd h.symm hs
    · simp only [hp, if_false, false_and, iff_false, not_exists]
      intro c1
      split_ifs
      · split
        · simp
        · split
          · simp
          · simp
      · simp
      · simp
  · simp [h2]


theorem processFrame_ret_zero (seq : Byte) (c : PollCfg) (frame : List Byte) (frameSize : Nat) :
    (∃ c1, processFrame false (seq.val : Int) (-1) c frame frameSize = .done (.ret 0) c1) ↔
      IsAckFor c.host.xbs frame frameSize seq := by
  unfold processFrame IsAckFor
  have hneg : ¬ ((-1 : Int) ≥ 0) := by omega
  simp only [hneg, false_and, if_false]
  generalize frame.getD 2 0 = ft
  by_cases h97 : ft = 0x97
  · subst h97
    simp
  by_cases h88 : ft = 0x88
  · subst h88
    simp
  by_cases h8b : ft = 0x8b
  · subst h8b
    by_cases h7 : frameSize > 7 <;> simp [h7]
  rw [if_neg (fun h => h97 h.1), if_neg (fun h => h88 h.1), if_neg (fun h => h8b h.1)]
  by_cases h10 : ft = 0x10
  · subst h10
    rw [if_pos rfl]
    by_cases hsz : frameSize ≤ 2 + 1 + 1 + 8 + 2 + 1 + 1 + 1
    · rw [if_pos hsz]
      constructor
      · rintro ⟨c1, h⟩
        simp at h
      · rintro (h | h)
        · omega
        · exact absurd h.1 (by decide)
    · rw [if_neg hsz, processData_ret_zero]
      constructor
      · rintro ⟨a, b, c⟩
        exact Or.inl ⟨rfl, by omega, b, c⟩
      · rintro (⟨-, a, b, c⟩ | h)
        · exact ⟨by omega, b, c⟩
        · exact absurd h.1 (by decide)
  rw [if_neg h10]
  by_cases h90 : ft = 0x90
  · subst h90
    rw [if_pos rfl]
    by_cases hsz : frameSize ≤ 2 + 1 + 8 + 2 + 1 + 1
    · rw [if_pos hsz]
      constructor
      · rintro ⟨c1, h⟩
        simp at h
      · rintro (h | h)
        · exact absurd h.1 (by decide)
        · omega
    · rw [if_neg hsz]
      by_cases haddr : (frame.drop (2 + 1)).take 8 ≠ c.host.xbs.xbee_address.take 8
      · rw [if_pos haddr]
        constructor
        · rintro ⟨c1, h⟩
          simp at h
        · rintro (h | h)
          · exact absurd h.1 (by decide)
          · exact absurd h.2.2.1 haddr
      · rw [if_neg haddr, processData_ret_zero]
        rw [ne_eq, not_not] at haddr
        constructor
        · rintro ⟨a, b, c⟩
          exact Or.inr ⟨rfl, by omega, haddr, b, c⟩
        · rintro (h | ⟨-, a, -, b, c⟩)
          · exact absurd h.1 (by decide)
          · exact ⟨by omega, b, c⟩
  · rw [if_neg h90]
    constructor
    · rintro ⟨c1, h⟩
      simp at h
    · rintro (h | h)
      · exact absurd h.1 h10
      · exact absurd h.1 h90

theorem pollByte_ret_zero (seq : Byte) (c c1 : PollCfg) (b : Byte)
    (h : pollByte false (seq.val : Int) (-1) c b = .done (.ret 0) c1) :
    ∃ frame frameSize, parseByte c.st b = .complete frame frameSize ∧ frameChecksum frame = 0 ∧
      IsAckFor c.host.xbs frame frameSize seq := by
  unfold pollByte at h
  split at h
  · simp at h
  · rename_i frame frameSize hp
    refine ⟨frame, frameSize, hp, ?_⟩
    by_cases hc : frameChecksum frame ≠ 0
    · simp [hc] at h
    · rw [ne_eq, not_not] at hc
      simp only [hc, ne_eq, not_true_eq_false, if_false] at h
      exact ⟨hc, (processFrame_ret_zero seq { c with st := .beforeFrame } frame frameSize).mp ⟨c1, h⟩⟩

theorem pollLoop_ret_zero (seq : Byte) (c : PollCfg) (input : List (Option Byte))
    (h : (pollLoop false (seq.val : Int) (-1) c input).outcome = .ret 0) :
    ∃ q b c1 frame frameSize,
      input = q.map some ++ some b :: (pollLoop false (seq.val : Int) (-1) c input).rest ∧
      pollRun false (seq.val : Int) (-1) c q = some c1 ∧
      parseByte c1.st b = .complete frame frameSize ∧ frameChecksum frame = 0 ∧
      IsAckFor c1.host.xbs frame frameSize seq := by
  induction input generalizing c with
  | nil => simp [pollLoop] at h
  | cons e input ih =>
    cases e with
    | none => simp [pollLoop] at h
    | some b =>
      simp only [pollLoop] at h ⊢
      cases hb : pollByte false (seq.val : Int) (-1) c b with
      | running c2 =>
        rw [hb] at h
        simp only [hb]
        obtain ⟨q, b1, c1, frame, fs, h1, h2, h3⟩ := ih c2 h
        refine ⟨b :: q, b1, c1, frame, fs, ?_, ?_, h3⟩
        · rw [List.map_cons, List.cons_append, ← h1]
        · simp only [pollRun, hb, h2]
      | done o c2 =>
        rw [hb] at h
        simp only [hb]
        simp only at h
        subst h
        obtain ⟨frame, fs, h3⟩ := pollByte_ret_zero seq c c2 b hb
        exact ⟨[], b, c, frame, fs, by simp, rfl, h3⟩

/-! ### The frames of `sendPacket` -/

theorem toUChar_val_cast (b : Byte) : toUChar (b.val : Int) = b := by
  apply Fin.ext
  rw [toUChar_val]
  omega

theorem optionalByte_val (b : Byte) : optionalByte (b.val : Int) = [b] := by
  unfold optionalByte
  rw [if_pos (by omega), toUChar_val_cast]

theorem optionalByte_length (x : Int) : (optionalByte x).length ≤ 1 := by
  unfold optionalByte; split <;> simp

theorem escapeBytes_length_le (x : List Byte) : (escapeBytes x).length ≤ 2 * x.length := by
  induction x with
  | nil => simp [escapeBytes]
  | cons b x ih =>
    rw [escapeBytes_cons, List.length_append, List.length_cons]
    have := escapeByte_length_le b
    omega

theorem appMessage_apiFrame (dm : Bool) (hdr msg : List Byte)
    (hh : hdr.length = if dm then 12 else 14) :
    appMessage dm (apiFrame (hdr ++ msg)) = msg := by
  unfold appMessage apiFrame
  rw [List.tail_cons, ← escapeBytes_append, ← escapeBytes_append, unescape_escapeBytes]
  simp only [List.cons_append, List.nil_append, List.drop_succ_cons, List.drop_zero]
  rw [List.dropLast_concat, ← hh, List.drop_left]

theorem sendAPIRequest_of_fit (xbs : XBeeBootSession) (apiType : Byte)
    (apiOption prePayload1 prePayload2 packetType sequence appType : Int) (data : List Byte)
    (hfit : 5 + (escapeBytes (apiPayload xbs apiType apiOption prePayload1 prePayload2
        packetType sequence appType data) ++
      escapeBytes [checksumByte (apiPayload xbs apiType apiOption prePayload1 prePayload2
        packetType sequence appType data)]).length ≤ 256) :
    sendAPIRequest xbs apiType apiOption prePayload1 prePayload2 packetType sequence appType data
        = some (apiFrame (apiPayload xbs apiType apiOption prePayload1 prePayload2 packetType
            sequence appType data)) := by
  rw [sendAPIRequest_eq]
  simp only [hfit, if_true, apiFrame, natCast_eq_toUChar]

theorem packetPayload_eq (xbs : XBeeBootSession) (tx pt seq : Byte) (appType : Int)
    (data : List Byte) :
    ∃ hdr : List Byte, (hdr.length = if xbs.directMode then 12 else 14) ∧
      apiPayload xbs (if xbs.directMode then 0x90 else 0x10) (tx.val : Int)
        (if xbs.directMode then -1 else 0) (if xbs.directMode then -1 else 0)
        (pt.val : Int) (seq.val : Int) appType data
        = hdr ++ ([pt, seq] ++ optionalByte appType ++ data) := by
  cases hdm : xbs.directMode
  · refine ⟨[0x10, tx] ++ (List.range 10).map (fun index => xbs.xbee_address.getD index 0) ++
      [0, 0], by simp, ?_⟩
    have h0 : optionalByte 0 = [0] := by decide
    simp [apiPayload, optionalByte_val, h0]
  · refine ⟨[0x90, tx] ++ (List.range 10).map (fun index => xbs.xbee_address.getD index 0),
      by simp, ?_⟩
    have h1 : optionalByte (-1) = [] := by decide
    simp [apiPayload, optionalByte_val, h1]

theorem sendPacket_eq (h : Host) (pt seq : Byte) (appType : Int) (data : List Byte)
    (hlen : data.length ≤ 64) :
    ∃ wire, sendPacket h pt seq appType data
        = some { h with txSequence := nextSequence h.txSequence, sent := h.sent ++ [wire] } ∧
      appMessage h.xbs.directMode wire = [pt, seq] ++ optionalByte appType ++ data := by
  obtain ⟨hdr, hh, hp⟩ := packetPayload_eq h.xbs (nextSequence h.txSequence) pt seq appType data
  have hfit : 5 + (escapeBytes (hdr ++ ([pt, seq] ++ optionalByte appType ++ data)) ++
      escapeBytes [checksumByte (hdr ++ ([pt, seq] ++ optionalByte appType ++ data))]).length
      ≤ 256 := by
    have h1 := escapeBytes_length_le (hdr ++ ([pt, seq] ++ optionalByte appType ++ data))
    have h2 := escapeBytes_length_le
      [checksumByte (hdr ++ ([pt, seq] ++ optionalByte appType ++ data))]
    have h3 := optionalByte_length appType
    have h4 : hdr.length ≤ 14 := by rw [hh]; split <;> omega
    simp only [List.length_append, List.length_cons, List.length_nil] at h1 h2 ⊢
    omega
  refine ⟨apiFrame (hdr ++ ([pt, seq] ++ optionalByte appType ++ data)), ?_,
    appMessage_apiFrame _ hdr _ hh⟩
  unfold sendPacket
  simp only []
  rw [sendAPIRequest_of_fit _ _ _ _ _ _ _ _ _ (by rw [hp]; exact hfit), hp]

/-! ### What a poll leaves unchanged -/

theorem HostExt.refl (h : Host) : HostExt h h :=
  ⟨rfl, rfl, [], by simp, by simp⟩

theorem HostExt.trans {h h1 h2 : Host} (a : HostExt h h1) (b : HostExt h1 h2) : HostExt h h2 := by
  obtain ⟨a1, a2, ea, a3, a4⟩ := a
  obtain ⟨b1, b2, eb, b3, b4⟩ := b
  refine ⟨b1.trans a1, b2.trans a2, ea ++ eb, by rw [b3, a3, List.append_assoc], ?_⟩
  intro e he
  rcases List.mem_append.mp he with h' | h'
  · exact a4 e h'
  · rw [← a1]; exact b4 e h'

theorem HostExt.of_xbs (h : Host) (xbs : XBeeBootSession)
    (h1 : xbs.directMode = h.xbs.directMode) (h2 : xbs.outSequence = h.xbs.outSequence) :
    HostExt h { h with xbs := xbs } :=
  ⟨h1, h2, [], by simp, by simp⟩

theorem deliver_same (xbs xbs1 : XBeeBootSession) (buflen buflen1 : Nat)
    (written written1 text : List Byte)
    (h : deliver xbs buflen written text = some (xbs1, buflen1, written1)) :
    xbs1.directMode = xbs.directMode ∧ xbs1.outSequence = xbs.outSequence := by
  induction text generalizing xbs buflen written with
  | nil =>
    simp only [deliver, Option.some.injEq, Prod.mk.injEq] at h
    rw [← h.1]; simp
  | cons b text ih =>
    simp only [deliver] at h
    split_ifs at h
    all_goals
      have h1 := ih _ _ _ h
      exact h1

theorem sendPacket_ack_ext (h h1 : Host) (seq : Byte)
    (hs : sendPacket h 0 seq (-1) [] = some h1) : HostExt h h1 := by
  obtain ⟨wire, hw, hm⟩ := sendPacket_eq h 0 seq (-1) [] (by simp)
  rw [hw] at hs
  simp only [Option.some.injEq] at hs
  subst hs
  refine ⟨rfl, rfl, [wire], rfl, ?_⟩
  intro e he
  rw [List.mem_singleton] at he
  subst he
  rw [hm]
  have : optionalByte (-1) = [] := by decide
  simp [isRequestDeliver, this]

theorem processData_ext (bufNonNull : Bool) (wa : Int) (c : PollCfg) (frame : List Byte)
    (dataStart dataLength : Nat) :
    HostExt c.host (processData bufNonNull wa c frame dataStart dataLength).cfg.host := by
  unfold processData
  dsimp only
  by_cases h2 : dataLength ≥ 2
  swap
  · rw [if_neg h2]; exact HostExt.refl _
  rw [if_pos h2]
  by_cases hp : frame.getD dataStart 0 = 0
  · rw [if_pos hp]
    split_ifs <;> exact HostExt.refl _
  rw [if_neg hp]
  by_cases hreq : frame.getD dataStart 0 = 1 ∧ dataLength ≥ 4 ∧ frame.getD (dataStart + 2) 0 = 24
  swap
  · rw [if_neg hreq]; exact HostExt.refl _
  rw [if_pos hreq]
  by_cases hseq : frame.getD (dataStart + 1) 0 = nextSequence c.host.xbs.inSequence
  swap
  · rw [if_neg hseq]; exact HostExt.refl _
  rw [if_pos hseq]
  cases hd : deliver { c.host.xbs with inSequence := nextSequence c.host.xbs.inSequence }
      c.buflen c.written ((frame.drop (dataStart + 3)).take (dataLength - 3)) with
  | none => exact HostExt.of_xbs _ _ rfl rfl
  | some res =>
    obtain ⟨xbs1, buflen1, written1⟩ := res
    have hsame := deliver_same _ _ _ _ _ _ _ hd
    simp only at hsame
    have e1 : HostExt c.host { c.host with xbs := xbs1 } := HostExt.of_xbs _ _ hsame.1 hsame.2
    dsimp only
    cases hsp : sendPacket { c.host with xbs := xbs1 } 0 (frame.getD (dataStart + 1) 0)
      (-1) [] with
    | none => exact e1
    | some h1 =>
      have e2 := sendPacket_ack_ext _ _ _ hsp
      dsimp only
      split_ifs <;> exact e1.trans e2

theorem processFrame_ext (bufNonNull : Bool) (wa ws : Int) (c : PollCfg) (frame : List Byte)
    (frameSize : Nat) :
    HostExt c.host (processFrame bufNonNull wa ws c frame frameSize).cfg.host := by
  unfold processFrame
  simp only []
  split_ifs
  all_goals try exact HostExt.refl _
  · exact processData_ext _ _ _ _ _ _
  · exact (HostExt.of_xbs c.host _ rfl rfl).trans (processData_ext _ _ _ _ _ _)
  · exact processData_ext _ _ _ _ _ _

theorem pollByte_ext (bufNonNull : Bool) (wa ws : Int) (c : PollCfg) (b : Byte) :
    HostExt c.host (pollByte bufNonNull wa ws c b).cfg.host := by
  unfold pollByte
  split
  · exact HostExt.refl _
  · simp only []
    split_ifs
    · exact HostExt.refl _
    · exact processFrame_ext _ _ _ { c with st := .beforeFrame } _ _

theorem pollLoop_ext (bufNonNull : Bool) (wa ws : Int) (c : PollCfg)
    (input : List (Option Byte)) :
    HostExt c.host (pollLoop bufNonNull wa ws c input).cfg.host := by
  induction input generalizing c with
  | nil => exact HostExt.refl _
  | cons e input ih =>
    cases e with
    | none => exact HostExt.refl _
    | some b =>
      simp only [pollLoop]
      have hb := pollByte_ext bufNonNull wa ws c b
      cases hpb : pollByte bufNonNull wa ws c b with
      | running c1 =>
        rw [hpb] at hb
        exact hb.trans (ih c1)
      | done o c1 =>
        rw [hpb] at hb
        exact hb

/-! ### The loops of `xbeedev_send` -/

theorem sendPacket_xbs (h h1 : Host) (pt seq : Byte) (appType : Int) (data : List Byte)
    (hs : sendPacket h pt seq appType data = some h1) : h1.xbs = h.xbs := by
  unfold sendPacket at hs
  dsimp only at hs
  split at hs
  · simp only [Option.some.injEq] at hs
    rw [← hs]
  · simp at hs

/-- Unfolding of one pass of the inner loop of `xbeedev_send`. -/
theorem sendBlock_succ (seq : Byte) (block : List Byte) (fuel : Nat) (h : Host)
    (input : List (Option Byte)) (r : SendResult)
    (hr : sendBlock seq block (fuel + 1) h input = some r) (h0 : r.outcome = .ret 0) :
    ∃ h1, sendPacket h 1 seq 23 block = some h1 ∧
      (((xbeedev_poll h1 false 0 (seq.val : Int) (-1) input).outcome = .ret 0 ∧
          r = { outcome := .ret 0,
                host := (xbeedev_poll h1 false 0 (seq.val : Int) (-1) input).cfg.host,
                rest := (xbeedev_poll h1 false 0 (seq.val : Int) (-1) input).rest }) ∨
        (∃ h2, h2.xbs = (xbeedev_poll h1 false 0 (seq.val : Int) (-1) input).cfg.host.xbs ∧
          sendBlock seq block fuel h2
            (xbeedev_poll h1 false 0 (seq.val : Int) (-1) input).rest = some r)) := by
  rw [sendBlock] at hr
  cases hsp : sendPacket h 1 seq 23 block with
  | none =>
    rw [hsp] at hr
    simp only [Option.some.injEq] at hr
    rw [← hr] at h0
    simp at h0
  | some h1 =>
    rw [hsp] at hr
    refine ⟨h1, rfl, ?_⟩
    dsimp only at hr
    cases ho : (xbeedev_poll h1 false 0 (seq.val : Int) (-1) input).outcome with
    | ret rc =>
      rw [ho] at hr
      dsimp only at hr
      by_cases hrc : rc = 0
      · rw [if_pos hrc] at hr
        simp only [Option.some.injEq] at hr
        left
        exact ⟨by rw [hrc], hr.symm⟩
      · rw [if_neg hrc] at hr
        right
        split_ifs at hr with hin
        · cases hsp2 : sendPacket (xbeedev_poll h1 false 0 (seq.val : Int) (-1) input).cfg.host 0
            (xbeedev_poll h1 false 0 (seq.val : Int) (-1) input).cfg.host.xbs.inSequence (-1) []
            with
          | none =>
            rw [hsp2] at hr
            simp only [Option.some.injEq] at hr
            rw [← hr] at h0
            simp at h0
          | some h2 =>
            rw [hsp2] at hr
            exact ⟨h2, sendPacket_xbs _ _ _ _ _ _ hsp2, hr⟩
        · exact ⟨_, rfl, hr⟩
    | exit st =>
      rw [ho] at hr
      simp only [Option.some.injEq] at hr
      rw [← hr] at h0
      simp at h0
    | undefined =>
      rw [ho] at hr
      simp only [Option.some.injEq] at hr
      rw [← hr] at h0
      simp at h0

theorem sendBlock_released (seq : Byte) (block : List Byte) (fuel : Nat) (h : Host)
    (input : List (Option Byte)) (r : SendResult)
    (hr : sendBlock seq block fuel h input = some r) (h0 : r.outcome = .ret 0) :
    ∃ h1 input1,
      (xbeedev_poll h1 false 0 (seq.val : Int) (-1) input1).outcome = .ret 0 ∧
      r.host = (xbeedev_poll h1 false 0 (seq.val : Int) (-1) input1).cfg.host ∧
      r.rest = (xbeedev_poll h1 false 0 (seq.val : Int) (-1) input1).rest ∧
      h1.xbs.outSequence = h.xbs.outSequence ∧ h1.xbs.directMode = h.xbs.directMode := by
  induction fuel generalizing h input with
  | zero => simp [sendBlock] at hr
  | succ fuel ih =>
    obtain ⟨h1, hsp, hcase⟩ := sendBlock_succ seq block fuel h input r hr h0
    have hx := sendPacket_xbs _ _ _ _ _ _ hsp
    rcases hcase with ⟨hp, hreq⟩ | ⟨h2, hx2, hrec⟩
    · refine ⟨h1, input, hp, ?_, ?_, by rw [hx], by rw [hx]⟩
      · rw [hreq]
      · rw [hreq]
    · obtain ⟨h3, input3, a, b, c, d, e⟩ := ih h2 _ hrec
      have hext := pollLoop_ext false (seq.val : Int) (-1)
        { st := .beforeFrame, host := h1, buflen := 0, written := [] } input
      refine ⟨h3, input3, a, b, c, ?_, ?_⟩
      · rw [d, hx2]
        exact hext.2.1.trans (by rw [hx])
      · rw [e, hx2]
        exact hext.1.trans (by rw [hx])

theorem sendBlock_same (seq : Byte) (block : List Byte) (fuel : Nat) (h : Host)
    (input : List (Option Byte)) (r : SendResult)
    (hr : sendBlock seq block fuel h input = some r) (h0 : r.outcome = .ret 0) :
    r.host.xbs.outSequence = h.xbs.outSequence ∧ r.host.xbs.directMode = h.xbs.directMode := by
  obtain ⟨h1, input1, -, b, -, d, e⟩ := sendBlock_released seq block fuel h input r hr h0
  have hext := pollLoop_ext false (seq.val : Int) (-1)
    { st := .beforeFrame, host := h1, buflen := 0, written := [] } input1
  rw [b]
  exact ⟨hext.2.1.trans d, hext.1.trans e⟩

theorem take_blockLength (buf : List Byte) :
    buf.take (if buf.length > 64 then 64 else buf.length) = buf.take 64 ∧
    buf.drop (if buf.length > 64 then 64 else buf.length) = buf.drop 64 := by
  split_ifs with h
  · exact ⟨rfl, rfl⟩
  · rw [List.take_of_length_le (le_refl _), List.take_of_length_le (by omega),
      List.drop_of_length_le (le_refl _), List.drop_of_length_le (by omega)]
    exact ⟨rfl, rfl⟩

/-- Unfolding of one pass of the outer loop of `xbeedev_send`. -/
theorem sendLoop_succ (fuel n : Nat) (h : Host) (b : Byte) (buf : List Byte)
    (input : List (Option Byte)) (r : SendResult)
    (hr : sendLoop fuel (n + 1) h (b :: buf) input = some r) (h0 : r.outcome = .ret 0) :
    ∃ r1, sendBlock (nextSequence h.xbs.outSequence) ((b :: buf).take 64) fuel
        { h with xbs := { h.xbs with outSequence := nextSequence h.xbs.outSequence } } input
        = some r1 ∧ r1.outcome = .ret 0 ∧
      sendLoop fuel n r1.host ((b :: buf).drop 64) r1.rest = some r := by
  rw [sendLoop] at hr
  dsimp only at hr
  rw [(take_blockLength (b :: buf)).1, (take_blockLength (b :: buf)).2] at hr
  cases hsb : sendBlock (nextSequence h.xbs.outSequence) ((b :: buf).take 64) fuel
      { h with xbs := { h.xbs with outSequence := nextSequence h.xbs.outSequence } } input with
  | none => rw [hsb] at hr; simp at hr
  | some r1 =>
    rw [hsb] at hr
    dsimp only at hr
    cases ho : r1.outcome with
    | ret rc =>
      rw [ho] at hr
      dsimp only at hr
      refine ⟨r1, rfl, ?_, hr⟩
      -- the inner loop only ever returns 0
      cases fuel with
      | zero => simp [sendBlock] at hsb
      | succ fuel =>
        rw [ho]
        congr 1
        clear hr h0
        generalize ({ h with xbs := { h.xbs with outSequence := nextSequence h.xbs.outSequence } }
          : Host) = hh at hsb
        induction fuel generalizing hh input with
        | zero =>
          rw [sendBlock] at hsb
          split at hsb
          · simp only [Option.some.injEq] at hsb; rw [← hsb] at ho; simp at ho
          · dsimp only at hsb
            split at hsb
            · split_ifs at hsb
              · simp only [Option.some.injEq] at hsb; rw [← hsb] at ho; simpa using ho.symm
              · split at hsb
                · simp only [Option.some.injEq] at hsb; rw [← hsb] at ho; simp at ho
                · simp [sendBlock] at hsb
              · simp [sendBlock] at hsb
            · rename_i o hne
              simp only [Option.some.injEq] at hsb
              rw [← hsb] at ho
              simp only at ho
              exact absurd ho (by intro hc; exact hne rc hc)
        | succ fuel ih =>
          rw [sendBlock] at hsb
          split at hsb
          · simp only [Option.some.injEq] at hsb; rw [← hsb] at ho; simp at ho
          · dsimp only at hsb
            split at hsb
            · split_ifs at hsb
              · simp only [Option.some.injEq] at hsb; rw [← hsb] at ho; simpa using ho.symm
              · split at hsb
                · simp only [Option.some.injEq] at hsb; rw [← hsb] at ho; simp at ho
                · exact ih _ _ hsb
              · exact ih _ _ hsb
            · rename_i o hne
              simp only [Option.some.injEq] at hsb
              rw [← hsb] at ho
              simp only at ho
              exact absurd ho (by intro hc; exact hne rc hc)
    | exit st =>
      rw [ho] at hr
      simp only [Option.some.injEq] at hr
      rw [← hr] at h0
      simp at h0
    | undefined =>
      rw [ho] at hr
      simp only [Option.some.injEq] at hr
      rw [← hr] at h0
      simp at h0

theorem pollLoop_rest_suffix (bufNonNull : Bool) (wa ws : Int) (c : PollCfg)
    (input : List (Option Byte)) :
    (pollLoop bufNonNull wa ws c input).rest <:+ input := by
  induction input generalizing c with
  | nil => exact List.suffix_refl _
  | cons e input ih =>
    cases e with
    | none => exact List.suffix_cons _ _
    | some b =>
      simp only [pollLoop]
      cases hpb : pollByte bufNonNull wa ws c b with
      | running c1 => exact (ih c1).trans (List.suffix_cons _ _)
      | done o c1 => exact List.suffix_cons _ _

theorem sendBlock_ack (seq : Byte) (block : List Byte) (fuel : Nat) (h : Host)
    (input : List (Option Byte)) (r : SendResult)
    (hr : sendBlock seq block fuel h input = some r) (h0 : r.outcome = .ret 0) :
    r.rest <:+ input ∧
    ∃ h1 input1 q b c1 frame frameSize,
      input1 <:+ input ∧ input1 = q.map some ++ some b :: r.rest ∧
      h1.xbs.outSequence = h.xbs.outSequence ∧
      pollRun false (seq.val : Int) (-1)
        { st := .beforeFrame, host := h1, buflen := 0, written := [] } q = some c1 ∧
      parseByte c1.st b = .complete frame frameSize ∧ frameChecksum frame = 0 ∧
      IsAckFor c1.host.xbs frame frameSize seq := by
  induction fuel generalizing h input with
  | zero => simp [sendBlock] at hr
  | succ fuel ih =>
    obtain ⟨h1, hsp, hcase⟩ := sendBlock_succ seq block fuel h input r hr h0
    have hx := sendPacket_xbs _ _ _ _ _ _ hsp
    have hsuf := pollLoop_rest_suffix false (seq.val : Int) (-1)
      { st := .beforeFrame, host := h1, buflen := 0, written := [] } input
    rcases hcase with ⟨hp, hreq⟩ | ⟨h2, hx2, hrec⟩
    · obtain ⟨q, b, c1, frame, fs, e1, e2, e3⟩ := pollLoop_ret_zero seq _ input hp
      have hrest : r.rest = (xbeedev_poll h1 false 0 (seq.val : Int) (-1) input).rest := by
        rw [hreq]
      refine ⟨by rw [hrest]; exact hsuf, h1, input, q, b, c1, frame, fs, List.suffix_refl _, ?_,
        by rw [hx], e2, e3⟩
      rw [hrest]
      exact e1
    · obtain ⟨s1, h3, input3, q, b, c1, frame, fs, a1, a2, a3, a4⟩ := ih h2 _ hrec
      have hext := pollLoop_ext false (seq.val : Int) (-1)
        { st := .beforeFrame, host := h1, buflen := 0, written := [] } input
      refine ⟨s1.trans hsuf, h3, input3, q, b, c1, frame, fs, a1.trans hsuf, a2, ?_, a4⟩
      rw [a3, hx2]
      exact hext.2.1.trans (by rw [hx])

theorem chunks_succ (len : Nat) (h : 0 < len) :
    (len + 63) / 64 = ((len - 64) + 63) / 64 + 1 := by omega

theorem sendLoop_outSequence (fuel n : Nat) (h : Host) (buf : List Byte)
    (input : List (Option Byte)) (r : SendResult)
    (hr : sendLoop fuel n h buf input = some r) (h0 : r.outcome = .ret 0)
    (hn : buf.length ≤ n) :
    r.host.xbs.outSequence = nextSequence^[(buf.length + 63) / 64] h.xbs.outSequence ∧
      r.host.xbs.directMode = h.xbs.directMode := by
  induction n generalizing h buf input with
  | zero =>
    have : buf = [] := List.eq_nil_of_length_eq_zero (by omega)
    subst this
    simp only [sendLoop, Option.some.injEq] at hr
    rw [← hr]
    exact ⟨rfl, rfl⟩
  | succ n ih =>
    cases buf with
    | nil =>
      simp only [sendLoop, Option.some.injEq] at hr
      rw [← hr]
      exact ⟨rfl, rfl⟩
    | cons b buf =>
      obtain ⟨r1, hsb, ho, hrec⟩ := sendLoop_succ fuel n h b buf input r hr h0
      have hsame := sendBlock_same _ _ _ _ _ _ hsb ho
      dsimp only at hsame
      have hlen : ((b :: buf).drop 64).length ≤ n := by
        rw [List.length_drop]; simp only [List.length_cons] at hn ⊢; omega
      obtain ⟨i1, i2⟩ := ih r1.host _ r1.rest hrec hlen
      refine ⟨?_, i2.trans hsame.2⟩
      rw [i1, hsame.1, List.length_drop, chunks_succ (b :: buf).length (by simp),
        Function.iterate_succ_apply]

theorem sendLoop_acks (fuel n : Nat) (h : Host) (buf : List Byte)
    (input : List (Option Byte)) (r : SendResult)
    (hr : sendLoop fuel n h buf input = some r) (h0 : r.outcome = .ret 0)
    (hn : buf.length ≤ n) :
    r.rest <:+ input ∧
    ∀ i, i < (buf.length + 63) / 64 →
      ∃ h1 input1 rest1 q b c1 frame frameSize,
        input1 <:+ input ∧ input1 = q.map some ++ some b :: rest1 ∧
        h1.xbs.outSequence = nextSequence^[i + 1] h.xbs.outSequence ∧
        pollRun false ((nextSequence^[i + 1] h.xbs.outSequence).val : Int) (-1)
          { st := .beforeFrame, host := h1, buflen := 0, written := [] } q = some c1 ∧
        parseByte c1.st b = .complete frame frameSize ∧ frameChecksum frame = 0 ∧
        IsAckFor c1.host.xbs frame frameSize (nextSequence^[i + 1] h.xbs.outSequence) := by
  induction n generalizing h buf input with
  | zero =>
    have : buf = [] := List.eq_nil_of_length_eq_zero (by omega)
    subst this
    simp only [sendLoop, Option.some.injEq] at hr
    rw [← hr]
    exact ⟨List.suffix_refl _, fun i hi => by simp at hi⟩
  | succ n ih =>
    cases buf with
    | nil =>
      simp only [sendLoop, Option.some.injEq] at hr
      rw [← hr]
      exact ⟨List.suffix_refl _, fun i hi => by simp at hi⟩
    | cons b buf =>
      obtain ⟨r1, hsb, ho, hrec⟩ := sendLoop_succ fuel n h b buf input r hr h0
      have hsame := sendBlock_same _ _ _ _ _ _ hsb ho
      dsimp only at hsame
      obtain ⟨s1, h1, input1, q, b1, c1, frame, fs, a1, a2, a3, a4⟩ :=
        sendBlock_ack _ _ _ _ _ _ hsb ho
      dsimp only at a3
      have hlen : ((b :: buf).drop 64).length ≤ n := by
        rw [List.length_drop]; simp only [List.length_cons] at hn ⊢; omega
      obtain ⟨s2, i2⟩ := ih r1.host _ r1.rest hrec hlen
      refine ⟨s2.trans s1, ?_⟩
      intro i hi
      cases i with
      | zero =>
        exact ⟨h1, input1, r1.rest, q, b1, c1, frame, fs, a1, a2, a3, a4⟩
      | succ i =>
        rw [chunks_succ (b :: buf).length (by simp)] at hi
        rw [List.length_drop] at i2
        obtain ⟨h2, input2, rest2, q2, b2, c2, frame2, fs2, e1, e2, e3, e4⟩ :=
          i2 i (by omega)
        rw [hsame.1, ← Function.iterate_succ_apply] at e3 e4
        exact ⟨h2, input2, rest2, q2, b2, c2, frame2, fs2, e1.trans s1, e2, e3, e4⟩

theorem sendBlock_mono (seq : Byte) (block : List Byte) (fuel k : Nat) (h : Host)
    (input : List (Option Byte)) (r : SendResult)
    (hr : sendBlock seq block fuel h input = some r) :
    sendBlock seq block (fuel + k) h input = some r := by
  induction fuel generalizing h input with
  | zero => simp [sendBlock] at hr
  | succ fuel ih =>
    rw [Nat.add_right_comm, sendBlock]
    rw [sendBlock] at hr
    split
    · rename_i hsp
      rw [hsp] at hr
      exact hr
    · rename_i h1 hsp
      rw [hsp] at hr
      dsimp only at hr ⊢
      split
      · rename_i rc ho
        rw [ho] at hr
        dsimp only at hr
        split_ifs at hr ⊢ with hrc hin
        · exact hr
        · split
          · rename_i hsp2
            rw [hsp2] at hr
            exact hr
          · rename_i h2 hsp2
            rw [hsp2] at hr
            exact ih _ _ hr
        · exact ih _ _ hr
      · rename_i o hne
        split at hr
        · rename_i rc ho
          exact absurd ho (hne rc)
        · exact hr

theorem sendLoop_mono (fuel k n : Nat) (h : Host) (buf : List Byte)
    (input : List (Option Byte)) (r : SendResult)
    (hr : sendLoop fuel n h buf input = some r) :
    sendLoop (fuel + k) n h buf input = some r := by
  induction n generalizing h buf input with
  | zero =>
    cases buf with
    | nil => simpa [sendLoop] using hr
    | cons b buf => simp [sendLoop] at hr
  | succ n ih =>
    cases buf with
    | nil => simpa [sendLoop] using hr
    | cons b buf =>
      rw [sendLoop] at hr ⊢
      dsimp only at hr ⊢
      cases hsb : sendBlock (nextSequence h.xbs.outSequence)
          ((b :: buf).take (if (b :: buf).length > 64 then 64 else (b :: buf).length)) fuel
          { h with xbs := { h.xbs with outSequence := nextSequence h.xbs.outSequence } } input
        with
      | none => rw [hsb] at hr; simp at hr
      | some r1 =>
        rw [hsb] at hr
        rw [sendBlock_mono _ _ fuel k _ _ r1 hsb]
        dsimp only at hr ⊢
        cases ho : r1.outcome with
        | ret rc =>
          rw [ho] at hr
          exact ih _ _ _ hr
        | exit st =>
          rw [ho] at hr
          exact hr
        | undefined =>
          rw [ho] at hr
          exact hr

theorem sendBlock_first (seq : Byte) (block : List Byte) (h : Host)
    (input : List (Option Byte)) (r : SendResult)
    (hr : sendBlock seq block 1 h input = some r) (h0 : r.outcome = .ret 0)
    (hlen : block.length ≤ 64) :
    ∃ wire extra, r.host.sent = h.sent ++ wire :: extra ∧
      appMessage h.xbs.directMode wire = [1, seq, 23] ++ block ∧
      (∀ e ∈ extra, isRequestDeliver (appMessage h.xbs.directMode e) = false) := by
  obtain ⟨h1, hsp, hcase⟩ := sendBlock_succ seq block 0 h input r hr h0
  rcases hcase with ⟨-, hreq⟩ | ⟨h2, -, hrec⟩
  swap
  · simp [sendBlock] at hrec
  obtain ⟨wire, hw, hm⟩ := sendPacket_eq h 1 seq 23 block hlen
  rw [hw] at hsp
  simp only [Option.some.injEq] at hsp
  have hext := pollLoop_ext false (seq.val : Int) (-1)
    { st := .beforeFrame, host := h1, buflen := 0, written := [] } input
  obtain ⟨-, -, extra, e1, e2⟩ := hext
  refine ⟨wire, extra, ?_, ?_, ?_⟩
  · rw [hreq]
    show (xbeedev_poll h1 false 0 (seq.val : Int) (-1) input).cfg.host.sent = _
    unfold xbeedev_poll
    rw [e1, ← hsp]
    simp
  · rw [hm]
    have : optionalByte 23 = [23] := by decide
    rw [this]
    rfl
  · rw [← hsp] at e2
    exact e2

theorem isRequestDeliver_request (seq : Byte) (block : List Byte) :
    isRequestDeliver ([1, seq, 23] ++ block) = true := by
  simp [isRequestDeliver]

theorem sendLoop_requests (n : Nat) (h : Host) (buf : List Byte)
    (input : List (Option Byte)) (r : SendResult)
    (hr : sendLoop 1 n h buf input = some r) (h0 : r.outcome = .ret 0)
    (hn : buf.length ≤ n) :
    ∃ added, r.host.sent = h.sent ++ added ∧
      (added.map (appMessage h.xbs.directMode)).filter isRequestDeliver
        = requestMessages n h.xbs.outSequence buf := by
  induction n generalizing h buf input with
  | zero =>
    have : buf = [] := List.eq_nil_of_length_eq_zero (by omega)
    subst this
    simp only [sendLoop, Option.some.injEq] at hr
    rw [← hr]
    exact ⟨[], by simp, by simp [requestMessages]⟩
  | succ n ih =>
    cases buf with
    | nil =>
      simp only [sendLoop, Option.some.injEq] at hr
      rw [← hr]
      exact ⟨[], by simp, by simp [requestMessages]⟩
    | cons b buf =>
      obtain ⟨r1, hsb, ho, hrec⟩ := sendLoop_succ 1 n h b buf input r hr h0
      have hsame := sendBlock_same _ _ _ _ _ _ hsb ho
      dsimp only at hsame
      obtain ⟨wire, extra, a1, a2, a3⟩ := sendBlock_first _ _ _ _ _ hsb ho
        (by rw [List.length_take]; omega)
      dsimp only at a1 a2 a3
      have hlen : ((b :: buf).drop 64).length ≤ n := by
        rw [List.length_drop]; simp only [List.length_cons] at hn ⊢; omega
      obtain ⟨added, i1, i2⟩ := ih r1.host _ r1.rest hrec hlen
      rw [hsame.1, hsame.2] at i2
      refine ⟨wire :: extra ++ added, ?_, ?_⟩
      · rw [i1, a1]; simp
      · have hnil : (extra.map (appMessage h.xbs.directMode)).filter isRequestDeliver = [] := by
          rw [List.filter_eq_nil_iff]
          intro m hm
          obtain ⟨e, he, rfl⟩ := List.mem_map.mp hm
          rw [a3 e he]
          simp
        rw [List.cons_append, List.map_cons, List.map_append, List.filter_cons, a2,
          isRequestDeliver_request, if_pos rfl, List.filter_append, hnil, List.nil_append, i2,
          requestMessages, (nextSequence_facts _).1]

theorem requestMessages_length (n : Nat) (s : Byte) (buf : List Byte) (hn : buf.length ≤ n) :
    (requestMessages n s buf).length = (buf.length + 63) / 64 := by
  induction n generalizing s buf with
  | zero =>
    have : buf = [] := List.eq_nil_of_length_eq_zero (by omega)
    subst this
    simp [requestMessages]
  | succ n ih =>
    cases buf with
    | nil => simp [requestMessages]
    | cons b buf =>
      have hlen : ((b :: buf).drop 64).length ≤ n := by
        rw [List.length_drop]; simp only [List.length_cons] at hn ⊢; omega
      rw [requestMessages, List.length_cons, ih _ _ hlen, List.length_drop,
        chunks_succ (b :: buf).length (by simp)]

theorem requestMessages_data (n : Nat) (s : Byte) (buf : List Byte) (hn : buf.length ≤ n) :
    ((requestMessages n s buf).map (List.drop 3)).flatten = buf := by
  induction n generalizing s buf with
  | zero =>
    have : buf = [] := List.eq_nil_of_length_eq_zero (by omega)
    subst this
    simp [requestMessages]
  | succ n ih =>
    cases buf with
    | nil => simp [requestMessages]
    | cons b buf =>
      have hlen : ((b :: buf).drop 64).length ≤ n := by
        rw [List.length_drop]; simp only [List.length_cons] at hn ⊢; omega
      rw [requestMessages, List.map_cons, List.flatten_cons, ih _ _ hlen]
      simp only [List.cons_append, List.nil_append, List.drop_succ_cons, List.drop_zero]
      exact List.take_append_drop 64 (b :: buf)

theorem requestMessages_sequences (n : Nat) (s : Byte) (buf : List Byte) (hn : buf.length ≤ n) :
    (requestMessages n s buf).map (fun m => m.getD 1 0)
      = (List.range ((buf.length + 63) / 64)).map (fun i => seqSucc^[i + 1] s) := by
  induction n generalizing s buf with
  | zero =>
    have : buf = [] := List.eq_nil_of_length_eq_zero (by omega)
    subst this
    simp [requestMessages]
  | succ n ih =>
    cases buf with
    | nil => simp [requestMessages]
    | cons b buf =>
      have hlen : ((b :: buf).drop 64).length ≤ n := by
        rw [List.length_drop]; simp only [List.length_cons] at hn ⊢; omega
      rw [requestMessages, List.map_cons, ih _ _ hlen, List.length_drop,
        chunks_succ (b :: buf).length (by simp), List.range_succ_eq_map, List.map_cons,
        List.map_map]
      simp only [List.cons_append, List.nil_append, List.getD_cons_succ, List.getD_cons_zero,
        Function.iterate_succ_apply, Function.iterate_zero, id_eq]
      rfl

theorem requestMessages_sizes (n : Nat) (s : Byte) (buf : List Byte) (hn : buf.length ≤ n) :
    (∀ m ∈ (requestMessages n s buf).dropLast, (m.drop 3).length = 64) ∧
    (∀ m ∈ (requestMessages n s buf).getLast?,
      (m.drop 3).length = buf.length - 64 * ((buf.length + 63) / 64 - 1)) := by
  induction n generalizing s buf with
  | zero =>
    have : buf = [] := List.eq_nil_of_length_eq_zero (by omega)
    subst this
    simp [requestMessages]
  | succ n ih =>
    cases buf with
    | nil => simp [requestMessages]
    | cons b buf =>
      have hlen : ((b :: buf).drop 64).length ≤ n := by
        rw [List.length_drop]; simp only [List.length_cons] at hn ⊢; omega
      obtain ⟨i1, i2⟩ := ih (seqSucc s) _ hlen
      rw [requestMessages]
      have hb : (b :: buf).length = buf.length + 1 := rfl
      have hhead : (([1, seqSucc s, 23] ++ (b :: buf).take 64).drop 3).length
          = min 64 (b :: buf).length := by
        simp only [List.cons_append, List.nil_append, List.drop_succ_cons, List.drop_zero,
          List.length_take]
      cases hrest : requestMessages n (seqSucc s) ((b :: buf).drop 64) with
      | nil =>
        have hl := requestMessages_length n (seqSucc s) _ hlen
        rw [hrest, List.length_drop] at hl
        simp only [List.length_nil] at hl
        constructor
        · simp
        · intro m hm
          simp only [List.getLast?_singleton, Option.mem_def, Option.some.injEq] at hm
          rw [← hm, hhead]
          omega
      | cons m1 ms =>
        have hl := requestMessages_length n (seqSucc s) _ hlen
        rw [hrest, List.length_drop] at hl
        simp only [List.length_cons] at hl
        rw [hrest] at i1 i2
        constructor
        · intro m hm
          rw [List.dropLast_cons₂, List.mem_cons] at hm
          rcases hm with rfl | hm
          · rw [hhead]; omega
          · exact i1 m hm
        · intro m hm
          rw [List.getLast?_cons_cons] at hm
          rw [i2 m hm, List.length_drop]
          omega

/-- C9. Host chunking.  `xbeedev_send 1` allows one transmission per chunk, so
the hypothesis says that the call returns 0 with every chunk acknowledged on
its first transmission; then it returns the same with any larger bound.  Among
the frames the call sends, those that carry a REQUEST(1) of type
FIRMWARE_DELIVER(23) are, in order, exactly the messages `[1, sequence, 23]
++ chunk` of `requestMessages`: there are `ceil(n/64)` of them, their data
fields concatenated equal the buffer, all but the last carry 64 data bytes, the
last carries `n - 64 * (ceil(n/64) - 1)`, and the `i`-th carries the sequence
obtained by `i` steps of the successor from the entry value of `outSequence`. -/
theorem host_chunking (h : Host) (buf : List Byte) (input : List (Option Byte))
    (r : SendResult) (hr : xbeedev_send 1 h buf input = some r) (h0 : r.outcome = .ret 0) :
    (∀ fuel, xbeedev_send (fuel + 1) h buf input = some r) ∧
      ((r.host.sent.drop h.sent.length).map (appMessage h.xbs.directMode)).filter
          isRequestDeliver = requestMessages buf.length h.xbs.outSequence buf ∧
      (requestMessages buf.length h.xbs.outSequence buf).length = (buf.length + 63) / 64 ∧
      ((requestMessages buf.length h.xbs.outSequence buf).map (List.drop 3)).flatten = buf ∧
      (∀ m ∈ (requestMessages buf.length h.xbs.outSequence buf).dropLast,
        (m.drop 3).length = 64) ∧
      (∀ m ∈ (requestMessages buf.length h.xbs.outSequence buf).getLast?,
        (m.drop 3).length = buf.length - 64 * ((buf.length + 63) / 64 - 1)) ∧
      (requestMessages buf.length h.xbs.outSequence buf).map (fun m => m.getD 1 0)
        = (List.range ((buf.length + 63) / 64)).map (fun i => seqSucc^[i + 1] h.xbs.outSequence)
    := by
  refine ⟨?_, ?_, requestMessages_length _ _ _ (le_refl _), requestMessages_data _ _ _ (le_refl _),
    (requestMessages_sizes _ _ _ (le_refl _)).1, (requestMessages_sizes _ _ _ (le_refl _)).2,
    requestMessages_sequences _ _ _ (le_refl _)⟩
  · intro fuel
    have := sendLoop_mono 1 fuel buf.length h buf input r hr
    rw [Nat.add_comm] at this
    exact this
  · obtain ⟨added, a1, a2⟩ := sendLoop_requests buf.length h buf input r hr h0 (le_refl _)
    rw [a1, List.drop_left, a2]

/-- Witness for C9: a 100-byte buffer with both chunks acknowledged at once gives
two REQUEST frames, with 64 and 36 data bytes and sequences 1 and 2. -/
theorem host_chunking_witness :
    ∃ r, xbeedev_send 1 initHost buffer100 (ackInput 1 ++ ackInput 2) = some r ∧
      r.outcome = .ret 0 ∧
      ((r.host.sent.drop 0).map (appMessage true)).filter isRequestDeliver
        = [[1, 1, 23] ++ buffer100.take 64, [1, 2, 23] ++ buffer100.drop 64] ∧
      (buffer100.take 64).length = 64 ∧ (buffer100.drop 64).length = 36 := by
  have hs : (xbeedev_send 1 initHost buffer100 (ackInput 1 ++ ackInput 2)).isSome = true := by
    decide
  obtain ⟨r, hr⟩ := Option.isSome_iff_exists.mp hs
  have ho : (xbeedev_send 1 initHost buffer100 (ackInput 1 ++ ackInput 2)).map (·.outcome)
      = some (.ret 0) := by decide
  rw [hr] at ho
  simp only [Option.map_some', Option.some.injEq] at ho
  refine ⟨r, hr, ho, ?_, by decide, by decide⟩
  exact (host_chunking initHost buffer100 _ r hr ho).2.1.trans (by decide)

/-- C10. Stop-and-wait on the host.  When `xbeedev_send` returns 0:
`outSequence` has been advanced exactly once per chunk, whatever the number of
retransmissions; for every chunk `i` a poll waiting for that chunk's sequence
`succ^(i+1)(s0)` (with `outSequence` equal to it) has read, from a suffix of
the input, bytes `q` followed by a byte `b` completing a checksum-valid frame
that is an application ACK for exactly that sequence.  And in such a poll
(`buf = NULL`, `waitForSequence = -1`) a checksum-valid frame makes
`xbeedev_poll` return 0 if and only if it is an ACK for the awaited sequence:
ACKs with another sequence, AT responses, transmit statuses and data frames do
not. -/
theorem stop_and_wait (fuel : Nat) (h : Host) (buf : List Byte) (input : List (Option Byte))
    (r : SendResult) (hr : xbeedev_send fuel h buf input = some r) (h0 : r.outcome = .ret 0) :
    r.host.xbs.outSequence = nextSequence^[(buf.length + 63) / 64] h.xbs.outSequence ∧
      (∀ i, i < (buf.length + 63) / 64 →
        ∃ h1 input1 rest1 q b c1 frame frameSize,
          input1 <:+ input ∧ input1 = q.map some ++ some b :: rest1 ∧
          h1.xbs.outSequence = nextSequence^[i + 1] h.xbs.outSequence ∧
          pollRun false ((nextSequence^[i + 1] h.xbs.outSequence).val : Int) (-1)
            { st := .beforeFrame, host := h1, buflen := 0, written := [] } q = some c1 ∧
          parseByte c1.st b = .complete frame frameSize ∧ frameChecksum frame = 0 ∧
          IsAckFor c1.host.xbs frame frameSize (nextSequence^[i + 1] h.xbs.outSequence)) ∧
      (∀ (seq : Byte) (c : PollCfg) (frame : List Byte) (frameSize : Nat),
        (∃ c1, processFrame false (seq.val : Int) (-1) c frame frameSize = .done (.ret 0) c1) ↔
          IsAckFor c.host.xbs frame frameSize seq) :=
  ⟨(sendLoop_outSequence fuel buf.length h buf input r hr h0 (le_refl _)).1,
    (sendLoop_acks fuel buf.length h buf input r hr h0 (le_refl _)).2,
    processFrame_ret_zero⟩

/-- Witness for C10: a timeout, an ACK for the wrong sequence 5, another timeout
and then the ACK for sequence 1: three transmissions, `outSequence` ends at 1. -/
theorem stop_and_wait_witness :
    ∃ r, xbeedev_send 3 initHost [0x30, 0x20]
        (none :: ackInput 5 ++ none :: ackInput 1) = some r ∧
      r.outcome = .ret 0 ∧ r.host.xbs.outSequence = 1 ∧ r.host.sent.length = 3 := by
  have hs : (xbeedev_send 3 initHost [0x30, 0x20]
      (none :: ackInput 5 ++ none :: ackInput 1)).isSome = true := by decide
  obtain ⟨r, hr⟩ := Option.isSome_iff_exists.mp hs
  have ho : (xbeedev_send 3 initHost [0x30, 0x20]
      (none :: ackInput 5 ++ none :: ackInput 1)).map
        (fun r => (r.outcome, r.host.sent.length)) = some (.ret 0, 3) := by decide
  rw [hr] at ho
  simp only [Option.map_some', Option.some.injEq, Prod.mk.injEq] at ho
  refine ⟨r, hr, ho.1, ?_, ho.2⟩
  rw [(stop_and_wait 3 initHost [0x30, 0x20] _ r hr ho.1).1]
  decide

end Xbee

namespace Xbee

/-! ## C11: acceptance of a data frame by the host -/

theorem ring_push (xbs : XBeeBootSession) (data : Byte) (inIn : Nat) (hok : RingOk xbs)
    (hroom : (ringPending xbs).length < 255)
    (hin : inIn = if xbs.inInIndex + 1 = 256 then 0 else xbs.inInIndex + 1) :
    inIn ≠ xbs.inOutIndex ∧
      RingOk { xbs with inBuffer := xbs.inBuffer.set xbs.inInIndex data, inInIndex := inIn } ∧
      ringPending { xbs with inBuffer := xbs.inBuffer.set xbs.inInIndex data, inInIndex := inIn }
        = ringPending xbs ++ [data] := by
  obtain ⟨hl, hi, ho⟩ := hok
  simp only [ringPending, List.length_map, List.length_range] at hroom
  have hin1 : inIn = (xbs.inInIndex + 1) % 256 := by
    rw [hin]; split <;> omega
  clear hin
  refine ⟨by omega, ⟨by simp [hl], by show inIn < 256; omega, ho⟩, ?_⟩
  have hn : (inIn + 256 - xbs.inOutIndex) % 256
      = (xbs.inInIndex + 256 - xbs.inOutIndex) % 256 + 1 := by omega
  show (List.range ((inIn + 256 - xbs.inOutIndex) % 256)).map
      (fun j => (xbs.inBuffer.set xbs.inInIndex data).getD ((xbs.inOutIndex + j) % 256) 0)
    = ringPending xbs ++ [data]
  rw [hn, List.range_succ, List.map_append, ringPending]
  congr 1
  · apply List.map_congr_left
    intro j hj
    rw [List.mem_range] at hj
    simp only [List.getD_eq_getElem?_getD]
    rw [List.getElem?_set_ne (by omega)]
  · simp only [List.map_cons, List.map_nil, List.getD_eq_getElem?_getD]
    have : (xbs.inOutIndex + (xbs.inInIndex + 256 - xbs.inOutIndex) % 256) % 256
        = xbs.inInIndex := by omega
    rw [this, List.getElem?_set_self (by omega)]
    rfl

theorem deliver_room (text : List Byte) : ∀ (xbs : XBeeBootSession) (buflen : Nat)
    (written : List Byte), RingOk xbs →
    (ringPending xbs).length + (text.drop buflen).length ≤ 255 →
    ∃ xbs1, deliver xbs buflen written text
        = some (xbs1, buflen - text.length, written ++ text.take buflen) ∧
      RingOk xbs1 ∧ ringPending xbs1 = ringPending xbs ++ text.drop buflen ∧
      xbs1.xbee_address = xbs.xbee_address ∧ xbs1.inSequence = xbs.inSequence ∧
      xbs1.inOutIndex = xbs.inOutIndex ∧ xbs1.directMode = xbs.directMode ∧
      xbs1.outSequence = xbs.outSequence := by
  induction text with
  | nil =>
    intro xbs buflen written hok _
    exact ⟨xbs, by simp [deliver], hok, by simp, rfl, rfl, rfl, rfl, rfl⟩
  | cons b text ih =>
    intro xbs buflen written hok hroom
    by_cases hb : buflen > 0
    · obtain ⟨k, rfl⟩ : ∃ k, buflen = k + 1 := ⟨buflen - 1, by omega⟩
      simp only [List.drop_succ_cons] at hroom
      obtain ⟨xbs1, h1, h2⟩ := ih xbs k (written ++ [b]) hok hroom
      refine ⟨xbs1, ?_, ?_⟩
      · simp only [deliver, if_pos hb, Nat.add_sub_cancel, h1, List.length_cons,
          List.take_succ_cons, List.append_assoc, List.singleton_append, Nat.add_sub_add_right]
      · simpa only [List.drop_succ_cons] using h2
    · have hb0 : buflen = 0 := by omega
      subst hb0
      simp only [List.drop_zero, List.length_cons] at hroom
      obtain ⟨hne, hok1, hp1⟩ := ring_push xbs b _ hok (by omega) rfl
      obtain ⟨xbs1, h1, h2, h3, h4⟩ := ih _ 0 written hok1
        (by rw [hp1]; simp only [List.drop_zero, List.length_append, List.length_singleton]; omega)
      refine ⟨xbs1, ?_, h2, ?_, ?_⟩
      · simp only [deliver, if_neg hb, if_neg hne]
        simpa using h1
      · rw [h3, hp1]; simp
      · simpa using h4

theorem processData_accept (bufNonNull : Bool) (waitForAck : Int) (c : PollCfg)
    (frame : List Byte) (dataStart dataLength : Nat) (hdl : dataLength ≥ 4)
    (hreq : frame.getD dataStart 0 = 1)
    (hseq : frame.getD (dataStart + 1) 0 = nextSequence c.host.xbs.inSequence)
    (htype : frame.getD (dataStart + 2) 0 = 24)
    (hok : RingOk c.host.xbs)
    (hroom : (ringPending c.host.xbs).length +
      (((frame.drop (dataStart + 3)).take (dataLength - 3)).drop c.buflen).length ≤ 255) :
    ∃ c1 ack, processData bufNonNull waitForAck c frame dataStart dataLength
        = (if c1.buflen = 0 ∧ bufNonNull then .done (.ret 0) c1 else .running c1) ∧
      c1.host.xbs.inSequence = frame.getD (dataStart + 1) 0 ∧
      c1.written = c.written ++ ((frame.drop (dataStart + 3)).take (dataLength - 3)).take c.buflen ∧
      c1.buflen = c.buflen - ((frame.drop (dataStart + 3)).take (dataLength - 3)).length ∧
      ringPending c1.host.xbs = ringPending c.host.xbs ++
        ((frame.drop (dataStart + 3)).take (dataLength - 3)).drop c.buflen ∧
      c1.host.sent = c.host.sent ++ [ack] ∧
      appMessage c.host.xbs.directMode ack = [0, frame.getD (dataStart + 1) 0] ∧
      c1.host.xbs.xbee_address = c.host.xbs.xbee_address ∧ c1.st = c.st ∧
      RingOk c1.host.xbs := by
  obtain ⟨xbs1, hd, hok1, hring, haddr, hin, -, hdm, -⟩ :=
    deliver_room ((frame.drop (dataStart + 3)).take (dataLength - 3))
      { c.host.xbs with inSequence := nextSequence c.host.xbs.inSequence } c.buflen c.written
      hok hroom
  obtain ⟨wire, hw, hm⟩ := sendPacket_eq { c.host with xbs := xbs1 } 0
    (frame.getD (dataStart + 1) 0) (-1) [] (by simp)
  have hopt : optionalByte (-1) = [] := by decide
  refine ⟨⟨c.st, ⟨xbs1, nextSequence c.host.txSequence, c.host.sent ++ [wire]⟩,
      c.buflen - ((frame.drop (dataStart + 3)).take (dataLength - 3)).length,
      c.written ++ ((frame.drop (dataStart + 3)).take (dataLength - 3)).take c.buflen⟩,
    wire, ?_, ?_, rfl, rfl, hring, rfl, ?_, haddr, rfl, hok1⟩
  · unfold processData
    rw [if_pos (by omega)]
    simp only [hreq]
    rw [if_neg (by decide), if_pos ⟨trivial, hdl, htype⟩, if_pos hseq, hd]
    simp only [hw]
  · show xbs1.inSequence = _
    rw [hin, hseq]
  · rw [← hdm] 
    simpa [hopt] using hm

/-- C11 (amended). Host data acceptance: when the byte read by `xbeedev_poll`
completes a checksum-valid data frame (a 0x10 frame, or a 0x90 frame whose
64-bit source is the configured address) whose application part is REQUEST (1)
with sequence `succ(inSequence)`, type FIRMWARE_REPLY (24) and at least one
payload byte, and the payload bytes that do not fit in the caller's buffer fit
in the ring buffer without filling it (at most 255 bytes waiting afterwards),
then `inSequence` becomes that sequence, the payload goes in order to the
caller's buffer while it has room and the remainder is appended to the ring
buffer, and exactly one frame is sent, an ACK carrying that sequence; the poll
returns 0 exactly when the caller's buffer is non-null and now full. -/
theorem host_data_accept (bufNonNull : Bool) (waitForAck waitForSequence : Int) (c : PollCfg)
    (byte : Byte) (frame : List Byte) (frameSize dataStart : Nat)
    (hp : parseByte c.st byte = .complete frame frameSize)
    (hck : frameChecksum frame = 0)
    (hkind : (frame.getD 2 0 = 0x10 ∧ dataStart = 16) ∨
      (frame.getD 2 0 = 0x90 ∧ dataStart = 14 ∧
        (frame.drop 3).take 8 = c.host.xbs.xbee_address.take 8))
    (hsize : frameSize ≥ dataStart + 3 + 1 + 1)
    (hreq : frame.getD dataStart 0 = 1)
    (hseq : frame.getD (dataStart + 1) 0 = nextSequence c.host.xbs.inSequence)
    (htype : frame.getD (dataStart + 2) 0 = 24)
    (hok : RingOk c.host.xbs)
    (hroom : (ringPending c.host.xbs).length +
      ((dataText frame frameSize dataStart).drop c.buflen).length ≤ 255) :
    ∃ c1 ack, pollByte bufNonNull waitForAck waitForSequence c byte
        = (if c1.buflen = 0 ∧ bufNonNull then .done (.ret 0) c1 else .running c1) ∧
      c1.host.xbs.inSequence = frame.getD (dataStart + 1) 0 ∧
      c1.written = c.written ++ (dataText frame frameSize dataStart).take c.buflen ∧
      c1.buflen = c.buflen - (dataText frame frameSize dataStart).length ∧
      ringPending c1.host.xbs
        = ringPending c.host.xbs ++ (dataText frame frameSize dataStart).drop c.buflen ∧
      c1.host.sent = c.host.sent ++ [ack] ∧
      appMessage c.host.xbs.directMode ack = [0, frame.getD (dataStart + 1) 0] := by
  unfold pollByte
  rw [hp]
  simp only [hck, ne_eq, not_true_eq_false, if_false]
  unfold processFrame dataText at *
  rcases hkind with ⟨hft, rfl⟩ | ⟨hft, rfl, haddr⟩
  · generalize frame.getD 2 0 = ft at hft
    subst hft
    rw [if_neg (fun h => absurd h.1 (by decide)), if_neg (fun h => absurd h.1 (by decide)),
      if_neg (fun h => absurd h.1 (by decide)), if_pos rfl, if_neg (by omega)]
    obtain ⟨c1, ack, h1, h2, h3, h4, h5, h6, h7, -⟩ :=
      processData_accept bufNonNull waitForAck { c with st := .beforeFrame } frame 16
        (frameSize - 16 - 1) (by omega) hreq hseq htype hok
        (by rw [show frameSize - 16 - 1 - 3 = frameSize - 16 - 1 - 3 from rfl]; exact hroom)
    exact ⟨c1, ack, h1, h2, h3, h4, h5, h6, h7⟩
  · generalize frame.getD 2 0 = ft at hft
    subst hft
    rw [if_neg (fun h => absurd h.1 (by decide)), if_neg (fun h => absurd h.1 (by decide)),
      if_neg (fun h => absurd h.1 (by decide)), if_neg (by decide), if_pos rfl,
      if_neg (by omega), if_neg (not_not.mpr haddr)]
    dsimp only
    split_ifs
    · obtain ⟨c1, ack, h1, h2, h3, h4, h5, h6, h7, -⟩ :=
        processData_accept bufNonNull waitForAck
          { c with st := .beforeFrame, host := { c.host with xbs :=
            { c.host.xbs with xbee_address := c.host.xbs.xbee_address.take 8 ++
                (frame.drop (2 + 1 + 8)).take 2 } } } frame 14
          (frameSize - 14 - 1) (by omega) hreq hseq htype hok hroom
      exact ⟨c1, ack, h1, h2, h3, h4, h5, h6, h7⟩
    · obtain ⟨c1, ack, h1, h2, h3, h4, h5, h6, h7, -⟩ :=
        processData_accept bufNonNull waitForAck { c with st := .beforeFrame } frame 14
          (frameSize - 14 - 1) (by omega) hreq hseq htype hok hroom
      exact ⟨c1, ack, h1, h2, h3, h4, h5, h6, h7⟩


/-- Witness for C11: a fresh host that polls with room for one byte and reads the
last byte of a 0x10 frame carrying `[1, 1, 24, 0x41]` stores 0x41, sets
`inSequence` to 1, sends the ACK `[0, 1]` and returns 0. -/
theorem host_data_accept_witness :
    ∃ c1 ack, pollByte true (-1) (-1) (replyCfg 1) 0x93 = .done (.ret 0) c1 ∧
      c1.host.xbs.inSequence = 1 ∧ c1.written = [0x41] ∧ c1.host.sent = [ack] ∧
      appMessage true ack = [0, 1] := by
  obtain ⟨c1, ack, h1, h2, h3, h4, -, h6, h7⟩ :=
    host_data_accept true (-1) (-1) (replyCfg 1) 0x93 ([0, 18] ++ replyPayload 1 ++ [0x93]) 21 16
      (by decide) (by decide) (Or.inl ⟨by decide, rfl⟩) (by decide) (by decide) (by decide)
      (by decide) ⟨by decide, by decide, by decide⟩ (by decide)
  have hb : c1.buflen = 0 := by rw [h4]; decide
  rw [if_pos ⟨hb, rfl⟩] at h1
  exact ⟨c1, ack, h1, h2.trans (by decide), h3.trans (by decide), by rw [h6]; rfl, h7⟩

/-- Counterexample for C11 as stated: with 255 bytes waiting in the ring buffer
and no room in the caller's buffer, the checksum-valid frame carrying
`[1, 1, 24, 0x41]` with the expected sequence 1 ends the poll with `exit(1)` and
no ACK is sent; and a checksum-valid 0x90 frame with the same application part
from a 64-bit address other than the configured one is dropped: `inSequence`
stays 0, nothing is delivered and nothing is sent. -/
theorem host_data_accept_counterexample :
    frameChecksum ([0, 18] ++ replyPayload 1 ++ [checksumByte (replyPayload 1)]) = 0 ∧
    nextSequence fullHost.xbs.inSequence = 1 ∧
    (xbeedev_poll fullHost false 0 (-1) (-1) ((apiFrame (replyPayload 1)).map some)).outcome
      = .exit 1 ∧
    (xbeedev_poll fullHost false 0 (-1) (-1)
      ((apiFrame (replyPayload 1)).map some)).cfg.host.sent = [] ∧
    frameChecksum ([0, 16] ++ rxPayload 0x12 0x34 1 ++ [checksumByte (rxPayload 0x12 0x34 1)]) = 0 ∧
    (xbeedev_poll initHost true 1 (-1) (-1)
      ((apiFrame (rxPayload 0x12 0x34 1)).map some)).cfg.host.xbs.inSequence = 0 ∧
    (xbeedev_poll initHost true 1 (-1) (-1)
      ((apiFrame (rxPayload 0x12 0x34 1)).map some)).cfg.written = [] ∧
    (xbeedev_poll initHost true 1 (-1) (-1)
      ((apiFrame (rxPayload 0x12 0x34 1)).map some)).cfg.host.sent = [] := by
  decide

end Xbee

namespace Xbee

/-! ## C12: data frames out of sequence -/

theorem processData_other (bufNonNull : Bool) (waitForAck : Int) (c : PollCfg)
    (frame : List Byte) (dataStart dataLength : Nat)
    (hseq : frame.getD (dataStart + 1) 0 ≠ nextSequence c.host.xbs.inSequence) :
    (processData bufNonNull waitForAck c frame dataStart dataLength).cfg = c := by
  unfold processData
  dsimp only
  rw [if_neg hseq]
  split_ifs <;> rfl

/-- C12. Host duplicate handling: when the byte read by `xbeedev_poll` completes a
frame whose application sequence is not `succ(inSequence)`, the poll leaves
`inSequence` unchanged, stores no byte in the caller's buffer (`written` and
`buflen` unchanged) and none in the ring buffer (`inBuffer` and both indices
unchanged), and sends nothing. -/
theorem host_duplicate (bufNonNull : Bool) (waitForAck waitForSequence : Int) (c : PollCfg)
    (byte : Byte) (frame : List Byte) (frameSize : Nat)
    (hp : parseByte c.st byte = .complete frame frameSize)
    (hseq : dataSequence frame ≠ nextSequence c.host.xbs.inSequence) :
    (pollByte bufNonNull waitForAck waitForSequence c byte).cfg.host.xbs.inSequence
        = c.host.xbs.inSequence ∧
      (pollByte bufNonNull waitForAck waitForSequence c byte).cfg.written = c.written ∧
      (pollByte bufNonNull waitForAck waitForSequence c byte).cfg.buflen = c.buflen ∧
      (pollByte bufNonNull waitForAck waitForSequence c byte).cfg.host.xbs.inBuffer
        = c.host.xbs.inBuffer ∧
      (pollByte bufNonNull waitForAck waitForSequence c byte).cfg.host.xbs.inInIndex
        = c.host.xbs.inInIndex ∧
      (pollByte bufNonNull waitForAck waitForSequence c byte).cfg.host.xbs.inOutIndex
        = c.host.xbs.inOutIndex ∧
      (pollByte bufNonNull waitForAck waitForSequence c byte).cfg.host.sent = c.host.sent := by
  unfold pollByte
  rw [hp]
  dsimp only
  split_ifs with hck
  · simp [PollStep.cfg]
  unfold processFrame dataSequence at *
  dsimp only
  generalize frame.getD 2 0 = ft at hseq
  by_cases h10 : ft = 0x10
  · subst h10
    rw [if_pos rfl] at hseq
    rw [if_neg (fun h => absurd h.1 (by decide)), if_neg (fun h => absurd h.1 (by decide)),
      if_neg (fun h => absurd h.1 (by decide)), if_pos rfl]
    split_ifs
    · simp [PollStep.cfg]
    · rw [processData_other bufNonNull waitForAck { c with st := .beforeFrame } frame _ _ hseq]
      simp
  rw [if_neg h10] at hseq
  split_ifs
  all_goals first
    | (rw [processData_other _ _ _ _ _ _ (by exact hseq)]; simp)
    | simp [PollStep.cfg]

/-- Witness for C12: a fresh host (`inSequence` 0, expecting sequence 1) that
reads the last byte of a frame carrying `[1, 2, 24, 0x41]` keeps `inSequence` 0,
stores nothing and sends nothing. -/
theorem host_duplicate_witness :
    (pollByte true (-1) (-1) (duplicateCfg 1) 0x92).cfg.host.xbs.inSequence = 0 ∧
      (pollByte true (-1) (-1) (duplicateCfg 1) 0x92).cfg.written = [] ∧
      (pollByte true (-1) (-1) (duplicateCfg 1) 0x92).cfg.host.sent = [] :=
  have h := host_duplicate true (-1) (-1) (duplicateCfg 1) 0x92
    ([0, 18] ++ replyPayload 2 ++ [0x92]) 21 (by decide) (by decide)
  ⟨h.1, h.2.1, h.2.2.2.2.2.2⟩

end Xbee

namespace Xbee

/-! ## C13: the sequence numbers the host sends -/

theorem ackChain_append (a b : List (List Byte)) : ∀ s : Byte,
    ackChain s (a ++ b) = (ackChain s a).bind (fun e => ackChain e b) := by
  induction a with
  | nil => intro s; rfl
  | cons m a ih =>
    intro s
    simp only [List.cons_append, ackChain]
    split_ifs <;> simp [ih]

theorem ackChain_shape (msgs : List (List Byte)) : ∀ (s e : Byte),
    ackChain s msgs = some e → ∀ m ∈ msgs,
      (∃ q : Byte, q ≠ 0 ∧ m = [0, q]) ∨ (isRequestDeliver m = true ∧ m.getD 1 0 ≠ 0) := by
  induction msgs with
  | nil => intro s e _ m hm; simp at hm
  | cons m0 ms ih =>
    intro s e h m hm
    simp only [ackChain] at h
    rw [List.mem_cons] at hm
    split_ifs at h with h1 h2 h3
    · rcases hm with rfl | hm
      · exact Or.inl ⟨_, (nextSequence_facts s).1 ▸ (nextSequence_facts s).2.2.2.2.2, h1⟩
      · exact ih _ _ h m hm
    · rcases hm with rfl | hm
      · exact Or.inl ⟨s, h2.1, h2.2⟩
      · exact ih _ _ h m hm
    · rcases hm with rfl | hm
      · exact Or.inr h3
      · exact ih _ _ h m hm

theorem follows_refl (h : Host) (strict : Bool) : Follows h h strict :=
  ⟨rfl, [], h.xbs.inSequence, by simp, rfl, fun _ => rfl⟩

theorem follows_trans {h h1 h2 : Host} {strict : Bool} (a : Follows h h1 true)
    (b : Follows h1 h2 strict) : Follows h h2 strict := by
  obtain ⟨a1, x1, e1, a2, a3, a4⟩ := a
  obtain ⟨b1, x2, e2, b2, b3, b4⟩ := b
  refine ⟨b1.trans a1, x1 ++ x2, e2, by rw [b2, a2, List.append_assoc], ?_, b4⟩
  rw [List.map_append, ackChain_append, a3, Option.some_bind, ← a4 rfl, ← a1]
  exact b3

theorem follows_weaken {h h1 : Host} {strict : Bool} (a : Follows h h1 true) :
    Follows h h1 strict := by
  obtain ⟨a1, x1, e1, a2, a3, a4⟩ := a
  exact ⟨a1, x1, e1, a2, a3, fun _ => a4 rfl⟩

theorem deliver_inSequence (text : List Byte) : ∀ (xbs xbs1 : XBeeBootSession)
    (buflen buflen1 : Nat) (written written1 : List Byte),
    deliver xbs buflen written text = some (xbs1, buflen1, written1) →
    xbs1.inSequence = xbs.inSequence := by
  induction text with
  | nil =>
    intro xbs xbs1 buflen buflen1 written written1 h
    simp only [deliver, Option.some.injEq, Prod.mk.injEq] at h
    rw [← h.1]
  | cons b text ih =>
    intro xbs xbs1 buflen buflen1 written written1 h
    simp only [deliver] at h
    split_ifs at h
    all_goals
      have h1 := ih _ _ _ _ _ _ h
      simpa using h1

theorem processData_sent (bufNonNull : Bool) (wa : Int) (c : PollCfg) (frame : List Byte)
    (dataStart dataLength : Nat) :
    AckStep c.host (processData bufNonNull wa c frame dataStart dataLength)
      (frame.getD (dataStart + 1) 0) := by
  have hnil : ∀ p : PollStep, p.cfg = c → AckStep c.host p (frame.getD (dataStart + 1) 0) := by
    intro p hp
    rw [AckStep, hp]
    exact ⟨rfl, Or.inl ⟨rfl, Or.inl rfl⟩⟩
  unfold processData
  dsimp only
  by_cases h2 : dataLength ≥ 2
  swap
  · rw [if_neg h2]; exact hnil _ rfl
  rw [if_pos h2]
  by_cases hp : frame.getD dataStart 0 = 0
  · rw [if_pos hp]
    split_ifs <;> exact hnil _ rfl
  rw [if_neg hp]
  by_cases hreq : frame.getD dataStart 0 = 1 ∧ dataLength ≥ 4 ∧ frame.getD (dataStart + 2) 0 = 24
  swap
  · rw [if_neg hreq]; exact hnil _ rfl
  rw [if_pos hreq]
  by_cases hseq : frame.getD (dataStart + 1) 0 = nextSequence c.host.xbs.inSequence
  swap
  · rw [if_neg hseq]; exact hnil _ rfl
  rw [if_pos hseq]
  cases hd : deliver { c.host.xbs with inSequence := nextSequence c.host.xbs.inSequence }
      c.buflen c.written ((frame.drop (dataStart + 3)).take (dataLength - 3)) with
  | none => exact ⟨rfl, Or.inl ⟨rfl, Or.inr ⟨_, rfl⟩⟩⟩
  | some res =>
    obtain ⟨xbs1, buflen1, written1⟩ := res
    have hsame := deliver_same _ _ _ _ _ _ _ hd
    have hin := deliver_inSequence _ _ _ _ _ _ _ hd
    simp only at hsame hin
    obtain ⟨wire, hw, hm⟩ := sendPacket_eq { c.host with xbs := xbs1 } 0
      (frame.getD (dataStart + 1) 0) (-1) [] (by simp)
    have hopt : optionalByte (-1) = [] := by decide
    simp only [hopt, List.append_nil] at hm
    dsimp only
    rw [hw]
    dsimp only
    refine ⟨?_, Or.inr ⟨wire, hseq, ?_, ?_, ?_, ?_⟩⟩
    · split_ifs <;> exact hsame.1
    · split_ifs <;> rfl
    · rw [← hsame.1]; exact hm
    · split_ifs <;> exact hin.trans hseq.symm
    · split_ifs
      · exact Or.inr rfl
      · exact Or.inl rfl

theorem processFrame_sent (bufNonNull : Bool) (wa ws : Int) (c : PollCfg) (frame : List Byte)
    (frameSize : Nat) :
    AckStep c.host (processFrame bufNonNull wa ws c frame frameSize) (dataSequence frame) := by
  have hnil : ∀ (p : PollStep) (s : Byte), p.cfg = c → AckStep c.host p s := by
    intro p s hp
    rw [AckStep, hp]
    exact ⟨rfl, Or.inl ⟨rfl, Or.inl rfl⟩⟩
  unfold processFrame dataSequence
  dsimp only
  generalize frame.getD 2 0 = ft
  by_cases h10 : ft = 0x10
  · subst h10
    rw [if_neg (fun h => absurd h.1 (by decide)), if_neg (fun h => absurd h.1 (by decide)),
      if_neg (fun h => absurd h.1 (by decide)), if_pos rfl, if_pos rfl]
    split_ifs
    · exact hnil _ _ rfl
    · exact processData_sent _ _ _ _ _ _
  rw [if_neg h10]
  split_ifs
  all_goals first
    | exact hnil _ _ rfl
    | exact processData_sent _ _ _ _ _ _

theorem pollByte_sent (bufNonNull : Bool) (wa ws : Int) (c : PollCfg) (byte : Byte) :
    AckStep c.host (pollByte bufNonNull wa ws c byte) (completedSequence c.st byte) := by
  unfold pollByte completedSequence
  cases hp : parseByte c.st byte with
  | more st => exact ⟨rfl, Or.inl ⟨rfl, Or.inl rfl⟩⟩
  | complete frame frameSize =>
    dsimp only
    split_ifs
    · exact ⟨rfl, Or.inl ⟨rfl, Or.inl rfl⟩⟩
    · exact processFrame_sent bufNonNull wa ws { c with st := .beforeFrame } frame frameSize

theorem ackStep_follows {h : Host} {p : PollStep} {s : Byte} (a : AckStep h p s) :
    Follows h p.cfg.host p.isRet := by
  obtain ⟨hdm, (⟨hs, hi | ⟨c1, hc⟩⟩ | ⟨ack, hseq, hs, hm, hi, hr⟩)⟩ := a
  · exact ⟨hdm, [], _, by simp [hs], rfl, fun _ => hi⟩
  · refine ⟨hdm, [], _, by simp [hs], rfl, ?_⟩
    rw [hc]; intro hf; simp [PollStep.isRet, Outcome.isRet] at hf
  · refine ⟨hdm, [ack], s, hs, ?_, fun _ => hi⟩
    simp only [List.map_cons, List.map_nil, ackChain, hm, hseq, if_true]

theorem pollLoop_follows (bufNonNull : Bool) (wa ws : Int) (input : List (Option Byte)) :
    ∀ c : PollCfg, Follows c.host (pollLoop bufNonNull wa ws c input).cfg.host
      (pollLoop bufNonNull wa ws c input).outcome.isRet := by
  induction input with
  | nil => intro c; exact follows_refl _ _
  | cons ev input ih =>
    intro c
    cases ev with
    | none => exact follows_refl _ _
    | some byte =>
      have a := ackStep_follows (pollByte_sent bufNonNull wa ws c byte)
      simp only [pollLoop]
      cases hp : pollByte bufNonNull wa ws c byte with
      | running c1 =>
        rw [hp] at a
        exact follows_trans a (ih c1)
      | done o c1 =>
        rw [hp] at a
        exact a

theorem sendPacket_request_follows (h h1 : Host) (seq : Byte) (block : List Byte)
    (hseq : seq ≠ 0) (hlen : block.length ≤ 64)
    (hs : sendPacket h 1 seq 23 block = some h1) : Follows h h1 true := by
  obtain ⟨wire, hw, hm⟩ := sendPacket_eq h 1 seq 23 block hlen
  rw [hw] at hs
  simp only [Option.some.injEq] at hs
  subst hs
  have h23 : optionalByte 23 = [23] := by decide
  refine ⟨rfl, [wire], h.xbs.inSequence, rfl, ?_, fun _ => rfl⟩
  simp only [List.map_cons, List.map_nil, hm, h23, ackChain, List.cons_append, List.nil_append]
  rw [if_neg (by simp), if_neg (by simp), if_pos ⟨by simp [isRequestDeliver], by simpa using hseq⟩]

theorem sendPacket_ack_follows (h h1 : Host) (hseq : h.xbs.inSequence ≠ 0)
    (hs : sendPacket h 0 h.xbs.inSequence (-1) [] = some h1) : Follows h h1 true := by
  obtain ⟨wire, hw, hm⟩ := sendPacket_eq h 0 h.xbs.inSequence (-1) [] (by simp)
  rw [hw] at hs
  simp only [Option.some.injEq] at hs
  subst hs
  have hopt : optionalByte (-1) = [] := by decide
  have hne : ∀ s : Byte, nextSequence s ≠ s := by decide
  refine ⟨rfl, [wire], h.xbs.inSequence, rfl, ?_, fun _ => rfl⟩
  simp only [List.map_cons, List.map_nil, hm, hopt, ackChain, List.append_nil]
  rw [if_neg (by simpa using (hne _).symm), if_pos ⟨hseq, trivial⟩]

theorem sendBlock_follows (seq : Byte) (block : List Byte) (hseq : seq ≠ 0)
    (hlen : block.length ≤ 64) : ∀ (fuel : Nat) (h : Host) (input : List (Option Byte))
    (r : SendResult), sendBlock seq block fuel h input = some r →
    Follows h r.host r.outcome.isRet := by
  intro fuel
  induction fuel with
  | zero => intro h input r hr; simp [sendBlock] at hr
  | succ fuel ih =>
    intro h input r hr
    rw [sendBlock] at hr
    cases hsp : sendPacket h 1 seq 23 block with
    | none =>
      rw [hsp] at hr
      simp only [Option.some.injEq] at hr
      subst hr
      exact follows_refl _ _
    | some h1 =>
      rw [hsp] at hr
      dsimp only at hr
      have f1 := sendPacket_request_follows h h1 seq block hseq hlen hsp
      have f2 : Follows h1 (xbeedev_poll h1 false 0 seq.val (-1) input).cfg.host
          (xbeedev_poll h1 false 0 seq.val (-1) input).outcome.isRet :=
        pollLoop_follows false seq.val (-1) input _
      cases ho : (xbeedev_poll h1 false 0 seq.val (-1) input).outcome with
      | ret rc =>
        rw [ho] at hr f2
        dsimp only at hr
        have f3 := follows_trans f1 f2
        split_ifs at hr with h0 hin
        · simp only [Option.some.injEq] at hr
          subst hr
          exact f3
        · cases hsa : sendPacket (xbeedev_poll h1 false 0 seq.val (-1) input).cfg.host 0
            (xbeedev_poll h1 false 0 seq.val (-1) input).cfg.host.xbs.inSequence (-1) [] with
          | none =>
            rw [hsa] at hr
            simp only [Option.some.injEq] at hr
            subst hr
            exact follows_weaken f3
          | some h2 =>
            rw [hsa] at hr
            exact follows_trans (follows_trans f3 (sendPacket_ack_follows _ _ hin hsa))
              (ih _ _ _ hr)
        · exact follows_trans f3 (ih _ _ _ hr)
      | exit st =>
        rw [ho] at hr f2
        simp only [Option.some.injEq] at hr
        subst hr
        exact follows_trans f1 f2
      | undefined =>
        rw [ho] at hr f2
        simp only [Option.some.injEq] at hr
        subst hr
        exact follows_trans f1 f2

theorem follows_of_same {h h1 : Host} (hdm : h1.xbs.directMode = h.xbs.directMode)
    (hs : h1.sent = h.sent) (hi : h1.xbs.inSequence = h.xbs.inSequence) (strict : Bool) :
    Follows h h1 strict :=
  ⟨hdm, [], h.xbs.inSequence, by simp [hs], rfl, fun _ => hi⟩

theorem sendLoop_follows (fuel : Nat) : ∀ (n : Nat) (h : Host) (buf : List Byte)
    (input : List (Option Byte)) (r : SendResult), sendLoop fuel n h buf input = some r →
    Follows h r.host r.outcome.isRet := by
  intro n
  induction n with
  | zero =>
    intro h buf input r hr
    cases buf with
    | nil =>
      simp only [sendLoop, Option.some.injEq] at hr
      subst hr
      exact follows_refl _ _
    | cons b buf => simp [sendLoop] at hr
  | succ n ih =>
    intro h buf input r hr
    cases buf with
    | nil =>
      simp only [sendLoop, Option.some.injEq] at hr
      subst hr
      exact follows_refl _ _
    | cons b buf =>
      rw [sendLoop] at hr
      dsimp only at hr
      have hne : nextSequence h.xbs.outSequence ≠ 0 :=
        (nextSequence_facts h.xbs.outSequence).1 ▸ (nextSequence_facts _).2.2.2.2.2
      have hlen : ((b :: buf).take (if (b :: buf).length > 64 then 64 else (b :: buf).length)).length
          ≤ 64 := by
        rw [List.length_take]; split_ifs <;> omega
      cases hsb : sendBlock (nextSequence h.xbs.outSequence)
          ((b :: buf).take (if (b :: buf).length > 64 then 64 else (b :: buf).length)) fuel
          { h with xbs := { h.xbs with outSequence := nextSequence h.xbs.outSequence } } input with
      | none => rw [hsb] at hr; simp at hr
      | some r1 =>
        rw [hsb] at hr
        dsimp only at hr
        have f0 := sendBlock_follows _ _ hne hlen _ _ _ _ hsb
        have f1 : Follows h r1.host r1.outcome.isRet :=
          follows_trans (follows_of_same rfl rfl rfl true) f0
        cases ho : r1.outcome with
        | ret rc =>
          rw [ho] at hr f1
          exact follows_trans f1 (ih _ _ _ _ hr)
        | exit st =>
          rw [ho] at hr f1
          simp only [Option.some.injEq] at hr
          subst hr
          exact f1
        | undefined =>
          rw [ho] at hr f1
          simp only [Option.some.injEq] at hr
          subst hr
          exact f1

theorem recvLoop_follows : ∀ (retries : Nat) (h : Host) (region : List Byte)
    (input : List (Option Byte)),
    Follows h (recvLoop retries h region input).host
      (recvLoop retries h region input).outcome.isRet := by
  intro retries
  induction retries with
  | zero => intro h region input; exact follows_refl _ _
  | succ retries ih =>
    intro h region input
    rw [recvLoop]
    have f2 : Follows h (xbeedev_poll h true region.length (-1) (-1) input).cfg.host
        (xbeedev_poll h true region.length (-1) (-1) input).outcome.isRet :=
      pollLoop_follows true (-1) (-1) input _
    cases ho : (xbeedev_poll h true region.length (-1) (-1) input).outcome with
    | ret rc =>
      rw [ho] at f2
      dsimp only
      split_ifs with h0 hin
      · exact f2
      · cases hsa : sendPacket (xbeedev_poll h true region.length (-1) (-1) input).cfg.host 0
            (xbeedev_poll h true region.length (-1) (-1) input).cfg.host.xbs.inSequence (-1) [] with
        | none => exact follows_weaken f2
        | some h2 =>
          exact follows_trans (follows_trans f2 (sendPacket_ack_follows _ _ hin hsa)) (ih _ _ _)
      · exact follows_trans f2 (ih _ _ _)
    | exit st => rw [ho] at f2; exact f2
    | undefined => rw [ho] at f2; exact f2

theorem drainRing_same : ∀ (n : Nat) (xbs : XBeeBootSession) (out : List Byte),
    (∀ xbs1 out1, drainRing n xbs out = .full xbs1 out1 →
      xbs1.directMode = xbs.directMode ∧ xbs1.inSequence = xbs.inSequence) ∧
    (∀ xbs1 k out1, drainRing n xbs out = .empty xbs1 k out1 →
      xbs1.directMode = xbs.directMode ∧ xbs1.inSequence = xbs.inSequence) := by
  intro n
  induction n with
  | zero =>
    intro xbs out
    simp only [drainRing]
    split_ifs
    · exact ⟨fun _ _ h => by simp at h, fun _ _ _ h => by simp at h⟩
    · refine ⟨fun _ _ h => by simp at h, fun _ _ _ h => ?_⟩
      simp only [Drained.empty.injEq] at h
      rw [← h.1]; exact ⟨rfl, rfl⟩
  | succ n ih =>
    intro xbs out
    rw [drainRing]
    dsimp only
    by_cases h1 : xbs.inInIndex ≠ xbs.inOutIndex
    · rw [if_pos h1]
      by_cases h2 : n = 0
      · rw [if_pos h2]
        refine ⟨fun _ _ h => ?_, fun _ _ _ h => by simp at h⟩
        simp only [Drained.full.injEq] at h
        rw [← h.1]; exact ⟨rfl, rfl⟩
      · rw [if_neg h2]
        refine ⟨fun _ _ h => ?_, fun _ _ _ h => ?_⟩
        · have h3 := (ih _ _).1 _ _ h
          exact h3
        · have h3 := (ih _ _).2 _ _ _ h
          exact h3
    · rw [if_neg h1]
      refine ⟨fun _ _ h => by simp at h, fun _ _ _ h => ?_⟩
      simp only [Drained.empty.injEq] at h
      rw [← h.1]; exact ⟨rfl, rfl⟩

theorem xbeedev_recv_follows (h : Host) (buf : List Byte) (input : List (Option Byte)) :
    Follows h (xbeedev_recv h buf input).host (xbeedev_recv h buf input).outcome.isRet := by
  unfold xbeedev_recv
  cases hd : drainRing buf.length h.xbs [] with
  | full xbs out =>
    have h1 := (drainRing_same _ _ _).1 _ _ hd
    have h2 : Follows h { h with xbs := xbs } true :=
      @follows_of_same h { h with xbs := xbs } h1.1 rfl h1.2 true
    exact h2
  | overrun => exact follows_refl _ _
  | empty xbs k out =>
    have h1 := (drainRing_same _ _ _).2 _ _ _ hd
    have h2 : Follows h { h with xbs := xbs } true :=
      @follows_of_same h { h with xbs := xbs } h1.1 rfl h1.2 true
    have h3 := recvLoop_follows 30 { h with xbs := xbs } (buf.drop out.length) input
    exact follows_trans h2 h3

/-- C13. Host ACK discipline.  (1) A byte read by `xbeedev_poll` makes it send
nothing, or exactly one frame: the ACK `[0, s]` where `s`, the sequence of the
data frame that byte completes, is `succ(inSequence)` and becomes `inSequence`.
(2)-(4) The frames sent during a call of `xbeedev_poll`, of `xbeedev_send` (when
it ends) and of `xbeedev_recv` form an `ackChain` from the `inSequence` at the
call: each is the ACK of a data frame just accepted, a re-sent ACK carrying the
current `inSequence`, which is then not 0, or a REQUEST with a sequence other
than 0; when the call returns the chain ends at the final `inSequence`.
(5) Hence every frame sent is an ACK `[0, q]` with `q` not 0 or a REQUEST of
type FIRMWARE_DELIVER whose sequence is not 0. -/
theorem host_ack_discipline :
    (∀ (bufNonNull : Bool) (waitForAck waitForSequence : Int) (c : PollCfg) (byte : Byte),
      AckStep c.host (pollByte bufNonNull waitForAck waitForSequence c byte)
        (completedSequence c.st byte)) ∧
    (∀ (h : Host) (bufNonNull : Bool) (buflen : Nat) (waitForAck waitForSequence : Int)
        (input : List (Option Byte)),
      Follows h (xbeedev_poll h bufNonNull buflen waitForAck waitForSequence input).cfg.host
        (xbeedev_poll h bufNonNull buflen waitForAck waitForSequence input).outcome.isRet) ∧
    (∀ (fuel : Nat) (h : Host) (buf : List Byte) (input : List (Option Byte)) (r : SendResult),
      xbeedev_send fuel h buf input = some r → Follows h r.host r.outcome.isRet) ∧
    (∀ (h : Host) (buf : List Byte) (input : List (Option Byte)),
      Follows h (xbeedev_recv h buf input).host (xbeedev_recv h buf input).outcome.isRet) ∧
    (∀ (h h1 : Host) (strict : Bool), Follows h h1 strict →
      ∃ extra, h1.sent = h.sent ++ extra ∧ ∀ w ∈ extra,
        (∃ q : Byte, q ≠ 0 ∧ appMessage h.xbs.directMode w = [0, q]) ∨
        (isRequestDeliver (appMessage h.xbs.directMode w) = true ∧
          (appMessage h.xbs.directMode w).getD 1 0 ≠ 0)) := by
  refine ⟨pollByte_sent, fun h b n wa ws input => pollLoop_follows b wa ws input _,
    fun fuel h buf input r hr => sendLoop_follows fuel _ h buf input r hr,
    xbeedev_recv_follows, ?_⟩
  rintro h h1 strict ⟨-, extra, e, hs, hc, -⟩
  refine ⟨extra, hs, fun w hw => ?_⟩
  exact ackChain_shape _ _ _ hc _ (List.mem_map_of_mem _ hw)

/-- Witness for C13: the call of `xbeedev_send` that meets a timeout, an ACK for
the wrong sequence 5, another timeout and then the ACK for sequence 1 ends, and
the three frames it sent form an `ackChain`. -/
theorem host_ack_discipline_witness :
    ∃ r, xbeedev_send 3 initHost [0x30, 0x20]
        (none :: ackInput 5 ++ none :: ackInput 1) = some r ∧
      Follows initHost r.host r.outcome.isRet := by
  have hs : (xbeedev_send 3 initHost [0x30, 0x20]
      (none :: ackInput 5 ++ none :: ackInput 1)).isSome = true := by decide
  obtain ⟨r, hr⟩ := Option.isSome_iff_exists.mp hs
  exact ⟨r, hr, host_ack_discipline.2.2.1 3 initHost _ _ r hr⟩

end Xbee

namespace Xbee

/-! ## C19: learning the 16-bit address -/

theorem parseByte_complete_length (st : ParserState) (byte : Byte) (frame : List Byte)
    (frameSize : Nat) (hp : parseByte st byte = .complete frame frameSize) :
    frameSize ≤ frame.length := by
  unfold parseByte at hp
  split at hp
  · split_ifs at hp
  · split at hp
    · simp at hp
    · simp at hp
    · dsimp only at hp
      split_ifs at hp
      all_goals
        simp only [ParseStep.complete.injEq] at hp
        obtain ⟨rfl, rfl⟩ := hp
        omega

theorem deliver_address (text : List Byte) : ∀ (xbs xbs1 : XBeeBootSession)
    (buflen buflen1 : Nat) (written written1 : List Byte),
    deliver xbs buflen written text = some (xbs1, buflen1, written1) →
    xbs1.xbee_address = xbs.xbee_address := by
  induction text with
  | nil =>
    intro xbs xbs1 buflen buflen1 written written1 h
    simp only [deliver, Option.some.injEq, Prod.mk.injEq] at h
    rw [← h.1]
  | cons b text ih =>
    intro xbs xbs1 buflen buflen1 written written1 h
    simp only [deliver] at h
    split_ifs at h
    all_goals
      have h1 := ih _ _ _ _ _ _ h
      simpa using h1

theorem processData_address (bufNonNull : Bool) (wa : Int) (c : PollCfg) (frame : List Byte)
    (dataStart dataLength : Nat) :
    (processData bufNonNull wa c frame dataStart dataLength).cfg.host.xbs.xbee_address
      = c.host.xbs.xbee_address := by
  unfold processData
  dsimp only
  split_ifs
  all_goals try rfl
  cases hd : deliver { c.host.xbs with inSequence := nextSequence c.host.xbs.inSequence }
      c.buflen c.written ((frame.drop (dataStart + 3)).take (dataLength - 3)) with
  | none => rfl
  | some res =>
    obtain ⟨xbs1, buflen1, written1⟩ := res
    have ha := deliver_address _ _ _ _ _ _ _ hd
    simp only at ha
    dsimp only
    cases hsp : sendPacket { c.host with xbs := xbs1 } 0 (frame.getD (dataStart + 1) 0)
      (-1) [] with
    | none => exact ha
    | some h1 =>
      have hx := sendPacket_xbs _ _ _ _ _ _ hsp
      dsimp only
      split_ifs <;> (show h1.xbs.xbee_address = _; rw [hx]; exact ha)

/-- The only change `xbeedev_poll` makes to the session address on reading one
byte: when the byte completes a checksum-valid 0x90 frame with at least one data
byte whose 64-bit source is the configured address, the 16-bit part becomes the
frame's 16-bit source. -/
theorem pollByte_address (bufNonNull : Bool) (wa ws : Int) (c : PollCfg) (byte : Byte) :
    (pollByte bufNonNull wa ws c byte).cfg.host.xbs.xbee_address = c.host.xbs.xbee_address ∨
    ∃ frame frameSize, parseByte c.st byte = .complete frame frameSize ∧
      frameChecksum frame = 0 ∧ frame.getD 2 0 = 0x90 ∧ frameSize ≥ 16 ∧
      (frame.drop 3).take 8 = c.host.xbs.xbee_address.take 8 ∧
      (pollByte bufNonNull wa ws c byte).cfg.host.xbs.xbee_address
        = c.host.xbs.xbee_address.take 8 ++ (frame.drop 11).take 2 := by
  unfold pollByte
  cases hp : parseByte c.st byte with
  | more st => exact Or.inl rfl
  | complete frame frameSize =>
    dsimp only
    by_cases hck : frameChecksum frame ≠ 0
    · rw [if_pos hck]; exact Or.inl rfl
    rw [if_neg hck]
    unfold processFrame
    dsimp only
    by_cases h97 : frame.getD 2 0 = 0x97 ∧ frameSize > 16
    · rw [if_pos h97]; split_ifs <;> exact Or.inl rfl
    rw [if_neg h97]
    by_cases h88 : frame.getD 2 0 = 0x88 ∧ frameSize > 6
    · rw [if_pos h88]; split_ifs <;> exact Or.inl rfl
    rw [if_neg h88]
    by_cases h8b : frame.getD 2 0 = 0x8b ∧ frameSize > 7
    · rw [if_pos h8b]; exact Or.inl rfl
    rw [if_neg h8b]
    by_cases h10 : frame.getD 2 0 = 0x10
    · rw [if_pos h10]
      split_ifs
      · exact Or.inl rfl
      · exact Or.inl (processData_address _ _ _ _ _ _)
    rw [if_neg h10]
    by_cases h90 : frame.getD 2 0 = 0x90
    swap
    · rw [if_neg h90]; exact Or.inl rfl
    rw [if_pos h90]
    by_cases hsz : frameSize ≤ 2 + 1 + 8 + 2 + 1 + 1
    · rw [if_pos hsz]; exact Or.inl rfl
    rw [if_neg hsz]
    by_cases haddr : (frame.drop (2 + 1)).take 8 ≠ c.host.xbs.xbee_address.take 8
    · rw [if_pos haddr]; exact Or.inl rfl
    rw [if_neg haddr]
    rw [processData_address]
    by_cases hrx : (frame.drop (2 + 1 + 8)).take 2 ≠ (c.host.xbs.xbee_address.drop 8).take 2
    · rw [if_pos hrx]
      exact Or.inr ⟨frame, frameSize, rfl, not_not.mp hck, h90, by omega, not_not.mp haddr, rfl⟩
    · rw [if_neg hrx]; exact Or.inl rfl

theorem take_two_drop (frame : List Byte) (i : Nat) (h : i + 2 ≤ frame.length) :
    (frame.drop i).take 2 = [frame.getD i 0, frame.getD (i + 1) 0] := by
  apply List.ext_getElem
  · simp; omega
  · intro j h1 h2
    simp only [List.length_cons, List.length_nil] at h2
    have : j = 0 ∨ j = 1 := by omega
    rcases this with rfl | rfl <;>
      simp [List.getD_eq_getElem?_getD, List.getElem?_eq_getElem (show i < frame.length by omega),
        List.getElem?_eq_getElem (show i + 1 < frame.length by omega)]

/-- On a checksum-valid 0x90 frame with at least one data byte from the
configured 64-bit address, the session address ends as its first 8 bytes
followed by the frame's 16-bit source. -/
theorem pollByte_learn (bufNonNull : Bool) (wa ws : Int) (c : PollCfg) (byte : Byte)
    (frame : List Byte) (frameSize : Nat)
    (hp : parseByte c.st byte = .complete frame frameSize)
    (hck : frameChecksum frame = 0) (h90 : frame.getD 2 0 = 0x90) (hsize : frameSize ≥ 16)
    (haddr : (frame.drop 3).take 8 = c.host.xbs.xbee_address.take 8)
    (hlen : c.host.xbs.xbee_address.length = 10) :
    (pollByte bufNonNull wa ws c byte).cfg.host.xbs.xbee_address
      = c.host.xbs.xbee_address.take 8 ++ [frame.getD 11 0, frame.getD 12 0] := by
  have hfl := parseByte_complete_length _ _ _ _ hp
  have hrx := take_two_drop frame 11 (by omega)
  unfold pollByte
  rw [hp]
  dsimp only
  rw [if_neg (not_not.mpr hck)]
  unfold processFrame
  dsimp only
  rw [h90, if_neg (fun h => absurd h.1 (by decide)), if_neg (fun h => absurd h.1 (by decide)),
    if_neg (fun h => absurd h.1 (by decide)), if_neg (by decide), if_pos rfl, if_neg (by omega),
    if_neg (not_not.mpr haddr), processData_address]
  by_cases hne : (frame.drop (2 + 1 + 8)).take 2 ≠ (c.host.xbs.xbee_address.drop 8).take 2
  · rw [if_pos hne]
    show c.host.xbs.xbee_address.take 8 ++ (frame.drop 11).take 2 = _
    rw [hrx]
  · rw [if_neg hne]
    have he := not_not.mp hne
    have h2 : (c.host.xbs.xbee_address.drop 8).take 2 = c.host.xbs.xbee_address.drop 8 := by
      apply List.take_of_length_le
      rw [List.length_drop]; omega
    rw [h2, hrx] at he
    show c.host.xbs.xbee_address = _
    rw [he, List.take_append_drop]

theorem apiPayload_address (xbs : XBeeBootSession) (apiType tx : Byte)
    (prePayload1 prePayload2 packetType sequence appType : Int) (data : List Byte)
    (h08 : apiType ≠ 0x08) :
    (apiPayload xbs apiType (tx.val : Int) prePayload1 prePayload2 packetType sequence appType
        data).getD 10 0 = xbs.xbee_address.getD 8 0 ∧
    (apiPayload xbs apiType (tx.val : Int) prePayload1 prePayload2 packetType sequence appType
        data).getD 11 0 = xbs.xbee_address.getD 9 0 := by
  unfold apiPayload
  rw [optionalByte_val, if_pos h08]
  constructor <;> rfl

theorem sendAPIRequest_some (xbs : XBeeBootSession) (apiType : Byte)
    (apiOption prePayload1 prePayload2 packetType sequence appType : Int) (data wire : List Byte)
    (h : sendAPIRequest xbs apiType apiOption prePayload1 prePayload2 packetType sequence appType
      data = some wire) :
    wire = apiFrame (apiPayload xbs apiType apiOption prePayload1 prePayload2 packetType
      sequence appType data) := by
  rw [sendAPIRequest_eq] at h
  dsimp only at h
  split_ifs at h
  simp only [Option.some.injEq] at h
  rw [← h, apiFrame, natCast_eq_toUChar]

theorem sendPacket_address (h h1 : Host) (pt seq : Byte) (appType : Int) (data : List Byte)
    (hs : sendPacket h pt seq appType data = some h1) :
    ∃ p, h1.sent = h.sent ++ [apiFrame p] ∧ p.getD 10 0 = h.xbs.xbee_address.getD 8 0 ∧
      p.getD 11 0 = h.xbs.xbee_address.getD 9 0 := by
  unfold sendPacket at hs
  dsimp only at hs
  split at hs
  · rename_i wire hw
    simp only [Option.some.injEq] at hs
    have hp := sendAPIRequest_some _ _ _ _ _ _ _ _ _ _ hw
    have ha := apiPayload_address h.xbs (if h.xbs.directMode then 0x90 else 0x10)
      (nextSequence h.txSequence) (if h.xbs.directMode then -1 else 0)
      (if h.xbs.directMode then -1 else 0) (pt.val : Int) (seq.val : Int) appType data
      (by split <;> decide)
    refine ⟨_, ?_, ha⟩
    rw [← hs, hp]
  · simp at hs

theorem sendATLoop_sent (sequence : Byte) : ∀ (retries : Nat) (h : Host)
    (input : List (Option Byte)),
    ∃ extra, (sendATLoop sequence retries h input).host.sent = h.sent ++ extra := by
  intro retries
  induction retries with
  | zero => intro h input; exact ⟨[], by simp [sendATLoop]⟩
  | succ retries ih =>
    intro h input
    rw [sendATLoop]
    obtain ⟨-, -, e1, he1, -⟩ := pollLoop_ext false (-1) sequence.val
      { st := .beforeFrame, host := h, buflen := 0, written := [] } input
    change (xbeedev_poll h false 0 (-1) sequence.val input).cfg.host.sent = h.sent ++ e1 at he1
    dsimp only
    cases ho : (xbeedev_poll h false 0 (-1) sequence.val input).outcome with
    | ret rc =>
      dsimp only
      obtain ⟨e2, he2⟩ := ih (xbeedev_poll h false 0 (-1) sequence.val input).cfg.host
        (xbeedev_poll h false 0 (-1) sequence.val input).rest
      split_ifs
      all_goals first
        | exact ⟨e1, he1⟩
        | exact ⟨e1 ++ e2, by rw [he2, he1, List.append_assoc]⟩
    | exit st => exact ⟨e1, he1⟩
    | undefined => exact ⟨e1, he1⟩

theorem sendAT_address (h : Host) (at1 at2 : Byte) (value : Int) (input : List (Option Byte))
    (hdm : h.xbs.directMode = false) :
    ∃ p rest, (sendAT h at1 at2 value input).host.sent = h.sent ++ apiFrame p :: rest ∧
      p.getD 10 0 = h.xbs.xbee_address.getD 8 0 ∧ p.getD 11 0 = h.xbs.xbee_address.getD 9 0 := by
  have ha := apiPayload_address h.xbs 0x17 (nextSequence h.txSequence) (-1) (-1) (-1) 0x02 (-1)
    ([at1, at2] ++ (if value ≥ 0 then [toUChar value] else [])) (by decide)
  have hfit : 5 + (escapeBytes (apiPayload h.xbs 0x17 ((nextSequence h.txSequence).val : Int)
        (-1) (-1) (-1) 0x02 (-1) ([at1, at2] ++ (if value ≥ 0 then [toUChar value] else []))) ++
      escapeBytes [checksumByte (apiPayload h.xbs 0x17 ((nextSequence h.txSequence).val : Int)
        (-1) (-1) (-1) 0x02 (-1) ([at1, at2] ++ (if value ≥ 0 then [toUChar value] else [])))]
      ).length ≤ 256 := by
    have h1 := escapeBytes_length_le (apiPayload h.xbs 0x17
      ((nextSequence h.txSequence).val : Int) (-1) (-1) (-1) 0x02 (-1)
      ([at1, at2] ++ (if value ≥ 0 then [toUChar value] else [])))
    have h2 := escapeBytes_length_le [checksumByte (apiPayload h.xbs 0x17
      ((nextSequence h.txSequence).val : Int) (-1) (-1) (-1) 0x02 (-1)
      ([at1, at2] ++ (if value ≥ 0 then [toUChar value] else [])))]
    have h3 : (apiPayload h.xbs 0x17 ((nextSequence h.txSequence).val : Int) (-1) (-1) (-1)
        0x02 (-1) ([at1, at2] ++ (if value ≥ 0 then [toUChar value] else []))).length ≤ 16 := by
      unfold apiPayload
      rw [optionalByte_val]
      have e1 : optionalByte (-1) = [] := by decide
      have e2 : optionalByte 2 = [2] := by decide
      simp only [e1, e2]
      split_ifs <;> simp
    rw [List.length_append]
    simp only [List.length_singleton] at h2
    omega
  have hw := sendAPIRequest_of_fit _ _ _ _ _ _ _ _ _ hfit
  unfold sendAT
  rw [if_neg (by simp [hdm])]
  dsimp only
  rw [hw]
  dsimp only
  obtain ⟨extra, he⟩ := sendATLoop_sent (nextSequence h.txSequence) 30
    { h with txSequence := nextSequence h.txSequence, sent := h.sent ++ [apiFrame
      (apiPayload h.xbs 0x17 ((nextSequence h.txSequence).val : Int) (-1) (-1) (-1) 0x02 (-1)
        ([at1, at2] ++ (if value ≥ 0 then [toUChar value] else [])))] } input
  refine ⟨_, extra, ?_, ha⟩
  rw [he]
  simp

/-- C19. Host address learning: when the byte read by `xbeedev_poll` completes a
checksum-valid 0x90 frame with at least one data byte (16 stored bytes or more)
whose 64-bit source equals the configured address, the session address becomes
its first 8 bytes, unchanged, followed by the frame's 16-bit source (stored
bytes 11 and 12); and every frame built by `sendPacket`, or by `sendAT` outside
direct mode, from a host state with that address carries those two bytes at
offsets 10 and 11 of its unescaped payload. -/
theorem host_address_learning (bufNonNull : Bool) (waitForAck waitForSequence : Int)
    (c : PollCfg) (byte : Byte) (frame : List Byte) (frameSize : Nat)
    (hp : parseByte c.st byte = .complete frame frameSize)
    (hck : frameChecksum frame = 0) (h90 : frame.getD 2 0 = 0x90) (hsize : frameSize ≥ 16)
    (haddr : (frame.drop 3).take 8 = c.host.xbs.xbee_address.take 8)
    (hlen : c.host.xbs.xbee_address.length = 10) :
    (pollByte bufNonNull waitForAck waitForSequence c byte).cfg.host.xbs.xbee_address
        = c.host.xbs.xbee_address.take 8 ++ [frame.getD 11 0, frame.getD 12 0] ∧
    ∀ h : Host, h.xbs.xbee_address
        = (pollByte bufNonNull waitForAck waitForSequence c byte).cfg.host.xbs.xbee_address →
      (∀ (packetType sequence : Byte) (appType : Int) (data : List Byte) (h1 : Host),
        sendPacket h packetType sequence appType data = some h1 →
        ∃ p, h1.sent = h.sent ++ [apiFrame p] ∧ p.getD 10 0 = frame.getD 11 0 ∧
          p.getD 11 0 = frame.getD 12 0) ∧
      (∀ (at1 at2 : Byte) (value : Int) (input : List (Option Byte)),
        h.xbs.directMode = false →
        ∃ p rest, (sendAT h at1 at2 value input).host.sent = h.sent ++ apiFrame p :: rest ∧
          p.getD 10 0 = frame.getD 11 0 ∧ p.getD 11 0 = frame.getD 12 0) := by
  have hl := pollByte_learn bufNonNull waitForAck waitForSequence c byte frame frameSize hp hck
    h90 hsize haddr hlen
  refine ⟨hl, fun h ha => ?_⟩
  rw [hl] at ha
  have h8 : (c.host.xbs.xbee_address.take 8).length = 8 := by
    rw [List.length_take]; omega
  have e8 : h.xbs.xbee_address.getD 8 0 = frame.getD 11 0 := by
    rw [ha, List.getD_eq_getElem?_getD, List.getElem?_append_right (by omega), h8]; rfl
  have e9 : h.xbs.xbee_address.getD 9 0 = frame.getD 12 0 := by
    rw [ha, List.getD_eq_getElem?_getD, List.getElem?_append_right (by omega), h8]; rfl
  constructor
  · intro pt seq appType data h1 hs
    obtain ⟨p, h1s, p10, p11⟩ := sendPacket_address h h1 pt seq appType data hs
    exact ⟨p, h1s, p10.trans e8, p11.trans e9⟩
  · intro at1 at2 value input hdm
    obtain ⟨p, rest, h1s, p10, p11⟩ := sendAT_address h at1 at2 value input hdm
    exact ⟨p, rest, h1s, p10.trans e8, p11.trans e9⟩

/-- Witness for C19: a host that addressed `01 00 .. 00` with 16-bit address
`ff fe` and reads the last byte of a 0x90 frame from that device with 16-bit
source `12 34` has the address `01 00 .. 00 12 34` afterwards. -/
theorem host_address_learning_witness :
    (pollByte false (-1) (-1) (learnCfg 0x12 0x34) 0xcd).cfg.host.xbs.xbee_address
      = [1, 0, 0, 0, 0, 0, 0, 0, 0x12, 0x34] :=
  (host_address_learning false (-1) (-1) (learnCfg 0x12 0x34) 0xcd
    ([0, 16] ++ rxPayload 0x12 0x34 1 ++ [0xcd]) 19 (by decide) (by decide) (by decide)
    (by decide) (by decide) (by decide)).1.trans (by decide)

/-! ## C20: the learned address can be replaced -/

theorem processData_st (bufNonNull : Bool) (wa : Int) (c : PollCfg) (frame : List Byte)
    (dataStart dataLength : Nat) :
    (processData bufNonNull wa c frame dataStart dataLength).cfg.st = c.st := by
  unfold processData
  dsimp only
  split_ifs
  all_goals try rfl
  cases deliver { c.host.xbs with inSequence := nextSequence c.host.xbs.inSequence }
      c.buflen c.written ((frame.drop (dataStart + 3)).take (dataLength - 3)) with
  | none => rfl
  | some res =>
    obtain ⟨xbs1, buflen1, written1⟩ := res
    dsimp only
    cases sendPacket { c.host with xbs := xbs1 } 0 (frame.getD (dataStart + 1) 0) (-1) [] with
    | none => rfl
    | some h1 =>
      dsimp only
      split_ifs <;> rfl

theorem processFrame_st (bufNonNull : Bool) (wa ws : Int) (c : PollCfg) (frame : List Byte)
    (frameSize : Nat) : (processFrame bufNonNull wa ws c frame frameSize).cfg.st = c.st := by
  unfold processFrame
  dsimp only
  by_cases h97 : frame.getD 2 0 = 0x97 ∧ frameSize > 16
  · rw [if_pos h97]; split_ifs <;> rfl
  rw [if_neg h97]
  by_cases h88 : frame.getD 2 0 = 0x88 ∧ frameSize > 6
  · rw [if_pos h88]; split_ifs <;> rfl
  rw [if_neg h88]
  by_cases h8b : frame.getD 2 0 = 0x8b ∧ frameSize > 7
  · rw [if_pos h8b]; rfl
  rw [if_neg h8b]
  by_cases h10 : frame.getD 2 0 = 0x10
  · rw [if_pos h10]
    by_cases hsz : frameSize ≤ 2 + 1 + 1 + 8 + 2 + 1 + 1 + 1
    · rw [if_pos hsz]; rfl
    · rw [if_neg hsz, processData_st]
  rw [if_neg h10]
  by_cases h90 : frame.getD 2 0 = 0x90
  swap
  · rw [if_neg h90]; rfl
  rw [if_pos h90]
  by_cases hsz : frameSize ≤ 2 + 1 + 8 + 2 + 1 + 1
  · rw [if_pos hsz]; rfl
  rw [if_neg hsz]
  by_cases haddr : (frame.drop (2 + 1)).take 8 ≠ c.host.xbs.xbee_address.take 8
  · rw [if_pos haddr]; rfl
  rw [if_neg haddr, processData_st]

theorem pollByte_st (bufNonNull : Bool) (wa ws : Int) (c : PollCfg) (byte : Byte) :
    (pollByte bufNonNull wa ws c byte).cfg.st
      = (match parseByte c.st byte with
        | .more st => st
        | .complete _ _ => .beforeFrame) := by
  unfold pollByte
  cases parseByte c.st byte with
  | more st => rfl
  | complete frame frameSize =>
    dsimp only
    by_cases hck : frameChecksum frame ≠ 0
    · rw [if_pos hck]; rfl
    · rw [if_neg hck, processFrame_st]

/-- C20 (amended). A byte read by `xbeedev_poll` changes the session address only
when it completes a checksum-valid 0x90 frame with at least one data byte whose
64-bit source is the configured address; the 64-bit part then stays and the
16-bit part becomes that frame's 16-bit source, whatever it is.  So over any
input on which the reader completes no frame with `ff fe` in the 16-bit source
field, a 16-bit address other than 0xFFFE stays other than 0xFFFE, and the
64-bit part is unchanged. -/
theorem host_address_sticky (bufNonNull : Bool) (waitForAck waitForSequence : Int)
    (input : List (Option Byte)) : ∀ (c : PollCfg),
    8 ≤ c.host.xbs.xbee_address.length →
    c.host.xbs.xbee_address.drop 8 ≠ [0xff, 0xfe] →
    (∀ frame ∈ framesOf c.st input, ¬ (frame.getD 11 0 = 0xff ∧ frame.getD 12 0 = 0xfe)) →
    (pollLoop bufNonNull waitForAck waitForSequence c input).cfg.host.xbs.xbee_address.drop 8
        ≠ [0xff, 0xfe] ∧
      (pollLoop bufNonNull waitForAck waitForSequence c input).cfg.host.xbs.xbee_address.take 8
        = c.host.xbs.xbee_address.take 8 := by
  induction input with
  | nil => intro c _ h16 _; exact ⟨h16, rfl⟩
  | cons ev input ih =>
    intro c hlen h16 hf
    cases ev with
    | none => exact ⟨h16, rfl⟩
    | some byte =>
      have key : 8 ≤ (pollByte bufNonNull waitForAck waitForSequence c
            byte).cfg.host.xbs.xbee_address.length ∧
          (pollByte bufNonNull waitForAck waitForSequence c byte).cfg.host.xbs.xbee_address.drop 8
            ≠ [0xff, 0xfe] ∧
          (pollByte bufNonNull waitForAck waitForSequence c byte).cfg.host.xbs.xbee_address.take 8
            = c.host.xbs.xbee_address.take 8 := by
        rcases pollByte_address bufNonNull waitForAck waitForSequence c byte with
          he | ⟨frame, frameSize, hp, -, -, hsz, -, he⟩
        · rw [he]; exact ⟨hlen, h16, rfl⟩
        · have hfl := parseByte_complete_length _ _ _ _ hp
          have hmem : frame ∈ framesOf c.st (some byte :: input) := by
            simp only [framesOf, hp, List.mem_cons, true_or]
          have hno := hf frame hmem
          have h8 : (c.host.xbs.xbee_address.take 8).length = 8 := by
            rw [List.length_take]; omega
          have hrx := take_two_drop frame 11 (by omega)
          rw [he, hrx]
          refine ⟨by simp; omega, ?_, ?_⟩
          · rw [List.drop_append_of_le_length (by omega), List.drop_of_length_le (by omega)]
            intro hc
            simp only [List.nil_append, List.cons.injEq, and_true] at hc
            exact hno hc
          · rw [List.take_append_of_le_length (by omega), List.take_take]
            simp
      have hf1 : ∀ c1 : PollCfg,
          (pollByte bufNonNull waitForAck waitForSequence c byte = .running c1) →
          ∀ frame ∈ framesOf c1.st input,
            ¬ (frame.getD 11 0 = 0xff ∧ frame.getD 12 0 = 0xfe) := by
        intro c1 hrun frame hm
        apply hf frame
        have hst := pollByte_st bufNonNull waitForAck waitForSequence c byte
        rw [hrun] at hst
        change c1.st = _ at hst
        simp only [framesOf]
        cases hp : parseByte c.st byte with
        | more st1 =>
          rw [hp] at hst
          dsimp only at hst ⊢
          rw [← hst]
          exact hm
        | complete fr fs =>
          rw [hp] at hst
          dsimp only at hst ⊢
          rw [hst] at hm
          exact List.mem_cons_of_mem _ hm
      simp only [pollLoop]
      cases hpb : pollByte bufNonNull waitForAck waitForSequence c byte with
      | running c1 =>
        rw [hpb] at key
        have := ih c1 key.1 key.2.1 (hf1 c1 hpb)
        exact ⟨this.1, this.2.trans key.2.2⟩
      | done o c1 =>
        rw [hpb] at key
        exact ⟨key.2.1, key.2.2⟩

/-- Witness for C20: the host that has learned `12 34` and reads a frame from the
same device with 16-bit source `56 78` does not end with 0xFFFE. -/
theorem host_address_sticky_witness :
    (xbeedev_poll learnedHost false 0 (-1) (-1)
      ((apiFrame (rxPayload 0x56 0x78 1)).map some)).cfg.host.xbs.xbee_address.drop 8
        ≠ [0xff, 0xfe] :=
  (host_address_sticky false (-1) (-1) ((apiFrame (rxPayload 0x56 0x78 1)).map some)
    { st := .beforeFrame, host := learnedHost, buflen := 0, written := [] }
    (by decide) (by decide) (by decide)).1

/-- Counterexample for C20 as stated: the host has learned the 16-bit address
`12 34`; a checksum-valid 0x90 frame from the configured 64-bit address whose
16-bit source field is `ff fe` makes the session's 16-bit address 0xFFFE
again. -/
theorem host_address_sticky_counterexample :
    learnedHost.xbs.xbee_address.drop 8 = [0x12, 0x34] ∧
    (xbeedev_poll learnedHost false 0 (-1) (-1)
      ((apiFrame (rxPayload 0xff 0xfe 1)).map some)).cfg.host.xbs.xbee_address.drop 8
        = [0xff, 0xfe] := by
  decide

end Xbee

namespace Xbeeboot

/-! ## C14: the target re-sends an ACK with sequence 0 -/

/-- C14 (the code departs from the claim). With `lastIncomingSequence` 0, as
`main` sets it, `poll(0)` that reads two checksum-valid REQUEST frames of type
FIRMWARE_DELIVER carrying sequence 2 (the expected one is 1) calls
`sendAck(lastSequence)` on the second: the only frame it transmits is an ACK
whose application part is `[0, 0]`, sequence 0.  The same happens from the
state `main` sets up, through `getch`, on three such frames (the first one is
lost to the sniffing of its 0x7E). -/
theorem target_ack_zero :
    idleTarget.ram (lastIncomingSequence atmega328p) = 0 ∧
    (poll atmega328p { idleTarget with
        rx := apiFrame (deliverPayload 2 [0x41]) ++ apiFrame (deliverPayload 2 [0x41]) } 0).t.tx
      = apiFrame [0x10, 0, 0, 0, 0, 0, 0, 0, 0, 0, 0x12, 0x34, 0, 0, 0, 0] ∧
    (getch atmega328p (bootTarget (apiFrame (deliverPayload 2 [0x41]) ++
        apiFrame (deliverPayload 2 [0x41]) ++ apiFrame (deliverPayload 2 [0x41])))).t.tx
      = apiFrame [0x10, 0, 0, 0, 0, 0, 0, 0, 0, 0, 0x12, 0x34, 0, 0, 0, 0] := by
  decide

/-! ## C15: a chunk of 55 bytes -/

/-- C15 (the code departs from the claim). In frame mode with an empty output
buffer, 54 calls of `putch` transmit nothing, and the 55th makes `pushBuffer`
transmit a REQUEST of type FIRMWARE_REPLY with all 55 bytes: `outputIndex` is
55 at `transmit`, one more than `XBEEBOOT_MAX_CHUNK`. -/
theorem target_chunk_55 :
    (putchAll atmega328p idleTarget (List.replicate 54 0x41)).tx = [] ∧
    (putchAll atmega328p idleTarget (List.replicate 55 0x41)).tx
      = apiFrame ([0x10, 0, 0, 0, 0, 0, 0, 0, 0, 0, 0, 0, 0, 0, 1, 1, 24] ++
          List.replicate 55 0x41) := by
  decide

end Xbeeboot

namespace Xbeeboot

/-! ## C16: acceptance of a data frame by the target -/

theorem storeAll_tx (t : Target) (base : Nat → Nat) (index : Nat) (p : List Byte) :
    (Target.storeAll t base index p).tx = t.tx := by
  induction p generalizing t index with
  | nil => rfl
  | cons b p ih => rw [Target.storeAll, ih]; rfl

theorem storeAll_other (t : Target) (base : Nat → Nat) (index : Nat) (p : List Byte) (a : Nat)
    (h : ∀ j, j < p.length → a ≠ base (index + j)) :
    (Target.storeAll t base index p).ram a = t.ram a := by
  induction p generalizing t index with
  | nil => rfl
  | cons b p ih =>
    rw [Target.storeAll, ih]
    · have := h 0 (by simp)
      simp only [Nat.add_zero] at this
      simp [Target.store, this]
    · intro j hj
      have := h (j + 1) (by simpa using hj)
      rwa [Nat.add_assoc, Nat.add_comm 1 j]

theorem storeAll_at (t : Target) (base : Nat → Nat) (hinj : ∀ i j, base i = base j → i = j)
    (index : Nat) (p : List Byte) (j : Nat) (hj : j < p.length) :
    (Target.storeAll t base index p).ram (base (index + j)) = p.getD j 0 := by
  induction p generalizing t index j with
  | nil => simp at hj
  | cons b p ih =>
    rw [Target.storeAll]
    cases j with
    | zero =>
      rw [storeAll_other]
      · simp [Target.store]
      · intro k _ hk
        have := hinj _ _ hk
        omega
    | succ j =>
      have := ih (t.store (base index) b) (index + 1) j (by simpa using hj)
      rw [show index + (j + 1) = index + 1 + j by omega, this]
      simp

theorem copyAddress_tx (d : Layout) (count index : Nat) (t : Target) :
    (copyAddress d count index t).tx = t.tx := by
  induction count generalizing index t with
  | zero => rfl
  | succ count ih => rw [copyAddress, ih]; rfl

theorem copyPayload_tx (d : Layout) (n count index : Nat) (t : Target) :
    (copyPayload d n count index t).tx = t.tx := by
  induction count generalizing index t with
  | zero => rfl
  | succ count ih => rw [copyPayload, ih]; rfl

theorem copyAddress_below (d : Layout) (count index : Nat) (t : Target) (a : Nat)
    (h : a < outputBuffer d 0) : (copyAddress d count index t).ram a = t.ram a := by
  induction count generalizing index t with
  | zero => rfl
  | succ count ih =>
    rw [copyAddress, ih]
    have : a ≠ lastAddress d index := by
      unfold lastAddress outputBuffer at *; omega
    simp [Target.store, this]

theorem copyPayload_below (d : Layout) (n count index : Nat) (t : Target) (a : Nat)
    (h : a < packetBuffer d 0) : (copyPayload d n count index t).ram a = t.ram a := by
  induction count generalizing index t with
  | zero => rfl
  | succ count ih =>
    rw [copyPayload, ih]
    have : a ≠ packetBuffer d (n - 1 - index) := by
      unfold packetBuffer at *; omega
    simp [Target.store, this]

theorem sendAck_below (d : Layout) (t : Target) (s : Byte) (a : Nat)
    (h : a < outputBuffer d 0) : (sendAck d t s).ram a = t.ram a := by
  unfold sendAck
  rw [transmit_ram]
  unfold outputPayload outputBuffer at *
  have h1 : ∀ k, a ≠ d.RAMSTART + d.SPM_PAGESIZE * 6 + k := fun k => by omega
  have h0 : a ≠ d.RAMSTART + d.SPM_PAGESIZE * 6 := by omega
  simp [Target.store, h1, h0]

/-- The frame `sendAck(s)` transmits: 16 payload bytes that end with the
application part `[0, s]`. -/
theorem sendAck_tx (d : Layout) (t : Target) (s : Byte) :
    ∃ q : List Byte, q.length = 16 ∧ q.drop 14 = [0, s] ∧
      (sendAck d t s).tx = t.tx ++ apiFrame q := by
  have hn : (TXHEADER_BYTES + 2 : Byte).val = 16 := by decide
  have key : ∀ t1 : Target, ∃ q : List Byte, q.length = 16 ∧
      q.drop 14 = [t1.ram (outputBuffer d 14), t1.ram (outputBuffer d 15)] ∧
      (transmit d t1 (TXHEADER_BYTES + 2)).tx = t1.tx ++ apiFrame q := by
    intro t1
    refine ⟨(List.range 16).map (fun i =>
      (transmit d t1 (TXHEADER_BYTES + 2)).ram (outputBuffer d i)), by simp, ?_, ?_⟩
    · rw [transmit_ram]
      simp [List.range_succ, Target.store, outputBuffer]
    · rw [transmit_tx, hn]
  unfold sendAck
  obtain ⟨q, h1, h2, h3⟩ := key ((t.store (outputPayload d 0) 0).store (outputPayload d 1) s)
  refine ⟨q, h1, ?_, h3⟩
  rw [h2]
  simp [Target.store, outputPayload, outputBuffer]

/-- One pass of the loop of `poll` over the bytes of a whole frame: length bytes
`msb` and `len`, payload `p` of `len` bytes, checksum byte `c`. -/
theorem pollIteration_frame (d : Layout) (w s : Byte) (t : Target) (msb len : Byte)
    (p : List Byte) (c : Byte) (rest : List Byte) (hlen : p.length = len.val) :
    pollIteration d w s
        { t with rx := 0x7e :: (escapeBytes (msb :: len :: p) ++ escapeBytes [c] ++ rest) }
      = if msb ≠ 0 then
          .again s { t with rx := escapeBytes (len :: p) ++ escapeBytes [c] ++ rest }
        else if 0xff - p.sum ≠ c then
          .again s { Target.storeAll t (packet d) 0 p with rx := rest }
        else
          match pollFrame d w len s { Target.storeAll t (packet d) 0 p with rx := rest } with
          | (some rc, _, t) => .returned rc t
          | (none, sawInvalid, t) => .again sawInvalid t := by
  have e0 : ∀ R : List Byte, uartGetch { t with rx := 0x7e :: R } = (some 0x7e, { t with rx := R }) :=
    fun _ => rfl
  have e1 : escapeBytes (msb :: len :: p) ++ escapeBytes [c] ++ rest
      = escapeByte msb ++ (escapeBytes (len :: p) ++ escapeBytes [c] ++ rest) := by
    rw [escapeBytes_cons]; simp only [List.append_assoc]
  have e2 : escapeBytes (len :: p) ++ escapeBytes [c] ++ rest
      = escapeByte len ++ (escapeBytes p ++ (escapeByte c ++ rest)) := by
    rw [escapeBytes_cons, escapeBytes_cons]; simp [escapeBytes]
  unfold pollIteration
  rw [e0]
  dsimp only
  rw [if_neg (by decide), e1, escGetch_escapeByte]
  dsimp only
  by_cases hm : msb ≠ 0
  · rw [if_pos hm, if_pos hm]
  rw [if_neg hm, if_neg hm, e2, escGetch_escapeByte]
  dsimp only
  rw [← hlen, readPacket_escapeBytes]
  dsimp only
  rw [escGetch_escapeByte]

/-- The accepting branch of `poll` (lines 1010-1031), taken when the stored
packet is a REQUEST of type FIRMWARE_DELIVER with the expected sequence and the
receive buffer is empty. -/
theorem pollFrame_accept (d : Layout) (w len s : Byte) (t : Target) (hP : 4 ≤ d.SPM_PAGESIZE)
    (h0 : t.ram (packet d 0) = 0x90) (h16 : 16 ≤ len.val) (h12 : t.ram (packet d 12) = 1)
    (h14 : t.ram (packet d 14) = 23)
    (h13 : t.ram (packet d 13) = nextSequence (t.ram (lastIncomingSequence d)))
    (hfm : t.ram (frameMode d) = FRAME_FRAME) :
    pollFrame d w len s t = (if w = 0 then some 0 else none, s,
      (sendAck d ((copyPayload d (len - 12 - 3).val (len - 12 - 3).val 0
          (copyAddress d 10 0 t)).store (frameMode d) (len - 12 - 3))
        (t.ram (packet d 13))).store (lastIncomingSequence d) (t.ram (packet d 13))) := by
  have hl : (copyAddress d 10 0 t).ram (lastIncomingSequence d) = t.ram (lastIncomingSequence d) :=
    copyAddress_below d 10 0 t _ (by unfold lastIncomingSequence outputBuffer; omega)
  have hf : (copyAddress d 10 0 t).ram (frameMode d) = t.ram (frameMode d) :=
    copyAddress_below d 10 0 t _ (by unfold frameMode outputBuffer; omega)
  have hne : len ≠ 12 + 2 := by
    intro h; rw [h] at h16; exact absurd h16 (by decide)
  unfold pollFrame
  dsimp only
  rw [if_neg (not_not.mpr h0), if_neg hne, if_pos (by omega), if_neg (not_not.mpr h12),
    if_neg (not_not.mpr h14), hl, hf, if_neg (not_not.mpr h13), if_neg (not_not.mpr hfm), ← h13]
  split_ifs <;> rfl

/-- Every other branch of `poll` on a stored packet leaves `lastIncomingSequence`
and `frameMode` as they are and transmits nothing, or (a second REQUEST with a
wrong sequence) the ACK for the unchanged `lastIncomingSequence`. -/
theorem pollFrame_reject (d : Layout) (w len s : Byte) (t : Target) (hP : 4 ≤ d.SPM_PAGESIZE)
    (hno : ¬ (t.ram (packet d 0) = 0x90 ∧ 16 ≤ len.val ∧ t.ram (packet d 12) = 1 ∧
      t.ram (packet d 14) = 23 ∧
      t.ram (packet d 13) = nextSequence (t.ram (lastIncomingSequence d)) ∧
      t.ram (frameMode d) = FRAME_FRAME)) :
    (pollFrame d w len s t).2.2.ram (lastIncomingSequence d) = t.ram (lastIncomingSequence d) ∧
    (pollFrame d w len s t).2.2.ram (frameMode d) = t.ram (frameMode d) ∧
    ((pollFrame d w len s t).2.2.tx = t.tx ∨
      ∃ q : List Byte, q.length = 16 ∧ q.drop 14 = [0, t.ram (lastIncomingSequence d)] ∧
        (pollFrame d w len s t).2.2.tx = t.tx ++ apiFrame q) := by
  have hbl : lastIncomingSequence d < outputBuffer d 0 := by
    unfold lastIncomingSequence outputBuffer; omega
  have hbf : frameMode d < outputBuffer d 0 := by
    unfold frameMode outputBuffer; omega
  have hl : (copyAddress d 10 0 t).ram (lastIncomingSequence d) = t.ram (lastIncomingSequence d) :=
    copyAddress_below d 10 0 t _ hbl
  have hf : (copyAddress d 10 0 t).ram (frameMode d) = t.ram (frameMode d) :=
    copyAddress_below d 10 0 t _ hbf
  unfold pollFrame
  dsimp only
  by_cases h0 : t.ram (packet d 0) ≠ 0x90
  · rw [if_pos h0]; exact ⟨rfl, rfl, Or.inl rfl⟩
  rw [if_neg h0]
  by_cases h14l : len = 12 + 2
  · rw [if_pos h14l]
    split_ifs <;> exact ⟨rfl, rfl, Or.inl rfl⟩
  rw [if_neg h14l]
  by_cases h16 : len.val ≥ 12 + 4
  swap
  · rw [if_neg h16]; exact ⟨rfl, rfl, Or.inl rfl⟩
  rw [if_pos h16]
  by_cases h12 : t.ram (packet d 12) ≠ 1
  · rw [if_pos h12]; exact ⟨rfl, rfl, Or.inl rfl⟩
  rw [if_neg h12]
  by_cases h14 : t.ram (packet d (12 + 2)) ≠ 23
  · rw [if_pos h14]; exact ⟨rfl, rfl, Or.inl rfl⟩
  rw [if_neg h14, hl, hf]
  by_cases h13 : t.ram (packet d (12 + 1)) ≠ nextSequence (t.ram (lastIncomingSequence d))
  · rw [if_pos h13]
    by_cases hs : s ≠ 0
    · rw [if_pos hs]
      dsimp only
      obtain ⟨q, q1, q2, q3⟩ := sendAck_tx d (copyAddress d 10 0 t)
        (t.ram (lastIncomingSequence d))
      rw [sendAck_below _ _ _ _ hbl, sendAck_below _ _ _ _ hbf, hl, hf]
      refine ⟨rfl, rfl, Or.inr ⟨q, q1, q2, ?_⟩⟩
      rw [q3, copyAddress_tx]
    · rw [if_neg hs]
      dsimp only
      rw [hl, hf, copyAddress_tx]
      exact ⟨rfl, rfl, Or.inl rfl⟩
  rw [if_neg h13]
  by_cases hfm : t.ram (frameMode d) ≠ FRAME_FRAME
  · rw [if_pos hfm]
    dsimp only
    rw [hl, hf, copyAddress_tx]
    exact ⟨rfl, rfl, Or.inl rfl⟩
  exact absurd ⟨not_not.mp h0, h16, not_not.mp h12, not_not.mp h14, not_not.mp h13,
    not_not.mp hfm⟩ hno

theorem packet_stored (d : Layout) (t : Target) (p rest : List Byte) (i : Nat)
    (hi : i < p.length) :
    ({ Target.storeAll t (packet d) 0 p with rx := rest } : Target).ram (packet d i)
      = p.getD i 0 := by
  have := storeAll_at t (packet d) (fun a b h => by unfold packet at h; omega) 0 p i hi
  rw [Nat.zero_add] at this
  exact this

theorem packet_stored_below (d : Layout) (t : Target) (p rest : List Byte) (a : Nat)
    (ha : a < packet d 0) :
    ({ Target.storeAll t (packet d) 0 p with rx := rest } : Target).ram a = t.ram a :=
  storeAll_other t (packet d) 0 p a (fun j _ => by unfold packet at *; omega)

/-- The pass of `poll` over a frame that meets the acceptance conditions: the
state it leaves, store by store. -/
theorem pollIteration_accept (d : Layout) (w s : Byte) (t : Target) (msb len : Byte)
    (p : List Byte) (c : Byte) (rest : List Byte) (hP : 4 ≤ d.SPM_PAGESIZE)
    (hlen : p.length = len.val)
    (hrx : t.rx = 0x7e :: (escapeBytes (msb :: len :: p) ++ escapeBytes [c] ++ rest))
    (hacc : AcceptsData d t msb len p c) :
    pollIteration d w s t
      = (if w = 0 then
          .returned 0 ((sendAck d ((copyPayload d (len - 12 - 3).val (len - 12 - 3).val 0
            (copyAddress d 10 0 { Target.storeAll t (packet d) 0 p with rx := rest })).store
            (frameMode d) (len - 12 - 3)) (p.getD 13 0)).store (lastIncomingSequence d)
            (p.getD 13 0))
        else
          .again s ((sendAck d ((copyPayload d (len - 12 - 3).val (len - 12 - 3).val 0
            (copyAddress d 10 0 { Target.storeAll t (packet d) 0 p with rx := rest })).store
            (frameMode d) (len - 12 - 3)) (p.getD 13 0)).store (lastIncomingSequence d)
            (p.getD 13 0))) := by
  have ht : t = { t with rx := 0x7e :: (escapeBytes (msb :: len :: p) ++ escapeBytes [c] ++ rest) } := by
    rw [← hrx]
  have hit := pollIteration_frame d w s t msb len p c rest hlen
  rw [← ht] at hit
  have hbl : lastIncomingSequence d < packet d 0 := by
    unfold lastIncomingSequence packet; omega
  have hbf : frameMode d < packet d 0 := by
    unfold frameMode packet; omega
  have l0 := packet_stored_below d t p rest _ hbl
  have f0 := packet_stored_below d t p rest _ hbf
  obtain ⟨hm, hc, h0, h16, h12, h14, h13, hfm⟩ := hacc
  have hl16 : 16 ≤ p.length := by omega
  have hacc := pollFrame_accept d w len s { Target.storeAll t (packet d) 0 p with rx := rest }
    hP (by rw [packet_stored d t p rest 0 (by omega), h0]) h16
    (by rw [packet_stored d t p rest 12 (by omega), h12])
    (by rw [packet_stored d t p rest 14 (by omega), h14])
    (by rw [packet_stored d t p rest 13 (by omega), l0, h13])
    (by rw [f0, hfm])
  rw [packet_stored d t p rest 13 (by omega)] at hacc
  rw [hit, if_neg (not_not.mpr hm), if_neg (by rw [hc, checksumByte_eq]; simp), hacc]
  split_ifs <;> rfl

/-- C16. Target data acceptance: for a pass of `poll` over the bytes of a whole
frame (0x7E, escaped length bytes `msb`, `len`, escaped payload `p` of `len`
bytes, escaped checksum byte `c`), on a layout whose page holds the four
variables of page 3.  If the frame meets `AcceptsData` (length MSB 0, checksum
valid, API type 0x90, length at least 16, REQUEST (1), type 23, sequence
`succ(lastIncomingSequence)`, `frameMode` 0), the pass transmits exactly one
frame, an ACK whose application part is `[0, sequence]`, sets
`lastIncomingSequence` to that sequence and `frameMode` to `len - 15`, and
returns 0 (goes on when an ACK is awaited).  If it does not, the pass leaves
`lastIncomingSequence` and `frameMode` unchanged and transmits nothing, or
only the ACK for the unchanged `lastIncomingSequence`. -/
theorem target_data_accept (d : Layout) (w s : Byte) (t : Target) (msb len : Byte)
    (p : List Byte) (c : Byte) (rest : List Byte) (hP : 4 ≤ d.SPM_PAGESIZE)
    (hlen : p.length = len.val)
    (hrx : t.rx = 0x7e :: (escapeBytes (msb :: len :: p) ++ escapeBytes [c] ++ rest)) :
    (AcceptsData d t msb len p c →
      ∃ (t1 : Target) (q : List Byte),
        pollIteration d w s t = (if w = 0 then .returned 0 t1 else .again s t1) ∧
        q.length = 16 ∧ q.drop 14 = [0, p.getD 13 0] ∧ t1.tx = t.tx ++ apiFrame q ∧
        t1.ram (lastIncomingSequence d) = p.getD 13 0 ∧
        t1.ram (frameMode d) = len - 15 ∧ t1.rx = rest) ∧
    (¬ AcceptsData d t msb len p c →
      (pollIteration d w s t).t.ram (lastIncomingSequence d) = t.ram (lastIncomingSequence d) ∧
      (pollIteration d w s t).t.ram (frameMode d) = t.ram (frameMode d) ∧
      ((pollIteration d w s t).t.tx = t.tx ∨
        ∃ q : List Byte, q.length = 16 ∧ q.drop 14 = [0, t.ram (lastIncomingSequence d)] ∧
          (pollIteration d w s t).t.tx = t.tx ++ apiFrame q)) := by
  have ht : t = { t with rx := 0x7e :: (escapeBytes (msb :: len :: p) ++ escapeBytes [c] ++ rest) } := by
    rw [← hrx]
  have hit := pollIteration_frame d w s t msb len p c rest hlen
  rw [← ht] at hit
  have hbl : lastIncomingSequence d < packet d 0 := by
    unfold lastIncomingSequence packet; omega
  have hbf : frameMode d < packet d 0 := by
    unfold frameMode packet; omega
  have hbf6 : frameMode d < outputBuffer d 0 := by
    unfold frameMode outputBuffer; omega
  have hlf : frameMode d ≠ lastIncomingSequence d := by
    unfold frameMode lastIncomingSequence; omega
  have l0 := packet_stored_below d t p rest _ hbl
  have f0 := packet_stored_below d t p rest _ hbf
  constructor
  · intro hacc
    have hpi := pollIteration_accept d w s t msb len p c rest hP hlen hrx hacc
    obtain ⟨x, hx⟩ : ∃ x : Target, x = (copyPayload d (len - 12 - 3).val (len - 12 - 3).val 0
        (copyAddress d 10 0 { Target.storeAll t (packet d) 0 p with rx := rest })).store
        (frameMode d) (len - 12 - 3) := ⟨_, rfl⟩
    rw [← hx] at hpi
    have x1 : x.tx = t.tx := by
      rw [hx, store_tx, copyPayload_tx, copyAddress_tx]; exact storeAll_tx _ _ _ _
    have x2 : x.rx = rest := by
      rw [hx, store_rx, copyPayload_rx, copyAddress_rx]
    have x3 : x.ram (frameMode d) = len - 15 := by
      have e15 : len - 12 - 3 = len - 15 := by
        rw [sub_sub]; rfl
      rw [hx, ← e15]
      simp [Target.store]
    obtain ⟨q, q1, q2, q3⟩ := sendAck_tx d x (p.getD 13 0)
    refine ⟨(sendAck d x (p.getD 13 0)).store (lastIncomingSequence d) (p.getD 13 0), q, hpi, q1,
      q2, ?_, ?_, ?_, ?_⟩
    · rw [store_tx, q3, x1]
    · simp [Target.store]
    · simp only [Target.store, if_neg hlf]
      rw [sendAck_below _ _ _ _ hbf6, x3]
    · rw [store_rx, sendAck_rx, x2]
  · intro hno
    rw [hit]
    by_cases hm : msb ≠ 0
    · rw [if_pos hm]; exact ⟨rfl, rfl, Or.inl rfl⟩
    rw [if_neg hm]
    by_cases hc : 0xff - p.sum ≠ c
    · rw [if_pos hc]
      exact ⟨l0, f0, Or.inl (storeAll_tx _ _ _ _)⟩
    rw [if_neg hc]
    have hrej := pollFrame_reject d w len s { Target.storeAll t (packet d) 0 p with rx := rest }
      hP (by
        rintro ⟨h0, h16, h12, h14, h13, hfm⟩
        have hl16 : 16 ≤ p.length := by omega
        rw [packet_stored d t p rest 0 (by omega)] at h0
        rw [packet_stored d t p rest 12 (by omega)] at h12
        rw [packet_stored d t p rest 14 (by omega)] at h14
        rw [packet_stored d t p rest 13 (by omega), l0] at h13
        rw [f0] at hfm
        exact hno ⟨not_not.mp hm, by rw [checksumByte_eq]; exact (not_not.mp hc).symm, h0, h16,
          h12, h14, h13, hfm⟩)
    rw [l0, f0] at hrej
    have htx : ({ Target.storeAll t (packet d) 0 p with rx := rest } : Target).tx = t.tx :=
      storeAll_tx _ _ _ _
    rw [htx] at hrej
    rcases hpf : pollFrame d w len s { Target.storeAll t (packet d) 0 p with rx := rest } with
      ⟨rc, s1, t1⟩
    rw [hpf] at hrej
    cases rc <;> exact hrej

/-! ## C17: the order in which `getch` returns an accepted payload -/

theorem copyAddress_other (d : Layout) (count index : Nat) (t : Target) (a : Nat)
    (h : ∀ i, i < count → a ≠ lastAddress d (index + i)) :
    (copyAddress d count index t).ram a = t.ram a := by
  induction count generalizing index t with
  | zero => rfl
  | succ count ih =>
    rw [copyAddress, ih]
    · have := h 0 (by omega)
      rw [Nat.add_zero] at this
      simp [Target.store, this]
    · intro i hi
      have := h (i + 1) (by omega)
      rwa [show index + (i + 1) = index + 1 + i by omega] at this

theorem copyPayload_other (d : Layout) (n count index : Nat) (t : Target) (a : Nat)
    (h : ∀ k, index ≤ k → k < index + count → a ≠ packetBuffer d (n - 1 - k)) :
    (copyPayload d n count index t).ram a = t.ram a := by
  induction count generalizing index t with
  | zero => rfl
  | succ count ih =>
    rw [copyPayload, ih]
    · have := h index (le_refl _) (by omega)
      simp [Target.store, this]
    · intro k h1 h2
      exact h k (by omega) (by omega)

/-- The reversing copy loop when the payload stays inside the page of
`packetBuffer`: `packetBuffer[n - 1 - k]` ends up as `packet[15 + k]`. -/
theorem copyPayload_content (d : Layout) (n : Nat) (hn : n ≤ d.SPM_PAGESIZE) :
    ∀ (count index : Nat) (t : Target), index + count = n → ∀ k, index ≤ k → k < n →
      (copyPayload d n count index t).ram (packetBuffer d (n - 1 - k))
        = t.ram (packet d (12 + 3 + k)) := by
  intro count
  induction count with
  | zero => intro index t h k h1 h2; omega
  | succ count ih =>
    intro index t h k h1 h2
    rw [copyPayload]
    by_cases hk : k = index
    · subst hk
      rw [copyPayload_other]
      · simp [Target.store]
      · intro k1 h3 h4
        unfold packetBuffer
        omega
    · rw [ih (index + 1) _ (by omega) k (by omega) h2]
      have : packet d (12 + 3 + k) ≠ packetBuffer d (n - 1 - index) := by
        unfold packet packetBuffer; omega
      simp [Target.store, this]

/-- With nothing to transmit and `frameMode` between 1 and 252, `getch` takes the
byte `packetBuffer[frameMode - 1]` and decrements `frameMode`; the UART is not
touched. -/
theorem getch_pop (d : Layout) (t : Target) (hP : 4 ≤ d.SPM_PAGESIZE)
    (hout : t.ram (outputIndex d) = 0) (h1 : 1 ≤ (t.ram (frameMode d)).val)
    (h2 : (t.ram (frameMode d)).val ≤ 252) :
    (getch d t).outcome = .returned (t.ram (packetBuffer d ((t.ram (frameMode d)).val - 1))) ∧
      (getch d t).t = t.store (frameMode d) (t.ram (frameMode d) - 1) := by
  have hpush : pushBuffer d t 0 = { outcome := .done, t := t } := by
    unfold pushBuffer
    rw [if_pos (by rw [hout])]
  have hm1 : t.ram (frameMode d) ≠ FRAME_UART := by
    intro h; rw [h] at h2; exact absurd h2 (by decide)
  have hm2 : t.ram (frameMode d) ≠ FRAME_UNKNOWN := by
    intro h; rw [h] at h2; exact absurd h2 (by decide)
  have hm3 : t.ram (frameMode d) ≠ FRAME_FRAME := by
    intro h; rw [h] at h1; exact absurd h1 (by decide)
  have hv : (t.ram (frameMode d) - 1).val = (t.ram (frameMode d)).val - 1 := by
    rw [byte_sub_val]
    have : ((1 : Byte)).val = 1 := rfl
    omega
  have hne : packetBuffer d ((t.ram (frameMode d)).val - 1) ≠ frameMode d := by
    unfold packetBuffer frameMode; omega
  unfold getch
  rw [hpush]
  dsimp only
  rw [getchLoop]
  rw [if_neg hm1, if_neg hm2, if_neg hm3]
  unfold getchDefault
  constructor
  · simp [Target.store, hv, hne]
  · rfl

theorem getchN_pop (d : Layout) (hP : 4 ≤ d.SPM_PAGESIZE) : ∀ (m : Nat) (t : Target),
    m ≤ 252 → (t.ram (frameMode d)).val = m → t.ram (outputIndex d) = 0 →
    ∃ t2, getchN d m t
        = (some ((List.range m).reverse.map (fun j => t.ram (packetBuffer d j))), t2) ∧
      t2.rx = t.rx ∧ t2.tx = t.tx ∧ t2.ram (frameMode d) = 0 ∧
      ∀ a, a ≠ frameMode d → t2.ram a = t.ram a := by
  intro m
  induction m with
  | zero =>
    intro t _ hm _
    exact ⟨t, rfl, rfl, rfl, Fin.ext hm, fun _ _ => rfl⟩
  | succ m ih =>
    intro t h252 hm hout
    obtain ⟨g1, g2⟩ := getch_pop d t hP hout (by omega) (by omega)
    have hof : outputIndex d ≠ frameMode d := by
      unfold outputIndex frameMode; omega
    have hv : (t.ram (frameMode d) - 1).val = m := by
      rw [byte_sub_val]
      have : ((1 : Byte)).val = 1 := rfl
      omega
    obtain ⟨t2, i1, i2, i3, i4, i5⟩ := ih (t.store (frameMode d) (t.ram (frameMode d) - 1))
      (by omega) (by simpa [Target.store] using hv) (by simp [Target.store, hof, hout])
    refine ⟨t2, ?_, i2, i3, i4, ?_⟩
    · rw [getchN, g1, g2]
      dsimp only
      rw [i1, hm, List.range_succ, List.reverse_append]
      simp only [List.reverse_cons, List.reverse_nil, List.nil_append, List.singleton_append,
        List.map_cons, Nat.add_sub_cancel]
      congr 3
      apply List.map_congr_left
      intro j _
      have : packetBuffer d j ≠ frameMode d := by
        unfold packetBuffer frameMode; omega
      simp [Target.store, this]
    · intro a ha
      rw [i5 a ha]
      simp [Target.store, ha]

theorem store_ram_ne (t : Target) (a b : Nat) (v : Byte) (h : a ≠ b) :
    (t.store b v).ram a = t.ram a := by
  simp [Target.store, h]

theorem store_ram_eq (t : Target) (a : Nat) (v : Byte) : (t.store a v).ram a = v := by
  simp [Target.store]

/-- C17 (amended). Target receive order: after a pass of `poll` accepts a data
frame whose payload `p` (15 header bytes, then the data `p.drop 15`) has at
most `SPM_PAGESIZE + 2` bytes, so that `packet` ends before `lastAddress`,
with `outputIndex` 0, the next `p.length - 15` calls of `getch` return the data
bytes in order, read nothing from the UART and transmit nothing, and
`frameMode` is 0 after the last of them. -/
theorem target_receive_order (d : Layout) (w s : Byte) (t : Target) (msb len : Byte)
    (p : List Byte) (c : Byte) (rest : List Byte)
    (hP : p.length ≤ d.SPM_PAGESIZE + 2) (hlen : p.length = len.val)
    (hrx : t.rx = 0x7e :: (escapeBytes (msb :: len :: p) ++ escapeBytes [c] ++ rest))
    (hacc : AcceptsData d t msb len p c) (hout : t.ram (outputIndex d) = 0) :
    ∃ t1 t2 : Target,
      pollIteration d w s t = (if w = 0 then .returned 0 t1 else .again s t1) ∧
      getchN d (p.length - 15) t1 = (some (p.drop 15), t2) ∧
      t2.rx = rest ∧ t2.tx = t1.tx ∧ t2.ram (frameMode d) = 0 := by
  have h16 : 16 ≤ len.val := hacc.2.2.2.1
  have hP4 : 4 ≤ d.SPM_PAGESIZE := by omega
  have hpi := pollIteration_accept d w s t msb len p c rest hP4 hlen hrx hacc
  have hdl : (len - 12 - 3).val = p.length - 15 := by
    have key : ∀ l : Byte, 15 ≤ l.val → (l - 12 - 3).val = l.val - 15 := by decide
    rw [key len (by omega), hlen]
  rw [hdl] at hpi
  obtain ⟨t0, ht0⟩ : ∃ t0 : Target,
      t0 = { Target.storeAll t (packet d) 0 p with rx := rest } := ⟨_, rfl⟩
  rw [← ht0] at hpi
  obtain ⟨t1, ht1⟩ : ∃ t1 : Target, t1 = (sendAck d ((copyPayload d (p.length - 15)
      (p.length - 15) 0 (copyAddress d 10 0 t0)).store (frameMode d) (len - 12 - 3))
      (p.getD 13 0)).store (lastIncomingSequence d) (p.getD 13 0) := ⟨_, rfl⟩
  rw [← ht1] at hpi
  have low : ∀ a, a < packetBuffer d 0 → a ≠ frameMode d → a ≠ lastIncomingSequence d →
      t1.ram a = t.ram a := by
    intro a ha h1 h2
    have h6 : a < outputBuffer d 0 := by unfold packetBuffer outputBuffer at *; omega
    have h5 : a < packet d 0 := by unfold packetBuffer packet at *; omega
    rw [ht1, store_ram_ne _ _ _ _ h2, sendAck_below _ _ _ _ h6, store_ram_ne _ _ _ _ h1,
      copyPayload_below _ _ _ _ _ _ ha, copyAddress_below _ _ _ _ _ h6, ht0]
    exact packet_stored_below d t p rest a h5
  have hfm : t1.ram (frameMode d) = len - 12 - 3 := by
    have hlf : frameMode d ≠ lastIncomingSequence d := by
      unfold frameMode lastIncomingSequence; omega
    have hbf6 : frameMode d < outputBuffer d 0 := by
      unfold frameMode outputBuffer; omega
    rw [ht1, store_ram_ne _ _ _ _ hlf, sendAck_below _ _ _ _ hbf6, store_ram_eq]
  have hbuf : ∀ k, k < p.length - 15 →
      t1.ram (packetBuffer d (p.length - 15 - 1 - k)) = p.getD (15 + k) 0 := by
    intro k hk
    have h1 : packetBuffer d (p.length - 15 - 1 - k) ≠ lastIncomingSequence d := by
      unfold packetBuffer lastIncomingSequence; omega
    have h2 : packetBuffer d (p.length - 15 - 1 - k) ≠ frameMode d := by
      unfold packetBuffer frameMode; omega
    have h6 : packetBuffer d (p.length - 15 - 1 - k) < outputBuffer d 0 := by
      unfold packetBuffer outputBuffer; omega
    rw [ht1, store_ram_ne _ _ _ _ h1, sendAck_below _ _ _ _ h6, store_ram_ne _ _ _ _ h2]
    rw [copyPayload_content d (p.length - 15) (by omega) (p.length - 15) 0 _ (by omega) k
      (by omega) hk]
    rw [copyAddress_other, ht0]
    · exact packet_stored d t p rest (12 + 3 + k) (by omega)
    · intro i hi
      unfold packet lastAddress outputBuffer
      omega
  have hout1 : t1.ram (outputIndex d) = 0 := by
    rw [low _ (by unfold outputIndex packetBuffer; omega)
      (by unfold outputIndex frameMode; omega)
      (by unfold outputIndex lastIncomingSequence; omega), hout]
  obtain ⟨t2, g1, g2, g3, g4, -⟩ := getchN_pop d hP4 (p.length - 15) t1 (by omega)
    (by rw [hfm, hdl]) hout1
  refine ⟨t1, t2, hpi, ?_, ?_, g3, g4⟩
  · rw [g1]
    congr 2
    apply List.ext_getElem
    · simp
    · intro i h1 h2
      simp only [List.length_map, List.length_reverse, List.length_range] at h1
      simp only [List.getElem_map, List.getElem_reverse, List.getElem_range, List.length_range,
        List.getElem_drop]
      rw [hbuf i h1, List.getD_eq_getElem?_getD, List.getElem?_eq_getElem (by omega)]
      rfl
  · rw [g2, ht1, store_rx, sendAck_rx, store_rx, copyPayload_rx, copyAddress_rx, ht0]

/-- Witness for C16: the idle ATmega328P target that reads the frame carrying
`[1, 1, 23, 0x41]` returns 0 from the pass, transmits one ACK `[0, 1]`, and has
`lastIncomingSequence` 1 and `frameMode` 1. -/
theorem target_data_accept_witness :
    ∃ (t1 : Target) (q : List Byte),
      pollIteration atmega328p 0 0 (requestTarget [0x41]) = .returned 0 t1 ∧
      q.drop 14 = [0, 1] ∧ t1.tx = apiFrame q ∧
      t1.ram (lastIncomingSequence atmega328p) = 1 ∧ t1.ram (frameMode atmega328p) = 1 := by
  obtain ⟨t1, q, h1, -, h3, h4, h5, h6, -⟩ :=
    (target_data_accept atmega328p 0 0 (requestTarget [0x41]) 0 16 (deliverPayload 1 [0x41])
      (checksumByte (deliverPayload 1 [0x41])) [] (by decide) (by decide) (by decide)).1
      ⟨rfl, rfl, by decide, by decide, by decide, by decide, by decide, by decide⟩
  rw [if_pos rfl] at h1
  exact ⟨t1, q, h1, h3, h4, h5, h6⟩

/-- Witness for C17: after the frame carrying `[1, 1, 23, 0x41, 0x42]` two calls
of `getch` return 0x41 and 0x42 and leave `frameMode` 0. -/
theorem target_receive_order_witness :
    ∃ t1 t2 : Target,
      pollIteration atmega328p 0 0 (requestTarget [0x41, 0x42]) = .returned 0 t1 ∧
      getchN atmega328p 2 t1 = (some [0x41, 0x42], t2) ∧ t2.rx = [] ∧
      t2.ram (frameMode atmega328p) = 0 := by
  obtain ⟨t1, t2, h1, h2, h3, -, h5⟩ :=
    target_receive_order atmega328p 0 0 (requestTarget [0x41, 0x42]) 0 17
      (deliverPayload 1 [0x41, 0x42]) (checksumByte (deliverPayload 1 [0x41, 0x42])) []
      (by decide) (by decide) (by decide)
      ⟨rfl, rfl, by decide, by decide, by decide, by decide, by decide, by decide⟩ (by decide)
  rw [if_pos rfl] at h1
  exact ⟨t1, t2, h1, h2, h3, h5⟩

/-- Counterexample for C17 as stated: on the ATmega328P layout (`SPM_PAGESIZE`
128) the frame with the 116 data bytes 1, 2, ..., 116 is accepted (`poll`
returns 0, `frameMode` is 116) with `outputIndex` 0, but the 116 calls of
`getch` return 1, ..., 115 and then 0: `packet[130]`, which held the last data
byte, is the same location as `lastAddress[0]` and was overwritten by the copy
of the source address before the payload was copied. -/
theorem target_receive_order_counterexample :
    (requestTarget (countBytes 116)).ram (outputIndex atmega328p) = 0 ∧
    (countBytes 116).getD 115 0 = 116 ∧
    (poll atmega328p (requestTarget (countBytes 116)) 0).outcome = .returned 0 ∧
    (poll atmega328p (requestTarget (countBytes 116)) 0).t.ram (frameMode atmega328p) = 116 ∧
    (getchN atmega328p 116 (poll atmega328p (requestTarget (countBytes 116)) 0).t).1
      = some (countBytes 115 ++ [0]) := by
  decide

/-! ## C18: protocol sniffing in `getch` -/

theorem getchLoop_discard (d : Layout) (g : List Byte) : ∀ (fuel : Nat) (t : Target)
    (tail : List Byte), t.ram (frameMode d) = FRAME_UNKNOWN →
    (∀ x ∈ g, x ≠ 0x30 ∧ x ≠ 0x7e ∧ x ≠ 0x90) →
    getchLoop d (g.length + fuel) { t with rx := g ++ tail }
      = getchLoop d fuel { t with rx := tail } := by
  induction g with
  | nil => intro fuel t tail _ _; simp
  | cons x g ih =>
    intro fuel t tail hm hg
    have hx := hg x (List.mem_cons_self _ _)
    rw [show (x :: g).length + fuel = (g.length + fuel) + 1 by simp; omega, getchLoop]
    dsimp only
    rw [hm, if_neg (by decide), if_pos rfl]
    have e : uartGetch { t with rx := x :: g ++ tail } = (some x, { t with rx := g ++ tail }) := rfl
    rw [e]
    dsimp only
    rw [if_neg hx.1, if_neg (fun h => h.elim hx.2.1 hx.2.2)]
    exact ih fuel t tail hm (fun y hy => hg y (List.mem_cons_of_mem _ hy))

/-- C18. Target protocol sniffing: in the state `main` sets up (`frameMode` is
`FRAME_UNKNOWN`, `outputIndex` 0), with `g` a run of UART bytes none of which
is 0x30, 0x7E or 0x90: if nothing follows `g`, `getch` has discarded all of `g`
and waits for a byte with the data memory, `frameMode` included, unchanged; if
0x30 follows, `getch` returns 0x30 with `frameMode` set to `FRAME_UART`; if 0x7E
or 0x90 follows, `getch` sets `frameMode` to `FRAME_FRAME` and goes on as under
`case FRAME_FRAME`, with `poll(0)`. -/
theorem target_sniffing (d : Layout) (t : Target) (g : List Byte) (b : Byte) (rest : List Byte)
    (hmode : t.ram (frameMode d) = FRAME_UNKNOWN) (hout : t.ram (outputIndex d) = 0)
    (hg : ∀ x ∈ g, x ≠ 0x30 ∧ x ≠ 0x7e ∧ x ≠ 0x90) :
    (t.rx = g → (getch d t).outcome = .blocked ∧ (getch d t).t = { t with rx := [] }) ∧
    (t.rx = g ++ 0x30 :: rest →
      (getch d t).outcome = .returned 0x30 ∧
      (getch d t).t = ({ t with rx := rest } : Target).store (frameMode d) FRAME_UART) ∧
    (t.rx = g ++ b :: rest → b = 0x7e ∨ b = 0x90 →
      getch d t = getchFrame d (({ t with rx := rest } : Target).store (frameMode d) FRAME_FRAME)) := by
  have hpush : pushBuffer d t 0 = { outcome := .done, t := t } := by
    unfold pushBuffer
    rw [if_pos (by rw [hout])]
  have hget : getch d t = getchLoop d (t.rx.length + 1) t := by
    unfold getch
    rw [hpush]
  have hrun : ∀ tail : List Byte, t.rx = g ++ tail →
      getch d t = getchLoop d (tail.length + 1) { t with rx := tail } := by
    intro tail hrx
    have ht : t = { t with rx := g ++ tail } := by rw [← hrx]
    rw [hget, hrx, List.length_append, Nat.add_assoc]
    conv_lhs => rw [ht]
    exact getchLoop_discard d g _ t tail hmode hg
  refine ⟨fun hrx => ?_, fun hrx => ?_, fun hrx hb => ?_⟩
  · rw [hrun [] (by simp [hrx])]
    simp only [List.length_nil, Nat.zero_add, getchLoop]
    rw [hmode, if_neg (by decide), if_pos rfl]
    exact ⟨rfl, rfl⟩
  · rw [hrun _ hrx]
    simp only [List.length_cons, getchLoop]
    rw [hmode, if_neg (by decide), if_pos rfl]
    exact ⟨rfl, rfl⟩
  · rw [hrun _ hrx]
    simp only [List.length_cons, getchLoop]
    rw [hmode, if_neg (by decide), if_pos rfl]
    have e : uartGetch { t with rx := b :: rest } = (some b, { t with rx := rest }) := rfl
    rw [e]
    dsimp only
    have hb30 : b ≠ 0x30 := by
      rcases hb with rfl | rfl <;> decide
    rw [if_neg hb30, if_pos hb]

end Xbeeboot

namespace Xbeeboot

/-- Witness for C18: from the state `main` sets up, `getch` on the input
`55 30 20` discards 0x55, returns 0x30, leaves `20` unread and sets `frameMode`
to `FRAME_UART`. -/
theorem target_sniffing_witness :
    (getch atmega328p (bootTarget [0x55, 0x30, 0x20])).outcome = .returned 0x30 ∧
    (getch atmega328p (bootTarget [0x55, 0x30, 0x20])).t.rx = [0x20] ∧
    (getch atmega328p (bootTarget [0x55, 0x30, 0x20])).t.ram (frameMode atmega328p)
      = FRAME_UART := by
  have h := (target_sniffing atmega328p (bootTarget [0x55, 0x30, 0x20]) [0x55] 0 [0x20]
    (by decide) (by decide) (by decide)).2.1 rfl
  rw [h.1, h.2]
  exact ⟨rfl, rfl, by decide⟩

end Xbeeboot

namespace Xbee

/-! ## Reading a whole frame from the wire -/

theorem readerRun_append (q1 q2 : List Byte) : ∀ (st st1 : ParserState),
    readerRun st q1 = some st1 → readerRun st (q1 ++ q2) = readerRun st1 q2 := by
  induction q1 with
  | nil => intro st st1 h; simp only [readerRun, Option.some.injEq] at h; simp [h]
  | cons b q1 ih =>
    intro st st1 h
    simp only [readerRun, List.cons_append] at h ⊢
    cases hp : parseByte st b with
    | more st2 => rw [hp] at h; exact ih st2 st1 h
    | complete f s => rw [hp] at h; simp at h

theorem special_facts : ∀ b : Byte,
    ((b = 0x7e ∨ b = 0x7d ∨ b = 0x11 ∨ b = 0x13) →
      unescapeByte true (b ^^^ 0x20) = .value b) ∧
    (¬ (b = 0x7e ∨ b = 0x7d ∨ b = 0x11 ∨ b = 0x13) → unescapeByte false b = .value b) := by
  decide

/-- A byte of the frame body that is not the last one: its escaped encoding
appends it to the stored frame. -/
theorem readerRun_escapeByte (fr : List Byte) (fs : Nat) (b : Byte) (h2 : 2 ≤ fr.length)
    (hfs : fr.length + 1 < fs) (h256 : fs ≤ 256) :
    readerRun (.inFrame fr false fs) (escapeByte b) = some (.inFrame (fr ++ [b]) false fs) := by
  have h1 : unescapeByte false 0x7d = .leadIn := by decide
  have hl : ¬ fr.length ≥ 256 := by omega
  by_cases h : b = 0x7e ∨ b = 0x7d ∨ b = 0x11 ∨ b = 0x13
  · simp only [escapeByte, h, if_true, readerRun, parseByte, h1, (special_facts b).1 h, hl,
      if_false, List.length_append, List.length_singleton]
    rw [if_neg (by omega), if_pos hfs]
  · simp only [escapeByte, h, if_false, readerRun, parseByte, (special_facts b).2 h, hl,
      List.length_append, List.length_singleton]
    rw [if_neg (by omega), if_pos hfs]

theorem readerRun_escapeBytes (x : List Byte) : ∀ (fr : List Byte) (fs : Nat),
    2 ≤ fr.length → fr.length + x.length < fs → fs ≤ 256 →
    readerRun (.inFrame fr false fs) (escapeBytes x) = some (.inFrame (fr ++ x) false fs) := by
  induction x with
  | nil => intro fr fs _ _ _; simp [escapeBytes, readerRun]
  | cons b x ih =>
    intro fr fs h2 hfs h256
    simp only [List.length_cons] at hfs
    rw [escapeBytes_cons, readerRun_append _ _ _ _ (readerRun_escapeByte fr fs b h2 (by omega) h256),
      ih (fr ++ [b]) fs (by simp; omega) (by simp; omega) h256]
    simp

/-- The two length bytes `00 len` after the start delimiter. -/
theorem readerRun_length : ∀ len : Byte, len.val + 3 < 256 →
    readerRun (.inFrame [] false 2) (escapeBytes [0, len])
      = some (.inFrame [0, len] false (len.val + 3)) := by
  decide

/-- The last byte of the frame body: the final byte of its escaped encoding
completes the frame. -/
theorem parse_last (fr : List Byte) (fs : Nat) (b : Byte) (h2 : 2 ≤ fr.length)
    (hfs : fr.length + 1 = fs) (h256 : fs ≤ 256) :
    ∃ (pre : List Byte) (wl : Byte) (st : ParserState), escapeByte b = pre ++ [wl] ∧
      readerRun (.inFrame fr false fs) pre = some st ∧
      parseByte st wl = .complete (fr ++ [b]) fs := by
  have h1 : unescapeByte false 0x7d = .leadIn := by decide
  have hl : ¬ fr.length ≥ 256 := by omega
  by_cases h : b = 0x7e ∨ b = 0x7d ∨ b = 0x11 ∨ b = 0x13
  · refine ⟨[0x7d], b ^^^ 0x20, .inFrame fr true fs, by simp [escapeByte, h], ?_, ?_⟩
    · simp [readerRun, parseByte, h1]
    · simp only [parseByte, (special_facts b).1 h, hl, if_false, List.length_append,
        List.length_singleton]
      rw [if_neg (by omega), if_neg (by omega)]
  · refine ⟨[], b, .inFrame fr false fs, by simp [escapeByte, h], rfl, ?_⟩
    simp only [parseByte, (special_facts b).2 h, hl, if_false, List.length_append,
      List.length_singleton]
    rw [if_neg (by omega), if_neg (by omega)]

theorem toUChar_length_val (p : List Byte) (hp : p.length ≤ 252) :
    (toUChar (p.length : Int)).val = p.length := by
  rw [toUChar_val]; omega

/-- The reader of `xbeedev_poll` over the wire bytes of a frame with payload `p`:
all of them but the last leave it inside the frame, and the last completes the
stored frame `00 len p checksum`. -/
theorem reader_apiFrame (p : List Byte) (hp : p.length ≤ 252) :
    ∃ (q : List Byte) (wl : Byte) (st : ParserState), apiFrame p = q ++ [wl] ∧
      readerRun .beforeFrame q = some st ∧
      parseByte st wl
        = .complete ([0, toUChar p.length] ++ p ++ [checksumByte p]) (p.length + 3) := by
  have hv := toUChar_length_val p hp
  obtain ⟨pre, wl, st, h1, h2, h3⟩ := parse_last ([0, toUChar p.length] ++ p) (p.length + 3)
    (checksumByte p) (by simp) (by simp) (by omega)
  refine ⟨0x7e :: (escapeBytes [0x00, toUChar p.length] ++ escapeBytes p ++ pre), wl, st, ?_, ?_,
    h3⟩
  · unfold apiFrame
    have : escapeBytes [checksumByte p] = escapeByte (checksumByte p) := by simp [escapeBytes]
    rw [this, h1]
    simp
  · have e0 : readerRun .beforeFrame (0x7e :: (escapeBytes [0x00, toUChar p.length] ++
        escapeBytes p ++ pre)) = readerRun (.inFrame [] false 2)
        (escapeBytes [0x00, toUChar p.length] ++ (escapeBytes p ++ pre)) := by
      simp [readerRun, parseByte]
    rw [e0, readerRun_append _ _ _ _ (readerRun_length _ (by omega)), hv,
      readerRun_append _ _ _ _ (readerRun_escapeBytes p [0, toUChar p.length] (p.length + 3)
        (by simp) (by simp; omega) (by omega))]
    exact h2

/-- A poll that stands before a frame and reads the wire bytes of a frame with
payload `p` hands the stored frame to the dispatch. -/
theorem pollLoop_apiFrame (bufNonNull : Bool) (wa ws : Int) (c : PollCfg) (p : List Byte)
    (tail : List (Option Byte)) (hst : c.st = .beforeFrame) (hp : p.length ≤ 252) :
    pollLoop bufNonNull wa ws c ((apiFrame p).map some ++ tail)
      = match processFrame bufNonNull wa ws c ([0, toUChar p.length] ++ p ++ [checksumByte p])
          (p.length + 3) with
        | .running c1 => pollLoop bufNonNull wa ws c1 tail
        | .done o c1 => { outcome := o, cfg := c1, rest := tail } := by
  obtain ⟨q, wl, st, h1, h2, h3⟩ := reader_apiFrame p hp
  have hck : frameChecksum ([0, toUChar p.length] ++ p ++ [checksumByte p]) = 0 := by
    have := frameChecksum_eq 0 (toUChar p.length) (p ++ [checksumByte p])
    simp only [List.cons_append, List.nil_append] at this ⊢
    rw [this]
    exact ((checksum_test_iff p (checksumByte p)).1).mpr
      (((checksum_test_iff p (checksumByte p)).2.2).mp rfl)
  rw [← hst] at h2
  have hrun := pollRun_of_readerRun bufNonNull wa ws c q st h2
  rw [h1, List.map_append, List.append_assoc, pollLoop_append _ _ _ _ _ _ _ hrun]
  simp only [List.map_cons, List.map_nil, List.singleton_append, pollLoop]
  have hb : pollByte bufNonNull wa ws { c with st := st } wl
      = processFrame bufNonNull wa ws c ([0, toUChar p.length] ++ p ++ [checksumByte p])
          (p.length + 3) := by
    unfold pollByte
    rw [h3]
    dsimp only
    rw [if_neg (not_not.mpr hck), ← hst]
  rw [hb]
  rfl

end Xbee

namespace Xbee

/-! ## C21: frames the host drops silently -/

/-- C21. Silent drop of bad frames on the host: when the byte read by
`xbeedev_poll` completes a frame whose checksum does not match, or whose API
type is none of 0x97, 0x88, 0x8B, 0x10, 0x90, or a 0x90 frame whose 64-bit
source differs from the configured address, the poll goes on (it does not
return) with the host state (session, `txSequence`, frames sent) and the
caller's buffer exactly as before, and the reader back at `before_frame`,
scanning for the next 0x7E. -/
theorem host_silent_drop (bufNonNull : Bool) (waitForAck waitForSequence : Int) (c : PollCfg)
    (byte : Byte) (frame : List Byte) (frameSize : Nat)
    (hp : parseByte c.st byte = .complete frame frameSize)
    (hbad : frameChecksum frame ≠ 0 ∨
      (frame.getD 2 0 ≠ 0x97 ∧ frame.getD 2 0 ≠ 0x88 ∧ frame.getD 2 0 ≠ 0x8b ∧
        frame.getD 2 0 ≠ 0x10 ∧ frame.getD 2 0 ≠ 0x90) ∨
      (frame.getD 2 0 = 0x90 ∧ (frame.drop 3).take 8 ≠ c.host.xbs.xbee_address.take 8)) :
    pollByte bufNonNull waitForAck waitForSequence c byte
      = .running { c with st := .beforeFrame } := by
  unfold pollByte
  rw [hp]
  dsimp only
  by_cases hck : frameChecksum frame ≠ 0
  · rw [if_pos hck]
  rw [if_neg hck]
  unfold processFrame
  dsimp only
  rcases hbad with h | ⟨h97, h88, h8b, h10, h90⟩ | ⟨h90, haddr⟩
  · exact absurd h hck
  · rw [if_neg (fun h => h97 h.1), if_neg (fun h => h88 h.1), if_neg (fun h => h8b h.1),
      if_neg h10, if_neg h90]
  · generalize frame.getD 2 0 = ft at h90
    subst h90
    rw [if_neg (fun h => absurd h.1 (by decide)), if_neg (fun h => absurd h.1 (by decide)),
      if_neg (fun h => absurd h.1 (by decide)), if_neg (by decide), if_pos rfl]
    split_ifs
    · rfl
    · rfl

/-- Witness for C21: a fresh host that reads a frame for `replyPayload 1` with a
wrong checksum byte (0x94 for 0x93) goes on with nothing changed. -/
theorem host_silent_drop_witness :
    pollByte true (-1) (-1) (replyCfg 1) 0x94
      = .running { replyCfg 1 with st := .beforeFrame } :=
  host_silent_drop true (-1) (-1) (replyCfg 1) 0x94 ([0, 18] ++ replyPayload 1 ++ [0x94]) 21
    (by decide) (Or.inl (by decide))

end Xbee

namespace Xbee

/-! ## C22: the port syntax -/

theorem hexVal_eq : ∀ ch : Byte,
    hexVal ch = (if isHexDigit ch = true then some (hexDigitValue ch) else none) ∧
      (isHexDigit ch = true → hexDigitValue ch < 16) := by
  decide

theorem nybble_or : ∀ v1 : Fin 16, ∀ v2 : Fin 16,
    v1.val * 16 ||| v2.val = 16 * v1.val + v2.val := by
  decide

theorem scanAddress_success (a : List Byte) : ∀ (i : Nat) (nyb : Int) (addr : List Byte),
    i < 8 →
    (((scanAddress a i nyb addr).addrIndex = 8 ∧ (scanAddress a i nyb addr).remaining = [] ∧
        (scanAddress a i nyb addr).nybble = -1) ↔
      (a.length + (2 * i + (if nyb = -1 then 0 else 1)) = 16 ∧
        ∀ ch ∈ a, isHexDigit ch = true)) := by
  induction a with
  | nil =>
    intro i nyb addr hi
    simp only [scanAddress, List.length_nil, List.not_mem_nil, false_implies, implies_true,
      and_true]
    constructor
    · rintro ⟨h, -⟩; omega
    · intro h; split_ifs at h <;> omega
  | cons ch a ih =>
    intro i nyb addr hi
    have hv := (hexVal_eq ch).1
    by_cases hh : isHexDigit ch = true
    · rw [if_pos hh] at hv
      simp only [scanAddress, hv, List.length_cons, List.mem_cons, forall_eq_or_imp, hh, true_and]
      by_cases hn : nyb = -1
      · rw [if_pos hn, if_pos hn, ih i _ addr hi]
        rw [if_neg (by omega)]
        constructor <;> rintro ⟨h1, h2⟩ <;> exact ⟨by omega, h2⟩
      · rw [if_neg hn, if_neg hn]
        by_cases h8 : i + 1 = 8
        · rw [if_pos h8]
          dsimp only
          constructor
          · rintro ⟨-, h2, -⟩
            rw [h2]
            exact ⟨by simp; omega, by simp⟩
          · rintro ⟨h1, -⟩
            have : a.length = 0 := by omega
            exact ⟨h8, List.length_eq_zero.mp this, rfl⟩
        · rw [if_neg h8, ih (i + 1) (-1) _ (by omega), if_pos rfl]
          constructor <;> rintro ⟨h1, h2⟩ <;> exact ⟨by omega, h2⟩
    · rw [if_neg hh] at hv
      simp only [scanAddress, hv, List.mem_cons, forall_eq_or_imp, hh]
      constructor
      · rintro ⟨h, -⟩; omega
      · rintro ⟨-, h, -⟩; exact absurd h (by simp)

theorem set_split (addr : List Byte) (i : Nat) (b : Byte) (hi : i < 8)
    (hl : addr.length = 10) :
    (addr.set i b).take (i + 1) = addr.take i ++ [b] ∧ (addr.set i b).drop 8 = addr.drop 8 := by
  match addr, hl with
  | [a0, a1, a2, a3, a4, a5, a6, a7, a8, a9], _ =>
    interval_cases i <;> simp

theorem scanAddress_content : ∀ (n : Nat) (a : List Byte) (i : Nat) (addr : List Byte),
    a.length = 2 * n → n + i = 8 → (∀ ch ∈ a, isHexDigit ch = true) → addr.length = 10 →
    (scanAddress a i (-1) addr).xbee_address
      = addr.take i ++ addressOfDigits a ++ addr.drop 8 := by
  intro n
  induction n with
  | zero =>
    intro a i addr ha hi _ hl
    have : a = [] := List.length_eq_zero.mp (by omega)
    subst this
    have : i = 8 := by omega
    subst this
    simp [scanAddress, addressOfDigits]
  | succ n ih =>
    intro a i addr ha hi hhex hl
    match a, ha with
    | c1 :: c2 :: rest, ha =>
      have h1 := hhex c1 (by simp)
      have h2 := hhex c2 (by simp)
      have v1 := (hexVal_eq c1).1
      have v2 := (hexVal_eq c2).1
      rw [if_pos h1] at v1
      rw [if_pos h2] at v2
      have b1 := (hexVal_eq c1).2 h1
      have b2 := (hexVal_eq c2).2 h2
      have hor := nybble_or ⟨hexDigitValue c1, b1⟩ ⟨hexDigitValue c2, b2⟩
      simp only at hor
      have hne : ¬ ((hexDigitValue c1 : Int) = -1) := by omega
      simp only [scanAddress, v1, v2, if_true, hne, if_false, Int.toNat_ofNat, hor,
        addressOfDigits]
      rw [← natCast_eq_toUChar]
      simp only [List.length_cons] at ha
      by_cases h8 : i + 1 = 8
      · rw [if_pos h8]
        have hr : rest = [] := List.length_eq_zero.mp (by omega)
        subst hr
        have : i = 7 := by omega
        subst this
        match addr, hl with
        | [a0, a1, a2, a3, a4, a5, a6, a7, a8, a9], _ => simp [addressOfDigits]
      · rw [if_neg h8, ih rest (i + 1) _ (by omega) (by omega)
          (fun ch hch => hhex ch (by simp [hch])) (by simp [hl])]
        rw [(set_split addr i _ (by omega) hl).1, (set_split addr i _ (by omega) hl).2]
        simp

theorem addressOfDigits_length : ∀ (n : Nat) (a : List Byte), a.length = 2 * n →
    (addressOfDigits a).length = n := by
  intro n
  induction n with
  | zero =>
    intro a ha
    have : a = [] := List.length_eq_zero.mp (by omega)
    subst this
    rfl
  | succ n ih =>
    intro a ha
    match a, ha with
    | c1 :: c2 :: rest, ha =>
      simp only [addressOfDigits, List.length_cons, Nat.add_right_cancel_iff]
      exact ih rest (by simp only [List.length_cons] at ha; omega)

theorem set_tail (ad : List Byte) (hl : ad.length = 8) :
    ((ad ++ [0, 0]).set 8 0xff).set 9 0xfe = ad ++ [0xff, 0xfe] := by
  rw [List.set_append_right _ _ (by omega), List.set_append_right _ _ (by omega), hl]
  rfl

theorem parsePort_eq (port : List Byte) : parsePort port = portSession port := by
  unfold parsePort portSession
  by_cases hat : 0x40 ∈ port
  swap
  · rw [if_pos hat, if_neg hat]
  rw [if_neg (not_not.mpr hat), if_pos hat]
  dsimp only
  by_cases he : port.takeWhile (fun ch => ch ≠ 0x40) = []
  · rw [if_pos he, if_pos he]
    rfl
  rw [if_neg he, if_neg he]
  have hs := scanAddress_success (port.takeWhile (fun ch => ch ≠ 0x40)) 0 (-1)
    XBeeBootSessionInit.xbee_address (by omega)
  rw [if_pos rfl] at hs
  by_cases hok : (port.takeWhile (fun ch => ch ≠ 0x40)).length = 16 ∧
      (port.takeWhile (fun ch => ch ≠ 0x40)).all isHexDigit = true
  · have hall : ∀ ch ∈ port.takeWhile (fun ch => ch ≠ 0x40), isHexDigit ch = true := by
      simpa using hok.2
    have h3 := hs.mpr ⟨by omega, hall⟩
    rw [if_neg (by rw [not_or, not_or]; exact ⟨not_not.mpr h3.1, not_not.mpr h3.2.1,
      not_not.mpr h3.2.2⟩), if_pos hok]
    dsimp only
    rw [scanAddress_content 8 (port.takeWhile (fun ch => ch ≠ 0x40)) 0
      XBeeBootSessionInit.xbee_address (by omega) rfl hall rfl]
    have hl := addressOfDigits_length 8 (port.takeWhile (fun ch => ch ≠ 0x40)) (by omega)
    have hset := set_tail (addressOfDigits (port.takeWhile (fun ch => ch ≠ 0x40))) hl
    simp only [List.take_zero, List.nil_append]
    rw [show XBeeBootSessionInit.xbee_address.drop 8 = [0, 0] from rfl, hset]
  · have h3 : ¬ ((scanAddress (port.takeWhile (fun ch => ch ≠ 0x40)) 0 (-1)
        XBeeBootSessionInit.xbee_address).addrIndex = 8 ∧
        (scanAddress (port.takeWhile (fun ch => ch ≠ 0x40)) 0 (-1)
          XBeeBootSessionInit.xbee_address).remaining = [] ∧
        (scanAddress (port.takeWhile (fun ch => ch ≠ 0x40)) 0 (-1)
          XBeeBootSessionInit.xbee_address).nybble = -1) := by
      intro h
      have := hs.mp h
      exact hok ⟨by omega, by simpa using this.2⟩
    rw [if_pos (by
      by_contra hc
      rw [not_or, not_or] at hc
      exact h3 ⟨not_not.mp hc.1, not_not.mp hc.2.1, not_not.mp hc.2.2⟩), if_neg hok]

/-- C22. Port parsing: the port check of `xbeedev_open` yields exactly the
session `portSession` describes: it succeeds if and only if the port contains
`'@'` and the text before the first `'@'` is empty (direct mode, 64-bit
address zero) or exactly 16 hexadecimal digits in either case (over-the-air
mode, address byte `i` is `16 * value(digit 2i) + value(digit 2i+1)`); in both
cases the 16-bit address is `ff fe`; for every other port `xbeedev_open`
returns -1 and `serialDevice->open` is not called. -/
theorem port_parsing (port : List Byte) :
    parsePort port = portSession port ∧
    (∀ xbs, parsePort port = some xbs → xbs.xbee_address.drop 8 = [0xff, 0xfe]) ∧
    (portSession port = none → ∀ (mallocOk : Bool) (openRc : Int) (txSequence : Byte)
        (input : List (Option Byte)),
      (xbeedev_open port mallocOk openRc txSequence input).outcome = .ret (-1) ∧
      (xbeedev_open port mallocOk openRc txSequence input).opened = false) := by
  refine ⟨parsePort_eq port, ?_, ?_⟩
  · intro xbs hx
    rw [parsePort_eq] at hx
    unfold portSession at hx
    dsimp only at hx
    split_ifs at hx with h1 h2 h3
    · simp only [Option.some.injEq] at hx
      rw [← hx]
      rfl
    · simp only [Option.some.injEq] at hx
      rw [← hx]
      have hl := addressOfDigits_length 8 (port.takeWhile (fun ch => ch ≠ 0x40)) (by omega)
      show (addressOfDigits _ ++ [0xff, 0xfe]).drop 8 = _
      rw [List.drop_append_of_le_length (by omega), List.drop_of_length_le (by omega)]
      rfl
  · intro hn mallocOk openRc txSequence input
    rw [← parsePort_eq] at hn
    unfold xbeedev_open
    rw [hn]
    exact ⟨rfl, rfl⟩

/-- Witness for C22: the port `0013A200400A0127` without `'@'` is refused before
the serial device is opened; with `@/dev/ttyU0` appended it gives the address
`00 13 a2 00 40 0a 01 27 ff fe` in over-the-air mode. -/
theorem port_parsing_witness :
    (xbeedev_open (examplePort.take 16) true 0 0 []).outcome = .ret (-1) ∧
    (xbeedev_open (examplePort.take 16) true 0 0 []).opened = false ∧
    (parsePort examplePort).map (fun xbs => (xbs.xbee_address, xbs.directMode))
      = some ([0x00, 0x13, 0xa2, 0x00, 0x40, 0x0a, 0x01, 0x27, 0xff, 0xfe], false) :=
  ⟨((port_parsing (examplePort.take 16)).2.2 (by decide) true 0 0 []).1,
    ((port_parsing (examplePort.take 16)).2.2 (by decide) true 0 0 []).2,
    by rw [(port_parsing examplePort).1]; decide⟩

end Xbee

namespace Xbee

/-! ## AT commands: `localAT`, `sendAT` and their callers -/

theorem getD_stored (len : Byte) (p : List Byte) (ck : Byte) (i : Nat) (hi : i < p.length) :
    ([0, len] ++ p ++ [ck]).getD (i + 2) 0 = p.getD i 0 := by
  simp only [List.cons_append, List.nil_append, List.getD_cons_succ]
  rw [List.getD_append _ _ _ _ hi]

/-- A Local AT Response (0x88) read from the wire: the poll returns 0 when it
waits for the response's sequence, and goes on unchanged otherwise. -/
theorem pollLoop_localResponse (bufNonNull : Bool) (wa ws : Int) (c : PollCfg) (p : List Byte)
    (tail : List (Option Byte)) (hst : c.st = .beforeFrame) (hp : p.length ≤ 252)
    (h4 : 4 ≤ p.length) (h88 : p.getD 0 0 = 0x88) :
    pollLoop bufNonNull wa ws c ((apiFrame p).map some ++ tail)
      = if ws ≥ 0 ∧ ws = ((p.getD 1 0).val : Int)
        then { outcome := .ret 0, cfg := c, rest := tail }
        else pollLoop bufNonNull wa ws c tail := by
  rw [pollLoop_apiFrame bufNonNull wa ws c p tail hst hp]
  unfold processFrame
  dsimp only
  have e2 := getD_stored (toUChar p.length) p (checksumByte p) 0 (by omega)
  have e3 := getD_stored (toUChar p.length) p (checksumByte p) 1 (by omega)
  simp only [Nat.zero_add] at e2
  rw [show (1 : Nat) + 2 = 3 from rfl] at e3
  rw [e2, e3, h88, if_neg (fun h => absurd h.1 (by decide)), if_pos ⟨rfl, by omega⟩]
  split_ifs <;> rfl

/-- A Remote AT Response (0x97) with a status byte read from the wire: the poll
returns -512 plus the status when it waits for the response's sequence, and goes
on unchanged otherwise. -/
theorem pollLoop_remoteResponse (bufNonNull : Bool) (wa ws : Int) (c : PollCfg) (p : List Byte)
    (tail : List (Option Byte)) (hst : c.st = .beforeFrame) (hp : p.length ≤ 252)
    (h15 : 15 ≤ p.length) (h97 : p.getD 0 0 = 0x97) :
    pollLoop bufNonNull wa ws c ((apiFrame p).map some ++ tail)
      = if ws ≥ 0 ∧ ws = ((p.getD 1 0).val : Int)
        then { outcome := .ret (-512 + ((p.getD 14 0).val : Int)), cfg := c, rest := tail }
        else pollLoop bufNonNull wa ws c tail := by
  rw [pollLoop_apiFrame bufNonNull wa ws c p tail hst hp]
  unfold processFrame
  dsimp only
  have e2 := getD_stored (toUChar p.length) p (checksumByte p) 0 (by omega)
  have e3 := getD_stored (toUChar p.length) p (checksumByte p) 1 (by omega)
  have e16 := getD_stored (toUChar p.length) p (checksumByte p) 14 (by omega)
  simp only [Nat.zero_add] at e2
  rw [show (1 : Nat) + 2 = 3 from rfl] at e3
  rw [show (14 : Nat) + 2 = 16 from rfl] at e16
  rw [e2, e3, e16, h97, if_pos ⟨rfl, by omega⟩]
  split_ifs <;> rfl

/-- A poll whose first `recv` fails returns -1 with nothing changed. -/
theorem xbeedev_poll_timeout (h : Host) (bufNonNull : Bool) (buflen : Nat) (wa ws : Int)
    (rest : List (Option Byte)) :
    xbeedev_poll h bufNonNull buflen wa ws (none :: rest)
      = { outcome := .ret (-1),
          cfg := { st := .beforeFrame, host := h, buflen := buflen, written := [] },
          rest := rest } := rfl

theorem localATLoop_timeouts (sequence : Byte) : ∀ (n : Nat) (h : Host)
    (rest : List (Option Byte)),
    localATLoop sequence n h (List.replicate n none ++ rest)
      = { outcome := .ret (-1), host := h, rest := rest } := by
  intro n
  induction n with
  | zero => intro h rest; rfl
  | succ n ih =>
    intro h rest
    rw [List.replicate_succ, List.cons_append, localATLoop, xbeedev_poll_timeout]
    dsimp only
    rw [if_neg (by decide)]
    exact ih h rest

theorem sendATLoop_timeouts (sequence : Byte) : ∀ (n : Nat) (h : Host)
    (rest : List (Option Byte)),
    sendATLoop sequence n h (List.replicate n none ++ rest)
      = { outcome := .ret (-1), host := h, rest := rest } := by
  intro n
  induction n with
  | zero => intro h rest; rfl
  | succ n ih =>
    intro h rest
    rw [List.replicate_succ, List.cons_append, sendATLoop, xbeedev_poll_timeout]
    dsimp only
    rw [if_neg (by decide), if_neg (by decide)]
    exact ih h rest

theorem localPayload_eq (xbs : XBeeBootSession) (q : Byte) (buf : List Byte) :
    apiPayload xbs 0x08 (-1) (-1) (-1) (-1) (q.val : Int) (-1) buf = [0x08, q] ++ buf := by
  unfold apiPayload
  rw [optionalByte_val]
  have e1 : optionalByte (-1) = [] := by decide
  simp only [e1]
  rw [if_neg (by decide)]
  rfl

theorem range10_getD (l : List Byte) (hl : l.length = 10) :
    (List.range 10).map (fun index => l.getD index 0) = l := by
  match l, hl with
  | [a0, a1, a2, a3, a4, a5, a6, a7, a8, a9], _ => rfl

theorem remotePayload_eq (xbs : XBeeBootSession) (q : Byte) (buf : List Byte)
    (hl : xbs.xbee_address.length = 10) :
    apiPayload xbs 0x17 (q.val : Int) (-1) (-1) (-1) 0x02 (-1) buf
      = [0x17, q] ++ xbs.xbee_address ++ [0x02] ++ buf := by
  unfold apiPayload
  rw [optionalByte_val, range10_getD _ hl]
  have e1 : optionalByte (-1) = [] := by decide
  have e2 : optionalByte 2 = [2] := by decide
  simp only [e1, e2]
  rw [if_pos (by decide)]
  simp

theorem atValue_length (value : Int) :
    (if value ≥ 0 then [toUChar value] else ([] : List Byte)).length ≤ 1 := by
  split <;> simp

theorem localAT_eq (h : Host) (at1 at2 : Byte) (value : Int) (input : List (Option Byte))
    (hdm : h.xbs.directMode = false) :
    localAT h at1 at2 value input
      = localATLoop (nextSequence h.txSequence) 5
          { h with txSequence := nextSequence h.txSequence,
                   sent := h.sent ++ [apiFrame ([0x08, nextSequence h.txSequence] ++
                     ([at1, at2] ++ (if value ≥ 0 then [toUChar value] else [])))] } input := by
  have hp := localPayload_eq h.xbs (nextSequence h.txSequence)
    ([at1, at2] ++ (if value ≥ 0 then [toUChar value] else []))
  have hfit : 5 + (escapeBytes (apiPayload h.xbs 0x08 (-1) (-1) (-1) (-1)
        ((nextSequence h.txSequence).val : Int) (-1)
        ([at1, at2] ++ (if value ≥ 0 then [toUChar value] else []))) ++
      escapeBytes [checksumByte (apiPayload h.xbs 0x08 (-1) (-1) (-1) (-1)
        ((nextSequence h.txSequence).val : Int) (-1)
        ([at1, at2] ++ (if value ≥ 0 then [toUChar value] else [])))]).length ≤ 256 := by
    rw [hp]
    have h1 := escapeBytes_length_le ([0x08, nextSequence h.txSequence] ++
      ([at1, at2] ++ (if value ≥ 0 then [toUChar value] else [])))
    have h2 := escapeBytes_length_le [checksumByte ([0x08, nextSequence h.txSequence] ++
      ([at1, at2] ++ (if value ≥ 0 then [toUChar value] else [])))]
    have h3 := atValue_length value
    rw [List.length_append]
    simp only [List.length_singleton, List.length_append, List.length_cons, List.length_nil]
      at h1 h2
    omega
  have hw := sendAPIRequest_of_fit _ _ _ _ _ _ _ _ _ hfit
  unfold localAT
  rw [if_neg (by simp [hdm])]
  dsimp only
  rw [hw, hp]

theorem sendAT_eq (h : Host) (at1 at2 : Byte) (value : Int) (input : List (Option Byte))
    (hdm : h.xbs.directMode = false) (hl : h.xbs.xbee_address.length = 10) :
    sendAT h at1 at2 value input
      = sendATLoop (nextSequence h.txSequence) 30
          { h with txSequence := nextSequence h.txSequence,
                   sent := h.sent ++ [apiFrame ([0x17, nextSequence h.txSequence] ++
                     h.xbs.xbee_address ++ [0x02] ++
                     ([at1, at2] ++ (if value ≥ 0 then [toUChar value] else [])))] } input := by
  have hp := remotePayload_eq h.xbs (nextSequence h.txSequence)
    ([at1, at2] ++ (if value ≥ 0 then [toUChar value] else [])) hl
  have hfit : 5 + (escapeBytes (apiPayload h.xbs 0x17 ((nextSequence h.txSequence).val : Int)
        (-1) (-1) (-1) 0x02 (-1) ([at1, at2] ++ (if value ≥ 0 then [toUChar value] else []))) ++
      escapeBytes [checksumByte (apiPayload h.xbs 0x17 ((nextSequence h.txSequence).val : Int)
        (-1) (-1) (-1) 0x02 (-1) ([at1, at2] ++ (if value ≥ 0 then [toUChar value] else [])))]
      ).length ≤ 256 := by
    rw [hp]
    have h1 := escapeBytes_length_le ([0x17, nextSequence h.txSequence] ++
      h.xbs.xbee_address ++ [0x02] ++
      ([at1, at2] ++ (if value ≥ 0 then [toUChar value] else [])))
    have h2 := escapeBytes_length_le [checksumByte ([0x17, nextSequence h.txSequence] ++
      h.xbs.xbee_address ++ [0x02] ++
      ([at1, at2] ++ (if value ≥ 0 then [toUChar value] else [])))]
    have h3 := atValue_length value
    rw [List.length_append]
    simp only [List.length_singleton, List.length_append, List.length_cons, List.length_nil, hl]
      at h1 h2
    omega
  have hw := sendAPIRequest_of_fit _ _ _ _ _ _ _ _ _ hfit
  unfold sendAT
  rw [if_neg (by simp [hdm])]
  dsimp only
  rw [hw, hp]

theorem localATLoop_sent (sequence : Byte) : ∀ (retries : Nat) (h : Host)
    (input : List (Option Byte)),
    ∃ extra, (localATLoop sequence retries h input).host.sent = h.sent ++ extra := by
  intro retries
  induction retries with
  | zero => intro h input; exact ⟨[], by simp [localATLoop]⟩
  | succ retries ih =>
    intro h input
    rw [localATLoop]
    obtain ⟨-, -, e1, he1, -⟩ := pollLoop_ext false (-1) sequence.val
      { st := .beforeFrame, host := h, buflen := 0, written := [] } input
    change (xbeedev_poll h false 0 (-1) sequence.val input).cfg.host.sent = h.sent ++ e1 at he1
    cases ho : (xbeedev_poll h false 0 (-1) sequence.val input).outcome with
    | ret rc =>
      dsimp only
      split_ifs
      · exact ⟨e1, he1⟩
      · obtain ⟨e2, he2⟩ := ih (xbeedev_poll h false 0 (-1) sequence.val input).cfg.host
          (xbeedev_poll h false 0 (-1) sequence.val input).rest
        exact ⟨e1 ++ e2, by rw [he2, he1, List.append_assoc]⟩
    | exit code => exact ⟨e1, he1⟩
    | undefined => exact ⟨e1, he1⟩

/-- The poll of `localAT` and `sendAT` on a Local AT Response as the next frame. -/
theorem xbeedev_poll_localResponse (h : Host) (buflen : Nat) (ws : Int) (p : List Byte)
    (tail : List (Option Byte)) (hp : p.length ≤ 252) (h4 : 4 ≤ p.length)
    (h88 : p.getD 0 0 = 0x88) (hws : ws ≥ 0 ∧ ws = ((p.getD 1 0).val : Int)) :
    xbeedev_poll h false buflen (-1) ws ((apiFrame p).map some ++ tail)
      = { outcome := .ret 0,
          cfg := { st := .beforeFrame, host := h, buflen := buflen, written := [] },
          rest := tail } := by
  unfold xbeedev_poll
  rw [pollLoop_localResponse false (-1) ws _ p tail rfl hp h4 h88, if_pos hws]

theorem xbeedev_poll_remoteResponse (h : Host) (buflen : Nat) (ws : Int) (p : List Byte)
    (tail : List (Option Byte)) (hp : p.length ≤ 252) (h15 : 15 ≤ p.length)
    (h97 : p.getD 0 0 = 0x97) (hws : ws ≥ 0 ∧ ws = ((p.getD 1 0).val : Int)) :
    xbeedev_poll h false buflen (-1) ws ((apiFrame p).map some ++ tail)
      = { outcome := .ret (-512 + ((p.getD 14 0).val : Int)),
          cfg := { st := .beforeFrame, host := h, buflen := buflen, written := [] },
          rest := tail } := by
  unfold xbeedev_poll
  rw [pollLoop_remoteResponse false (-1) ws _ p tail rfl hp h15 h97, if_pos hws]

/-- A Remote AT Response (0x97) for another sequence than the one waited for is
read and ignored. -/
theorem pollLoop_otherResponse (bufNonNull : Bool) (wa ws : Int) (c : PollCfg) (p : List Byte)
    (tail : List (Option Byte)) (hst : c.st = .beforeFrame) (hp : p.length ≤ 252)
    (h97 : p.getD 0 0 = 0x97) (hws : ws ≠ ((p.getD 1 0).val : Int)) :
    pollLoop bufNonNull wa ws c ((apiFrame p).map some ++ tail)
      = pollLoop bufNonNull wa ws c tail := by
  rw [pollLoop_apiFrame bufNonNull wa ws c p tail hst hp]
  have h1 : 1 ≤ p.length := by
    cases p with
    | nil => exact absurd h97 (by decide)
    | cons a p => simp
  unfold processFrame
  dsimp only
  have e2 := getD_stored (toUChar p.length) p (checksumByte p) 0 (by omega)
  simp only [Nat.zero_add] at e2
  rw [e2, h97]
  by_cases h16 : p.length + 3 > 16
  · have e3 := getD_stored (toUChar p.length) p (checksumByte p) 1 (by omega)
    rw [show (1 : Nat) + 2 = 3 from rfl] at e3
    rw [if_pos ⟨rfl, h16⟩, e3, if_neg (fun h => hws h.2)]
  · rw [if_neg (fun h => h16 h.2), if_neg (fun h => absurd h.1 (by decide)),
      if_neg (fun h => absurd h.1 (by decide)), if_neg (by decide), if_neg (by decide)]

theorem localATLoop_response (sequence : Byte) (n : Nat) (h : Host) (p : List Byte)
    (tail : List (Option Byte)) (hp : p.length ≤ 252) (h4 : 4 ≤ p.length)
    (h88 : p.getD 0 0 = 0x88) (hs : p.getD 1 0 = sequence) :
    localATLoop sequence (n + 1) h ((apiFrame p).map some ++ tail)
      = { outcome := .ret 0, host := h, rest := tail } := by
  rw [localATLoop, xbeedev_poll_localResponse h 0 sequence.val p tail hp h4 h88
    ⟨by omega, by rw [hs]⟩]
  rfl

theorem localATLoop_timeouts_response (sequence : Byte) (p : List Byte)
    (tail : List (Option Byte)) (hp : p.length ≤ 252) (h4 : 4 ≤ p.length)
    (h88 : p.getD 0 0 = 0x88) (hs : p.getD 1 0 = sequence) : ∀ (k n : Nat) (h : Host),
    k < n → localATLoop sequence n h (List.replicate k none ++ ((apiFrame p).map some ++ tail))
      = { outcome := .ret 0, host := h, rest := tail } := by
  intro k
  induction k with
  | zero =>
    intro n h hk
    obtain ⟨m, rfl⟩ : ∃ m, n = m + 1 := ⟨n - 1, by omega⟩
    exact localATLoop_response sequence m h p tail hp h4 h88 hs
  | succ k ih =>
    intro n h hk
    obtain ⟨m, rfl⟩ : ∃ m, n = m + 1 := ⟨n - 1, by omega⟩
    rw [List.replicate_succ, List.cons_append, localATLoop, xbeedev_poll_timeout]
    dsimp only
    rw [if_neg (by decide)]
    exact ih m h (by omega)

theorem atReturnCode_status (s : Byte) : XBEE_AT_RETURN_CODE (-512 + (s.val : Int)) = s.val := by
  unfold XBEE_AT_RETURN_CODE
  have := s.isLt
  rw [if_pos (by omega)]
  omega

theorem sendATLoop_response (sequence : Byte) (n : Nat) (h : Host) (p : List Byte)
    (tail : List (Option Byte)) (hp : p.length ≤ 252) (h15 : 15 ≤ p.length)
    (h97 : p.getD 0 0 = 0x97) (hs : p.getD 1 0 = sequence) :
    sendATLoop sequence (n + 1) h ((apiFrame p).map some ++ tail)
      = { outcome := .ret (if p.getD 14 0 = 0 then 0 else -512 + ((p.getD 14 0).val : Int)),
          host := h, rest := tail } := by
  rw [sendATLoop, xbeedev_poll_remoteResponse h 0 sequence.val p tail hp h15 h97
    ⟨by omega, by rw [hs]⟩]
  dsimp only
  rw [atReturnCode_status]
  have hlt := (p.getD 14 0).isLt
  by_cases h0 : p.getD 14 0 = 0
  · rw [if_pos (by rw [h0]; rfl), if_pos h0]
  · have hv : (p.getD 14 0).val ≠ 0 := fun hv => h0 (Fin.ext hv)
    rw [if_neg (by omega), if_pos (by omega), if_neg h0]

theorem sendATLoop_other (sequence : Byte) (n : Nat) (h : Host) (p : List Byte)
    (tail : List (Option Byte)) (hp : p.length ≤ 252)
    (h97 : p.getD 0 0 = 0x97) (hs : p.getD 1 0 ≠ sequence) :
    sendATLoop sequence (n + 1) h ((apiFrame p).map some ++ tail)
      = sendATLoop sequence (n + 1) h tail := by
  rw [sendATLoop, sendATLoop]
  unfold xbeedev_poll
  rw [pollLoop_otherResponse false (-1) sequence.val _ p tail rfl hp h97
    (fun he => hs (Fin.ext (by omega)))]

theorem processData_code (bufNonNull : Bool) (wa : Int) (c : PollCfg) (frame : List Byte)
    (dataStart dataLength : Nat) (rc : Int) (c1 : PollCfg)
    (h : processData bufNonNull wa c frame dataStart dataLength = .done (.ret rc) c1) :
    rc = 0 := by
  unfold processData at h
  dsimp only at h
  split_ifs at h
  · injection h with h1 h2; injection h1 with h1; exact h1.symm
  · split at h
    · injection h with h1 h2; exact absurd h1 (by simp)
    · split at h
      · injection h with h1 h2; exact absurd h1 (by simp)
      · split_ifs at h
        injection h with h1 h2; injection h1 with h1; exact h1.symm

theorem processFrame_code (bufNonNull : Bool) (wa ws : Int) (c : PollCfg) (frame : List Byte)
    (frameSize : Nat) (rc : Int) (c1 : PollCfg)
    (h : processFrame bufNonNull wa ws c frame frameSize = .done (.ret rc) c1) :
    PollCode rc := by
  unfold processFrame at h
  dsimp only at h
  split_ifs at h
  · injection h with h1 h2; injection h1 with h1
    exact Or.inr (Or.inr ⟨_, h1.symm⟩)
  · injection h with h1 h2; injection h1 with h1; exact Or.inl h1.symm
  · exact Or.inl (processData_code _ _ _ _ _ _ _ _ h)
  · exact Or.inl (processData_code _ _ _ _ _ _ _ _ h)
  · exact Or.inl (processData_code _ _ _ _ _ _ _ _ h)

theorem pollLoop_code (bufNonNull : Bool) (wa ws : Int) (input : List (Option Byte)) :
    ∀ (c : PollCfg) (rc : Int), (pollLoop bufNonNull wa ws c input).outcome = .ret rc →
      PollCode rc := by
  induction input with
  | nil => intro c rc h; injection h with h; exact Or.inr (Or.inl h.symm)
  | cons ev input ih =>
    intro c rc h
    cases ev with
    | none => injection h with h; exact Or.inr (Or.inl h.symm)
    | some byte =>
      simp only [pollLoop] at h
      cases hp : pollByte bufNonNull wa ws c byte with
      | running c1 =>
        rw [hp] at h
        exact ih c1 rc h
      | done o c1 =>
        rw [hp] at h
        dsimp only at h
        subst h
        unfold pollByte at hp
        split at hp
        · exact absurd hp (by simp)
        · dsimp only at hp
          split_ifs at hp
          exact processFrame_code _ _ _ _ _ _ _ _ hp

theorem sendATLoop_code (sequence : Byte) : ∀ (retries : Nat) (h : Host)
    (input : List (Option Byte)) (rc : Int),
    (sendATLoop sequence retries h input).outcome = .ret rc → PollCode rc := by
  intro retries
  induction retries with
  | zero => intro h input rc hr; injection hr with hr; exact Or.inr (Or.inl hr.symm)
  | succ retries ih =>
    intro h input rc hr
    rw [sendATLoop] at hr
    dsimp only at hr
    cases ho : (xbeedev_poll h false 0 (-1) sequence.val input).outcome with
    | ret rc1 =>
      rw [ho] at hr
      dsimp only at hr
      split_ifs at hr
      · injection hr with hr; exact Or.inl hr.symm
      · injection hr with hr
        subst hr
        exact pollLoop_code _ _ _ _ _ _ ho
      · exact ih _ _ _ hr
    | exit code => rw [ho] at hr; exact absurd hr (by simp)
    | undefined => rw [ho] at hr; exact absurd hr (by simp)

theorem sendAT_code (h : Host) (at1 at2 : Byte) (value : Int) (input : List (Option Byte))
    (rc : Int) (hr : (sendAT h at1 at2 value input).outcome = .ret rc) : PollCode rc := by
  unfold sendAT at hr
  by_cases hd : h.xbs.directMode = true
  · rw [if_pos hd] at hr
    injection hr with hr; exact Or.inl hr.symm
  · rw [if_neg hd] at hr
    dsimp only at hr
    split at hr
    · exact absurd hr (by simp)
    · exact sendATLoop_code _ _ _ _ _ hr

/-- The return statement that follows a `sendAT` in `xbeedev_open` and
`xbeedev_set_dtr_rts` turns every possible result into 0 or -1. -/
theorem facade_code (rc : Int) (hc : PollCode rc) :
    (if rc < 0 then (if xbeeATError rc ≠ 0 then (-1 : Int) else rc) else 0)
      = if rc = 0 then 0 else -1 := by
  obtain h | h | ⟨s, h⟩ := hc
  · subst h; rfl
  · subst h; rfl
  · subst h
    have := s.isLt
    have hx : xbeeATError (-512 + (s.val : Int)) = 1 := by
      unfold xbeeATError
      rw [atReturnCode_status, if_neg (by omega)]
    rw [if_pos (by omega), hx, if_pos (by decide), if_neg (by omega)]

theorem set_dtr_rts_eq (h : Host) (is_on serialRc : Int) (input : List (Option Byte))
    (hdm : h.xbs.directMode = false) (rc : Int)
    (hr : (sendAT h 0x44 0x33 (if is_on ≠ 0 then 5 else 4) input).outcome = .ret rc) :
    xbeedev_set_dtr_rts h is_on serialRc input
      = { outcome := .ret (if rc = 0 then 0 else -1),
          host := (sendAT h 0x44 0x33 (if is_on ≠ 0 then 5 else 4) input).host,
          serial := none,
          rest := (sendAT h 0x44 0x33 (if is_on ≠ 0 then 5 else 4) input).rest } := by
  have hc := facade_code rc (sendAT_code _ _ _ _ _ _ hr)
  unfold xbeedev_set_dtr_rts
  rw [if_neg (by simp [hdm])]
  dsimp only
  rw [hr]
  dsimp only
  rw [← hc]
  split_ifs <;> rfl

theorem wirePayload_apiFrame (p : List Byte) : wirePayload (apiFrame p) = p := by
  unfold wirePayload apiFrame
  rw [List.tail_cons, ← escapeBytes_append, ← escapeBytes_append, unescape_escapeBytes]
  simp only [List.cons_append, List.nil_append, List.drop_succ_cons, List.drop_zero]
  rw [List.dropLast_concat]

theorem packetExt_refl (h : Host) : PacketExt h h :=
  ⟨rfl, [], by simp, by simp⟩

theorem packetExt_trans {h h1 h2 : Host} (a : PacketExt h h1) (b : PacketExt h1 h2) :
    PacketExt h h2 := by
  obtain ⟨d1, e1, s1, f1⟩ := a
  obtain ⟨d2, e2, s2, f2⟩ := b
  refine ⟨d2.trans d1, e1 ++ e2, by rw [s2, s1, List.append_assoc], ?_⟩
  intro w hw
  rcases List.mem_append.mp hw with hw | hw
  · exact f1 w hw
  · rw [← d1]; exact f2 w hw

theorem packetExt_of_xbs (h : Host) (xbs : XBeeBootSession)
    (hd : xbs.directMode = h.xbs.directMode) : PacketExt h { h with xbs := xbs } :=
  ⟨hd, [], by simp, by simp⟩

theorem sendPacket_packetExt (h h1 : Host) (pt seq : Byte) (appType : Int) (data : List Byte)
    (hs : sendPacket h pt seq appType data = some h1) : PacketExt h h1 := by
  have hx := sendPacket_xbs h h1 pt seq appType data hs
  unfold sendPacket at hs
  dsimp only at hs
  split at hs
  · rename_i wire hw
    simp only [Option.some.injEq] at hs
    have hp := sendAPIRequest_some _ _ _ _ _ _ _ _ _ _ hw
    refine ⟨by rw [hx], [wire], by rw [← hs], ?_⟩
    intro w hmem
    rw [List.mem_singleton] at hmem
    subst hmem
    rw [hp, wirePayload_apiFrame]
    rfl
  · exact absurd hs (by simp)

theorem processData_packetExt (bufNonNull : Bool) (wa : Int) (c : PollCfg) (frame : List Byte)
    (dataStart dataLength : Nat) :
    PacketExt c.host (processData bufNonNull wa c frame dataStart dataLength).cfg.host := by
  unfold processData
  dsimp only
  by_cases h2 : dataLength ≥ 2
  swap
  · rw [if_neg h2]; exact packetExt_refl _
  rw [if_pos h2]
  by_cases hp : frame.getD dataStart 0 = 0
  · rw [if_pos hp]
    split_ifs <;> exact packetExt_refl _
  rw [if_neg hp]
  by_cases hreq : frame.getD dataStart 0 = 1 ∧ dataLength ≥ 4 ∧ frame.getD (dataStart + 2) 0 = 24
  swap
  · rw [if_neg hreq]; exact packetExt_refl _
  rw [if_pos hreq]
  by_cases hseq : frame.getD (dataStart + 1) 0 = nextSequence c.host.xbs.inSequence
  swap
  · rw [if_neg hseq]; exact packetExt_refl _
  rw [if_pos hseq]
  cases hd : deliver { c.host.xbs with inSequence := nextSequence c.host.xbs.inSequence }
      c.buflen c.written ((frame.drop (dataStart + 3)).take (dataLength - 3)) with
  | none => exact packetExt_of_xbs _ _ rfl
  | some res =>
    obtain ⟨xbs1, buflen1, written1⟩ := res
    have hsame := deliver_same _ _ _ _ _ _ _ hd
    simp only at hsame
    have e1 : PacketExt c.host { c.host with xbs := xbs1 } := packetExt_of_xbs _ _ hsame.1
    dsimp only
    cases hsp : sendPacket { c.host with xbs := xbs1 } 0 (frame.getD (dataStart + 1) 0)
      (-1) [] with
    | none => exact e1
    | some h1 =>
      have e2 := sendPacket_packetExt _ _ _ _ _ _ hsp
      dsimp only
      split_ifs <;> exact packetExt_trans e1 e2

theorem processFrame_packetExt (bufNonNull : Bool) (wa ws : Int) (c : PollCfg)
    (frame : List Byte) (frameSize : Nat) :
    PacketExt c.host (processFrame bufNonNull wa ws c frame frameSize).cfg.host := by
  unfold processFrame
  simp only []
  split_ifs
  all_goals try exact packetExt_refl _
  · exact processData_packetExt _ _ _ _ _ _
  · exact packetExt_trans (packetExt_of_xbs c.host _ rfl) (processData_packetExt _ _ _ _ _ _)
  · exact processData_packetExt _ _ _ _ _ _

theorem pollByte_packetExt (bufNonNull : Bool) (wa ws : Int) (c : PollCfg) (b : Byte) :
    PacketExt c.host (pollByte bufNonNull wa ws c b).cfg.host := by
  unfold pollByte
  split
  · exact packetExt_refl _
  · simp only []
    split_ifs
    · exact packetExt_refl _
    · exact processFrame_packetExt _ _ _ { c with st := .beforeFrame } _ _

theorem pollLoop_packetExt (bufNonNull : Bool) (wa ws : Int) (c : PollCfg)
    (input : List (Option Byte)) :
    PacketExt c.host (pollLoop bufNonNull wa ws c input).cfg.host := by
  induction input generalizing c with
  | nil => exact packetExt_refl _
  | cons e input ih =>
    cases e with
    | none => exact packetExt_refl _
    | some b =>
      simp only [pollLoop]
      have hb := pollByte_packetExt bufNonNull wa ws c b
      cases hpb : pollByte bufNonNull wa ws c b with
      | running c1 =>
        rw [hpb] at hb
        exact packetExt_trans hb (ih c1)
      | done o c1 =>
        rw [hpb] at hb
        exact hb

theorem sendATLoop_packetExt (sequence : Byte) : ∀ (retries : Nat) (h : Host)
    (input : List (Option Byte)), PacketExt h (sendATLoop sequence retries h input).host := by
  intro retries
  induction retries with
  | zero => intro h input; exact packetExt_refl _
  | succ retries ih =>
    intro h input
    rw [sendATLoop]
    have he1 := pollLoop_packetExt false (-1) sequence.val
      { st := .beforeFrame, host := h, buflen := 0, written := [] } input
    change PacketExt h (xbeedev_poll h false 0 (-1) sequence.val input).cfg.host at he1
    dsimp only
    cases ho : (xbeedev_poll h false 0 (-1) sequence.val input).outcome with
    | ret rc =>
      dsimp only
      split_ifs
      · exact he1
      · exact he1
      · exact packetExt_trans he1 (ih _ _)
    | exit code => exact he1
    | undefined => exact he1

theorem localATLoop_packetExt (sequence : Byte) : ∀ (retries : Nat) (h : Host)
    (input : List (Option Byte)), PacketExt h (localATLoop sequence retries h input).host := by
  intro retries
  induction retries with
  | zero => intro h input; exact packetExt_refl _
  | succ retries ih =>
    intro h input
    rw [localATLoop]
    have he1 := pollLoop_packetExt false (-1) sequence.val
      { st := .beforeFrame, host := h, buflen := 0, written := [] } input
    change PacketExt h (xbeedev_poll h false 0 (-1) sequence.val input).cfg.host at he1
    cases ho : (xbeedev_poll h false 0 (-1) sequence.val input).outcome with
    | ret rc =>
      dsimp only
      split_ifs
      · exact he1
      · exact packetExt_trans he1 (ih _ _)
    | exit code => exact he1
    | undefined => exact he1

theorem parsePort_address (port : List Byte) (xbs : XBeeBootSession)
    (hx : parsePort port = some xbs) :
    xbs.xbee_address.length = 10 ∧ xbs.xbee_address = xbs.xbee_address.take 8 ++ [0xff, 0xfe] := by
  rw [parsePort_eq] at hx
  unfold portSession at hx
  dsimp only at hx
  split_ifs at hx with h1 h2 h3
  · simp only [Option.some.injEq] at hx
    rw [← hx]
    exact ⟨rfl, rfl⟩
  · simp only [Option.some.injEq] at hx
    rw [← hx]
    have hl := addressOfDigits_length 8 (port.takeWhile (fun ch => ch ≠ 0x40)) (by omega)
    show (addressOfDigits _ ++ [0xff, 0xfe]).length = 10 ∧
      addressOfDigits _ ++ [0xff, 0xfe] = (addressOfDigits _ ++ [0xff, 0xfe]).take 8 ++ _
    rw [List.take_append_of_le_length (by omega), List.take_of_length_le (by omega),
      List.length_append, hl]
    exact ⟨rfl, rfl⟩

theorem localATLoop_code (sequence : Byte) : ∀ (retries : Nat) (h : Host)
    (input : List (Option Byte)) (rc : Int),
    (localATLoop sequence retries h input).outcome = .ret rc → rc = 0 ∨ rc = -1 := by
  intro retries
  induction retries with
  | zero => intro h input rc hr; injection hr with hr; exact Or.inr hr.symm
  | succ retries ih =>
    intro h input rc hr
    rw [localATLoop] at hr
    cases ho : (xbeedev_poll h false 0 (-1) sequence.val input).outcome with
    | ret rc1 =>
      rw [ho] at hr
      dsimp only at hr
      split_ifs at hr
      · injection hr with hr; exact Or.inl hr.symm
      · exact ih _ _ _ hr
    | exit code => rw [ho] at hr; exact absurd hr (by simp)
    | undefined => rw [ho] at hr; exact absurd hr (by simp)

theorem localAT_code (h : Host) (at1 at2 : Byte) (value : Int) (input : List (Option Byte))
    (rc : Int) (hr : (localAT h at1 at2 value input).outcome = .ret rc) : rc = 0 ∨ rc = -1 := by
  unfold localAT at hr
  by_cases hd : h.xbs.directMode = true
  · rw [if_pos hd] at hr
    injection hr with hr; exact Or.inl hr.symm
  · rw [if_neg hd] at hr
    dsimp only at hr
    split at hr
    · exact absurd hr (by simp)
    · exact localATLoop_code _ _ _ _ _ hr

/-- The body of `xbeedev_open` in over-the-air mode once the port is parsed and
the serial device open. -/
theorem xbeedev_open_ota (port : List Byte) (xbs : XBeeBootSession) (openRc : Int)
    (txSequence : Byte) (input : List (Option Byte)) (hport : parsePort port = some xbs)
    (hota : xbs.directMode = false) (hopen : 0 ≤ openRc) (h1 : Host)
    (rest1 : List (Option Byte))
    (hl : localAT { xbs := xbs, txSequence := txSequence, sent := [] } 0x41 0x50 2 input
      = { outcome := .ret 0, host := h1, rest := rest1 }) :
    (xbeedev_open port true openRc txSequence input).host
        = (sendAT h1 0x44 0x36 0 rest1).host ∧
      (xbeedev_open port true openRc txSequence input).rest
        = (sendAT h1 0x44 0x36 0 rest1).rest ∧
      ∀ rc, (sendAT h1 0x44 0x36 0 rest1).outcome = .ret rc →
        (xbeedev_open port true openRc txSequence input).outcome
          = .ret (if rc = 0 then 0 else -1) := by
  unfold xbeedev_open
  rw [hport]
  dsimp only
  rw [if_neg (by decide), if_neg (by omega), hota, if_neg (by decide), hl]
  dsimp only
  rw [if_neg (by decide)]
  obtain ⟨r2, hr2⟩ : ∃ r2, r2 = sendAT h1 0x44 0x36 0 rest1 := ⟨_, rfl⟩
  rw [← hr2]
  cases ho : r2.outcome with
  | ret rc =>
    have hc := facade_code rc (sendAT_code _ _ _ _ _ _ (hr2 ▸ ho))
    dsimp only
    refine ⟨?_, ?_, ?_⟩
    · split_ifs <;> rfl
    · split_ifs <;> rfl
    · intro rc1 h1
      injection h1 with h1
      subst h1
      rw [← hc]
      split_ifs <;> rfl
  | exit code => exact ⟨rfl, rfl, fun rc h => absurd h (by simp)⟩
  | undefined => exact ⟨rfl, rfl, fun rc h => absurd h (by simp)⟩

theorem xbeedev_open_code (port : List Byte) (xbs : XBeeBootSession) (openRc : Int)
    (txSequence : Byte) (input : List (Option Byte)) (hport : parsePort port = some xbs)
    (hota : xbs.directMode = false) (hopen : 0 ≤ openRc) (rc : Int)
    (hr : (xbeedev_open port true openRc txSequence input).outcome = .ret rc) :
    rc = 0 ∨ rc = -1 := by
  unfold xbeedev_open at hr
  rw [hport] at hr
  dsimp only at hr
  rw [if_neg (by decide), if_neg (by omega), hota, if_neg (by decide)] at hr
  obtain ⟨r1, hr1⟩ : ∃ r1, r1 = localAT { xbs := xbs, txSequence := txSequence, sent := [] }
    0x41 0x50 2 input := ⟨_, rfl⟩
  rw [← hr1] at hr
  cases hl : r1.outcome with
  | ret rc1 =>
    rw [hl] at hr
    dsimp only at hr
    have hc1 := localAT_code _ _ _ _ _ _ (hr1 ▸ hl)
    by_cases hneg : rc1 < 0
    · rw [if_pos hneg] at hr
      injection hr with hr
      subst hr
      omega
    · rw [if_neg hneg] at hr
      cases ho : (sendAT r1.host 0x44 0x36 0 r1.rest).outcome with
      | ret rc2 =>
        rw [ho] at hr
        dsimp only at hr
        have hc := facade_code rc2 (sendAT_code _ _ _ _ _ _ ho)
        have hr2 : Outcome.ret (if rc2 < 0 then (if xbeeATError rc2 ≠ 0 then (-1 : Int)
            else rc2) else 0) = .ret rc := by
          rw [← hr]
          split_ifs <;> rfl
        rw [hc] at hr2
        injection hr2 with hr2
        subst hr2
        split_ifs
        · exact Or.inl rfl
        · exact Or.inr rfl
      | exit code => rw [ho] at hr; exact absurd hr (by simp)
      | undefined => rw [ho] at hr; exact absurd hr (by simp)
  | exit code => rw [hl] at hr; exact absurd hr (by simp)
  | undefined => rw [hl] at hr; exact absurd hr (by simp)

theorem set_dtr_rts_code (h : Host) (is_on serialRc : Int) (input : List (Option Byte))
    (hdm : h.xbs.directMode = false) (rc : Int)
    (hr : (xbeedev_set_dtr_rts h is_on serialRc input).outcome = .ret rc) :
    rc = 0 ∨ rc = -1 := by
  cases ho : (sendAT h 0x44 0x33 (if is_on ≠ 0 then 5 else 4) input).outcome with
  | ret rc1 =>
    rw [set_dtr_rts_eq h is_on serialRc input hdm rc1 ho] at hr
    injection hr with hr
    subst hr
    split_ifs
    · exact Or.inl rfl
    · exact Or.inr rfl
  | exit code =>
    unfold xbeedev_set_dtr_rts at hr
    rw [if_neg (by simp [hdm])] at hr
    dsimp only at hr
    rw [ho] at hr
    exact absurd hr (by simp)
  | undefined =>
    unfold xbeedev_set_dtr_rts at hr
    rw [if_neg (by simp [hdm])] at hr
    dsimp only at hr
    rw [ho] at hr
    exact absurd hr (by simp)

theorem set_dtr_rts_host (h : Host) (is_on serialRc : Int) (input : List (Option Byte))
    (hdm : h.xbs.directMode = false) :
    (xbeedev_set_dtr_rts h is_on serialRc input).host
        = (sendAT h 0x44 0x33 (if is_on ≠ 0 then 5 else 4) input).host ∧
      (xbeedev_set_dtr_rts h is_on serialRc input).serial = none := by
  unfold xbeedev_set_dtr_rts
  rw [if_neg (by simp [hdm])]
  dsimp only
  cases (sendAT h 0x44 0x33 (if is_on ≠ 0 then 5 else 4) input).outcome with
  | ret rc => dsimp only; split_ifs <;> exact ⟨rfl, rfl⟩
  | exit code => exact ⟨rfl, rfl⟩
  | undefined => exact ⟨rfl, rfl⟩

end Xbee

namespace Xbee

/-- C23. AT command frames: outside direct mode `localAT(at1, at2, value)` first
sends the frame whose unescaped payload is `[0x08, q, at1, at2, value]`, and
`sendAT(at1, at2, value)` the frame whose payload is `[0x17, q]`, the 10 address
bytes of the session, `0x02`, `at1`, `at2`, `value`, where `q` is the non-zero
successor of `txSequence` at the call; a negative `value` adds no value byte.
In `xbeedev_open` on an over-the-air port, when the Local AT Response is the
first frame received, the first two frames sent are `[0x08, q, 'A', 'P', 0x02]`
and `[0x17, q', addr64, 0xff, 0xfe, 0x02, 'D', '6', 0x00]` with `q` the
successor of `txSequence` and `q'` the successor of `q`. -/
theorem at_command_frames (h : Host) (at1 at2 : Byte) (value : Int)
    (input : List (Option Byte)) (port : List Byte) (xbs : XBeeBootSession) (openRc : Int)
    (txSequence status : Byte) (hdm : h.xbs.directMode = false)
    (hlen : h.xbs.xbee_address.length = 10) (hport : parsePort port = some xbs)
    (hota : xbs.directMode = false) (hopen : 0 ≤ openRc) :
    (∃ extra, (localAT h at1 at2 value input).host.sent
        = h.sent ++ apiFrame ([0x08, seqSucc h.txSequence, at1, at2] ++
            (if value ≥ 0 then [toUChar value] else [])) :: extra) ∧
    (∃ extra, (sendAT h at1 at2 value input).host.sent
        = h.sent ++ apiFrame ([0x17, seqSucc h.txSequence] ++ h.xbs.xbee_address ++
            [0x02, at1, at2] ++ (if value ≥ 0 then [toUChar value] else [])) :: extra) ∧
    seqSucc h.txSequence ≠ 0 ∧
    (∃ extra, (xbeedev_open port true openRc txSequence
        ((apiFrame [0x88, seqSucc txSequence, 0x41, 0x50, status]).map some ++ input)).host.sent
        = apiFrame [0x08, seqSucc txSequence, 0x41, 0x50, 0x02] ::
          apiFrame ([0x17, seqSucc (seqSucc txSequence)] ++ xbs.xbee_address.take 8 ++
            [0xff, 0xfe, 0x02, 0x44, 0x36, 0x00]) :: extra) ∧
    seqSucc txSequence ≠ 0 ∧ seqSucc (seqSucc txSequence) ≠ 0 := by
  have hq := (nextSequence_facts h.txSequence).1
  have hq1 := (nextSequence_facts txSequence).1
  have hq2 := (nextSequence_facts (seqSucc txSequence)).1
  refine ⟨?_, ?_, (nextSequence_facts h.txSequence).2.2.2.2.2, ?_,
    (nextSequence_facts txSequence).2.2.2.2.2,
    (nextSequence_facts (seqSucc txSequence)).2.2.2.2.2⟩
  · rw [localAT_eq h at1 at2 value input hdm]
    obtain ⟨extra, he⟩ := localATLoop_sent (nextSequence h.txSequence) 5
      { h with txSequence := nextSequence h.txSequence,
               sent := h.sent ++ [apiFrame ([0x08, nextSequence h.txSequence] ++
                 ([at1, at2] ++ (if value ≥ 0 then [toUChar value] else [])))] } input
    refine ⟨extra, ?_⟩
    rw [he, ← hq]
    simp
  · rw [sendAT_eq h at1 at2 value input hdm hlen]
    obtain ⟨extra, he⟩ := sendATLoop_sent (nextSequence h.txSequence) 30
      { h with txSequence := nextSequence h.txSequence,
               sent := h.sent ++ [apiFrame ([0x17, nextSequence h.txSequence] ++
                 h.xbs.xbee_address ++ [0x02] ++
                 ([at1, at2] ++ (if value ≥ 0 then [toUChar value] else [])))] } input
    refine ⟨extra, ?_⟩
    rw [he, ← hq]
    simp
  · obtain ⟨hl10, haddr⟩ := parsePort_address port xbs hport
    have hl : localAT { xbs := xbs, txSequence := txSequence, sent := [] } 0x41 0x50 2
        ((apiFrame [0x88, seqSucc txSequence, 0x41, 0x50, status]).map some ++ input)
        = { outcome := .ret 0,
            host := { xbs := xbs, txSequence := seqSucc txSequence,
                      sent := [apiFrame [0x08, seqSucc txSequence, 0x41, 0x50, 0x02]] },
            rest := input } := by
      rw [localAT_eq _ _ _ _ _ hota]
      dsimp only
      rw [hq1, localATLoop_response (seqSucc txSequence) 4 _
        [0x88, seqSucc txSequence, 0x41, 0x50, status] input (by simp) (by simp) rfl rfl]
      rfl
    obtain ⟨hhost, -, -⟩ := xbeedev_open_ota port xbs openRc txSequence _ hport hota hopen _ _ hl
    rw [hhost, sendAT_eq _ _ _ _ _ hota hl10]
    obtain ⟨extra, he⟩ := sendATLoop_sent (nextSequence (seqSucc txSequence)) 30
      { xbs := xbs, txSequence := nextSequence (seqSucc txSequence),
        sent := [apiFrame [0x08, seqSucc txSequence, 0x41, 0x50, 0x02]] ++
          [apiFrame ([0x17, nextSequence (seqSucc txSequence)] ++
            xbs.xbee_address ++ [0x02] ++ ([0x44, 0x36] ++ [toUChar 0]))] } input
    refine ⟨extra, ?_⟩
    dsimp only
    rw [if_pos (by decide)]
    rw [he, hq2]
    nth_rewrite 1 [haddr]
    simp
    rfl

/-- Witness for C23: a fresh `xbeedev_open` of `0013A200400A0127@/dev/ttyU0`
that receives the Local AT Response for sequence 1 sends `[0x08, 1, 'A', 'P', 2]`
and then `[0x17, 2, 00 13 a2 00 40 0a 01 27, ff fe, 0x02, 'D', '6', 0x00]`. -/
theorem at_command_frames_witness :
    ∃ extra, (xbeedev_open examplePort true 0 0
        ((apiFrame [0x88, 1, 0x41, 0x50, 0]).map some)).host.sent
      = apiFrame [0x08, 1, 0x41, 0x50, 0x02] ::
        apiFrame [0x17, 2, 0x00, 0x13, 0xa2, 0x00, 0x40, 0x0a, 0x01, 0x27, 0xff, 0xfe, 0x02,
          0x44, 0x36, 0x00] :: extra := by
  have h := (at_command_frames learnedHost 0x46 0x52 (-1) [] examplePort
    { XBeeBootSessionInit with
      xbee_address := [0x00, 0x13, 0xa2, 0x00, 0x40, 0x0a, 0x01, 0x27, 0xff, 0xfe],
      directMode := false } 0 0 0 rfl rfl (by decide) rfl (by decide)).2.2.2.1
  simpa using h

/-- C24. Remote AT result codes: outside direct mode, when the next frame read
is a Remote AT Response (0x97) with the request's sequence and a status byte,
`sendAT` returns 0 if the status is 0 and -512 plus the status otherwise, having
read exactly that frame; a 0x97 response with another sequence is read and
ignored; when 30 polls in a row time out `sendAT` returns -1; and
`XBEE_AT_RETURN_CODE(-512 + s) = s` for every status byte `s`, while
`XBEE_AT_RETURN_CODE(-1) = -1`. -/
theorem remote_at_result (h : Host) (at1 at2 : Byte) (value : Int) (resp other : List Byte)
    (tail : List (Option Byte)) (hdm : h.xbs.directMode = false)
    (hlen : h.xbs.xbee_address.length = 10)
    (hresp : 15 ≤ resp.length ∧ resp.length ≤ 252 ∧ resp.getD 0 0 = 0x97 ∧
      resp.getD 1 0 = seqSucc h.txSequence)
    (hother : other.length ≤ 252 ∧ other.getD 0 0 = 0x97 ∧
      other.getD 1 0 ≠ seqSucc h.txSequence) :
    (sendAT h at1 at2 value ((apiFrame resp).map some ++ tail)).outcome
        = .ret (if resp.getD 14 0 = 0 then 0 else -512 + ((resp.getD 14 0).val : Int)) ∧
    (sendAT h at1 at2 value ((apiFrame resp).map some ++ tail)).rest = tail ∧
    sendAT h at1 at2 value ((apiFrame other).map some ++ tail) = sendAT h at1 at2 value tail ∧
    (sendAT h at1 at2 value (List.replicate 30 none ++ tail)).outcome = .ret (-1) ∧
    (sendAT h at1 at2 value (List.replicate 30 none ++ tail)).rest = tail ∧
    (∀ s : Byte, XBEE_AT_RETURN_CODE (-512 + (s.val : Int)) = (s.val : Int)) ∧
    XBEE_AT_RETURN_CODE (-1) = -1 := by
  have hq := (nextSequence_facts h.txSequence).1
  obtain ⟨h15, h252, h97, hseq⟩ := hresp
  obtain ⟨o252, o97, oseq⟩ := hother
  rw [← hq] at hseq oseq
  refine ⟨?_, ?_, ?_, ?_, ?_, atReturnCode_status, rfl⟩
  · rw [sendAT_eq h at1 at2 value _ hdm hlen,
      sendATLoop_response _ 29 _ resp tail h252 h15 h97 hseq]
  · rw [sendAT_eq h at1 at2 value _ hdm hlen,
      sendATLoop_response _ 29 _ resp tail h252 h15 h97 hseq]
  · rw [sendAT_eq h at1 at2 value _ hdm hlen, sendAT_eq h at1 at2 value _ hdm hlen,
      sendATLoop_other _ 29 _ other tail o252 o97 oseq]
  · rw [sendAT_eq h at1 at2 value _ hdm hlen, sendATLoop_timeouts]
  · rw [sendAT_eq h at1 at2 value _ hdm hlen, sendATLoop_timeouts]

/-- Witness for C24: the host that has learned the address `12 34` sends
`D3 = 5` with sequence 1; the response for sequence 2 is ignored and the response
for sequence 1 with status 4 makes `sendAT` return -508. -/
theorem remote_at_result_witness :
    sendAT learnedHost 0x44 0x33 5
        ((apiFrame [0x97, 2, 1, 0, 0, 0, 0, 0, 0, 0, 0x12, 0x34, 0x44, 0x33, 0]).map some ++
          (apiFrame [0x97, 1, 1, 0, 0, 0, 0, 0, 0, 0, 0x12, 0x34, 0x44, 0x33, 4]).map some)
      = sendAT learnedHost 0x44 0x33 5
          ((apiFrame [0x97, 1, 1, 0, 0, 0, 0, 0, 0, 0, 0x12, 0x34, 0x44, 0x33, 4]).map some) ∧
    (sendAT learnedHost 0x44 0x33 5
        ((apiFrame [0x97, 1, 1, 0, 0, 0, 0, 0, 0, 0, 0x12, 0x34, 0x44, 0x33, 4]).map some
          ++ [])).outcome = .ret (-508) :=
  ⟨(remote_at_result learnedHost 0x44 0x33 5
      [0x97, 1, 1, 0, 0, 0, 0, 0, 0, 0, 0x12, 0x34, 0x44, 0x33, 4]
      [0x97, 2, 1, 0, 0, 0, 0, 0, 0, 0, 0x12, 0x34, 0x44, 0x33, 0]
      ((apiFrame [0x97, 1, 1, 0, 0, 0, 0, 0, 0, 0, 0x12, 0x34, 0x44, 0x33, 4]).map some)
      rfl rfl (by decide) (by decide)).2.2.1,
    (remote_at_result learnedHost 0x44 0x33 5
      [0x97, 1, 1, 0, 0, 0, 0, 0, 0, 0, 0x12, 0x34, 0x44, 0x33, 4]
      [0x97, 2, 1, 0, 0, 0, 0, 0, 0, 0, 0x12, 0x34, 0x44, 0x33, 0] []
      rfl rfl (by decide) (by decide)).1⟩

/-- C25. Local AT result: outside direct mode `localAT` returns 0 as soon as a
Local AT Response (0x88) with the request's sequence is read, after fewer than
5 polls that timed out and whatever the bytes that follow the sequence (the
status byte among them), having read exactly up to that frame; it returns -1
when 5 polls in a row time out, and never anything but 0 or -1.  In direct mode
`localAT` and `sendAT` return 0, send nothing and read nothing. -/
theorem local_at_result (h hd : Host) (at1 at2 : Byte) (value : Int) (resp : List Byte)
    (k : Nat) (tail : List (Option Byte)) (hdm : h.xbs.directMode = false)
    (hresp : 4 ≤ resp.length ∧ resp.length ≤ 252 ∧ resp.getD 0 0 = 0x88 ∧
      resp.getD 1 0 = seqSucc h.txSequence)
    (hk : k < 5) (hdirect : hd.xbs.directMode = true) :
    (localAT h at1 at2 value (List.replicate k none ++ ((apiFrame resp).map some ++ tail))).outcome
        = .ret 0 ∧
    (localAT h at1 at2 value (List.replicate k none ++ ((apiFrame resp).map some ++ tail))).rest
        = tail ∧
    (localAT h at1 at2 value (List.replicate 5 none ++ tail)).outcome = .ret (-1) ∧
    (localAT h at1 at2 value (List.replicate 5 none ++ tail)).rest = tail ∧
    (∀ input rc, (localAT h at1 at2 value input).outcome = .ret rc → rc = 0 ∨ rc = -1) ∧
    (∀ input, localAT hd at1 at2 value input = { outcome := .ret 0, host := hd, rest := input }) ∧
    (∀ input, sendAT hd at1 at2 value input = { outcome := .ret 0, host := hd, rest := input }) := by
  have hq := (nextSequence_facts h.txSequence).1
  obtain ⟨h4, h252, h88, hseq⟩ := hresp
  rw [← hq] at hseq
  refine ⟨?_, ?_, ?_, ?_, fun input rc hr => localAT_code _ _ _ _ _ _ hr, ?_, ?_⟩
  · rw [localAT_eq h at1 at2 value _ hdm,
      localATLoop_timeouts_response _ resp tail h252 h4 h88 hseq k 5 _ hk]
  · rw [localAT_eq h at1 at2 value _ hdm,
      localATLoop_timeouts_response _ resp tail h252 h4 h88 hseq k 5 _ hk]
  · rw [localAT_eq h at1 at2 value _ hdm, localATLoop_timeouts]
  · rw [localAT_eq h at1 at2 value _ hdm, localATLoop_timeouts]
  · intro input
    unfold localAT
    rw [if_pos hdirect]
  · intro input
    unfold sendAT
    rw [if_pos hdirect]

/-- Witness for C25: a Local AT Response for sequence 1 with status 1 (ERROR),
read by the third poll, makes `localAT('A','P',2)` return 0; a host in direct
mode returns 0 from `sendAT` with nothing sent. -/
theorem local_at_result_witness :
    (localAT learnedHost 0x41 0x50 2
        (List.replicate 2 none ++ ((apiFrame [0x88, 1, 0x41, 0x50, 1]).map some ++ []))).outcome
      = .ret 0 ∧
    sendAT initHost 0x44 0x36 0 [] = { outcome := .ret 0, host := initHost, rest := [] } :=
  ⟨(local_at_result learnedHost initHost 0x41 0x50 2 [0x88, 1, 0x41, 0x50, 1] 2 [] rfl
      (by decide) (by decide) rfl).1,
    (local_at_result learnedHost initHost 0x44 0x36 0 [0x88, 1, 0x41, 0x50, 1] 2 [] rfl
      (by decide) (by decide) rfl).2.2.2.2.2.2 []⟩

/-- C26 (amended). Facade exit codes: in over-the-air mode
`xbeedev_set_dtr_rts` and `xbeedev_open` (port parsed, serial device open)
return nothing but 0 and -1.  When the Remote AT Response to the D3 write, or to
the D6 write that follows the Local AT Response in `xbeedev_open`, carries the
request's sequence and status `s`, the operation returns 0 if `s` is 0 and -1
otherwise: the code -512 + `s` of `sendAT` is reported by `xbeeATError` and
replaced by -1.  On 30 timed-out polls the operation returns -1 as well. -/
theorem facade_exit_codes (h : Host) (is_on serialRc : Int) (port : List Byte)
    (xbs : XBeeBootSession) (openRc : Int) (txSequence : Byte)
    (resp resp6 : List Byte) (status : Byte) (tail : List (Option Byte))
    (hdm : h.xbs.directMode = false) (hlen : h.xbs.xbee_address.length = 10)
    (hport : parsePort port = some xbs) (hota : xbs.directMode = false) (hopen : 0 ≤ openRc)
    (hresp : 15 ≤ resp.length ∧ resp.length ≤ 252 ∧ resp.getD 0 0 = 0x97 ∧
      resp.getD 1 0 = seqSucc h.txSequence)
    (hresp6 : 15 ≤ resp6.length ∧ resp6.length ≤ 252 ∧ resp6.getD 0 0 = 0x97 ∧
      resp6.getD 1 0 = seqSucc (seqSucc txSequence)) :
    (∀ input rc, (xbeedev_set_dtr_rts h is_on serialRc input).outcome = .ret rc →
      rc = 0 ∨ rc = -1) ∧
    (∀ input rc, (xbeedev_open port true openRc txSequence input).outcome = .ret rc →
      rc = 0 ∨ rc = -1) ∧
    (xbeedev_set_dtr_rts h is_on serialRc ((apiFrame resp).map some ++ tail)).outcome
      = .ret (if resp.getD 14 0 = 0 then 0 else -1) ∧
    (xbeedev_set_dtr_rts h is_on serialRc (List.replicate 30 none ++ tail)).outcome
      = .ret (-1) ∧
    (xbeedev_open port true openRc txSequence
      ((apiFrame [0x88, seqSucc txSequence, 0x41, 0x50, status]).map some ++
        ((apiFrame resp6).map some ++ tail))).outcome
      = .ret (if resp6.getD 14 0 = 0 then 0 else -1) ∧
    (xbeedev_open port true openRc txSequence
      ((apiFrame [0x88, seqSucc txSequence, 0x41, 0x50, status]).map some ++
        (List.replicate 30 none ++ tail))).outcome = .ret (-1) := by
  have hq := (nextSequence_facts h.txSequence).1
  have hq1 := (nextSequence_facts txSequence).1
  have hq2 := (nextSequence_facts (seqSucc txSequence)).1
  obtain ⟨h15, h252, h97, hseq⟩ := hresp
  obtain ⟨g15, g252, g97, gseq⟩ := hresp6
  rw [← hq] at hseq
  rw [← hq2] at gseq
  obtain ⟨hl10, -⟩ := parsePort_address port xbs hport
  have hl : ∀ input, localAT { xbs := xbs, txSequence := txSequence, sent := [] } 0x41 0x50 2
      ((apiFrame [0x88, seqSucc txSequence, 0x41, 0x50, status]).map some ++ input)
      = { outcome := .ret 0,
          host := { xbs := xbs, txSequence := seqSucc txSequence,
                    sent := [apiFrame [0x08, seqSucc txSequence, 0x41, 0x50, 0x02]] },
          rest := input } := by
    intro input
    rw [localAT_eq _ _ _ _ _ hota]
    dsimp only
    rw [hq1, localATLoop_response (seqSucc txSequence) 4 _
      [0x88, seqSucc txSequence, 0x41, 0x50, status] input (by simp) (by simp) rfl rfl]
    rfl
  have hif : ∀ s : Byte, (if (if s = 0 then (0 : Int) else -512 + (s.val : Int)) = 0
      then (0 : Int) else -1) = if s = 0 then 0 else -1 := by
    intro s
    have := s.isLt
    by_cases hs : s = 0
    · rw [if_pos hs, if_pos rfl, if_pos hs]
    · rw [if_neg hs, if_neg hs, if_neg (by omega)]
  refine ⟨fun input rc hr => set_dtr_rts_code h is_on serialRc input hdm rc hr,
    fun input rc hr => xbeedev_open_code port xbs openRc txSequence input hport hota hopen rc hr,
    ?_, ?_, ?_, ?_⟩
  · have ho : (sendAT h 0x44 0x33 (if is_on ≠ 0 then 5 else 4)
        ((apiFrame resp).map some ++ tail)).outcome
        = .ret (if resp.getD 14 0 = 0 then 0 else -512 + ((resp.getD 14 0).val : Int)) := by
      rw [sendAT_eq h _ _ _ _ hdm hlen, sendATLoop_response _ 29 _ resp tail h252 h15 h97 hseq]
    rw [set_dtr_rts_eq h is_on serialRc _ hdm _ ho, hif]
  · have ho : (sendAT h 0x44 0x33 (if is_on ≠ 0 then 5 else 4)
        (List.replicate 30 none ++ tail)).outcome = .ret (-1) := by
      rw [sendAT_eq h _ _ _ _ hdm hlen, sendATLoop_timeouts]
    rw [set_dtr_rts_eq h is_on serialRc _ hdm _ ho]
    rfl
  · obtain ⟨-, -, hout⟩ := xbeedev_open_ota port xbs openRc txSequence _ hport hota hopen _ _
      (hl ((apiFrame resp6).map some ++ tail))
    have ho : (sendAT ⟨xbs, seqSucc txSequence,
          [apiFrame [0x08, seqSucc txSequence, 0x41, 0x50, 0x02]]⟩ 0x44 0x36 0
        ((apiFrame resp6).map some ++ tail)).outcome
        = .ret (if resp6.getD 14 0 = 0 then 0 else -512 + ((resp6.getD 14 0).val : Int)) := by
      rw [sendAT_eq _ _ _ _ _ hota hl10, sendATLoop_response _ 29 _ resp6 tail g252 g15 g97 gseq]
    rw [hout _ ho, hif]
  · obtain ⟨-, -, hout⟩ := xbeedev_open_ota port xbs openRc txSequence _ hport hota hopen _ _
      (hl (List.replicate 30 none ++ tail))
    have ho : (sendAT ⟨xbs, seqSucc txSequence,
          [apiFrame [0x08, seqSucc txSequence, 0x41, 0x50, 0x02]]⟩ 0x44 0x36 0
        (List.replicate 30 none ++ tail)).outcome = .ret (-1) := by
      rw [sendAT_eq _ _ _ _ _ hota hl10, sendATLoop_timeouts]
    rw [hout _ ho]
    rfl

/-- Witness for C26 (amended): the D3 write of the host that has learned the
address `12 34`, answered with status 4, returns -1; so does the D6 write of
`xbeedev_open` answered with status 4. -/
theorem facade_exit_codes_witness :
    (xbeedev_set_dtr_rts learnedHost 1 0
      ((apiFrame [0x97, 1, 1, 0, 0, 0, 0, 0, 0, 0, 0x12, 0x34, 0x44, 0x33, 4]).map some
        ++ [])).outcome = .ret (-1) ∧
    (xbeedev_open examplePort true 0 0
      ((apiFrame [0x88, 1, 0x41, 0x50, 0]).map some ++
        ((apiFrame [0x97, 2, 0x00, 0x13, 0xa2, 0x00, 0x40, 0x0a, 0x01, 0x27, 0xff, 0xfe,
          0x44, 0x36, 4]).map some ++ []))).outcome = .ret (-1) :=
  ⟨(facade_exit_codes learnedHost 1 0 examplePort
      { XBeeBootSessionInit with
        xbee_address := [0x00, 0x13, 0xa2, 0x00, 0x40, 0x0a, 0x01, 0x27, 0xff, 0xfe],
        directMode := false } 0 0
      [0x97, 1, 1, 0, 0, 0, 0, 0, 0, 0, 0x12, 0x34, 0x44, 0x33, 4]
      [0x97, 2, 0x00, 0x13, 0xa2, 0x00, 0x40, 0x0a, 0x01, 0x27, 0xff, 0xfe, 0x44, 0x36, 4]
      0 [] rfl rfl (by decide) rfl (by decide) (by decide) (by decide)).2.2.1,
    (facade_exit_codes learnedHost 1 0 examplePort
      { XBeeBootSessionInit with
        xbee_address := [0x00, 0x13, 0xa2, 0x00, 0x40, 0x0a, 0x01, 0x27, 0xff, 0xfe],
        directMode := false } 0 0
      [0x97, 1, 1, 0, 0, 0, 0, 0, 0, 0, 0x12, 0x34, 0x44, 0x33, 4]
      [0x97, 2, 0x00, 0x13, 0xa2, 0x00, 0x40, 0x0a, 0x01, 0x27, 0xff, 0xfe, 0x44, 0x36, 4]
      0 [] rfl rfl (by decide) rfl (by decide) (by decide) (by decide)).2.2.2.2.1⟩

/-- Counterexample for C26 as stated: the D3 write answered with status 4
(transmission failure) makes `xbeedev_set_dtr_rts` return -1, not
-512 + 4 = -508, although `sendAT` itself returns -508. -/
theorem facade_exit_codes_counterexample :
    (sendAT learnedHost 0x44 0x33 5
      ((apiFrame [0x97, 1, 1, 0, 0, 0, 0, 0, 0, 0, 0x12, 0x34, 0x44, 0x33, 4]).map some)).outcome
      = .ret (-512 + 4) ∧
    (xbeedev_set_dtr_rts learnedHost 1 0
      ((apiFrame [0x97, 1, 1, 0, 0, 0, 0, 0, 0, 0, 0x12, 0x34, 0x44, 0x33, 4]).map some)).outcome
      = .ret (-1) ∧
    (xbeedev_set_dtr_rts learnedHost 1 0
      ((apiFrame [0x97, 1, 1, 0, 0, 0, 0, 0, 0, 0, 0x12, 0x34, 0x44, 0x33, 4]).map some)).outcome
      ≠ .ret (-512 + 4) := by
  decide

/-- C27. The mapping of `xbeedev_set_dtr_rts`: outside direct mode the call
first sends the Remote AT frame with payload `[0x17, q]`, the 10 address bytes,
`0x02`, `'D'`, `'3'` and the value byte 5 when `is_on` is not 0 and 4 when it is
0; every other frame sent during the call is a packet of API type 0x10, so this
is the only Remote AT frame; and the serial device's `set_dtr_rts` is not
called.  In direct mode no frame is sent, nothing is read, the serial device's
`set_dtr_rts` is called with `is_on` and its result is returned. -/
theorem set_dtr_rts_mapping (h hd : Host) (is_on serialRc : Int) (input : List (Option Byte))
    (hdm : h.xbs.directMode = false) (hlen : h.xbs.xbee_address.length = 10)
    (hdirect : hd.xbs.directMode = true) :
    (∃ extra, (xbeedev_set_dtr_rts h is_on serialRc input).host.sent
        = h.sent ++ apiFrame ([0x17, seqSucc h.txSequence] ++ h.xbs.xbee_address ++
            [0x02, 0x44, 0x33, if is_on ≠ 0 then 5 else 4]) :: extra ∧
      ∀ w ∈ extra, (wirePayload w).getD 0 0 = 0x10) ∧
    (xbeedev_set_dtr_rts h is_on serialRc input).serial = none ∧
    xbeedev_set_dtr_rts hd is_on serialRc input
      = { outcome := .ret serialRc, host := hd, serial := some is_on, rest := input } := by
  have hq := (nextSequence_facts h.txSequence).1
  refine ⟨?_, (set_dtr_rts_host h is_on serialRc input hdm).2, ?_⟩
  · rw [(set_dtr_rts_host h is_on serialRc input hdm).1, sendAT_eq h _ _ _ _ hdm hlen]
    obtain ⟨hd1, extra, he, hall⟩ := sendATLoop_packetExt (nextSequence h.txSequence) 30
      { h with txSequence := nextSequence h.txSequence,
               sent := h.sent ++ [apiFrame ([0x17, nextSequence h.txSequence] ++
                 h.xbs.xbee_address ++ [0x02] ++
                 ([0x44, 0x33] ++ (if (if is_on ≠ 0 then (5 : Int) else 4) ≥ 0
                   then [toUChar (if is_on ≠ 0 then (5 : Int) else 4)] else [])))] } input
    refine ⟨extra, ?_, ?_⟩
    · rw [he, ← hq]
      have hv : (if (if is_on ≠ 0 then (5 : Int) else 4) ≥ 0
          then [toUChar (if is_on ≠ 0 then (5 : Int) else 4)] else [])
          = [if is_on ≠ 0 then (5 : Byte) else 4] := by
        by_cases hz : is_on ≠ 0
        · rw [if_pos hz, if_pos hz]; rfl
        · rw [if_neg hz, if_neg hz]; rfl
      rw [hv]
      simp
    · intro w hw
      rw [hall w hw]
      dsimp only
      rw [hdm]
      rfl
  · unfold xbeedev_set_dtr_rts
    rw [if_pos hdirect]

/-- Witness for C27: the host that has learned the address `12 34` turns
`set_dtr_rts(1)` into the one frame `[0x17, 1, 01 00 .. 00, 12 34, 0x02, 'D',
'3', 5]`; a host in direct mode passes the call on. -/
theorem set_dtr_rts_mapping_witness :
    (∃ extra, (xbeedev_set_dtr_rts learnedHost 1 0 []).host.sent
        = learnedHost.sent ++ apiFrame ([0x17, seqSucc learnedHost.txSequence] ++
            learnedHost.xbs.xbee_address ++ [0x02, 0x44, 0x33, if (1 : Int) ≠ 0 then 5 else 4])
              :: extra ∧
      ∀ w ∈ extra, (wirePayload w).getD 0 0 = 0x10) ∧
    xbeedev_set_dtr_rts initHost 1 7 []
      = { outcome := .ret 7, host := initHost, serial := some 1, rest := [] } :=
  ⟨(set_dtr_rts_mapping learnedHost initHost 1 0 [] rfl rfl rfl).1,
    (set_dtr_rts_mapping learnedHost initHost 1 7 [] rfl rfl rfl).2.2⟩

end Xbee

namespace Xbee

/-! ## C28: `xbeedev_recv` after a poll that timed out -/

/-- C28 (the code departs from the claim). `xbeedev_recv(buf, 2)` on a fresh
host in direct mode, with the ring buffer empty, reads a frame with sequence 1
carrying `a`, then a `recv` times out, then a frame with sequence 2 carrying
`bc`.  All three bytes are accepted and acknowledged (ACKs 1, 1 again after the
timeout, 2), the call returns 0, and `buf` holds `bc`: the poll after the
timeout is handed `buf` and `buflen` afresh and stores from `buf[0]` again, so
`a` is overwritten, `c` is not kept for the next call, and the two bytes
returned are not the first two bytes received. -/
theorem host_recv_overwrite :
    (xbeedev_recv initHost [0, 0] overwriteInput).outcome = .ret 0 ∧
    (xbeedev_recv initHost [0, 0] overwriteInput).buf = [0x62, 0x63] ∧
    (xbeedev_recv initHost [0, 0] overwriteInput).buf ≠ [0x61, 0x62] ∧
    (xbeedev_recv initHost [0, 0] overwriteInput).host.xbs.inSequence = 2 ∧
    ringPending (xbeedev_recv initHost [0, 0] overwriteInput).host.xbs = [] ∧
    (xbeedev_recv initHost [0, 0] overwriteInput).host.sent.map (appMessage true)
      = [[0, 1], [0, 1], [0, 2]] ∧
    (xbeedev_recv initHost [0, 0] overwriteInput).rest = [] := by
  decide

end Xbee

namespace Xbeeboot

/-! ## C29: from `xbeedev_send` to `getch` -/

theorem apiFrame_rx (p rest : List Byte) :
    apiFrame p ++ rest
      = 0x7e :: (escapeBytes (0 :: toUChar (p.length : Int) :: p) ++
          escapeBytes [checksumByte p] ++ rest) := by
  unfold apiFrame
  rw [show (0 : Byte) :: toUChar (p.length : Int) :: p = [0x00, toUChar (p.length : Int)] ++ p
    from rfl, escapeBytes_append]
  simp

/-- The frame `sendAck(s)` transmits: 16 payload bytes, the first 0x10, the last
two the application part `[0, s]`. -/
theorem sendAck_frame (d : Layout) (t : Target) (s : Byte) :
    ∃ q : List Byte, q.length = 16 ∧ q.getD 0 0 = 0x10 ∧ q.drop 14 = [0, s] ∧
      (sendAck d t s).tx = t.tx ++ apiFrame q := by
  have hn : (TXHEADER_BYTES + 2 : Byte).val = 16 := by decide
  have key : ∀ t1 : Target, ∃ q : List Byte, q.length = 16 ∧ q.getD 0 0 = 0x10 ∧
      q.drop 14 = [t1.ram (outputBuffer d 14), t1.ram (outputBuffer d 15)] ∧
      (transmit d t1 (TXHEADER_BYTES + 2)).tx = t1.tx ++ apiFrame q := by
    intro t1
    refine ⟨(List.range 16).map (fun i =>
      (transmit d t1 (TXHEADER_BYTES + 2)).ram (outputBuffer d i)), by simp, ?_, ?_, ?_⟩
    · rw [transmit_ram]
      simp [List.range_succ, Target.store, outputBuffer]
    · rw [transmit_ram]
      simp [List.range_succ, Target.store, outputBuffer]
    · rw [transmit_tx, hn]
  unfold sendAck
  obtain ⟨q, h1, h0, h2, h3⟩ := key ((t.store (outputPayload d 0) 0).store (outputPayload d 1) s)
  refine ⟨q, h1, h0, ?_, h3⟩
  rw [h2]
  simp [Target.store, outputPayload, outputBuffer]

/-- With nothing to transmit and `frameMode` between 1 and 252, `getch` is the
statement under `default:`. -/
theorem getch_default (d : Layout) (t : Target) (hout : t.ram (outputIndex d) = 0)
    (h1 : 1 ≤ (t.ram (frameMode d)).val) (h2 : (t.ram (frameMode d)).val ≤ 252) :
    getch d t = getchDefault d t := by
  have hpush : pushBuffer d t 0 = { outcome := .done, t := t } := by
    unfold pushBuffer
    rw [if_pos (by rw [hout])]
  have hm1 : t.ram (frameMode d) ≠ FRAME_UART := by
    intro h; rw [h] at h2; exact absurd h2 (by decide)
  have hm2 : t.ram (frameMode d) ≠ FRAME_UNKNOWN := by
    intro h; rw [h] at h2; exact absurd h2 (by decide)
  have hm3 : t.ram (frameMode d) ≠ FRAME_FRAME := by
    intro h; rw [h] at h1; exact absurd h1 (by decide)
  unfold getch
  rw [hpush]
  dsimp only
  rw [getchLoop]
  rw [if_neg hm1, if_neg hm2, if_neg hm3]

/-- With nothing to transmit and an empty receive buffer, `getch` calls `poll(0)`;
when its first pass returns, `getch` goes on under `default:` from the state the
pass left. -/
theorem getch_poll (d : Layout) (t t1 : Target) (rc : Byte)
    (hout : t.ram (outputIndex d) = 0) (hfm : t.ram (frameMode d) = FRAME_FRAME)
    (hp : pollIteration d 0 0 t = .returned rc t1) :
    getch d t = getchDefault d t1 := by
  have hpush : pushBuffer d t 0 = { outcome := .done, t := t } := by
    unfold pushBuffer
    rw [if_pos (by rw [hout])]
  have hpoll : poll d t 0 = { outcome := .returned rc, t := t1 } := by
    unfold poll
    rw [pollLoop, hp]
  unfold getch
  rw [hpush]
  dsimp only
  rw [getchLoop]
  rw [hfm, if_neg (by decide), if_neg (by decide), if_pos rfl]
  unfold getchFrame
  rw [hpoll]

theorem getchN_append (d : Layout) : ∀ (m n : Nat) (t t1 : Target) (x : List Byte),
    getchN d m t = (some x, t1) →
    getchN d (m + n) t
      = match getchN d n t1 with
        | (some y, t2) => (some (x ++ y), t2)
        | (none, t2) => (none, t2) := by
  intro m
  induction m with
  | zero =>
    intro n t t1 x h
    rw [getchN] at h
    simp only [Prod.mk.injEq, Option.some.injEq] at h
    rw [← h.1, ← h.2, Nat.zero_add]
    rcases hg : getchN d n t with ⟨_ | y, t2⟩ <;> rfl
  | succ m ih =>
    intro n t t1 x h
    rw [show m + 1 + n = (m + n) + 1 by omega, getchN]
    rw [getchN] at h
    cases ho : (getch d t).outcome with
    | returned ch =>
      rw [ho] at h
      dsimp only at h ⊢
      rcases hg : getchN d m (getch d t).t with ⟨_ | x1, t3⟩
      · rw [hg] at h
        exact absurd h (by simp)
      · rw [hg] at h
        simp only [Prod.mk.injEq, Option.some.injEq] at h
        rw [ih n _ t3 x1 hg, ← h.1, ← h.2]
        rcases getchN d n t3 with ⟨_ | y, t2⟩ <;> rfl
    | blocked => rw [ho] at h; exact absurd h (by simp)
    | outOfFuel => rw [ho] at h; exact absurd h (by simp)

end Xbeeboot

namespace Xbeeboot

/-- The pass of `poll(0)` over a data frame that meets the acceptance conditions,
with `packet` ending before `lastAddress` and no output pending: the state it
leaves holds the payload for `getch`, reversed, and one ACK has been
transmitted. -/
theorem accept_state (d : Layout) (t : Target) (len : Byte)
    (p : List Byte) (rest : List Byte)
    (hP : p.length ≤ d.SPM_PAGESIZE + 2) (hlen : p.length = len.val)
    (hrx : t.rx = apiFrame p ++ rest)
    (hacc : AcceptsData d t 0 len p (checksumByte p)) (hout : t.ram (outputIndex d) = 0) :
    ∃ (t1 : Target) (q : List Byte),
      pollIteration d 0 0 t = .returned 0 t1 ∧
      t1.ram (outputIndex d) = 0 ∧ (t1.ram (frameMode d)).val = p.length - 15 ∧
      (∀ k, k < p.length - 15 →
        t1.ram (packetBuffer d (p.length - 15 - 1 - k)) = p.getD (15 + k) 0) ∧
      t1.rx = rest ∧ t1.tx = t.tx ++ apiFrame q ∧
      q.length = 16 ∧ q.getD 0 0 = 0x10 ∧ q.drop 14 = [0, p.getD 13 0] ∧
      t1.ram (lastIncomingSequence d) = p.getD 13 0 ∧
      t1.ram (lastOutgoingSequence d) = t.ram (lastOutgoingSequence d) := by
  have h16 : 16 ≤ len.val := hacc.2.2.2.1
  have hP4 : 4 ≤ d.SPM_PAGESIZE := by omega
  have hrx1 : t.rx = 0x7e :: (escapeBytes (0 :: len :: p) ++ escapeBytes [checksumByte p] ++
      rest) := by
    rw [hrx, apiFrame_rx, hlen]
    have hn : toUChar (len.val : Int) = len := by
      apply Fin.ext
      rw [toUChar_val]
      omega
    rw [hn]
  have hpi := pollIteration_accept d 0 0 t 0 len p (checksumByte p) rest hP4 hlen hrx1 hacc
  rw [if_pos rfl] at hpi
  have hdl : (len - 12 - 3).val = p.length - 15 := by
    have key : ∀ l : Byte, 15 ≤ l.val → (l - 12 - 3).val = l.val - 15 := by decide
    rw [key len (by omega), hlen]
  rw [hdl] at hpi
  obtain ⟨t0, ht0⟩ : ∃ t0 : Target,
      t0 = { Target.storeAll t (packet d) 0 p with rx := rest } := ⟨_, rfl⟩
  rw [← ht0] at hpi
  obtain ⟨ta, hta⟩ : ∃ ta : Target, ta = (copyPayload d (p.length - 15)
      (p.length - 15) 0 (copyAddress d 10 0 t0)).store (frameMode d) (len - 12 - 3) := ⟨_, rfl⟩
  rw [← hta] at hpi
  obtain ⟨t1, ht1⟩ : ∃ t1 : Target, t1 = (sendAck d ta
      (p.getD 13 0)).store (lastIncomingSequence d) (p.getD 13 0) := ⟨_, rfl⟩
  rw [← ht1] at hpi
  have low : ∀ a, a < packetBuffer d 0 → a ≠ frameMode d → a ≠ lastIncomingSequence d →
      t1.ram a = t.ram a := by
    intro a ha h1 h2
    have h6 : a < outputBuffer d 0 := by unfold packetBuffer outputBuffer at *; omega
    have h5 : a < packet d 0 := by unfold packetBuffer packet at *; omega
    rw [ht1, store_ram_ne _ _ _ _ h2, sendAck_below _ _ _ _ h6, hta, store_ram_ne _ _ _ _ h1,
      copyPayload_below _ _ _ _ _ _ ha, copyAddress_below _ _ _ _ _ h6, ht0]
    exact packet_stored_below d t p rest a h5
  have hlf : frameMode d ≠ lastIncomingSequence d := by
    unfold frameMode lastIncomingSequence; omega
  have hfm : t1.ram (frameMode d) = len - 12 - 3 := by
    have hbf6 : frameMode d < outputBuffer d 0 := by
      unfold frameMode outputBuffer; omega
    rw [ht1, store_ram_ne _ _ _ _ hlf, sendAck_below _ _ _ _ hbf6, hta, store_ram_eq]
  have hli : t1.ram (lastIncomingSequence d) = p.getD 13 0 := by
    rw [ht1, store_ram_eq]
  have hbuf : ∀ k, k < p.length - 15 →
      t1.ram (packetBuffer d (p.length - 15 - 1 - k)) = p.getD (15 + k) 0 := by
    intro k hk
    have h1 : packetBuffer d (p.length - 15 - 1 - k) ≠ lastIncomingSequence d := by
      unfold packetBuffer lastIncomingSequence; omega
    have h2 : packetBuffer d (p.length - 15 - 1 - k) ≠ frameMode d := by
      unfold packetBuffer frameMode; omega
    have h6 : packetBuffer d (p.length - 15 - 1 - k) < outputBuffer d 0 := by
      unfold packetBuffer outputBuffer; omega
    rw [ht1, store_ram_ne _ _ _ _ h1, sendAck_below _ _ _ _ h6, hta, store_ram_ne _ _ _ _ h2]
    rw [copyPayload_content d (p.length - 15) (by omega) (p.length - 15) 0 _ (by omega) k
      (by omega) hk]
    rw [copyAddress_other, ht0]
    · exact packet_stored d t p rest (12 + 3 + k) (by omega)
    · intro i hi
      unfold packet lastAddress outputBuffer
      omega
  have hout1 : t1.ram (outputIndex d) = 0 := by
    rw [low _ (by unfold outputIndex packetBuffer; omega)
      (by unfold outputIndex frameMode; omega)
      (by unfold outputIndex lastIncomingSequence; omega), hout]
  have hlo1 : t1.ram (lastOutgoingSequence d) = t.ram (lastOutgoingSequence d) :=
    low _ (by unfold lastOutgoingSequence packetBuffer; omega)
      (by unfold lastOutgoingSequence frameMode; omega)
      (by unfold lastOutgoingSequence lastIncomingSequence; omega)
  obtain ⟨q, hq1, hq0, hq2, hq3⟩ := sendAck_frame d ta (p.getD 13 0)
  have htx1 : t1.tx = t.tx ++ apiFrame q := by
    rw [ht1, store_tx, hq3, hta, store_tx, copyPayload_tx, copyAddress_tx, ht0]
    show (Target.storeAll t (packet d) 0 p).tx ++ apiFrame q = t.tx ++ apiFrame q
    rw [storeAll_tx]
  have hrx2 : t1.rx = rest := by
    rw [ht1, store_rx, sendAck_rx, hta, store_rx, copyPayload_rx, copyAddress_rx, ht0]
  exact ⟨t1, q, hpi, hout1, by rw [hfm, hdl], hbuf, hrx2, htx1, hq1, hq0, hq2, hli, hlo1⟩

/-- The calls of `getch` that follow an accepted frame return its data bytes in
order. -/
theorem accept_pop (d : Layout) (t : Target) (len : Byte)
    (p : List Byte) (rest : List Byte)
    (hP : p.length ≤ d.SPM_PAGESIZE + 2) (hlen : p.length = len.val)
    (hrx : t.rx = apiFrame p ++ rest)
    (hacc : AcceptsData d t 0 len p (checksumByte p)) (hout : t.ram (outputIndex d) = 0) :
    ∃ (t1 t2 : Target) (q : List Byte),
      pollIteration d 0 0 t = .returned 0 t1 ∧
      t1.ram (outputIndex d) = 0 ∧ (t1.ram (frameMode d)).val = p.length - 15 ∧
      getchN d (p.length - 15) t1 = (some (p.drop 15), t2) ∧
      t2.rx = rest ∧ t2.tx = t.tx ++ apiFrame q ∧
      q.length = 16 ∧ q.getD 0 0 = 0x10 ∧ q.drop 14 = [0, p.getD 13 0] ∧
      t2.ram (frameMode d) = 0 ∧ t2.ram (outputIndex d) = 0 ∧
      t2.ram (lastIncomingSequence d) = p.getD 13 0 ∧
      t2.ram (lastOutgoingSequence d) = t.ram (lastOutgoingSequence d) := by
  have h16 : 16 ≤ len.val := hacc.2.2.2.1
  have hP4 : 4 ≤ d.SPM_PAGESIZE := by omega
  obtain ⟨t1, q, hpi, hout1, hfm, hbuf, hrx2, htx1, hq1, hq0, hq2, hli, hlo1⟩ :=
    accept_state d t len p rest hP hlen hrx hacc hout
  have hlf : frameMode d ≠ lastIncomingSequence d := by
    unfold frameMode lastIncomingSequence; omega
  obtain ⟨t2, g1, g2, g3, g4, g5⟩ := getchN_pop d hP4 (p.length - 15) t1 (by omega) hfm hout1
  have hlist : (List.range (p.length - 15)).reverse.map (fun j => t1.ram (packetBuffer d j))
      = p.drop 15 := by
    apply List.ext_getElem
    · simp
    · intro i h1 h2
      simp only [List.length_map, List.length_reverse, List.length_range] at h1
      simp only [List.getElem_map, List.getElem_reverse, List.getElem_range, List.length_range,
        List.getElem_drop]
      rw [hbuf i h1, List.getD_eq_getElem?_getD, List.getElem?_eq_getElem (by omega)]
      rfl
  rw [hlist] at g1
  refine ⟨t1, t2, q, hpi, hout1, hfm, g1, by rw [g2, hrx2], by rw [g3, htx1], hq1, hq0, hq2, g4,
    ?_, ?_, ?_⟩
  · rw [g5 _ (by unfold outputIndex frameMode; omega), hout1]
  · rw [g5 _ (fun h => hlf h.symm), hli]
  · rw [g5 _ (by unfold lastOutgoingSequence frameMode; omega), hlo1]

/-- A target with an empty receive buffer and no output pending that is fed the
frame of a REQUEST of type FIRMWARE_DELIVER with the expected sequence: the
calls of `getch`, as many as the frame has data bytes, return those bytes in
order; the first of them accepts the frame in `poll(0)` and transmits the
ACK. -/
theorem getchN_request (d : Layout) (t : Target) (p rest : List Byte)
    (hP : p.length ≤ d.SPM_PAGESIZE + 2) (h16 : 16 ≤ p.length) (h255 : p.length ≤ 255)
    (hrx : t.rx = apiFrame p ++ rest) (h0 : p.getD 0 0 = 0x90) (h12 : p.getD 12 0 = 1)
    (h14 : p.getD 14 0 = 23)
    (h13 : p.getD 13 0 = nextSequence (t.ram (lastIncomingSequence d)))
    (hfm : t.ram (frameMode d) = FRAME_FRAME) (hout : t.ram (outputIndex d) = 0) :
    ∃ (t2 : Target) (q : List Byte),
      (poll d t 0).outcome = .returned 0 ∧
      getchN d (p.length - 15) t = (some (p.drop 15), t2) ∧
      t2.rx = rest ∧ t2.tx = t.tx ++ apiFrame q ∧
      q.length = 16 ∧ q.getD 0 0 = 0x10 ∧ q.drop 14 = [0, p.getD 13 0] ∧
      t2.ram (frameMode d) = 0 ∧ t2.ram (outputIndex d) = 0 ∧
      t2.ram (lastIncomingSequence d) = p.getD 13 0 ∧
      t2.ram (lastOutgoingSequence d) = t.ram (lastOutgoingSequence d) := by
  obtain ⟨len, hlen⟩ : ∃ len : Byte, p.length = len.val :=
    ⟨⟨p.length, by omega⟩, rfl⟩
  obtain ⟨t1, t2, q, a1, a2, a3, a4, a5, a6, a7, a8, a9, a10, a11, a12, a13⟩ :=
    accept_pop d t len p rest hP hlen hrx
      ⟨rfl, rfl, h0, by omega, h12, h14, h13, hfm⟩ hout
  refine ⟨t2, q, ?_, ?_, a5, a6, a7, a8, a9, a10, a11, a12, a13⟩
  · unfold poll
    rw [pollLoop, a1]
  · obtain ⟨m, hm⟩ : ∃ m, p.length - 15 = m + 1 := ⟨p.length - 16, by omega⟩
    rw [hm] at a4 ⊢
    rw [getchN] at a4 ⊢
    rw [getch_poll d t t1 0 hout hfm a1]
    rw [getch_default d t1 a2 (by omega) (by omega)] at a4
    exact a4

end Xbeeboot

namespace Xbee

/-! ## C29: from `xbeedev_send` to `getch` (host side) -/

theorem directPayload_eq (xbs : XBeeBootSession) (q pt seq : Byte) (appType : Int)
    (data : List Byte) (hl : xbs.xbee_address.length = 10) :
    apiPayload xbs 0x90 (q.val : Int) (-1) (-1) (pt.val : Int) (seq.val : Int) appType data
      = [0x90, q] ++ xbs.xbee_address ++ [pt, seq] ++ optionalByte appType ++ data := by
  unfold apiPayload
  rw [optionalByte_val, optionalByte_val, optionalByte_val, range10_getD _ hl]
  have e1 : optionalByte (-1) = [] := by decide
  simp only [e1]
  rw [if_pos (by decide)]
  simp

/-- `sendPacket` in direct mode: the frame is a synthesised 0x90 frame, the
application header at offset 12 of its payload. -/
theorem sendPacket_direct (h : Host) (pt seq : Byte) (appType : Int) (data : List Byte)
    (hdm : h.xbs.directMode = true) (hl : h.xbs.xbee_address.length = 10)
    (hlen : data.length ≤ 64) :
    sendPacket h pt seq appType data
      = some { h with txSequence := nextSequence h.txSequence,
                      sent := h.sent ++ [apiFrame ([0x90, nextSequence h.txSequence] ++
                        h.xbs.xbee_address ++ [pt, seq] ++ optionalByte appType ++ data)] } := by
  have hp := directPayload_eq h.xbs (nextSequence h.txSequence) pt seq appType data hl
  have hfit : 5 + (escapeBytes (apiPayload h.xbs 0x90 ((nextSequence h.txSequence).val : Int)
        (-1) (-1) (pt.val : Int) (seq.val : Int) appType data) ++
      escapeBytes [checksumByte (apiPayload h.xbs 0x90 ((nextSequence h.txSequence).val : Int)
        (-1) (-1) (pt.val : Int) (seq.val : Int) appType data)]).length ≤ 256 := by
    rw [hp]
    have h1 := escapeBytes_length_le ([0x90, nextSequence h.txSequence] ++
      h.xbs.xbee_address ++ [pt, seq] ++ optionalByte appType ++ data)
    have h2 := escapeBytes_length_le [checksumByte ([0x90, nextSequence h.txSequence] ++
      h.xbs.xbee_address ++ [pt, seq] ++ optionalByte appType ++ data)]
    have h3 := optionalByte_length appType
    rw [List.length_append]
    simp only [List.length_singleton, List.length_append, List.length_cons, List.length_nil, hl]
      at h1 h2
    omega
  have hw := sendAPIRequest_of_fit _ _ _ _ _ _ _ _ _ hfit
  unfold sendPacket
  dsimp only
  simp only [hdm, if_true]
  rw [hw, hp]

/-- The poll of `xbeedev_send` on the ACK the bootloader transmits for the
awaited sequence: it returns 0 with nothing changed. -/
theorem xbeedev_poll_ack (h : Host) (s : Byte) (q : List Byte) (tail : List (Option Byte))
    (hq : q.length = 16) (h0 : q.getD 0 0 = 0x10) (h14 : q.drop 14 = [0, s]) :
    xbeedev_poll h false 0 (s.val : Int) (-1) ((apiFrame q).map some ++ tail)
      = { outcome := .ret 0,
          cfg := { st := .beforeFrame, host := h, buflen := 0, written := [] },
          rest := tail } := by
  unfold xbeedev_poll
  rw [pollLoop_apiFrame false (s.val : Int) (-1) _ q tail rfl (by omega)]
  match q, hq with
  | [q0, q1, q2, q3, q4, q5, q6, q7, q8, q9, q10, q11, q12, q13, q14, q15], _ =>
    simp only [List.getD_cons_zero] at h0
    simp only [List.drop_succ_cons, List.drop_zero, List.cons.injEq, and_true] at h14
    obtain ⟨e14, e15⟩ := h14
    subst h0 e14 e15
    unfold processFrame
    dsimp only
    rw [show ([0, toUChar (([16, q1, q2, q3, q4, q5, q6, q7, q8, q9, q10, q11, q12, q13, 0,
      q15] : List Byte).length : Int)] ++ [16, q1, q2, q3, q4, q5, q6, q7, q8, q9, q10, q11, q12,
        q13, 0, q15] ++ [checksumByte [16, q1, q2, q3, q4, q5, q6, q7, q8, q9, q10, q11, q12,
        q13, 0, q15]]).getD 2 0 = 0x10 from rfl]
    rw [if_neg (fun h => absurd h.1 (by decide)), if_neg (fun h => absurd h.1 (by decide)),
      if_neg (fun h => absurd h.1 (by decide)), if_pos rfl]
    rw [if_neg (by simp)]
    unfold processData
    dsimp only
    rw [if_pos (by simp)]
    rw [show ([0, toUChar (([16, q1, q2, q3, q4, q5, q6, q7, q8, q9, q10, q11, q12, q13, 0,
      q15] : List Byte).length : Int)] ++ [16, q1, q2, q3, q4, q5, q6, q7, q8, q9, q10, q11, q12,
        q13, 0, q15] ++ [checksumByte [16, q1, q2, q3, q4, q5, q6, q7, q8, q9, q10, q11, q12,
        q13, 0, q15]]).getD (2 + 1 + 1 + 8 + 2 + 1 + 1) 0 = 0 from rfl]
    rw [if_pos rfl]
    rw [show ([0, toUChar (([16, q1, q2, q3, q4, q5, q6, q7, q8, q9, q10, q11, q12, q13, 0,
      q15] : List Byte).length : Int)] ++ [16, q1, q2, q3, q4, q5, q6, q7, q8, q9, q10, q11, q12,
        q13, 0, q15] ++ [checksumByte [16, q1, q2, q3, q4, q5, q6, q7, q8, q9, q10, q11, q12,
        q13, 0, q15]]).getD (2 + 1 + 1 + 8 + 2 + 1 + 1 + 1) 0 = q15 from rfl]
    rw [if_pos ⟨by omega, rfl⟩]

/-- One pass of the chunk loop of `xbeedev_send` in direct mode when the ACK of
the chunk is the next frame received. -/
theorem sendBlock_acked (h : Host) (s : Byte) (block q : List Byte) (fuel : Nat)
    (tail : List (Option Byte)) (hdm : h.xbs.directMode = true)
    (hl : h.xbs.xbee_address.length = 10) (hlen : block.length ≤ 64)
    (hq : q.length = 16) (h0 : q.getD 0 0 = 0x10) (h14 : q.drop 14 = [0, s]) :
    sendBlock s block (fuel + 1) h ((apiFrame q).map some ++ tail)
      = some { outcome := .ret 0,
               host := { h with txSequence := nextSequence h.txSequence,
                                sent := h.sent ++ [apiFrame ([0x90, nextSequence h.txSequence] ++
                                  h.xbs.xbee_address ++ [1, s, 23] ++ block)] },
               rest := tail } := by
  rw [sendBlock, sendPacket_direct h 1 s 23 block hdm hl hlen]
  dsimp only
  rw [xbeedev_poll_ack _ s q tail hq h0 h14]
  dsimp only
  rw [if_pos rfl]
  have e : optionalByte 23 = [23] := by decide
  rw [e]
  simp

end Xbee

namespace Link

open Xbeeboot

/-- The exchange of `xbeedev_send` in direct mode with a bootloader that calls
`getch`: the host reads the ACKs the bootloader transmits, the bootloader reads
the frames the host sends, and `getch` returns the bytes of the buffer. -/
theorem link_send (d : Layout) (hP : 77 ≤ d.SPM_PAGESIZE) :
    ∀ (n : Nat) (B : List Byte) (h : Xbee.Host) (t : Target) (tailH : List (Option Byte))
      (restT : List Byte),
      B.length ≤ n → h.xbs.directMode = true → h.xbs.xbee_address.length = 10 →
      t.ram (frameMode d) = 0 → t.ram (outputIndex d) = 0 →
      t.ram (lastIncomingSequence d) = h.xbs.outSequence →
      t.rx = (requestFrames n h.txSequence h.xbs.outSequence h.xbs.xbee_address B).flatten
        ++ restT →
      ∃ (acks : List Byte) (h1 : Xbee.Host) (t2 : Target),
        Xbee.sendLoop 1 n h B (acks.map some ++ tailH)
          = some { outcome := .ret 0, host := h1, rest := tailH } ∧
        h1.sent = h.sent ++
          requestFrames n h.txSequence h.xbs.outSequence h.xbs.xbee_address B ∧
        getchN d B.length t = (some B, t2) ∧
        t2.rx = restT ∧ t2.tx = t.tx ++ acks ∧ t2.ram (frameMode d) = 0 ∧
        t2.ram (outputIndex d) = 0 := by
  intro n
  induction n with
  | zero =>
    intro B h t tailH restT hn hdm hl hfm hout hseq hrx
    have hB : B = [] := List.length_eq_zero.mp (by omega)
    subst hB
    refine ⟨[], h, t, rfl, by simp [requestFrames], rfl, ?_, by simp, hfm, hout⟩
    rw [hrx]
    simp [requestFrames]
  | succ n ih =>
    intro B h t tailH restT hn hdm hl hfm hout hseq hrx
    cases B with
    | nil =>
      refine ⟨[], h, t, rfl, by simp [requestFrames], rfl, ?_, by simp, hfm, hout⟩
      rw [hrx]
      simp [requestFrames]
    | cons b buf =>
      have hqs := (nextSequence_facts h.txSequence).1
      have hss := (nextSequence_facts h.xbs.outSequence).1
      have hst := (nextSequence_facts (t.ram (lastIncomingSequence d))).2.1
      have htake : (b :: buf).take (if (b :: buf).length > 64 then 64 else (b :: buf).length)
          = (b :: buf).take 64 := by
        split_ifs with hlen
        · rfl
        · rw [List.take_of_length_le (le_refl _), List.take_of_length_le (by omega)]
      have hdrop : (b :: buf).drop (if (b :: buf).length > 64 then 64 else (b :: buf).length)
          = (b :: buf).drop 64 := by
        split_ifs with hlen
        · rfl
        · rw [List.drop_of_length_le (le_refl _), List.drop_of_length_le (by omega)]
      have hblock1 : 1 ≤ ((b :: buf).take 64).length := by
        rw [List.length_take]; simp
      have hblock64 : ((b :: buf).take 64).length ≤ 64 := by
        rw [List.length_take]; omega
      obtain ⟨p, hp⟩ : ∃ p, p = [0x90, seqSucc h.txSequence] ++ h.xbs.xbee_address ++
          [1, seqSucc h.xbs.outSequence, 23] ++ (b :: buf).take 64 := ⟨_, rfl⟩
      have hplen : p.length = 15 + ((b :: buf).take 64).length := by
        rw [hp]
        simp only [List.length_append, List.length_cons, List.length_nil, hl]
      have hpdrop : p.drop 15 = (b :: buf).take 64 := by
        rw [hp]
        match h.xbs.xbee_address, hl with
        | [a0, a1, a2, a3, a4, a5, a6, a7, a8, a9], _ => rfl
      have hpget : p.getD 0 0 = 0x90 ∧ p.getD 12 0 = 1 ∧ p.getD 14 0 = 23 ∧
          p.getD 13 0 = seqSucc h.xbs.outSequence := by
        rw [hp]
        match h.xbs.xbee_address, hl with
        | [a0, a1, a2, a3, a4, a5, a6, a7, a8, a9], _ => exact ⟨rfl, rfl, rfl, rfl⟩
      rw [requestFrames, ← hp, List.flatten_cons, List.append_assoc] at hrx
      obtain ⟨tm, q, -, g2, g3, g4, g5, g6, g7, g8, g9, g10, -⟩ :=
        getchN_request d t p _ (by omega) (by omega) (by omega) hrx hpget.1 hpget.2.1
          hpget.2.2.1 (by rw [hpget.2.2.2, hst, hseq]) hfm hout
      rw [hplen, Nat.add_sub_cancel_left, hpdrop] at g2
      obtain ⟨acks, h1, t2, i1, i2, i3, i4, i5, i6, i7⟩ :=
        ih ((b :: buf).drop 64)
          { h with xbs := { h.xbs with outSequence := seqSucc h.xbs.outSequence },
                   txSequence := seqSucc h.txSequence,
                   sent := h.sent ++ [apiFrame p] }
          tm tailH restT
          (by rw [List.length_drop]; simp only [List.length_cons] at hn ⊢; omega)
          hdm hl g8 g9 (by rw [g10, hpget.2.2.2]) g3
      refine ⟨apiFrame q ++ acks, h1, t2, ?_, ?_, ?_, i4, ?_, i6, i7⟩
      · rw [Xbee.sendLoop]
        dsimp only
        rw [htake, hdrop, hss, List.map_append, List.append_assoc,
          Xbee.sendBlock_acked
            { h with xbs := { h.xbs with outSequence := seqSucc h.xbs.outSequence } }
            _ _ q 0 _ hdm hl hblock64 g5 g6 (by rw [g7, hpget.2.2.2])]
        dsimp only
        rw [hqs, ← hp]
        exact i1
      · rw [i2, requestFrames, ← hp]
        simp
      · have hsplit : (b :: buf).length
            = ((b :: buf).take 64).length + ((b :: buf).drop 64).length := by
          rw [List.length_take, List.length_drop]
          omega
        rw [hsplit, getchN_append d _ _ t tm _ g2, i3]
        dsimp only
        rw [List.take_append_drop]
      · rw [i5, g4, List.append_assoc]

end Link

namespace Link

open Xbeeboot

/-- Where the code meets C29: end to end from host to target, in direct mode, on a
layout with `SPM_PAGESIZE` at least 77 (so that the 79-byte frame of a 64-byte chunk
ends before `lastAddress`), with the target in frame mode, its receive buffer
empty, no output pending and `lastIncomingSequence` equal to the host's
`outSequence`.  The frame `sendPacket` builds for a chunk of 1 to 64 bytes with
the sequence `succ(outSequence)` is a 0x90 frame with the application header
`[1, sequence, 23]` at payload offset 12; fed to the target, `poll(0)` returns 0
and as many calls of `getch` as the chunk has bytes return the chunk in order,
leaving the frame consumed, the buffer empty and `lastIncomingSequence` at that
sequence.  For a whole buffer `B` there is one exchange in which
`xbeedev_send` returns 0 having read exactly the ACKs the target transmitted,
and the target, fed exactly the frames the host sent, returns `B` from
`B.length` calls of `getch`. -/
theorem host_to_target (d : Layout) (h : Xbee.Host) (t : Target) (chunk B rest : List Byte)
    (hP : 77 ≤ d.SPM_PAGESIZE) (hdm : h.xbs.directMode = true)
    (hl : h.xbs.xbee_address.length = 10) (hfm : t.ram (frameMode d) = FRAME_FRAME)
    (hout : t.ram (outputIndex d) = 0)
    (hseq : t.ram (lastIncomingSequence d) = h.xbs.outSequence)
    (hchunk : 1 ≤ chunk.length ∧ chunk.length ≤ 64) :
    (∃ (p : List Byte) (t2 : Target),
      Xbee.sendPacket h 1 (seqSucc h.xbs.outSequence) 23 chunk
        = some { h with txSequence := seqSucc h.txSequence,
                        sent := h.sent ++ [apiFrame p] } ∧
      p.getD 0 0 = 0x90 ∧ p.drop 12 = [1, seqSucc h.xbs.outSequence, 23] ++ chunk ∧
      (poll d { t with rx := apiFrame p ++ rest } 0).outcome = .returned 0 ∧
      getchN d chunk.length { t with rx := apiFrame p ++ rest } = (some chunk, t2) ∧
      t2.rx = rest ∧ t2.ram (frameMode d) = 0 ∧
      t2.ram (lastIncomingSequence d) = seqSucc h.xbs.outSequence) ∧
    (∃ (r : Xbee.SendResult) (t2 : Target),
      Xbee.xbeedev_send 1 h B ((t2.tx.drop t.tx.length).map some) = some r ∧
      r.outcome = .ret 0 ∧ r.rest = [] ∧
      getchN d B.length { t with rx := (r.host.sent.drop h.sent.length).flatten }
        = (some B, t2) ∧
      t2.rx = [] ∧ t2.ram (frameMode d) = 0) := by
  constructor
  · obtain ⟨p, hp⟩ : ∃ p, p = [0x90, seqSucc h.txSequence] ++ h.xbs.xbee_address ++
        [1, seqSucc h.xbs.outSequence, 23] ++ chunk := ⟨_, rfl⟩
    have hst := (nextSequence_facts (t.ram (lastIncomingSequence d))).2.1
    have hqs := (nextSequence_facts h.txSequence).1
    have hplen : p.length = 15 + chunk.length := by
      rw [hp]
      simp only [List.length_append, List.length_cons, List.length_nil, hl]
    have hpdrop : p.drop 15 = chunk ∧ p.drop 12 = [1, seqSucc h.xbs.outSequence, 23] ++ chunk := by
      rw [hp]
      match h.xbs.xbee_address, hl with
      | [a0, a1, a2, a3, a4, a5, a6, a7, a8, a9], _ => exact ⟨rfl, rfl⟩
    have hpget : p.getD 0 0 = 0x90 ∧ p.getD 12 0 = 1 ∧ p.getD 14 0 = 23 ∧
        p.getD 13 0 = seqSucc h.xbs.outSequence := by
      rw [hp]
      match h.xbs.xbee_address, hl with
      | [a0, a1, a2, a3, a4, a5, a6, a7, a8, a9], _ => exact ⟨rfl, rfl, rfl, rfl⟩
    obtain ⟨t2, q, g1, g2, g3, -, -, -, -, g8, -, g10, -⟩ :=
      getchN_request d { t with rx := apiFrame p ++ rest } p rest (by omega) (by omega)
        (by omega) rfl hpget.1 hpget.2.1 hpget.2.2.1
        (by rw [hpget.2.2.2, hst]; exact congrArg seqSucc hseq.symm) hfm hout
    rw [hplen, Nat.add_sub_cancel_left, hpdrop.1] at g2
    refine ⟨p, t2, ?_, hpget.1, hpdrop.2, g1, g2, g3, g8, by rw [g10, hpget.2.2.2]⟩
    rw [Xbee.sendPacket_direct h 1 _ 23 chunk hdm hl hchunk.2, hqs, hp]
    have e : Xbee.optionalByte 23 = [23] := by decide
    rw [e]
    simp
  · obtain ⟨acks, h1, t2, i1, i2, i3, i4, i5, i6, -⟩ :=
      link_send d hP B.length B h
        { t with rx := (requestFrames B.length h.txSequence h.xbs.outSequence
            h.xbs.xbee_address B).flatten ++ [] }
        [] [] (le_refl _) hdm hl hfm hout hseq rfl
    refine ⟨{ outcome := .ret 0, host := h1, rest := [] }, t2, ?_, rfl, rfl, ?_, i4, i6⟩
    · unfold Xbee.xbeedev_send
      rw [i5]
      show Xbee.sendLoop 1 B.length h B (((t.tx ++ acks).drop t.tx.length).map some) = _
      rw [List.drop_left]
      rw [List.append_nil] at i1
      exact i1
    · dsimp only
      rw [i2, List.drop_left]
      rw [List.append_nil] at i3
      exact i3

/-- An instance on the ATmega328P layout: a fresh host in direct mode and an idle
target exchange the buffer `0x30 0x20`. -/
theorem host_to_target_witness :
    ∃ (r : Xbee.SendResult) (t2 : Target),
      Xbee.xbeedev_send 1 Xbee.initHost [0x30, 0x20]
        ((t2.tx.drop idleTarget.tx.length).map some) = some r ∧
      r.outcome = .ret 0 ∧ r.rest = [] ∧
      getchN atmega328p ([0x30, 0x20] : List Byte).length
        { idleTarget with rx := (r.host.sent.drop Xbee.initHost.sent.length).flatten }
        = (some [0x30, 0x20], t2) ∧
      t2.rx = [] ∧ t2.ram (frameMode atmega328p) = 0 :=
  (host_to_target atmega328p Xbee.initHost idleTarget [0x30] [0x30, 0x20] [] (by decide) rfl rfl
    rfl rfl rfl (by decide)).2

/-- C29. End to end from host to target, the code against the claim: on the
ATmega8 layout (`SPM_PAGESIZE` 64) the frame that a fresh host in direct mode sends for the 64 bytes 1, 2, ..., 64
is accepted by an idle target, the host reads the target's ACK and
`xbeedev_send` returns 0, but the 64 calls of `getch` return 1, ..., 51, then
1, 0, 0, 0, 0, 0, 0, 0, 0, 0, then 62, 63, 64: `packet[66..75]` is the same
memory as `lastAddress[0..9]`, which `poll` overwrites with the frame's bytes
1 to 10 before it copies the payload. -/
theorem host_to_target_page64 :
    atmega8.SPM_PAGESIZE = 64 ∧
    (Xbee.xbeedev_send 1 Xbee.initHost (countBytes 64)
        ((getchN atmega8 64 { idleTarget with rx := apiFrame ([0x90, 1] ++
          List.replicate 10 0 ++ [1, 1, 23] ++ countBytes 64) }).2.tx.map some)).map
        (fun r => (r.outcome, r.host.sent, r.rest))
      = some (.ret 0, [apiFrame ([0x90, 1] ++ List.replicate 10 0 ++ [1, 1, 23] ++
          countBytes 64)], []) ∧
    (getchN atmega8 64 { idleTarget with rx := apiFrame ([0x90, 1] ++ List.replicate 10 0 ++
        [1, 1, 23] ++ countBytes 64) }).1
      = some (countBytes 51 ++ [1, 0, 0, 0, 0, 0, 0, 0, 0, 0] ++ [62, 63, 64]) ∧
    countBytes 51 ++ [1, 0, 0, 0, 0, 0, 0, 0, 0, 0] ++ [62, 63, 64] ≠ countBytes 64 := by
  decide

end Link

namespace Xbeeboot

/-! ## C30: from `putch` to `xbeedev_recv` (target side) -/

/-- The pass of `poll(w)` over the ACK for the awaited sequence `w`: it returns 0
and only `packet` has changed. -/
theorem pollIteration_ack (d : Layout) (w : Byte) (t : Target) (ack rest : List Byte)
    (hrx : t.rx = apiFrame ack ++ rest) (hlen : ack.length = 14) (h0 : ack.getD 0 0 = 0x90)
    (h12 : ack.getD 12 0 = 0) (h13 : ack.getD 13 0 = w) (hw : w ≠ 0) :
    pollIteration d w 0 t
      = .returned 0 { Target.storeAll t (packet d) 0 ack with rx := rest } := by
  have hrx1 : t.rx = 0x7e :: (escapeBytes (0 :: 14 :: ack) ++ escapeBytes [checksumByte ack] ++
      rest) := by
    rw [hrx, apiFrame_rx, hlen]
    rfl
  have ht : t = { t with rx := 0x7e :: (escapeBytes (0 :: 14 :: ack) ++
      escapeBytes [checksumByte ack] ++ rest) } := by
    rw [← hrx1]
  have hit := pollIteration_frame d w 0 t 0 14 ack (checksumByte ack) rest (by rw [hlen]; rfl)
  rw [← ht] at hit
  rw [hit, if_neg (by decide), if_neg (by rw [checksumByte_eq]; simp)]
  have hf : pollFrame d w 14 0 { Target.storeAll t (packet d) 0 ack with rx := rest }
      = (some 0, 0, { Target.storeAll t (packet d) 0 ack with rx := rest }) := by
    unfold pollFrame
    dsimp only
    rw [packet_stored d t ack rest 0 (by omega), h0, if_neg (by decide), if_pos (by decide),
      if_neg hw]
    rw [show packet d (12 + 1) = packet d 13 from rfl, packet_stored d t ack rest 12 (by omega),
      packet_stored d t ack rest 13 (by omega), h12, h13, if_neg (by decide), if_pos rfl]
  rw [hf]

theorem poll_ack (d : Layout) (w : Byte) (t : Target) (ack rest : List Byte)
    (hrx : t.rx = apiFrame ack ++ rest) (hlen : ack.length = 14) (h0 : ack.getD 0 0 = 0x90)
    (h12 : ack.getD 12 0 = 0) (h13 : ack.getD 13 0 = w) (hw : w ≠ 0) :
    poll d t w = { outcome := .returned 0,
                   t := { Target.storeAll t (packet d) 0 ack with rx := rest } } := by
  unfold poll
  rw [pollLoop, pollIteration_ack d w t ack rest hrx hlen h0 h12 h13 hw]

end Xbeeboot

namespace Xbeeboot

theorem range_add_map {α : Type} (f : Nat → α) (a k : Nat) :
    (List.range (a + k)).map f = (List.range a).map f ++ (List.range k).map (fun j => f (a + j)) := by
  rw [List.range_add, List.map_append, List.map_map]
  rfl

/-- The payload `pushBuffer` hands to `transmit`: the header `transmit` writes,
`lastAddress`, the application header written by `pushBuffer`, and the text. -/
theorem pushFrame_payload (d : Layout) (t : Target) (s : Byte) (k : Nat) (n : Byte)
    (hP : 1 ≤ d.SPM_PAGESIZE) :
    (List.range (17 + k)).map (fun i => (transmit d ((((t.store (lastOutgoingSequence d) s).store
        (outputPayload d 0) 1).store (outputPayload d 1) s).store (outputPayload d 2) 24) n).ram
        (outputBuffer d i))
      = [0x10, 0] ++ addressBytes d t ++ [0, 0, 1, s, 24] ++ pendingText d t k := by
  rw [range_add_map, transmit_ram]
  have hl : ∀ i, outputBuffer d i ≠ lastOutgoingSequence d := by
    intro i; unfold outputBuffer lastOutgoingSequence; omega
  have hne : ∀ i j, i ≠ j → outputBuffer d i ≠ outputBuffer d j := by
    intro i j h; unfold outputBuffer; omega
  have htext : (List.range k).map (fun j => ((((((((t.store (lastOutgoingSequence d) s).store
        (outputPayload d 0) 1).store (outputPayload d 1) s).store (outputPayload d 2) 24).store
        (outputBuffer d 0) 0x10).store (outputBuffer d 1) 0).store (outputBuffer d 12) 0).store
        (outputBuffer d 13) 0).ram (outputBuffer d (17 + j)))
      = pendingText d t k := by
    unfold pendingText
    apply List.map_congr_left
    intro j _
    unfold outputPayload outputText
    rw [store_ram_ne _ _ _ _ (hne _ _ (by omega)), store_ram_ne _ _ _ _ (hne _ _ (by omega)),
      store_ram_ne _ _ _ _ (hne _ _ (by omega)), store_ram_ne _ _ _ _ (hne _ _ (by omega)),
      store_ram_ne _ _ _ _ (hne _ _ (by omega)), store_ram_ne _ _ _ _ (hne _ _ (by omega)),
      store_ram_ne _ _ _ _ (hne _ _ (by omega)), store_ram_ne _ _ _ _ (hl _)]
  rw [htext]
  congr 1
  have haddr : ∀ i, 2 ≤ i → i < 12 → ((((((((t.store (lastOutgoingSequence d) s).store
        (outputPayload d 0) 1).store (outputPayload d 1) s).store (outputPayload d 2) 24).store
        (outputBuffer d 0) 0x10).store (outputBuffer d 1) 0).store (outputBuffer d 12) 0).store
        (outputBuffer d 13) 0).ram (outputBuffer d i) = t.ram (outputBuffer d i) := by
    intro i h2 h12
    unfold outputPayload
    rw [store_ram_ne _ _ _ _ (hne _ _ (by omega)), store_ram_ne _ _ _ _ (hne _ _ (by omega)),
      store_ram_ne _ _ _ _ (hne _ _ (by omega)), store_ram_ne _ _ _ _ (hne _ _ (by omega)),
      store_ram_ne _ _ _ _ (hne _ _ (by omega)), store_ram_ne _ _ _ _ (hne _ _ (by omega)),
      store_ram_ne _ _ _ _ (hne _ _ (by omega)), store_ram_ne _ _ _ _ (hl _)]
  have h17 : List.range 17 = [0, 1, 2, 3, 4, 5, 6, 7, 8, 9, 10, 11, 12, 13, 14, 15, 16] := by
    decide
  have h10 : List.range 10 = [0, 1, 2, 3, 4, 5, 6, 7, 8, 9] := by decide
  rw [h17]
  unfold addressBytes lastAddress
  rw [h10]
  simp only [List.map_cons, List.map_nil, List.cons_append, List.nil_append]
  rw [haddr 2 (by omega) (by omega), haddr 3 (by omega) (by omega),
    haddr 4 (by omega) (by omega), haddr 5 (by omega) (by omega),
    haddr 6 (by omega) (by omega), haddr 7 (by omega) (by omega),
    haddr 8 (by omega) (by omega), haddr 9 (by omega) (by omega),
    haddr 10 (by omega) (by omega), haddr 11 (by omega) (by omega)]
  unfold outputPayload
  rw [store_ram_ne _ _ _ _ (hne 0 13 (by omega)), store_ram_ne _ _ _ _ (hne 0 12 (by omega)),
    store_ram_ne _ _ _ _ (hne 0 1 (by omega)), store_ram_eq]
  rw [store_ram_ne _ _ _ _ (hne 1 13 (by omega)), store_ram_ne _ _ _ _ (hne 1 12 (by omega)),
    store_ram_eq]
  rw [store_ram_ne _ _ _ _ (hne 12 13 (by omega)), store_ram_eq]
  rw [store_ram_eq]
  rw [store_ram_ne _ _ _ _ (hne 14 13 (by omega)), store_ram_ne _ _ _ _ (hne 14 12 (by omega)),
    store_ram_ne _ _ _ _ (hne 14 1 (by omega)), store_ram_ne _ _ _ _ (hne 14 0 (by omega)),
    store_ram_ne _ _ _ _ (hne 14 (14 + 2) (by omega)),
    store_ram_ne _ _ _ _ (hne 14 (14 + 1) (by omega)),
    show outputBuffer d 14 = outputBuffer d (14 + 0) from rfl, store_ram_eq]
  rw [store_ram_ne _ _ _ _ (hne 15 13 (by omega)), store_ram_ne _ _ _ _ (hne 15 12 (by omega)),
    store_ram_ne _ _ _ _ (hne 15 1 (by omega)), store_ram_ne _ _ _ _ (hne 15 0 (by omega)),
    store_ram_ne _ _ _ _ (hne 15 (14 + 2) (by omega)),
    show outputBuffer d 15 = outputBuffer d (14 + 1) from rfl, store_ram_eq]
  rw [store_ram_ne _ _ _ _ (hne 16 13 (by omega)), store_ram_ne _ _ _ _ (hne 16 12 (by omega)),
    store_ram_ne _ _ _ _ (hne 16 1 (by omega)), store_ram_ne _ _ _ _ (hne 16 0 (by omega)),
    show outputBuffer d 16 = outputBuffer d (14 + 2) from rfl, store_ram_eq]

end Xbeeboot

namespace Xbeeboot

theorem transmit_below (d : Layout) (t : Target) (n : Byte) (a : Nat)
    (h : a < outputBuffer d 0 ∨ outputBuffer d 14 ≤ a ∨
      (outputBuffer d 2 ≤ a ∧ a < outputBuffer d 12)) :
    (transmit d t n).ram a = t.ram a := by
  rw [transmit_ram]
  unfold outputBuffer at *
  rw [store_ram_ne _ _ _ _ (by omega), store_ram_ne _ _ _ _ (by omega),
    store_ram_ne _ _ _ _ (by omega), store_ram_ne _ _ _ _ (by omega)]

/-- A call of `pushBuffer(max)` with more than `max` bytes waiting, when the ACK of
the chunk is the next frame received: one REQUEST of type FIRMWARE_REPLY is
transmitted with all the waiting bytes, the ACK is read, `outputIndex` is 0 and
`lastOutgoingSequence` advanced. -/
theorem pushBuffer_flush (d : Layout) (t : Target) (max : Byte) (ack rest : List Byte)
    (hP : 14 ≤ d.SPM_PAGESIZE) (hk : max < t.ram (outputIndex d))
    (hk2 : (t.ram (outputIndex d)).val ≤ 200)
    (hrx : t.rx = apiFrame ack ++ rest) (hlen : ack.length = 14) (h0 : ack.getD 0 0 = 0x90)
    (h12 : ack.getD 12 0 = 0)
    (h13 : ack.getD 13 0 = nextSequence (t.ram (lastOutgoingSequence d))) :
    ∃ t2, pushBuffer d t max = { outcome := .done, t := t2 } ∧
      t2.tx = t.tx ++ apiFrame ([0x10, 0] ++ addressBytes d t ++
        [0, 0, 1, nextSequence (t.ram (lastOutgoingSequence d)), 24] ++
        pendingText d t (t.ram (outputIndex d)).val) ∧
      t2.rx = rest ∧ t2.ram (outputIndex d) = 0 ∧
      t2.ram (lastOutgoingSequence d) = nextSequence (t.ram (lastOutgoingSequence d)) ∧
      ∀ a, FlushKeeps d a → t2.ram a = t.ram a := by
  obtain ⟨s, hs⟩ : ∃ s, s = nextSequence (t.ram (lastOutgoingSequence d)) := ⟨_, rfl⟩
  rw [← hs] at h13 ⊢
  have hs0 : s ≠ 0 := by
    rw [hs, (nextSequence_facts _).2.1]
    exact (nextSequence_facts _).2.2.2.2.2
  obtain ⟨tb, htb⟩ : ∃ tb, tb = (((t.store (lastOutgoingSequence d) s).store
      (outputPayload d 0) 1).store (outputPayload d 1) s).store (outputPayload d 2) 24 :=
    ⟨_, rfl⟩
  have hoi : tb.ram (outputIndex d) = t.ram (outputIndex d) := by
    rw [htb]
    unfold outputPayload outputBuffer outputIndex lastOutgoingSequence
    rw [store_ram_ne _ _ _ _ (by omega), store_ram_ne _ _ _ _ (by omega),
      store_ram_ne _ _ _ _ (by omega), store_ram_ne _ _ _ _ (by omega)]
  obtain ⟨n, hn⟩ : ∃ n : Byte, n = TXHEADER_BYTES + 3 + t.ram (outputIndex d) := ⟨_, rfl⟩
  have hnv : n.val = 17 + (t.ram (outputIndex d)).val := by
    have key : ∀ x : Byte, x.val ≤ 200 → (TXHEADER_BYTES + 3 + x).val = 17 + x.val := by decide
    rw [hn, key _ hk2]
  obtain ⟨tc, htc⟩ : ∃ tc, tc = transmit d tb n := ⟨_, rfl⟩
  have hrxc : tc.rx = apiFrame ack ++ rest := by
    rw [htc, transmit_rx, htb, store_rx, store_rx, store_rx, store_rx, hrx]
  have hpoll := poll_ack d s tc ack rest hrxc hlen h0 h12 h13 hs0
  obtain ⟨td, htd⟩ : ∃ td : Target,
      td = { Target.storeAll tc (packet d) 0 ack with rx := rest } := ⟨_, rfl⟩
  rw [← htd] at hpoll
  have hloop : ∀ fuel, pushLoop d s (fuel + 1) (t.store (lastOutgoingSequence d) s)
      = { outcome := .done, t := td } := by
    intro fuel
    rw [pushLoop]
    rw [← htb, hoi, ← hn, ← htc, hpoll]
    dsimp only
    rw [if_neg (by decide)]
  have hpush : pushBuffer d t max
      = { outcome := .done, t := td.store (outputIndex d) 0 } := by
    unfold pushBuffer
    rw [if_neg (by exact not_le.mpr hk)]
    dsimp only
    rw [← hs, hloop]
  have hkeep : ∀ a, (a < packet d 0 ∨ packet d 14 ≤ a) → td.ram a = tc.ram a := by
    intro a ha
    rw [htd]
    exact storeAll_other tc (packet d) 0 ack a (fun j hj => by unfold packet at *; omega)
  refine ⟨_, hpush, ?_, by rw [store_rx, htd], store_ram_eq _ _ _, ?_, ?_⟩
  · rw [store_tx, htd]
    show (Target.storeAll tc (packet d) 0 ack).tx = _
    rw [storeAll_tx, htc, transmit_tx, hnv, htb, pushFrame_payload d t s _ n (by omega)]
    rfl
  · have h1 : lastOutgoingSequence d ≠ outputIndex d := by
      unfold lastOutgoingSequence outputIndex; omega
    rw [store_ram_ne _ _ _ _ h1, hkeep _ (Or.inl (by unfold lastOutgoingSequence packet; omega)),
      htc, transmit_below _ _ _ _ (Or.inl (by unfold lastOutgoingSequence outputBuffer; omega)),
      htb]
    unfold outputPayload outputBuffer lastOutgoingSequence
    rw [store_ram_ne _ _ _ _ (by omega), store_ram_ne _ _ _ _ (by omega),
      store_ram_ne _ _ _ _ (by omega), store_ram_eq]
  · intro a ⟨a1, a2, a3, a4⟩
    rw [store_ram_ne _ _ _ _ a1, hkeep _ a3, htc,
      transmit_below _ _ _ _ (by unfold outputBuffer at *; omega), htb]
    unfold outputPayload outputBuffer at *
    rw [store_ram_ne _ _ _ _ (by omega), store_ram_ne _ _ _ _ (by omega),
      store_ram_ne _ _ _ _ (by omega), store_ram_ne _ _ _ _ a2]

end Xbeeboot

namespace Xbeeboot

theorem putch_eq (d : Layout) (t : Target) (ch : Byte)
    (hfm : t.ram (frameMode d) ≠ FRAME_UART) :
    putch d t ch = pushBuffer d ((t.store (outputText d (t.ram (outputIndex d)).val) ch).store
      (outputIndex d) (t.ram (outputIndex d) + 1)) XBEEBOOT_MAX_CHUNK := by
  unfold putch
  rw [if_neg hfm]

theorem pushBuffer_idle (d : Layout) (t : Target) (max : Byte)
    (h : t.ram (outputIndex d) ≤ max) : pushBuffer d t max = { outcome := .done, t := t } := by
  unfold pushBuffer
  rw [if_pos h]

theorem pending_nil (d : Layout) (t : Target) (h : t.ram (outputIndex d) = 0) :
    Pending d t t [] :=
  ⟨by rw [h]; rfl, fun j hj => absurd hj (by simp), fun _ _ _ => rfl, rfl, rfl⟩

theorem pending_store (d : Layout) (t0 t1 : Target) (x : List Byte) (c : Byte)
    (hp : Pending d t0 t1 x) (hx : x.length ≤ 254) :
    Pending d t0 ((t1.store (outputText d (t1.ram (outputIndex d)).val) c).store
      (outputIndex d) (t1.ram (outputIndex d) + 1)) (x ++ [c]) := by
  obtain ⟨p1, p2, p3, p4, p5⟩ := hp
  have hne : ∀ j, outputText d j ≠ outputIndex d := by
    intro j; unfold outputText outputBuffer outputIndex; omega
  have hinj : ∀ i j, i ≠ j → outputText d i ≠ outputText d j := by
    intro i j h; unfold outputText outputBuffer; omega
  refine ⟨?_, ?_, ?_, by rw [store_rx, store_rx, p4], by rw [store_tx, store_tx, p5]⟩
  · rw [store_ram_eq, List.length_append, List.length_singleton]
    have key : ∀ b : Byte, b.val ≤ 254 → (b + 1).val = b.val + 1 := by decide
    rw [key _ (by omega), p1]
  · intro j hj
    rw [List.length_append, List.length_singleton] at hj
    rw [store_ram_ne _ _ _ _ (hne j), p1]
    by_cases hjx : j = x.length
    · subst hjx
      rw [store_ram_eq]
      simp [List.getD_eq_getElem?_getD]
    · rw [store_ram_ne _ _ _ _ (hinj _ _ hjx), p2 j (by omega)]
      rw [List.getD_eq_getElem?_getD, List.getD_eq_getElem?_getD,
        List.getElem?_append_left (by omega)]
  · intro a ha hj
    rw [store_ram_ne _ _ _ _ ha, p1, store_ram_ne _ _ _ _ (hj x.length (by simp))]
    exact p3 a ha (fun j hj2 => hj j (by rw [List.length_append]; omega))

theorem putchEach_pending (d : Layout) (t0 : Target)
    (hfm : t0.ram (frameMode d) ≠ FRAME_UART) : ∀ (y x : List Byte) (t1 : Target),
    Pending d t0 t1 x → x.length + y.length ≤ 54 →
    ∃ t2, putchEach d y t1 = { outcome := .done, t := t2 } ∧ Pending d t0 t2 (x ++ y) := by
  intro y
  induction y with
  | nil =>
    intro x t1 hp _
    exact ⟨t1, rfl, by rw [List.append_nil]; exact hp⟩
  | cons c y ih =>
    intro x t1 hp hlen
    simp only [List.length_cons] at hlen
    have hf1 : t1.ram (frameMode d) ≠ FRAME_UART := by
      rw [hp.2.2.1 _ (by unfold frameMode outputIndex; omega)
        (fun j _ => by unfold frameMode outputText outputBuffer; omega)]
      exact hfm
    have hp1 := pending_store d t0 t1 x c hp (by omega)
    have hidle : putch d t1 c = ⟨.done,
        (t1.store (outputText d (t1.ram (outputIndex d)).val) c).store (outputIndex d)
          (t1.ram (outputIndex d) + 1)⟩ := by
      rw [putch_eq d t1 c hf1]
      apply pushBuffer_idle
      have h1 := hp1.1
      rw [List.length_append, List.length_singleton] at h1
      show _ ≤ (54 : Byte)
      rw [Fin.le_def, h1]
      show x.length + 1 ≤ 54
      omega
    obtain ⟨t2, h2, h3⟩ := ih (x ++ [c]) _ hp1 (by
      rw [List.length_append, List.length_singleton]; omega)
    refine ⟨t2, ?_, by rw [List.append_assoc] at h3; exact h3⟩
    rw [putchEach, hidle]
    exact h2

theorem putchEach_append (d : Layout) : ∀ (x y : List Byte) (t t1 : Target),
    putchEach d x t = { outcome := .done, t := t1 } →
    putchEach d (x ++ y) t = putchEach d y t1 := by
  intro x
  induction x with
  | nil =>
    intro y t t1 h
    rw [putchEach] at h
    injection h with _ h2
    rw [List.nil_append, h2]
  | cons c x ih =>
    intro y t t1 h
    rw [List.cons_append, putchEach]
    rw [putchEach] at h
    cases ho : (putch d t c).outcome with
    | done =>
      rw [ho] at h
      exact ih y _ t1 h
    | blocked =>
      rw [ho] at h
      injection h with h1 _
      exact absurd h1 (by simp)
    | outOfFuel =>
      rw [ho] at h
      injection h with h1 _
      exact absurd h1 (by simp)

/-- The flush of the waiting bytes: `pushBuffer(max)` with more than `max` bytes
waiting, stored since state `t0`, when the ACK of the chunk is the next frame
received. -/
theorem flush_pending (d : Layout) (t0 t1 : Target) (bytes : List Byte) (max : Byte)
    (ack rest : List Byte) (hP : 14 ≤ d.SPM_PAGESIZE) (hp : Pending d t0 t1 bytes)
    (hmax : max.val < bytes.length) (hlen200 : bytes.length ≤ 200)
    (hrx : t0.rx = apiFrame ack ++ rest) (hlen : ack.length = 14) (h0 : ack.getD 0 0 = 0x90)
    (h12 : ack.getD 12 0 = 0)
    (h13 : ack.getD 13 0 = nextSequence (t0.ram (lastOutgoingSequence d))) :
    ∃ t2, pushBuffer d t1 max = { outcome := .done, t := t2 } ∧
      t2.tx = t0.tx ++ apiFrame ([0x10, 0] ++ addressBytes d t0 ++
        [0, 0, 1, nextSequence (t0.ram (lastOutgoingSequence d)), 24] ++ bytes) ∧
      t2.rx = rest ∧ t2.ram (outputIndex d) = 0 ∧
      t2.ram (lastOutgoingSequence d) = nextSequence (t0.ram (lastOutgoingSequence d)) ∧
      t2.ram (frameMode d) = t0.ram (frameMode d) ∧
      addressBytes d t2 = addressBytes d t0 := by
  obtain ⟨p1, p2, p3, p4, p5⟩ := hp
  have hlo : t1.ram (lastOutgoingSequence d) = t0.ram (lastOutgoingSequence d) :=
    p3 _ (by unfold lastOutgoingSequence outputIndex; omega)
      (fun j _ => by unfold lastOutgoingSequence outputText outputBuffer; omega)
  have hfm : t1.ram (frameMode d) = t0.ram (frameMode d) :=
    p3 _ (by unfold frameMode outputIndex; omega)
      (fun j _ => by unfold frameMode outputText outputBuffer; omega)
  have hla : ∀ i, i < 10 → t1.ram (lastAddress d i) = t0.ram (lastAddress d i) := by
    intro i hi
    exact p3 _ (by unfold lastAddress outputBuffer outputIndex; omega)
      (fun j _ => by unfold lastAddress outputText outputBuffer; omega)
  have haddr : addressBytes d t1 = addressBytes d t0 := by
    unfold addressBytes
    apply List.map_congr_left
    intro i hi
    exact hla i (List.mem_range.mp hi)
  have htext : pendingText d t1 (t1.ram (outputIndex d)).val = bytes := by
    unfold pendingText
    rw [p1]
    apply List.ext_getElem
    · simp
    · intro i h1 h2
      simp only [List.getElem_map, List.getElem_range]
      rw [p2 i h2, List.getD_eq_getElem?_getD, List.getElem?_eq_getElem h2]
      rfl
  obtain ⟨t2, f1, f2, f3, f4, f5, f6⟩ := pushBuffer_flush d t1 max ack rest hP
    (by rw [Fin.lt_def, p1]; exact hmax) (by rw [p1]; exact hlen200) (by rw [p4, hrx]) hlen h0
    h12 (by rw [hlo]; exact h13)
  rw [hlo, haddr, htext, p5] at f2
  rw [hlo] at f5
  refine ⟨t2, f1, f2, f3, f4, f5, ?_, ?_⟩
  · rw [f6 _ ⟨by unfold frameMode outputIndex; omega,
      by unfold frameMode lastOutgoingSequence; omega,
      Or.inl (by unfold frameMode packet; omega),
      Or.inl (by unfold frameMode outputBuffer; omega)⟩, hfm]
  · rw [← haddr]
    unfold addressBytes
    apply List.map_congr_left
    intro i hi
    have hi10 := List.mem_range.mp hi
    exact f6 _ ⟨by unfold lastAddress outputBuffer outputIndex; omega,
      by unfold lastAddress outputBuffer lastOutgoingSequence; omega,
      Or.inr (by unfold lastAddress outputBuffer packet; omega),
      Or.inr (Or.inr ⟨by unfold lastAddress outputBuffer; omega,
        by unfold lastAddress outputBuffer; omega⟩)⟩

end Xbeeboot

namespace Xbee

/-! ## C30: from `putch` to `xbeedev_recv` (host side) -/

/-- The accepting branch of `xbeedev_poll` on a REQUEST of type FIRMWARE_REPLY
with the expected sequence and room for its text: the text is delivered, the ACK
is sent by `sendPacket`, and the poll returns 0 when the caller's buffer is
full. -/
theorem processData_reply (bufNonNull : Bool) (waitForAck : Int) (c : PollCfg)
    (frame : List Byte) (dataStart dataLength : Nat) (hdl : dataLength ≥ 4)
    (hreq : frame.getD dataStart 0 = 1)
    (hseq : frame.getD (dataStart + 1) 0 = nextSequence c.host.xbs.inSequence)
    (htype : frame.getD (dataStart + 2) 0 = 24)
    (hok : RingOk c.host.xbs)
    (hroom : (ringPending c.host.xbs).length +
      (((frame.drop (dataStart + 3)).take (dataLength - 3)).drop c.buflen).length ≤ 255) :
    ∃ (xbs1 : XBeeBootSession) (wire : List Byte),
      processData bufNonNull waitForAck c frame dataStart dataLength
        = (if c.buflen - ((frame.drop (dataStart + 3)).take (dataLength - 3)).length = 0 ∧
              bufNonNull
           then .done (.ret 0) ⟨c.st, ⟨xbs1, nextSequence c.host.txSequence,
             c.host.sent ++ [wire]⟩,
             c.buflen - ((frame.drop (dataStart + 3)).take (dataLength - 3)).length,
             c.written ++ ((frame.drop (dataStart + 3)).take (dataLength - 3)).take c.buflen⟩
           else .running ⟨c.st, ⟨xbs1, nextSequence c.host.txSequence,
             c.host.sent ++ [wire]⟩,
             c.buflen - ((frame.drop (dataStart + 3)).take (dataLength - 3)).length,
             c.written ++ ((frame.drop (dataStart + 3)).take (dataLength - 3)).take c.buflen⟩) ∧
      sendPacket { c.host with xbs := xbs1 } 0 (frame.getD (dataStart + 1) 0) (-1) []
        = some ⟨xbs1, nextSequence c.host.txSequence, c.host.sent ++ [wire]⟩ ∧
      appMessage c.host.xbs.directMode wire = [0, frame.getD (dataStart + 1) 0] ∧
      RingOk xbs1 ∧
      ringPending xbs1 = ringPending c.host.xbs ++
        ((frame.drop (dataStart + 3)).take (dataLength - 3)).drop c.buflen ∧
      xbs1.xbee_address = c.host.xbs.xbee_address ∧
      xbs1.inSequence = frame.getD (dataStart + 1) 0 ∧
      xbs1.inOutIndex = c.host.xbs.inOutIndex ∧
      xbs1.directMode = c.host.xbs.directMode ∧
      xbs1.outSequence = c.host.xbs.outSequence := by
  obtain ⟨xbs1, hd, hok1, hring, haddr, hin, hout, hdm, hos⟩ :=
    deliver_room ((frame.drop (dataStart + 3)).take (dataLength - 3))
      { c.host.xbs with inSequence := nextSequence c.host.xbs.inSequence } c.buflen c.written
      hok hroom
  obtain ⟨wire, hw, hm⟩ := sendPacket_eq { c.host with xbs := xbs1 } 0
    (frame.getD (dataStart + 1) 0) (-1) [] (by simp)
  have hopt : optionalByte (-1) = [] := by decide
  refine ⟨xbs1, wire, ?_, hw, ?_, hok1, hring, haddr, ?_, hout, hdm, hos⟩
  · unfold processData
    rw [if_pos (by omega)]
    simp only [hreq]
    rw [if_neg (by decide), if_pos ⟨trivial, hdl, htype⟩, if_pos hseq, hd]
    simp only [hw]
  · rw [← hdm]
    simpa [hopt] using hm
  · show xbs1.inSequence = _
    rw [hin, hseq]

theorem replyData_facts (addr : List Byte) (s : Byte) (text : List Byte)
    (hl : addr.length = 10) (ck len : Byte) :
    (replyData addr s text).length = 17 + text.length ∧
    (replyData addr s text).getD 0 0 = 0x10 ∧
    (replyData addr s text).drop 14 = [1, s, 24] ++ text ∧
    ([0, len] ++ replyData addr s text ++ [ck]).getD 2 0 = 0x10 ∧
    ([0, len] ++ replyData addr s text ++ [ck]).getD 16 0 = 1 ∧
    ([0, len] ++ replyData addr s text ++ [ck]).getD 17 0 = s ∧
    ([0, len] ++ replyData addr s text ++ [ck]).getD 18 0 = 24 ∧
    (([0, len] ++ replyData addr s text ++ [ck]).drop 19).take text.length = text := by
  unfold replyData
  match addr, hl with
  | [a0, a1, a2, a3, a4, a5, a6, a7, a8, a9], _ =>
    refine ⟨by simp only [List.length_append, List.length_cons, List.length_nil],
      rfl, rfl, rfl, rfl, rfl, rfl, ?_⟩
    show (text ++ [ck]).take text.length = text
    rw [List.take_left]

/-- The poll of the host over a whole frame carrying a REQUEST of type
FIRMWARE_REPLY in a 0x10 frame, with the expected sequence and room for its
text. -/
theorem pollLoop_reply (bufNonNull : Bool) (wa ws : Int) (c : PollCfg) (addr : List Byte)
    (s : Byte) (text : List Byte) (tail : List (Option Byte))
    (hst : c.st = .beforeFrame) (hl : addr.length = 10) (h1 : 1 ≤ text.length)
    (h235 : text.length ≤ 235) (hs : s = nextSequence c.host.xbs.inSequence)
    (hok : RingOk c.host.xbs)
    (hroom : (ringPending c.host.xbs).length + (text.drop c.buflen).length ≤ 255) :
    ∃ (xbs1 : XBeeBootSession) (wire : List Byte),
      pollLoop bufNonNull wa ws c ((apiFrame (replyData addr s text)).map some ++ tail)
        = (if c.buflen - text.length = 0 ∧ bufNonNull
           then { outcome := .ret 0,
                  cfg := ⟨.beforeFrame, ⟨xbs1, nextSequence c.host.txSequence,
                    c.host.sent ++ [wire]⟩, c.buflen - text.length,
                    c.written ++ text.take c.buflen⟩,
                  rest := tail }
           else pollLoop bufNonNull wa ws ⟨.beforeFrame, ⟨xbs1, nextSequence c.host.txSequence,
                    c.host.sent ++ [wire]⟩, c.buflen - text.length,
                    c.written ++ text.take c.buflen⟩ tail) ∧
      sendPacket { c.host with xbs := xbs1 } 0 s (-1) []
        = some ⟨xbs1, nextSequence c.host.txSequence, c.host.sent ++ [wire]⟩ ∧
      appMessage c.host.xbs.directMode wire = [0, s] ∧
      RingOk xbs1 ∧ ringPending xbs1 = ringPending c.host.xbs ++ text.drop c.buflen ∧
      xbs1.xbee_address = c.host.xbs.xbee_address ∧ xbs1.inSequence = s ∧
      xbs1.inOutIndex = c.host.xbs.inOutIndex ∧
      xbs1.directMode = c.host.xbs.directMode ∧
      xbs1.outSequence = c.host.xbs.outSequence := by
  obtain ⟨f1, f2, f3, f4, f5, f6, f7, f8⟩ := replyData_facts addr s text hl
    (checksumByte (replyData addr s text)) (toUChar ((replyData addr s text).length : Int))
  rw [pollLoop_apiFrame bufNonNull wa ws c _ tail hst (by omega)]
  have hdl : (replyData addr s text).length + 3 - (2 + 1 + 1 + 8 + 2 + 1 + 1) - 1 - 3
      = text.length := by omega
  have hdl2 : (replyData addr s text).length + 3 - (2 + 1 + 1 + 8 + 2 + 1 + 1) - 1
      = text.length + 3 := by omega
  obtain ⟨xbs1, wire, p1, p2, p3, p4, p5, p6, p7, p8, p9, p10⟩ :=
    processData_reply bufNonNull wa c
      ([0, toUChar ((replyData addr s text).length : Int)] ++ replyData addr s text ++
        [checksumByte (replyData addr s text)]) 16 (text.length + 3) (by omega) f5
      (by rw [f6, hs]) f7 hok (by
        rw [show 16 + 3 = 19 from rfl, Nat.add_sub_cancel, f8]; exact hroom)
  rw [show 16 + 3 = 19 from rfl, Nat.add_sub_cancel, f8] at p1 p5
  rw [show 16 + 1 = 17 from rfl, f6] at p2 p3 p7
  refine ⟨xbs1, wire, ?_, p2, p3, p4, p5, p6, p7, p8, p9, p10⟩
  unfold processFrame
  dsimp only
  rw [f4, if_neg (fun h => absurd h.1 (by decide)), if_neg (fun h => absurd h.1 (by decide)),
    if_neg (fun h => absurd h.1 (by decide)), if_pos rfl, if_neg (by omega), hdl2, p1, hst]
  split_ifs <;> rfl

end Xbee

namespace Link

open Xbeeboot

theorem ack_facts (q s : Byte) (addr : List Byte) (hl : addr.length = 10) :
    ([0x90, q] ++ addr ++ [0, s]).length = 14 ∧ ([0x90, q] ++ addr ++ [0, s]).getD 0 0 = 0x90 ∧
    ([0x90, q] ++ addr ++ [0, s]).getD 12 0 = 0 ∧ ([0x90, q] ++ addr ++ [0, s]).getD 13 0 = s := by
  match addr, hl with
  | [a0, a1, a2, a3, a4, a5, a6, a7, a8, a9], _ => exact ⟨rfl, rfl, rfl, rfl⟩

/-- A chunk of 55 bytes given to `putch` from an empty output buffer: the 55th
call transmits them and reads the ACK. -/
theorem putchEach_chunk (d : Layout) (t : Target) (bytes ack rest : List Byte)
    (hP : 14 ≤ d.SPM_PAGESIZE) (hfm : t.ram (frameMode d) ≠ FRAME_UART)
    (hout : t.ram (outputIndex d) = 0) (hb : bytes.length = 55)
    (hrx : t.rx = apiFrame ack ++ rest) (hlen : ack.length = 14) (h0 : ack.getD 0 0 = 0x90)
    (h12 : ack.getD 12 0 = 0)
    (h13 : ack.getD 13 0 = nextSequence (t.ram (lastOutgoingSequence d))) :
    ∃ t2, putchEach d bytes t = { outcome := .done, t := t2 } ∧
      t2.tx = t.tx ++ apiFrame ([0x10, 0] ++ addressBytes d t ++
        [0, 0, 1, nextSequence (t.ram (lastOutgoingSequence d)), 24] ++ bytes) ∧
      t2.rx = rest ∧ t2.ram (outputIndex d) = 0 ∧
      t2.ram (lastOutgoingSequence d) = nextSequence (t.ram (lastOutgoingSequence d)) ∧
      t2.ram (frameMode d) = t.ram (frameMode d) ∧
      addressBytes d t2 = addressBytes d t := by
  obtain ⟨x, c, hx⟩ : ∃ x c, bytes = x ++ [c] := by
    refine ⟨bytes.dropLast, bytes.getLast (by intro h; rw [h] at hb; simp at hb), ?_⟩
    rw [List.dropLast_append_getLast]
  have hxl : x.length = 54 := by
    rw [hx, List.length_append, List.length_singleton] at hb
    omega
  obtain ⟨t1, e1, p1⟩ := putchEach_pending d t hfm x [] t (pending_nil d t hout)
    (by simp only [List.length_nil]; omega)
  rw [List.nil_append] at p1
  have hf1 : t1.ram (frameMode d) ≠ FRAME_UART := by
    rw [p1.2.2.1 _ (by unfold frameMode outputIndex; omega)
      (fun j _ => by unfold frameMode outputText outputBuffer; omega)]
    exact hfm
  have p2 := pending_store d t t1 x c p1 (by omega)
  obtain ⟨t2, f1, f2, f3, f4, f5, f6, f7⟩ := flush_pending d t _ (x ++ [c]) XBEEBOOT_MAX_CHUNK
    ack rest hP p2
    (by rw [List.length_append, List.length_singleton, hxl]; decide)
    (by rw [List.length_append, List.length_singleton, hxl]; omega) hrx hlen h0 h12 h13
  refine ⟨t2, ?_, by rw [hx]; exact f2, f3, f4, f5, f6, f7⟩
  rw [hx, putchEach_append d x [c] t t1 e1, putchEach, putch_eq d t1 c hf1, f1]
  rfl

/-- At most 54 bytes given to `putch` from an empty output buffer, then the
flush: one frame is transmitted and its ACK read. -/
theorem putchFlush_short (d : Layout) (t : Target) (bytes ack rest : List Byte)
    (hP : 14 ≤ d.SPM_PAGESIZE) (hfm : t.ram (frameMode d) ≠ FRAME_UART)
    (hout : t.ram (outputIndex d) = 0) (hb1 : 1 ≤ bytes.length) (hb : bytes.length ≤ 54)
    (hrx : t.rx = apiFrame ack ++ rest) (hlen : ack.length = 14) (h0 : ack.getD 0 0 = 0x90)
    (h12 : ack.getD 12 0 = 0)
    (h13 : ack.getD 13 0 = nextSequence (t.ram (lastOutgoingSequence d))) :
    ∃ t2, putchFlush d bytes t = { outcome := .done, t := t2 } ∧
      t2.tx = t.tx ++ apiFrame ([0x10, 0] ++ addressBytes d t ++
        [0, 0, 1, nextSequence (t.ram (lastOutgoingSequence d)), 24] ++ bytes) ∧
      t2.rx = rest ∧ t2.ram (outputIndex d) = 0 := by
  obtain ⟨t1, e1, p1⟩ := putchEach_pending d t hfm bytes [] t (pending_nil d t hout)
    (by simp only [List.length_nil]; omega)
  rw [List.nil_append] at p1
  obtain ⟨t2, f1, f2, f3, f4, -, -, -⟩ := flush_pending d t t1 bytes 0 ack rest hP p1
    (by exact hb1) (by omega) hrx hlen h0 h12 h13
  refine ⟨t2, ?_, f2, f3, f4⟩
  unfold putchFlush
  rw [e1]
  exact f1

/-- The bootloader's side of the exchange: the bytes given to `putch` and the
flush, with the host's ACKs as UART input, transmit the frames of
`replyFrames`. -/
theorem link_putch (d : Layout) (hP : 14 ≤ d.SPM_PAGESIZE) :
    ∀ (n : Nat) (bytes : List Byte) (t : Target) (q : Byte) (haddr rest : List Byte),
      bytes.length ≤ n → haddr.length = 10 → t.ram (frameMode d) ≠ FRAME_UART →
      t.ram (outputIndex d) = 0 →
      t.rx = (ackFrames n q (t.ram (lastOutgoingSequence d)) haddr bytes).flatten ++ rest →
      ∃ t2, putchFlush d bytes t = { outcome := .done, t := t2 } ∧
        t2.tx = t.tx ++ (replyFrames n (addressBytes d t) (t.ram (lastOutgoingSequence d))
          bytes).flatten ∧
        t2.rx = rest ∧ t2.ram (outputIndex d) = 0 := by
  intro n
  induction n with
  | zero =>
    intro bytes t q haddr rest hn hl hfm hout hrx
    have hB : bytes = [] := List.length_eq_zero.mp (by omega)
    subst hB
    refine ⟨t, ?_, by simp [replyFrames], by rw [hrx]; simp [ackFrames], hout⟩
    unfold putchFlush
    rw [putchEach]
    exact pushBuffer_idle d t 0 (by rw [hout])
  | succ n ih =>
    intro bytes t q haddr rest hn hl hfm hout hrx
    cases bytes with
    | nil =>
      refine ⟨t, ?_, by simp [replyFrames], by rw [hrx]; simp [ackFrames], hout⟩
      unfold putchFlush
      rw [putchEach]
      exact pushBuffer_idle d t 0 (by rw [hout])
    | cons b bs =>
      have hst := (nextSequence_facts (t.ram (lastOutgoingSequence d))).2.1
      obtain ⟨a1, a2, a3, a4⟩ := ack_facts (seqSucc q) (seqSucc (t.ram (lastOutgoingSequence d)))
        haddr hl
      rw [ackFrames, List.flatten_cons, List.append_assoc] at hrx
      rw [replyFrames, List.flatten_cons]
      by_cases hshort : (b :: bs).length ≤ 54
      · have htake : (b :: bs).take 55 = b :: bs := List.take_of_length_le (by omega)
        have hdrop : (b :: bs).drop 55 = [] := List.drop_of_length_le (by omega)
        rw [hdrop] at hrx ⊢
        rw [htake]
        have e1 : ackFrames n (seqSucc q) (seqSucc (t.ram (lastOutgoingSequence d))) haddr []
            = [] := by cases n <;> rfl
        have e2 : replyFrames n (addressBytes d t) (seqSucc (t.ram (lastOutgoingSequence d))) []
            = [] := by cases n <;> rfl
        rw [e1, List.flatten_nil, List.nil_append] at hrx
        rw [e2, List.flatten_nil, List.append_nil]
        obtain ⟨t2, f1, f2, f3, f4⟩ := putchFlush_short d t (b :: bs) _ rest hP hfm hout
          (by simp) hshort hrx a1 a2 a3 (by rw [a4, hst])
        rw [hst] at f2
        exact ⟨t2, f1, f2, f3, f4⟩
      · have hsplit : b :: bs = (b :: bs).take 55 ++ (b :: bs).drop 55 :=
          (List.take_append_drop 55 _).symm
        have htl : ((b :: bs).take 55).length = 55 := by
          rw [List.length_take]; omega
        obtain ⟨tm, g1, g2, g3, g4, g5, g6, g7⟩ := putchEach_chunk d t ((b :: bs).take 55) _ _
          hP hfm hout htl hrx a1 a2 a3 (by rw [a4, hst])
        rw [hst] at g2 g5
        obtain ⟨t2, i1, i2, i3, i4⟩ := ih ((b :: bs).drop 55) tm (seqSucc q) haddr rest
          (by rw [List.length_drop]; simp only [List.length_cons] at hn ⊢; omega) hl
          (by rw [g6]; exact hfm) g4 (by rw [g5]; exact g3)
        rw [g5, g7] at i2
        refine ⟨t2, ?_, ?_, i3, i4⟩
        · have hpe : putchEach d (b :: bs) t = putchEach d ((b :: bs).drop 55) tm := by
            nth_rewrite 1 [hsplit]
            exact putchEach_append d _ _ t tm g1
          unfold putchFlush at i1 ⊢
          rw [hpe]
          exact i1
        · rw [i2, g2, List.append_assoc]
          rfl

end Link

namespace Link

theorem ringPending_length (xbs : Xbee.XBeeBootSession) : (Xbee.ringPending xbs).length ≤ 255 := by
  unfold Xbee.ringPending
  rw [List.length_map, List.length_range]
  omega

/-- The host's side of the exchange: a poll with room for exactly the bytes to
come reads the frames of `replyFrames`, stores the bytes in the caller's buffer,
sends the ACKs of `ackFrames` and returns 0. -/
theorem link_poll : ∀ (n : Nat) (bytes addr : List Byte) (c : Xbee.PollCfg)
    (tail : List (Option Byte)),
    bytes.length ≤ n → 1 ≤ bytes.length → addr.length = 10 → c.st = .beforeFrame →
    c.buflen = bytes.length → c.host.xbs.directMode = true →
    c.host.xbs.xbee_address.length = 10 → Xbee.RingOk c.host.xbs →
    ∃ c1 : Xbee.PollCfg,
      Xbee.pollLoop true (-1) (-1) c
          (((replyFrames n addr c.host.xbs.inSequence bytes).flatten).map some ++ tail)
        = { outcome := .ret 0, cfg := c1, rest := tail } ∧
      c1.written = c.written ++ bytes ∧
      c1.host.sent = c.host.sent ++
        ackFrames n c.host.txSequence c.host.xbs.inSequence c.host.xbs.xbee_address bytes ∧
      Xbee.ringPending c1.host.xbs = Xbee.ringPending c.host.xbs := by
  intro n
  induction n with
  | zero => intro bytes addr c tail hn h1; omega
  | succ n ih =>
    intro bytes addr c tail hn h1 hl hst hbuf hdm hal hok
    cases bytes with
    | nil => simp at h1
    | cons b bs =>
      have hsq := (nextSequence_facts c.host.xbs.inSequence).1
      have htq := (nextSequence_facts c.host.txSequence).1
      have htl1 : 1 ≤ ((b :: bs).take 55).length := by rw [List.length_take]; simp
      have htl55 : ((b :: bs).take 55).length ≤ 55 := by rw [List.length_take]; omega
      have htlb : ((b :: bs).take 55).length ≤ (b :: bs).length := by
        rw [List.length_take]; omega
      have hnodrop : ((b :: bs).take 55).drop c.buflen = [] :=
        List.drop_of_length_le (by omega)
      have hallin : ((b :: bs).take 55).take c.buflen = (b :: bs).take 55 :=
        List.take_of_length_le (by omega)
      obtain ⟨xbs1, wire, p1, p2, -, p4, p5, p6, p7, -, p9, -⟩ :=
        Xbee.pollLoop_reply true (-1) (-1) c addr (seqSucc c.host.xbs.inSequence)
          ((b :: bs).take 55) (((replyFrames n addr (seqSucc c.host.xbs.inSequence)
            ((b :: bs).drop 55)).flatten).map some ++ tail) hst hl htl1 (by omega) hsq.symm hok
          (by rw [hnodrop]; have := ringPending_length c.host.xbs; simpa using this)
      have hsp := Xbee.sendPacket_direct { c.host with xbs := xbs1 } 0
        (seqSucc c.host.xbs.inSequence) (-1) [] (by rw [p9]; exact hdm) (by rw [p6]; exact hal)
        (by simp)
      rw [hsp] at p2
      have hopt : Xbee.optionalByte (-1) = [] := by decide
      have hwire : wire = apiFrame ([0x90, seqSucc c.host.txSequence] ++
          c.host.xbs.xbee_address ++ [0, seqSucc c.host.xbs.inSequence]) := by
        simp only [Option.some.injEq, Xbee.Host.mk.injEq, true_and] at p2
        have h3 := List.append_cancel_left p2
        simp only [List.cons.injEq, and_true] at h3
        rw [← h3, hopt, htq, p6]
        simp
      rw [hnodrop, List.append_nil] at p5
      rw [hallin] at p1
      rw [replyFrames, List.flatten_cons, List.map_append, List.append_assoc, p1, hbuf]
      by_cases hlast : (b :: bs).length - ((b :: bs).take 55).length = 0
      · rw [if_pos ⟨hlast, rfl⟩]
        have hdrop : (b :: bs).drop 55 = [] := by
          apply List.drop_of_length_le
          rw [List.length_take] at hlast
          omega
        have htake : (b :: bs).take 55 = b :: bs := by
          have := List.take_append_drop 55 (b :: bs)
          rw [hdrop, List.append_nil] at this
          exact this
        have e1 : ∀ q s a, ackFrames n q s a [] = [] := by intro q s a; cases n <;> rfl
        have e2 : ∀ a s, replyFrames n a s [] = [] := by intro a s; cases n <;> rfl
        rw [hdrop, e2]
        refine ⟨_, rfl, ?_, ?_, ?_⟩
        · show c.written ++ (b :: bs).take 55 = _
          rw [htake]
        · show c.host.sent ++ [wire] = _
          rw [ackFrames, hdrop, e1, hwire]
        · show Xbee.ringPending xbs1 = _
          exact p5
      · rw [if_neg (fun h => hlast h.1)]
        obtain ⟨c1, i1, i2, i3, i4⟩ := ih ((b :: bs).drop 55) addr
          ⟨.beforeFrame, ⟨xbs1, Xbee.nextSequence c.host.txSequence, c.host.sent ++ [wire]⟩,
            (b :: bs).length - ((b :: bs).take 55).length, c.written ++ (b :: bs).take 55⟩
          tail
          (by rw [List.length_drop]; simp only [List.length_cons] at hn ⊢; omega)
          (by rw [List.length_drop]; rw [List.length_take] at hlast; omega) hl rfl
          (by show _ - _ = _; rw [List.length_take, List.length_drop]; omega)
          (by show xbs1.directMode = true; rw [p9]; exact hdm)
          (by show xbs1.xbee_address.length = 10; rw [p6]; exact hal) p4
        refine ⟨c1, ?_, ?_, ?_, ?_⟩
        · rw [← i1]
          show _ = Xbee.pollLoop true (-1) (-1) _ (((replyFrames n addr xbs1.inSequence
            ((b :: bs).drop 55)).flatten).map some ++ tail)
          rw [p7]
        · rw [i2]
          show c.written ++ (b :: bs).take 55 ++ (b :: bs).drop 55 = _
          rw [List.append_assoc, List.take_append_drop]
        · rw [i3]
          show c.host.sent ++ [wire] ++ ackFrames n (Xbee.nextSequence c.host.txSequence)
            xbs1.inSequence xbs1.xbee_address ((b :: bs).drop 55) = _
          rw [ackFrames, p7, p6, htq, hwire]
          simp
        · rw [i4]
          show Xbee.ringPending xbs1 = _
          exact p5

end Link

namespace Link

open Xbeeboot

theorem drainRing_empty (xbs : Xbee.XBeeBootSession) (out : List Byte)
    (h : xbs.inInIndex = xbs.inOutIndex) :
    ∀ n, Xbee.drainRing n xbs out = .empty xbs n out := by
  intro n
  cases n with
  | zero => rw [Xbee.drainRing, if_neg (not_not.mpr h)]
  | succ n => rw [Xbee.drainRing, if_neg (not_not.mpr h)]

/-- A call of `xbeedev_recv` with the ring buffer empty whose first poll returns
0. -/
theorem xbeedev_recv_first (h : Xbee.Host) (buf : List Byte) (input : List (Option Byte))
    (c1 : Xbee.PollCfg) (rest : List (Option Byte))
    (hempty : h.xbs.inInIndex = h.xbs.inOutIndex)
    (hp : Xbee.pollLoop true (-1) (-1)
        { st := .beforeFrame, host := h, buflen := buf.length, written := [] } input
      = { outcome := .ret 0, cfg := c1, rest := rest }) :
    Xbee.xbeedev_recv h buf input
      = { outcome := .ret 0, host := c1.host,
          buf := c1.written ++ buf.drop c1.written.length, rest := rest } := by
  unfold Xbee.xbeedev_recv
  rw [drainRing_empty h.xbs [] hempty]
  dsimp only
  rw [Xbee.recvLoop]
  unfold Xbee.xbeedev_poll
  simp only [List.length_nil, List.drop_zero, List.nil_append]
  rw [hp]
  rfl

end Link

namespace Link

open Xbeeboot

/-- C30 (amended). End to end from target to host.  A 0x10 frame with the
application header `[1, s, 24]` at payload offset 14 and 1 to 235 text bytes,
`s` the successor of the host's `inSequence`, read by `xbeedev_poll` when the
text that does not fit in the caller's buffer fits in the ring buffer (at most
255 bytes waiting afterwards): the text goes in order to the caller's buffer
and then to the ring buffer, `inSequence` becomes `s`, one ACK `[0, s]` is sent,
and the poll returns 0 if the caller's buffer is now full and goes on otherwise.
Such is the frame `pushBuffer` transmits (layout with `SPM_PAGESIZE` at least
14): all the waiting bytes after `[1, succ(lastOutgoingSequence), 24]`.  And
with the host in direct mode, its ring buffer empty and its `inSequence` equal
to the target's `lastOutgoingSequence`, the target not in UART mode and with no
output pending, there is one exchange in which the target, given `bytes` by
`putch` and flushed, reads exactly the ACKs the host sent, and
`xbeedev_recv(buf, bytes.length)`, reading exactly the frames the target
transmitted with no timeout in between, returns 0 with `bytes` in `buf`. -/
theorem target_to_host (d : Layout) (h : Xbee.Host) (t tp : Target) (c : Xbee.PollCfg)
    (bufNonNull : Bool) (wa ws : Int) (addr text bytes buf ack rest : List Byte) (max : Byte)
    (tail : List (Option Byte))
    (hst : c.st = .beforeFrame) (hla : addr.length = 10) (ht1 : 1 ≤ text.length)
    (ht2 : text.length ≤ 235) (hokc : Xbee.RingOk c.host.xbs)
    (hroom : (Xbee.ringPending c.host.xbs).length + (text.drop c.buflen).length ≤ 255)
    (hP : 14 ≤ d.SPM_PAGESIZE)
    (hk : max < tp.ram (outputIndex d)) (hk2 : (tp.ram (outputIndex d)).val ≤ 200)
    (hrx : tp.rx = apiFrame ack ++ rest)
    (hack : ack.length = 14 ∧ ack.getD 0 0 = 0x90 ∧ ack.getD 12 0 = 0 ∧
      ack.getD 13 0 = seqSucc (tp.ram (lastOutgoingSequence d)))
    (hdm : h.xbs.directMode = true) (hl : h.xbs.xbee_address.length = 10)
    (hok : Xbee.RingOk h.xbs) (hempty : h.xbs.inInIndex = h.xbs.inOutIndex)
    (hfm : t.ram (frameMode d) ≠ FRAME_UART) (hout : t.ram (outputIndex d) = 0)
    (hseq : t.ram (lastOutgoingSequence d) = h.xbs.inSequence)
    (hb : 1 ≤ bytes.length) (hbuf : buf.length = bytes.length) :
    (∃ (c1 : Xbee.PollCfg) (wire : List Byte),
      Xbee.pollLoop bufNonNull wa ws c
          ((apiFrame (Xbee.replyData addr (seqSucc c.host.xbs.inSequence) text)).map some ++ tail)
        = (if c1.buflen = 0 ∧ bufNonNull then { outcome := .ret 0, cfg := c1, rest := tail }
           else Xbee.pollLoop bufNonNull wa ws c1 tail) ∧
      (Xbee.replyData addr (seqSucc c.host.xbs.inSequence) text).getD 0 0 = 0x10 ∧
      (Xbee.replyData addr (seqSucc c.host.xbs.inSequence) text).drop 14
        = [1, seqSucc c.host.xbs.inSequence, 24] ++ text ∧
      c1.st = .beforeFrame ∧ c1.buflen = c.buflen - text.length ∧
      c1.written = c.written ++ text.take c.buflen ∧
      Xbee.ringPending c1.host.xbs = Xbee.ringPending c.host.xbs ++ text.drop c.buflen ∧
      c1.host.xbs.inSequence = seqSucc c.host.xbs.inSequence ∧
      c1.host.sent = c.host.sent ++ [wire] ∧
      Xbee.appMessage c.host.xbs.directMode wire = [0, seqSucc c.host.xbs.inSequence]) ∧
    (∃ t2, pushBuffer d tp max = { outcome := .done, t := t2 } ∧
      t2.tx = tp.tx ++ apiFrame (Xbee.replyData (addressBytes d tp)
        (seqSucc (tp.ram (lastOutgoingSequence d)))
        (pendingText d tp (tp.ram (outputIndex d)).val)) ∧
      t2.rx = rest ∧ t2.ram (outputIndex d) = 0 ∧
      t2.ram (lastOutgoingSequence d) = seqSucc (tp.ram (lastOutgoingSequence d))) ∧
    (∃ (r : Xbee.RecvResult) (t2 : Target),
      putchFlush d bytes { t with rx := (r.host.sent.drop h.sent.length).flatten }
        = { outcome := .done, t := t2 } ∧
      t2.rx = [] ∧ t2.ram (outputIndex d) = 0 ∧
      Xbee.xbeedev_recv h buf ((t2.tx.drop t.tx.length).map some) = r ∧
      r.outcome = .ret 0 ∧ r.buf = bytes ∧ r.rest = [] ∧
      Xbee.ringPending r.host.xbs = Xbee.ringPending h.xbs) := by
  refine ⟨?_, ?_, ?_⟩
  · have hsq := (nextSequence_facts c.host.xbs.inSequence).1
    obtain ⟨f1, f2, f3, -⟩ := Xbee.replyData_facts addr (seqSucc c.host.xbs.inSequence) text hla
      0 0
    obtain ⟨xbs1, wire, p1, -, p3, -, p5, -, p7, -, -, -⟩ :=
      Xbee.pollLoop_reply bufNonNull wa ws c addr (seqSucc c.host.xbs.inSequence) text tail hst
        hla ht1 ht2 hsq.symm hokc hroom
    exact ⟨⟨.beforeFrame, ⟨xbs1, Xbee.nextSequence c.host.txSequence, c.host.sent ++ [wire]⟩,
      c.buflen - text.length, c.written ++ text.take c.buflen⟩, wire, p1, f2, f3, rfl, rfl, rfl,
      p5, p7, rfl, p3⟩
  · have hst2 := (nextSequence_facts (tp.ram (lastOutgoingSequence d))).2.1
    obtain ⟨t2, g1, g2, g3, g4, g5, -⟩ := pushBuffer_flush d tp max ack rest hP hk hk2 hrx
      hack.1 hack.2.1 hack.2.2.1 (by rw [hack.2.2.2, hst2])
    rw [hst2] at g2 g5
    exact ⟨t2, g1, g2, g3, g4, g5⟩
  · obtain ⟨c1, i1, i2, i3, i4⟩ := link_poll bytes.length bytes (addressBytes d t)
      { st := .beforeFrame, host := h, buflen := buf.length, written := [] } []
      (le_refl _) hb (by simp [addressBytes]) rfl hbuf hdm hl hok
    rw [List.append_nil] at i1
    obtain ⟨t2, j1, j2, j3, j4⟩ := link_putch d hP bytes.length bytes
      { t with rx := (ackFrames bytes.length h.txSequence h.xbs.inSequence h.xbs.xbee_address
          bytes).flatten ++ [] }
      h.txSequence h.xbs.xbee_address [] (le_refl _) hl hfm hout (by
        show _ = (ackFrames bytes.length h.txSequence (t.ram (lastOutgoingSequence d))
          h.xbs.xbee_address bytes).flatten ++ []
        rw [hseq])
    have j2b : t2.tx = t.tx ++ (replyFrames bytes.length (addressBytes d t) h.xbs.inSequence
        bytes).flatten := by
      rw [j2, ← hseq]
      rfl
    have hrecv := xbeedev_recv_first h buf _ c1 [] hempty i1
    have hsent : c1.host.sent.drop h.sent.length
        = ackFrames bytes.length h.txSequence h.xbs.inSequence h.xbs.xbee_address bytes := by
      rw [i3]
      exact List.drop_left _ _
    have hwl : c1.written.length = buf.length := by
      rw [i2, List.nil_append, hbuf]
    refine ⟨_, t2, ?_, j3, j4, rfl, ?_, ?_, ?_, ?_⟩
    · rw [j2b, List.drop_left, hrecv]
      dsimp only
      rw [hsent]
      rw [List.append_nil] at j1
      exact j1
    · rw [j2b, List.drop_left, hrecv]
    · rw [j2b, List.drop_left, hrecv]
      dsimp only
      rw [hwl, List.drop_length, List.append_nil, i2, List.nil_append]
    · rw [j2b, List.drop_left, hrecv]
    · rw [j2b, List.drop_left, hrecv]
      exact i4

/-- Witness for C30 (amended): an idle ATmega328P target given `0x14 0x10` by
`putch` and a fresh host in direct mode calling `xbeedev_recv(buf, 2)`. -/
theorem target_to_host_witness :
    ∃ (r : Xbee.RecvResult) (t2 : Target),
      putchFlush atmega328p [0x14, 0x10]
          { idleTarget with rx := (r.host.sent.drop Xbee.initHost.sent.length).flatten }
        = { outcome := .done, t := t2 } ∧
      t2.rx = [] ∧ t2.ram (outputIndex atmega328p) = 0 ∧
      Xbee.xbeedev_recv Xbee.initHost [0, 0] ((t2.tx.drop idleTarget.tx.length).map some) = r ∧
      r.outcome = .ret 0 ∧ r.buf = [0x14, 0x10] ∧ r.rest = [] ∧
      Xbee.ringPending r.host.xbs = Xbee.ringPending Xbee.initHost.xbs :=
  (target_to_host atmega328p Xbee.initHost idleTarget
    { idleTarget.store (outputIndex atmega328p) 1 with
      rx := apiFrame ([0x90, 1] ++ List.replicate 10 0 ++ [0, 1]) }
    ⟨.beforeFrame, Xbee.initHost, 1, []⟩ true (-1) (-1) (List.replicate 10 0) [0x41]
    [0x14, 0x10] [0, 0] ([0x90, 1] ++ List.replicate 10 0 ++ [0, 1]) [] 0 []
    rfl (by decide) (by decide) (by decide) ⟨by decide, by decide, by decide⟩ (by decide)
    (by decide) (by decide) (by decide) (by decide) (by decide) rfl rfl
    ⟨by decide, by decide, by decide⟩ rfl (by decide) rfl rfl (by decide) rfl).2.2

set_option maxHeartbeats 1000000 in
/-- Counterexample for C30 as stated, in two exchanges between an idle
ATmega328P target and a fresh host in direct mode.  (1) The target is given 275
bytes by `putch` while the host polls without a buffer: the host accepts and
acknowledges four frames of 55 bytes, and on the fifth, which carries the
expected sequence 5, `xbeedev_poll` ends with `exit(1)` (ring buffer overrun);
the target waits for an ACK that never comes.  (2) The target is given `a` and
flushed, then `b`, `c` and flushed; the host calls `xbeedev_recv(buf, 2)` and a
`recv` times out between the two frames: every frame is delivered and
acknowledged (the target reads exactly the three ACKs the host sent), the call
returns 0, and `buf` holds `bc`, not `ab`. -/
theorem target_to_host_counterexample :
    (putchEach atmega328p (List.replicate 275 0x41) { idleTarget with rx := fourAcks }).outcome
      = .blocked ∧
    (putchEach atmega328p (List.replicate 275 0x41) { idleTarget with rx := fourAcks }).t.tx
      = (replyFrames 5 (List.replicate 10 0) 0 (List.replicate 275 0x41)).flatten ∧
    (Xbee.xbeedev_poll Xbee.initHost false 0 (-1) (-1)
      ((replyFrames 5 (List.replicate 10 0) 0 (List.replicate 275 0x41)).flatten.map
        some)).outcome = .exit 1 ∧
    (Xbee.xbeedev_poll Xbee.initHost false 0 (-1) (-1)
      ((replyFrames 5 (List.replicate 10 0) 0 (List.replicate 275 0x41)).flatten.map
        some)).cfg.host.sent.flatten = fourAcks ∧
    (putchFlush atmega328p [0x61] { idleTarget with rx := timeoutAcks }).outcome = .done ∧
    (putchFlush atmega328p [0x62, 0x63] afterFirst).outcome = .done ∧
    afterSecond.rx = [] ∧
    (Xbee.xbeedev_recv Xbee.initHost [0, 0] (afterFirst.tx.map some ++ [none] ++
      (afterSecond.tx.drop afterFirst.tx.length).map some)).outcome = .ret 0 ∧
    (Xbee.xbeedev_recv Xbee.initHost [0, 0] (afterFirst.tx.map some ++ [none] ++
      (afterSecond.tx.drop afterFirst.tx.length).map some)).host.sent.flatten = timeoutAcks ∧
    (Xbee.xbeedev_recv Xbee.initHost [0, 0] (afterFirst.tx.map some ++ [none] ++
      (afterSecond.tx.drop afterFirst.tx.length).map some)).buf = [0x62, 0x63] := by
  decide

end Link

namespace Xbeeboot

/-! ## What a pass of `poll` stores, branch by branch -/

theorem escGetch_keeps (t : Target) :
    (escGetch t).2.ram = t.ram ∧ (escGetch t).2.tx = t.tx := by
  rcases h : escGetch t with ⟨_ | b, t1⟩
  · unfold escGetch at h
    split at h
    · rename_i t2 h2
      simp only [Prod.mk.injEq, true_and] at h
      rw [← h, (uartGetch_none h2).1]
      exact ⟨rfl, rfl⟩
    · rename_i ch t2 h2
      obtain ⟨-, a2, a3⟩ := uartGetch_some h2
      split at h
      · simp at h
      · split at h
        · rename_i t3 h3
          simp only [Prod.mk.injEq, true_and] at h
          rw [← h, (uartGetch_none h3).1]
          exact ⟨a2, a3⟩
        · simp at h
  · obtain ⟨-, a2, a3⟩ := escGetch_some h
    exact ⟨a2, a3⟩

theorem readPacket_keeps (d : Layout) (count index : Nat) (cs : Byte) (t : Target) (a : Nat)
    (ha : ∀ j, j < count → a ≠ packet d (index + j)) :
    (readPacket d count index cs t).2.ram a = t.ram a ∧
      (readPacket d count index cs t).2.tx = t.tx := by
  induction count generalizing index cs t with
  | zero => exact ⟨rfl, rfl⟩
  | succ count ih =>
    rw [readPacket]
    have hk := escGetch_keeps t
    rcases h : escGetch t with ⟨_ | b, t1⟩
    · rw [h] at hk
      dsimp only at hk ⊢
      rw [hk.1, hk.2]
      exact ⟨rfl, rfl⟩
    · rw [h] at hk
      dsimp only at hk ⊢
      have := ih (index + 1) (cs - b) (t1.store (packet d index) b)
        (fun j hj => by have := ha (j + 1) (by omega); rwa [Nat.add_assoc, Nat.add_comm 1 j])
      rw [this.1, this.2, store_tx, hk.2]
      have h0 := ha 0 (by omega)
      rw [Nat.add_zero] at h0
      simp [Target.store, h0, hk.1]

theorem readPacket_sends (d : Layout) (count index : Nat) (cs : Byte) (t : Target) :
    (readPacket d count index cs t).2.tx = t.tx := by
  induction count generalizing index cs t with
  | zero => rfl
  | succ count ih =>
    rw [readPacket]
    have hk := escGetch_keeps t
    rcases h : escGetch t with ⟨_ | b, t1⟩
    · rw [h] at hk
      exact hk.2
    · rw [h] at hk
      dsimp only at hk ⊢
      rw [ih, store_tx, hk.2]

/-- A stored packet that is not a 0x90 frame of at least 16 bytes holding a
REQUEST (1) of type 23 leaves the state as it is (lines 940-978); `poll`
returns on it only when an ACK is awaited. -/
theorem pollFrame_ignore (d : Layout) (w len s : Byte) (t : Target)
    (hno : ¬ (t.ram (packet d 0) = 0x90 ∧ 16 ≤ len.val ∧ t.ram (packet d 12) = 1 ∧
      t.ram (packet d 14) = 23)) :
    (pollFrame d w len s t).2.2 = t ∧ (w = 0 → (pollFrame d w len s t).1 = none) := by
  unfold pollFrame
  dsimp only
  by_cases h0 : t.ram (packet d 0) ≠ 0x90
  · rw [if_pos h0]; exact ⟨rfl, fun _ => rfl⟩
  rw [if_neg h0]
  by_cases h14l : len = 12 + 2
  · rw [if_pos h14l]
    by_cases hw : w = 0
    · rw [if_pos hw]; exact ⟨rfl, fun _ => rfl⟩
    · rw [if_neg hw]
      split_ifs <;> exact ⟨rfl, fun h => absurd h hw⟩
  rw [if_neg h14l]
  by_cases h16 : len.val ≥ 12 + 4
  swap
  · rw [if_neg h16]; exact ⟨rfl, fun _ => rfl⟩
  rw [if_pos h16]
  by_cases h12 : t.ram (packet d 12) ≠ 1
  · rw [if_pos h12]; exact ⟨rfl, fun _ => rfl⟩
  rw [if_neg h12]
  by_cases h14 : t.ram (packet d (12 + 2)) ≠ 23
  · rw [if_pos h14]; exact ⟨rfl, fun _ => rfl⟩
  exact absurd ⟨not_not.mp h0, h16, not_not.mp h12, not_not.mp h14⟩ hno

/-- A stored REQUEST of type 23 whose sequence is not the expected one
(lines 980-995): the address is copied, `sawInvalid` is incremented, and when it
was not 0 the ACK for `lastIncomingSequence` is sent. -/
theorem pollFrame_wrong (d : Layout) (w len s : Byte) (t : Target) (hP : 4 ≤ d.SPM_PAGESIZE)
    (h0 : t.ram (packet d 0) = 0x90) (h16 : 16 ≤ len.val) (h12 : t.ram (packet d 12) = 1)
    (h14 : t.ram (packet d 14) = 23)
    (h13 : t.ram (packet d 13) ≠ nextSequence (t.ram (lastIncomingSequence d))) :
    pollFrame d w len s t = (none, s + 1,
      if s ≠ 0 then sendAck d (copyAddress d 10 0 t) (t.ram (lastIncomingSequence d))
      else copyAddress d 10 0 t) := by
  have hl : (copyAddress d 10 0 t).ram (lastIncomingSequence d) = t.ram (lastIncomingSequence d) :=
    copyAddress_below d 10 0 t _ (by unfold lastIncomingSequence outputBuffer; omega)
  have hne : len ≠ 12 + 2 := by
    intro h; rw [h] at h16; exact absurd h16 (by decide)
  unfold pollFrame
  dsimp only
  rw [if_neg (not_not.mpr h0), if_neg hne, if_pos (by omega), if_neg (not_not.mpr h12),
    if_neg (not_not.mpr h14), hl, if_pos h13]
  split_ifs <;> rfl

/-- A stored REQUEST of type 23 with the expected sequence while the receive
buffer is not empty (line 997): the address is copied, nothing else. -/
theorem pollFrame_busy (d : Layout) (w len s : Byte) (t : Target) (hP : 4 ≤ d.SPM_PAGESIZE)
    (h0 : t.ram (packet d 0) = 0x90) (h16 : 16 ≤ len.val) (h12 : t.ram (packet d 12) = 1)
    (h14 : t.ram (packet d 14) = 23)
    (h13 : t.ram (packet d 13) = nextSequence (t.ram (lastIncomingSequence d)))
    (hfm : t.ram (frameMode d) ≠ FRAME_FRAME) :
    pollFrame d w len s t = (none, s, copyAddress d 10 0 t) := by
  have hl : (copyAddress d 10 0 t).ram (lastIncomingSequence d) = t.ram (lastIncomingSequence d) :=
    copyAddress_below d 10 0 t _ (by unfold lastIncomingSequence outputBuffer; omega)
  have hf : (copyAddress d 10 0 t).ram (frameMode d) = t.ram (frameMode d) :=
    copyAddress_below d 10 0 t _ (by unfold frameMode outputBuffer; omega)
  have hne : len ≠ 12 + 2 := by
    intro h; rw [h] at h16; exact absurd h16 (by decide)
  unfold pollFrame
  dsimp only
  rw [if_neg (not_not.mpr h0), if_neg hne, if_pos (by omega), if_neg (not_not.mpr h12),
    if_neg (not_not.mpr h14), hl, hf, if_neg (not_not.mpr h13), if_pos hfm]

/-- Whatever the stored packet, when it is not accepted `poll` leaves the data
memory below `outputBuffer` as it is, and it does not return when no ACK is
awaited. -/
theorem pollFrame_rejected (d : Layout) (w len s : Byte) (t : Target) (hP : 4 ≤ d.SPM_PAGESIZE)
    (hno : ¬ (t.ram (packet d 0) = 0x90 ∧ 16 ≤ len.val ∧ t.ram (packet d 12) = 1 ∧
      t.ram (packet d 14) = 23 ∧
      t.ram (packet d 13) = nextSequence (t.ram (lastIncomingSequence d)) ∧
      t.ram (frameMode d) = FRAME_FRAME)) :
    (∀ a, a < outputBuffer d 0 → (pollFrame d w len s t).2.2.ram a = t.ram a) ∧
      (w = 0 → (pollFrame d w len s t).1 = none) := by
  by_cases hl : t.ram (packet d 0) = 0x90 ∧ 16 ≤ len.val ∧ t.ram (packet d 12) = 1 ∧
      t.ram (packet d 14) = 23
  swap
  · obtain ⟨h1, h2⟩ := pollFrame_ignore d w len s t hl
    rw [h1]
    exact ⟨fun _ _ => rfl, h2⟩
  obtain ⟨h0, h16, h12, h14⟩ := hl
  by_cases h13 : t.ram (packet d 13) = nextSequence (t.ram (lastIncomingSequence d))
  · have hfm : t.ram (frameMode d) ≠ FRAME_FRAME := fun h => hno ⟨h0, h16, h12, h14, h13, h⟩
    rw [pollFrame_busy d w len s t hP h0 h16 h12 h14 h13 hfm]
    exact ⟨fun a ha => copyAddress_below d 10 0 t a ha, fun _ => rfl⟩
  · rw [pollFrame_wrong d w len s t hP h0 h16 h12 h14 h13]
    refine ⟨fun a ha => ?_, fun _ => rfl⟩
    dsimp only
    split_ifs
    · rw [sendAck_below _ _ _ _ ha, copyAddress_below d 10 0 t a ha]
    · exact copyAddress_below d 10 0 t a ha

end Xbeeboot

namespace Xbeeboot

/-! ## What `poll` leaves unchanged -/

theorem modeKept_trans (a b c : Byte) (h1 : ModeKept a b) (h2 : ModeKept b c) : ModeKept a c := by
  unfold ModeKept at *
  rcases h1 with h1 | ⟨h1, h1a, h1b⟩
  · rw [h1] at h2; exact h2
  · rcases h2 with h2 | ⟨h2, -, -⟩
    · rw [h2]; exact Or.inr ⟨h1, h1a, h1b⟩
    · rw [h2] at h1a; exact absurd h1a (by decide)

/-- The reader part of a pass of `poll` (lines 908-938) stores into `packet`
only and transmits nothing; it ends in a wait, in `continue`, or with the
dispatch of `pollFrame` on the stored packet. -/
theorem pollIteration_reader (d : Layout) (w s : Byte) (t : Target) :
    ∃ t6 : Target, (∀ a, a < packet d 0 → t6.ram a = t.ram a) ∧ t6.tx = t.tx ∧
      (pollIteration d w s t = .blocked t6 ∨ pollIteration d w s t = .again s t6 ∨
        ∃ len : Byte, pollIteration d w s t =
          match pollFrame d w len s t6 with
          | (some rc, _, t) => .returned rc t
          | (none, s1, t) => .again s1 t) := by
  unfold pollIteration
  rcases h1 : uartGetch t with ⟨_ | ch, t1⟩
  · obtain ⟨e, -⟩ := uartGetch_none h1
    exact ⟨t1, fun a _ => by rw [e], by rw [e], Or.inl rfl⟩
  obtain ⟨-, r1, x1⟩ := uartGetch_some h1
  dsimp only
  by_cases hch : ch ≠ 0x7e
  · rw [if_pos hch]
    exact ⟨t1, fun a _ => by rw [r1], x1, Or.inr (Or.inl rfl)⟩
  rw [if_neg hch]
  have k2 := escGetch_keeps t1
  rcases h2 : escGetch t1 with ⟨_ | msb, t2⟩
  · rw [h2] at k2
    exact ⟨t2, fun a _ => by rw [k2.1, r1], by rw [k2.2, x1], Or.inl rfl⟩
  rw [h2] at k2
  dsimp only at k2 ⊢
  by_cases hm : msb ≠ 0
  · rw [if_pos hm]
    exact ⟨t2, fun a _ => by rw [k2.1, r1], by rw [k2.2, x1], Or.inr (Or.inl rfl)⟩
  rw [if_neg hm]
  have k3 := escGetch_keeps t2
  rcases h3 : escGetch t2 with ⟨_ | len, t3⟩
  · rw [h3] at k3
    exact ⟨t3, fun a _ => by rw [k3.1, k2.1, r1], by rw [k3.2, k2.2, x1], Or.inl rfl⟩
  rw [h3] at k3
  dsimp only at k3 ⊢
  have k4 : ∀ a, a < packet d 0 → (readPacket d len.val 0 0xff t3).2.ram a = t3.ram a :=
    fun a ha => (readPacket_keeps d len.val 0 0xff t3 a
      (fun j _ => by unfold packet at *; omega)).1
  have x4 : (readPacket d len.val 0 0xff t3).2.tx = t3.tx :=
    readPacket_sends d len.val 0 0xff t3
  rcases h4 : readPacket d len.val 0 0xff t3 with ⟨_ | cs, t4⟩
  · rw [h4] at k4 x4
    exact ⟨t4, fun a ha => by rw [k4 a ha, k3.1, k2.1, r1], by rw [x4, k3.2, k2.2, x1],
      Or.inl rfl⟩
  rw [h4] at k4 x4
  dsimp only at k4 x4 ⊢
  have k5 := escGetch_keeps t4
  rcases h5 : escGetch t4 with ⟨_ | c, t5⟩
  · rw [h5] at k5
    exact ⟨t5, fun a ha => by rw [k5.1, k4 a ha, k3.1, k2.1, r1],
      by rw [k5.2, x4, k3.2, k2.2, x1], Or.inl rfl⟩
  rw [h5] at k5
  dsimp only at k5 ⊢
  refine ⟨t5, fun a ha => by rw [k5.1, k4 a ha, k3.1, k2.1, r1],
      by rw [k5.2, x4, k3.2, k2.2, x1], ?_⟩
  by_cases hc : cs ≠ c
  · rw [if_pos hc]
    exact Or.inr (Or.inl rfl)
  rw [if_neg hc]
  exact Or.inr (Or.inr ⟨len, rfl⟩)

/-- What the dispatch of `poll` on a stored packet does to the memory below
`packet`: nothing when `frameMode` is not 0; else nothing but the stores to
`frameMode` (a length from 1 to 240), `lastIncomingSequence` and
`packetBuffer`.  With no ACK awaited it returns only after storing such a
length. -/
theorem pollFrame_kept (d : Layout) (w len s : Byte) (t : Target) (hP : 4 ≤ d.SPM_PAGESIZE) :
    (∀ a, a < packetBuffer d 0 → a ≠ frameMode d → a ≠ lastIncomingSequence d →
      (pollFrame d w len s t).2.2.ram a = t.ram a) ∧
    (t.ram (frameMode d) ≠ FRAME_FRAME →
      ∀ a, a < outputBuffer d 0 → (pollFrame d w len s t).2.2.ram a = t.ram a) ∧
    ModeKept (t.ram (frameMode d)) ((pollFrame d w len s t).2.2.ram (frameMode d)) ∧
    (w = 0 → (pollFrame d w len s t).1 ≠ none →
      1 ≤ ((pollFrame d w len s t).2.2.ram (frameMode d)).val ∧
      ((pollFrame d w len s t).2.2.ram (frameMode d)).val ≤ 240) := by
  have hfb : frameMode d < outputBuffer d 0 := by unfold frameMode outputBuffer; omega
  have hlf : frameMode d ≠ lastIncomingSequence d := by
    unfold frameMode lastIncomingSequence; omega
  by_cases hacc : t.ram (packet d 0) = 0x90 ∧ 16 ≤ len.val ∧ t.ram (packet d 12) = 1 ∧
      t.ram (packet d 14) = 23 ∧
      t.ram (packet d 13) = nextSequence (t.ram (lastIncomingSequence d)) ∧
      t.ram (frameMode d) = FRAME_FRAME
  · obtain ⟨h0, h16, h12, h14, h13, hfm⟩ := hacc
    rw [pollFrame_accept d w len s t hP h0 h16 h12 h14 h13 hfm]
    dsimp only
    have hv : (len - 12 - 3 : Byte).val = len.val - 15 := by
      have := len.isLt
      rw [sub_sub, Fin.sub_def]
      simp only [Fin.val_mk]
      norm_num
      omega
    have hmode : ((sendAck d ((copyPayload d (len - 12 - 3).val (len - 12 - 3).val 0
          (copyAddress d 10 0 t)).store (frameMode d) (len - 12 - 3))
        (t.ram (packet d 13))).store (lastIncomingSequence d) (t.ram (packet d 13))).ram
          (frameMode d) = len - 12 - 3 := by
      rw [store_ram_ne _ _ _ _ hlf, sendAck_below _ _ _ _ hfb, store_ram_eq]
    have hr : 1 ≤ (len - 12 - 3 : Byte).val ∧ (len - 12 - 3 : Byte).val ≤ 240 := by
      have := len.isLt
      rw [hv]; omega
    refine ⟨fun a ha hf hl => ?_, fun hne => absurd hfm hne, ?_, fun _ _ => ?_⟩
    · rw [store_ram_ne _ _ _ _ hl, sendAck_below _ _ _ _ (by unfold packetBuffer outputBuffer at *; omega),
        store_ram_ne _ _ _ _ hf, copyPayload_below _ _ _ _ _ _ ha,
        copyAddress_below _ _ _ _ _ (by unfold packetBuffer outputBuffer at *; omega)]
    · rw [hmode]
      exact Or.inr ⟨hfm, hr⟩
    · rw [hmode]
      exact hr
  · obtain ⟨h1, h2⟩ := pollFrame_rejected d w len s t hP hacc
    refine ⟨fun a ha _ _ => h1 a (by unfold packetBuffer outputBuffer at *; omega),
      fun _ a ha => h1 a ha, Or.inl (h1 _ hfb), fun hw hn => absurd (h2 hw) hn⟩

end Xbeeboot

namespace Xbeeboot

/-- A pass of `poll`, whatever the input: below `packet` it stores nothing when
`frameMode` is not 0, and else only to `frameMode` (a length from 1 to 240),
`lastIncomingSequence` and `packetBuffer`; with no ACK awaited it returns only
after storing such a length. -/
theorem pollIteration_kept (d : Layout) (w s : Byte) (t : Target) (hP : 4 ≤ d.SPM_PAGESIZE) :
    (∀ a, a < packetBuffer d 0 → a ≠ frameMode d → a ≠ lastIncomingSequence d →
      (pollIteration d w s t).t.ram a = t.ram a) ∧
    (t.ram (frameMode d) ≠ FRAME_FRAME →
      ∀ a, a < packet d 0 → (pollIteration d w s t).t.ram a = t.ram a) ∧
    ModeKept (t.ram (frameMode d)) ((pollIteration d w s t).t.ram (frameMode d)) ∧
    (w = 0 → ∀ rc t2, pollIteration d w s t = .returned rc t2 →
      1 ≤ (t2.ram (frameMode d)).val ∧ (t2.ram (frameMode d)).val ≤ 240) := by
  have hfp : frameMode d < packet d 0 := by unfold frameMode packet; omega
  have hbp : ∀ a, a < packetBuffer d 0 → a < packet d 0 := fun a ha => by
    unfold packetBuffer packet at *; omega
  have hpo : ∀ a, a < packet d 0 → a < outputBuffer d 0 := fun a ha => by
    unfold outputBuffer packet at *; omega
  obtain ⟨t6, h6, -, hc⟩ := pollIteration_reader d w s t
  rcases hc with hc | hc | ⟨len, hc⟩
  · rw [hc]
    exact ⟨fun a ha _ _ => h6 a (hbp a ha), fun _ a ha => h6 a ha, Or.inl (h6 _ hfp),
      fun _ rc t2 h => by simp at h⟩
  · rw [hc]
    exact ⟨fun a ha _ _ => h6 a (hbp a ha), fun _ a ha => h6 a ha, Or.inl (h6 _ hfp),
      fun _ rc t2 h => by simp at h⟩
  · obtain ⟨k1, k2, k3, k4⟩ := pollFrame_kept d w len s t6 hP
    rw [h6 _ hfp] at k2 k3
    rw [hc]
    rcases hpf : pollFrame d w len s t6 with ⟨_ | rc, s1, t7⟩
    · rw [hpf] at k1 k2 k3
      dsimp only [Iteration.t] at k1 k2 k3 ⊢
      exact ⟨fun a ha hf hl => by rw [k1 a ha hf hl, h6 a (hbp a ha)],
        fun hne a ha => by rw [k2 hne a (hpo a ha), h6 a ha], k3, fun _ rc t2 h => by simp at h⟩
    · rw [hpf] at k1 k2 k3 k4
      dsimp only [Iteration.t] at k1 k2 k3 k4 ⊢
      refine ⟨fun a ha hf hl => by rw [k1 a ha hf hl, h6 a (hbp a ha)],
        fun hne a ha => by rw [k2 hne a (hpo a ha), h6 a ha], k3, fun hw rc1 t2 h => ?_⟩
      simp only [Iteration.returned.injEq] at h
      rw [← h.2]
      exact k4 hw (by simp)

/-- A call of `poll`, whatever the input and however it ends: below `packet` it
stores nothing when `frameMode` is not 0, and else only to `frameMode` (a length
from 1 to 240), `lastIncomingSequence` and `packetBuffer`; `poll(0)` returns
only with such a length in `frameMode`. -/
theorem pollLoop_kept (d : Layout) (w : Byte) (hP : 4 ≤ d.SPM_PAGESIZE) :
    ∀ (fuel : Nat) (s : Byte) (t : Target),
    (∀ a, a < packetBuffer d 0 → a ≠ frameMode d → a ≠ lastIncomingSequence d →
      (pollLoop d w fuel s t).t.ram a = t.ram a) ∧
    (t.ram (frameMode d) ≠ FRAME_FRAME →
      ∀ a, a < packet d 0 → (pollLoop d w fuel s t).t.ram a = t.ram a) ∧
    ModeKept (t.ram (frameMode d)) ((pollLoop d w fuel s t).t.ram (frameMode d)) ∧
    (w = 0 → ∀ rc, (pollLoop d w fuel s t).outcome = .returned rc →
      1 ≤ ((pollLoop d w fuel s t).t.ram (frameMode d)).val ∧
      ((pollLoop d w fuel s t).t.ram (frameMode d)).val ≤ 240) := by
  intro fuel
  induction fuel with
  | zero =>
    intro s t
    rw [pollLoop]
    exact ⟨fun _ _ _ _ => rfl, fun _ _ _ => rfl, Or.inl rfl, fun _ rc h => by simp at h⟩
  | succ fuel ih =>
    intro s t
    obtain ⟨k1, k2, k3, k4⟩ := pollIteration_kept d w s t hP
    rw [pollLoop]
    cases hit : pollIteration d w s t with
    | again s1 t1 =>
      rw [hit] at k1 k2 k3
      dsimp only [Iteration.t] at k1 k2 k3 ⊢
      obtain ⟨j1, j2, j3, j4⟩ := ih s1 t1
      refine ⟨fun a ha hf hl => by rw [j1 a ha hf hl, k1 a ha hf hl], fun hne a ha => ?_,
        modeKept_trans _ _ _ k3 j3, j4⟩
      have hfp : frameMode d < packet d 0 := by unfold frameMode packet; omega
      have h1 : t1.ram (frameMode d) ≠ FRAME_FRAME := by rw [k2 hne _ hfp]; exact hne
      rw [j2 h1 a ha, k2 hne a ha]
    | returned rc t1 =>
      rw [hit] at k1 k2 k3
      exact ⟨k1, k2, k3, fun hw rc1 _ => k4 hw rc t1 hit⟩
    | blocked t1 =>
      rw [hit] at k1 k2 k3
      exact ⟨k1, k2, k3, fun _ rc h => by simp at h⟩

end Xbeeboot

namespace Xbeeboot

/-! ## C31: a sniffed 0x90 -/

theorem getch_sniffed (d : Layout) (t : Target) (b : Byte) (tail : List Byte)
    (hmode : t.ram (frameMode d) = FRAME_UNKNOWN) (hout : t.ram (outputIndex d) = 0)
    (hb : b = 0x7e ∨ b = 0x90) (hrx : t.rx = b :: tail) :
    getch d t = getchFrame d (({ t with rx := tail } : Target).store (frameMode d) FRAME_FRAME) := by
  have hpush : pushBuffer d t 0 = { outcome := .done, t := t } := by
    unfold pushBuffer
    rw [if_pos (by rw [hout])]
  have hb30 : b ≠ 0x30 := by
    rcases hb with h | h <;> rw [h] <;> decide
  unfold getch
  rw [hpush]
  dsimp only
  rw [hrx, List.length_cons, getchLoop]
  rw [hmode, if_neg (by decide), if_pos rfl]
  have e : uartGetch t = (some b, { t with rx := tail }) := by
    unfold uartGetch
    rw [hrx]
  rw [e]
  dsimp only
  rw [if_neg hb30, if_pos hb]

theorem getchFrame_hunt (d : Layout) (t : Target) (g rest : List Byte)
    (hg : ∀ x ∈ g, x ≠ 0x7e) :
    getchFrame d { t with rx := g ++ rest } = getchFrame d { t with rx := rest } := by
  unfold getchFrame
  rw [poll_hunt d 0 g rest t hg]

/-- The first store of the payload loop of `poll` is the one `getch` reads
first: `packetBuffer[dataLength - 1]` holds `packet[15]`. -/
theorem copyPayload_first (d : Layout) (n : Nat) (t : Target) (hn : 1 ≤ n) :
    (copyPayload d n n 0 t).ram (packetBuffer d (n - 1)) = t.ram (packet d 15) := by
  obtain ⟨m, rfl⟩ : ∃ m, n = m + 1 := ⟨n - 1, by omega⟩
  rw [copyPayload]
  rw [copyPayload_other d (m + 1) m 1 _ _ (fun k h1 h2 => by unfold packetBuffer; omega)]
  exact store_ram_eq _ _ _

/-- C31 (amended). A sniffed 0x90 only selects frame mode.  In the state `main`
sets up (`frameMode` is `FRAME_UNKNOWN`, `outputIndex` 0), when the first UART
byte is 0x90, `getch` sets `frameMode` to `FRAME_FRAME` and calls `poll(0)`,
which discards the bytes `g` that follow up to the next 0x7E: they are not
parsed as the rest of a Receive Packet.  If nothing follows them, `getch` waits
for a byte with nothing transmitted and nothing accepted.  If a whole frame `p`
follows that is a REQUEST of type 23 with the expected sequence, then on a
layout with `SPM_PAGESIZE` at least 4 that frame is the one accepted: its ACK
is transmitted, `lastIncomingSequence` becomes its sequence and `getch` returns
a byte; with `SPM_PAGESIZE` at least 14 and a frame of at most
`2 * SPM_PAGESIZE + 15` bytes (so that neither `packet[15]` nor the last byte of
`packetBuffer` overlaps `outputBuffer`), that byte is the first data byte of the
frame. -/
theorem sniffed_frame_start (d : Layout) (t : Target) (g rest : List Byte)
    (hmode : t.ram (frameMode d) = FRAME_UNKNOWN) (hout : t.ram (outputIndex d) = 0)
    (hg : ∀ x ∈ g, x ≠ 0x7e) (hrx : t.rx = 0x90 :: (g ++ rest)) :
    getch d t = getchFrame d (({ t with rx := rest } : Target).store (frameMode d) FRAME_FRAME) ∧
    (rest = [] → (getch d t).outcome = .blocked ∧
      (getch d t).t = ({ t with rx := [] } : Target).store (frameMode d) FRAME_FRAME) ∧
    (∀ (p tail : List Byte), rest = apiFrame p ++ tail → 16 ≤ p.length → p.length ≤ 255 →
      4 ≤ d.SPM_PAGESIZE → p.getD 0 0 = 0x90 → p.getD 12 0 = 1 → p.getD 14 0 = 23 →
      p.getD 13 0 = nextSequence (t.ram (lastIncomingSequence d)) →
      (∃ ch, (getch d t).outcome = .returned ch) ∧ (getch d t).t.rx = tail ∧
      (getch d t).t.ram (lastIncomingSequence d) = p.getD 13 0 ∧
      (∃ q : List Byte, q.length = 16 ∧ q.getD 0 0 = 0x10 ∧ q.drop 14 = [0, p.getD 13 0] ∧
        (getch d t).t.tx = t.tx ++ apiFrame q) ∧
      (14 ≤ d.SPM_PAGESIZE → p.length ≤ 2 * d.SPM_PAGESIZE + 15 →
        (getch d t).outcome = .returned (p.getD 15 0))) := by
  have h1 : getch d t
      = getchFrame d (({ t with rx := rest } : Target).store (frameMode d) FRAME_FRAME) := by
    rw [getch_sniffed d t 0x90 (g ++ rest) hmode hout (Or.inr rfl) hrx]
    exact getchFrame_hunt d (t.store (frameMode d) FRAME_FRAME) g rest hg
  refine ⟨h1, fun hr => ?_, fun p tail hr h16 h255 hP h0 h12 h14 h13 => ?_⟩
  · rw [h1, hr]
    exact ⟨rfl, rfl⟩
  · obtain ⟨t0, ht0⟩ : ∃ t0 : Target,
        t0 = ({ t with rx := rest } : Target).store (frameMode d) FRAME_FRAME := ⟨_, rfl⟩
    have hfl : frameMode d ≠ lastIncomingSequence d := by
      unfold frameMode lastIncomingSequence; omega
    have hfb : frameMode d < outputBuffer d 0 := by unfold frameMode outputBuffer; omega
    have hlen : p.length = (toUChar (p.length : Int)).val := by
      rw [toUChar_val]
      omega
    obtain ⟨len, hlenv⟩ : ∃ len : Byte, len = toUChar (p.length : Int) := ⟨_, rfl⟩
    rw [← hlenv] at hlen
    have hacc : AcceptsData d t0 0 len p (checksumByte p) := by
      refine ⟨rfl, rfl, h0, by omega, h12, h14, ?_, ?_⟩
      · rw [h13, ht0]
        simp [Target.store, hfl.symm]
      · rw [ht0]; simp [Target.store]
    have hrx0 : t0.rx = 0x7e :: (escapeBytes (0 :: len :: p) ++ escapeBytes [checksumByte p]
        ++ tail) := by
      rw [ht0, store_rx, hr, hlenv]
      exact apiFrame_rx p tail
    have hpi := pollIteration_accept d 0 0 t0 0 len p (checksumByte p) tail hP hlen hrx0 hacc
    rw [if_pos rfl] at hpi
    obtain ⟨S, hS⟩ : ∃ S : Target, S = { Target.storeAll t0 (packet d) 0 p with rx := tail } :=
      ⟨_, rfl⟩
    rw [← hS] at hpi
    obtain ⟨x, hx⟩ : ∃ x : Target, x = (copyPayload d (len - 12 - 3).val (len - 12 - 3).val 0
        (copyAddress d 10 0 S)).store (frameMode d) (len - 12 - 3) := ⟨_, rfl⟩
    rw [← hx] at hpi
    obtain ⟨t1, ht1⟩ : ∃ t1 : Target, t1 = (sendAck d x (p.getD 13 0)).store
        (lastIncomingSequence d) (p.getD 13 0) := ⟨_, rfl⟩
    rw [← ht1] at hpi
    have hv : (len - 12 - 3 : Byte).val = p.length - 15 := by
      have := len.isLt
      rw [sub_sub, Fin.sub_def]
      simp only [Fin.val_mk]
      norm_num
      omega
    have x1 : x.tx = t.tx := by
      rw [hx, store_tx, copyPayload_tx, copyAddress_tx, hS]
      rw [show ({ Target.storeAll t0 (packet d) 0 p with rx := tail } : Target).tx
        = (Target.storeAll t0 (packet d) 0 p).tx from rfl, storeAll_tx, ht0]
      rfl
    have x2 : x.rx = tail := by
      rw [hx, store_rx, copyPayload_rx, copyAddress_rx, hS]
    have f1 : t1.ram (frameMode d) = len - 12 - 3 := by
      rw [ht1, store_ram_ne _ _ _ _ hfl, sendAck_below _ _ _ _ hfb, hx, store_ram_eq]
    have hpoll : poll d t0 0 = { outcome := .returned 0, t := t1 } := by
      unfold poll
      rw [pollLoop, hpi]
    have hgf : getchFrame d t0 = getchDefault d t1 := by
      unfold getchFrame
      rw [hpoll]
    obtain ⟨q, q1, q2, q3, q4⟩ := sendAck_frame d x (p.getD 13 0)
    have hv1 : (t1.ram (frameMode d) - 1).val = p.length - 15 - 1 := by
      rw [f1, Fin.sub_def, hv]
      simp only [Fin.val_mk, Fin.val_one]
      omega
    rw [h1, ← ht0, hgf]
    unfold getchDefault
    dsimp only
    refine ⟨⟨_, rfl⟩, ?_, ?_, ⟨q, q1, q2, q3, ?_⟩, fun h14P hfit => ?_⟩
    · rw [store_rx, ht1, store_rx, sendAck_rx, x2]
    · rw [store_ram_ne _ _ _ _ hfl.symm, ht1, store_ram_eq]
    · rw [store_tx, ht1, store_tx, q4, x1]
    · have hne : packetBuffer d (p.length - 15 - 1) ≠ frameMode d := by
        unfold packetBuffer frameMode; omega
      have hnl : packetBuffer d (p.length - 15 - 1) ≠ lastIncomingSequence d := by
        unfold packetBuffer lastIncomingSequence; omega
      have hb : packetBuffer d (p.length - 15 - 1) < outputBuffer d 0 := by
        unfold packetBuffer outputBuffer; omega
      have hS15 : S.ram (packet d 15) = p.getD 15 0 := by
        rw [hS]; exact packet_stored d t0 p tail 15 (by omega)
      have hval : t1.ram (packetBuffer d (p.length - 15 - 1)) = p.getD 15 0 := by
        rw [ht1, store_ram_ne _ _ _ _ hnl, sendAck_below _ _ _ _ hb, hx,
          store_ram_ne _ _ _ _ hne, hv]
        rw [copyPayload_first d (p.length - 15) _ (by omega),
          copyAddress_other d 10 0 S _ (fun i hi => by
            unfold packet lastAddress outputBuffer; omega), hS15]
      rw [store_ram_eq, hv1, store_ram_ne _ _ _ _ hne, hval]

theorem sniffed_frame_start_witness :
    (getch atmega328p (bootTarget (0x90 :: ([0x00, 0x34] ++ [])))).outcome = .blocked ∧
    (getch atmega328p (bootTarget (0x90 :: ([0x00, 0x34] ++
      (apiFrame (deliverPayload 1 [0x41, 0x42]) ++ []))))).outcome = .returned 0x41 ∧
    (getch Link.atmega8 { idleTarget.store (frameMode Link.atmega8) FRAME_UNKNOWN with
      rx := 0x90 :: ([0x00, 0x34] ++ (apiFrame (deliverPayload 1 (countBytes 64)) ++ [])) }).outcome
      = .returned 1 :=
  ⟨((sniffed_frame_start atmega328p (bootTarget (0x90 :: ([0x00, 0x34] ++ []))) [0x00, 0x34] []
      (by decide) (by decide) (by decide) rfl).2.1 rfl).1,
   ((sniffed_frame_start atmega328p
      (bootTarget (0x90 :: ([0x00, 0x34] ++ (apiFrame (deliverPayload 1 [0x41, 0x42]) ++ []))))
      [0x00, 0x34] (apiFrame (deliverPayload 1 [0x41, 0x42]) ++ [])
      (by decide) (by decide) (by decide) rfl).2.2 (deliverPayload 1 [0x41, 0x42]) [] rfl
      (by decide) (by decide) (by decide) (by decide) (by decide) (by decide)
      (by decide)).2.2.2.2 (by decide) (by decide),
   ((sniffed_frame_start Link.atmega8
      { idleTarget.store (frameMode Link.atmega8) FRAME_UNKNOWN with
        rx := 0x90 :: ([0x00, 0x34] ++ (apiFrame (deliverPayload 1 (countBytes 64)) ++ [])) }
      [0x00, 0x34] (apiFrame (deliverPayload 1 (countBytes 64)) ++ [])
      (by decide) (by decide) (by decide) rfl).2.2 (deliverPayload 1 (countBytes 64)) [] rfl
      (by decide) (by decide) (by decide) (by decide) (by decide) (by decide)
      (by decide)).2.2.2.2 (by decide) (by decide)⟩

/-- C31, counterexample to the claim as stated.  The frame for `deliverPayload 1
[0x41, 0x42, 0x43]` is valid and in sequence (sequence 1 after 0): a target in
frame mode accepts it, and `getch` returns 0x41.  In the state `main` sets up,
with the 0x7E and the length bytes of that frame missed, so that 0x90 is the
first byte seen, `getch` does not accept it: it waits for a byte with nothing
transmitted and `lastIncomingSequence` still 0; the same happens when only the
0x7E is missed. -/
theorem sniffed_frame_start_counterexample :
    (getch atmega328p (requestTarget [0x41, 0x42, 0x43])).outcome = .returned 0x41 ∧
    ((apiFrame (deliverPayload 1 [0x41, 0x42, 0x43])).drop 3).head? = some 0x90 ∧
    (getch atmega328p
      (bootTarget ((apiFrame (deliverPayload 1 [0x41, 0x42, 0x43])).drop 3))).outcome = .blocked ∧
    (getch atmega328p
      (bootTarget ((apiFrame (deliverPayload 1 [0x41, 0x42, 0x43])).drop 3))).t.tx = [] ∧
    (getch atmega328p
      (bootTarget ((apiFrame (deliverPayload 1 [0x41, 0x42, 0x43])).drop 3))).t.ram
        (lastIncomingSequence atmega328p) = 0 ∧
    (getch atmega328p
      (bootTarget ((apiFrame (deliverPayload 1 [0x41, 0x42, 0x43])).drop 1))).outcome = .blocked ∧
    (getch atmega328p
      (bootTarget ((apiFrame (deliverPayload 1 [0x41, 0x42, 0x43])).drop 1))).t.tx = [] := by
  decide

/-- The bound `2 * SPM_PAGESIZE + 15` on the frame length is needed: on a page of
64 bytes, the valid in-sequence frame with the 129 data bytes 1, ..., 129 (144
bytes) that follows a sniffed 0x90 is accepted, but `packetBuffer[128]`, where
its first data byte is stored, is `outputBuffer[0]`, which the transmission of
the ACK sets to 0x10: `getch` returns 0x10, not 1. -/
theorem sniffed_frame_overlap :
    (getch Link.atmega8 { idleTarget.store (frameMode Link.atmega8) FRAME_UNKNOWN with
      rx := 0x90 :: (apiFrame (deliverPayload 1 (countBytes 129))) }).outcome
      = .returned 0x10 := by
  decide

end Xbeeboot

namespace Xbeeboot

/-! ## C32: `frameMode` over calls of `getch` and `putch` -/

theorem pushLoop_kept (d : Layout) (seq : Byte) (hP : 4 ≤ d.SPM_PAGESIZE) :
    ∀ (fuel : Nat) (t : Target),
    ModeKept (t.ram (frameMode d)) ((pushLoop d seq fuel t).t.ram (frameMode d)) ∧
    (t.ram (frameMode d) ≠ FRAME_FRAME →
      ∀ a, a < packet d 0 → (pushLoop d seq fuel t).t.ram a = t.ram a) := by
  have hfp : frameMode d < packet d 0 := by unfold frameMode packet; omega
  intro fuel
  induction fuel with
  | zero => intro t; rw [pushLoop]; exact ⟨Or.inl rfl, fun _ _ _ => rfl⟩
  | succ fuel ih =>
    intro t
    obtain ⟨t1, ht1⟩ : ∃ t1 : Target, t1 = transmit d
        (((t.store (outputPayload d 0) 1).store (outputPayload d 1) seq).store
          (outputPayload d 2) 24)
        (TXHEADER_BYTES + 3 + (((t.store (outputPayload d 0) 1).store (outputPayload d 1)
          seq).store (outputPayload d 2) 24).ram (outputIndex d)) := ⟨_, rfl⟩
    have h1 : ∀ a, a < packet d 0 → t1.ram a = t.ram a := by
      intro a ha
      have hb : a < outputBuffer d 0 := by unfold outputBuffer packet at *; omega
      rw [ht1, transmit_below _ _ _ _ (Or.inl hb)]
      have e0 : a ≠ outputPayload d 0 := by unfold outputPayload outputBuffer at *; omega
      have e1 : a ≠ outputPayload d 1 := by unfold outputPayload outputBuffer at *; omega
      have e2 : a ≠ outputPayload d 2 := by unfold outputPayload outputBuffer at *; omega
      rw [store_ram_ne _ _ _ _ e2, store_ram_ne _ _ _ _ e1, store_ram_ne _ _ _ _ e0]
    obtain ⟨-, k2, k3, -⟩ := pollLoop_kept d seq hP (t1.rx.length + 1) 0 t1
    rw [h1 _ hfp] at k2 k3
    rw [pushLoop]
    rw [← ht1]
    have hpoll : poll d t1 seq = pollLoop d seq (t1.rx.length + 1) 0 t1 := rfl
    rw [hpoll]
    cases ho : (pollLoop d seq (t1.rx.length + 1) 0 t1).outcome with
    | returned rc =>
      dsimp only
      by_cases hrc : rc ≠ 0
      · rw [if_pos hrc]
        obtain ⟨j1, j2⟩ := ih (pollLoop d seq (t1.rx.length + 1) 0 t1).t
        refine ⟨modeKept_trans _ _ _ k3 j1, fun hne a ha => ?_⟩
        have h2 : (pollLoop d seq (t1.rx.length + 1) 0 t1).t.ram (frameMode d) ≠ FRAME_FRAME := by
          rw [k2 hne _ hfp, h1 _ hfp]; exact hne
        rw [j2 h2 a ha, k2 hne a ha, h1 a ha]
      · rw [if_neg hrc]
        exact ⟨k3, fun hne a ha => by rw [k2 hne a ha, h1 a ha]⟩
    | blocked => exact ⟨k3, fun hne a ha => by rw [k2 hne a ha, h1 a ha]⟩
    | outOfFuel => exact ⟨k3, fun hne a ha => by rw [k2 hne a ha, h1 a ha]⟩

/-- A call of `pushBuffer`, whatever the input and however it ends: `frameMode`
changes only from 0 to a length from 1 to 240, and with `frameMode` not 0 the
memory below `packet` keeps its content but for `lastOutgoingSequence` and
`outputIndex`. -/
theorem pushBuffer_kept (d : Layout) (t : Target) (max : Byte) (hP : 4 ≤ d.SPM_PAGESIZE) :
    ModeKept (t.ram (frameMode d)) ((pushBuffer d t max).t.ram (frameMode d)) ∧
    (t.ram (frameMode d) ≠ FRAME_FRAME →
      ∀ a, a < packet d 0 → a ≠ lastOutgoingSequence d → a ≠ outputIndex d →
        (pushBuffer d t max).t.ram a = t.ram a) := by
  have hfl : frameMode d ≠ lastOutgoingSequence d := by
    unfold frameMode lastOutgoingSequence; omega
  have hfo : frameMode d ≠ outputIndex d := by
    unfold frameMode outputIndex; omega
  unfold pushBuffer
  by_cases hle : t.ram (outputIndex d) ≤ max
  · rw [if_pos hle]
    exact ⟨Or.inl rfl, fun _ _ _ _ _ => rfl⟩
  rw [if_neg hle]
  dsimp only
  obtain ⟨t1, ht1⟩ : ∃ t1 : Target, t1 = t.store (lastOutgoingSequence d)
      (nextSequence (t.ram (lastOutgoingSequence d))) := ⟨_, rfl⟩
  rw [← ht1]
  have hrx : t1.rx = t.rx := by rw [ht1]; rfl
  have hf1 : t1.ram (frameMode d) = t.ram (frameMode d) := by
    rw [ht1, store_ram_ne _ _ _ _ hfl]
  obtain ⟨j1, j2⟩ := pushLoop_kept d (nextSequence (t.ram (lastOutgoingSequence d))) hP
    (t1.rx.length + 1) t1
  rw [hf1] at j1 j2
  have key : ∀ a, a ≠ lastOutgoingSequence d → t1.ram a = t.ram a := fun a ha => by
    rw [ht1, store_ram_ne _ _ _ _ ha]
  cases ho : (pushLoop d (nextSequence (t.ram (lastOutgoingSequence d))) (t1.rx.length + 1)
      t1).outcome with
  | done =>
    dsimp only
    refine ⟨?_, fun hne a ha hl hi => ?_⟩
    · rw [store_ram_ne _ _ _ _ hfo]; exact j1
    · rw [store_ram_ne _ _ _ _ hi, j2 hne a ha, key a hl]
  | blocked =>
    exact ⟨j1, fun hne a ha hl _ => by rw [j2 hne a ha, key a hl]⟩
  | outOfFuel =>
    exact ⟨j1, fun hne a ha hl _ => by rw [j2 hne a ha, key a hl]⟩

theorem putch_kept (d : Layout) (t : Target) (ch : Byte) (hP : 4 ≤ d.SPM_PAGESIZE) :
    ModeKept (t.ram (frameMode d)) ((putch d t ch).t.ram (frameMode d)) := by
  unfold putch
  by_cases hu : t.ram (frameMode d) = FRAME_UART
  · rw [if_pos hu]
    exact Or.inl rfl
  rw [if_neg hu]
  dsimp only
  have h1 : frameMode d ≠ outputText d (t.ram (outputIndex d)).val := by
    unfold frameMode outputText outputBuffer; omega
  have h2 : frameMode d ≠ outputIndex d := by
    unfold frameMode outputIndex; omega
  have := (pushBuffer_kept d ((t.store (outputText d (t.ram (outputIndex d)).val) ch).store
    (outputIndex d) (t.ram (outputIndex d) + 1)) XBEEBOOT_MAX_CHUNK hP).1
  rw [store_ram_ne _ _ _ _ h2, store_ram_ne _ _ _ _ h1] at this
  exact this

theorem getchDefault_mode (d : Layout) (t : Target) (h1 : 1 ≤ (t.ram (frameMode d)).val)
    (h2 : (t.ram (frameMode d)).val ≤ 240) :
    ((getchDefault d t).t.ram (frameMode d)).val ≤ 240 := by
  unfold getchDefault
  dsimp only
  rw [store_ram_eq, Fin.sub_def]
  simp only [Fin.val_mk, Fin.val_one]
  omega

theorem getchFrame_mode (d : Layout) (t : Target) (hP : 4 ≤ d.SPM_PAGESIZE)
    (hfm : t.ram (frameMode d) = FRAME_FRAME) :
    ((getchFrame d t).t.ram (frameMode d)).val ≤ 240 := by
  obtain ⟨-, -, k3, k4⟩ := pollLoop_kept d 0 hP (t.rx.length + 1) 0 t
  unfold getchFrame
  dsimp only
  have hpoll : poll d t 0 = pollLoop d 0 (t.rx.length + 1) 0 t := rfl
  rw [hpoll]
  have hk : ((pollLoop d 0 (t.rx.length + 1) 0 t).t.ram (frameMode d)).val ≤ 240 := by
    rcases k3 with k3 | ⟨-, -, k3⟩
    · rw [k3, hfm]; decide
    · exact k3
  cases ho : (pollLoop d 0 (t.rx.length + 1) 0 t).outcome with
  | returned rc =>
    obtain ⟨a1, a2⟩ := k4 rfl rc ho
    exact getchDefault_mode d _ a1 a2
  | blocked => exact hk
  | outOfFuel => exact hk

/-- The `switch (frameMode)` of `getch`: `FRAME_UART` stays, a value up to 240
stays up to 240, and `FRAME_UNKNOWN` stays or becomes one of these. -/
theorem getchLoop_mode (d : Layout) (hP : 4 ≤ d.SPM_PAGESIZE) : ∀ (fuel : Nat) (t : Target),
    (t.ram (frameMode d) = FRAME_UART →
      (getchLoop d fuel t).t.ram (frameMode d) = FRAME_UART) ∧
    ((t.ram (frameMode d)).val ≤ 240 →
      ((getchLoop d fuel t).t.ram (frameMode d)).val ≤ 240) ∧
    (t.ram (frameMode d) = FRAME_UNKNOWN →
      (getchLoop d fuel t).t.ram (frameMode d) = FRAME_UNKNOWN ∨
      (getchLoop d fuel t).t.ram (frameMode d) = FRAME_UART ∨
      ((getchLoop d fuel t).t.ram (frameMode d)).val ≤ 240) := by
  intro fuel
  induction fuel with
  | zero =>
    intro t
    rw [getchLoop]
    exact ⟨fun h => h, fun h => h, fun h => Or.inl h⟩
  | succ fuel ih =>
    intro t
    rw [getchLoop]
    by_cases hu : t.ram (frameMode d) = FRAME_UART
    · rw [if_pos hu]
      rcases h : uartGetch t with ⟨_ | ch, t1⟩
      · rw [(uartGetch_none h).1]
        exact ⟨fun h => h, fun h => h, fun h => Or.inl h⟩
      · dsimp only
        rw [(uartGetch_some h).2.1]
        exact ⟨fun h => h, fun h => h, fun h => Or.inl h⟩
    rw [if_neg hu]
    by_cases hk : t.ram (frameMode d) = FRAME_UNKNOWN
    · rw [if_pos hk]
      refine ⟨fun h => absurd h hu, fun h => ?_, fun _ => ?_⟩
      · rw [hk] at h; exact absurd h (by decide)
      rcases h : uartGetch t with ⟨_ | ch, t1⟩
      · rw [(uartGetch_none h).1]
        exact Or.inl hk
      obtain ⟨-, r1, -⟩ := uartGetch_some h
      dsimp only
      by_cases h30 : ch = 0x30
      · rw [if_pos h30]
        exact Or.inr (Or.inl (store_ram_eq _ _ _))
      rw [if_neg h30]
      by_cases hs : ch = 0x7e ∨ ch = 0x90
      · rw [if_pos hs]
        exact Or.inr (Or.inr (getchFrame_mode d _ hP (store_ram_eq _ _ _)))
      · rw [if_neg hs]
        exact (ih t1).2.2 (by rw [r1]; exact hk)
    rw [if_neg hk]
    by_cases hf : t.ram (frameMode d) = FRAME_FRAME
    · rw [if_pos hf]
      exact ⟨fun h => absurd h hu, fun _ => getchFrame_mode d t hP hf, fun h => absurd h hk⟩
    rw [if_neg hf]
    refine ⟨fun h => absurd h hu, fun h => getchDefault_mode d t ?_ h, fun h => absurd h hk⟩
    have : (t.ram (frameMode d)).val ≠ 0 := fun h0 => hf (Fin.ext h0)
    omega

/-- The legal changes of `frameMode` over a call or a sequence of calls. -/
theorem modeStep_of_kept (m m1 : Byte) (h : ModeKept m m1) :
    (m = FRAME_UART → m1 = FRAME_UART) ∧ (m.val ≤ 240 → m1.val ≤ 240) ∧
    (m = FRAME_UNKNOWN → m1 = FRAME_UNKNOWN) := by
  rcases h with h | ⟨h, h1, h2⟩
  · rw [h]; exact ⟨fun h => h, fun h => h, fun h => h⟩
  · rw [h]
    exact ⟨fun h => absurd h (by decide), fun _ => h2, fun h => absurd h (by decide)⟩

theorem getch_mode (d : Layout) (t : Target) (hP : 4 ≤ d.SPM_PAGESIZE) :
    (t.ram (frameMode d) = FRAME_UART → (getch d t).t.ram (frameMode d) = FRAME_UART) ∧
    ((t.ram (frameMode d)).val ≤ 240 → ((getch d t).t.ram (frameMode d)).val ≤ 240) ∧
    (t.ram (frameMode d) = FRAME_UNKNOWN →
      (getch d t).t.ram (frameMode d) = FRAME_UNKNOWN ∨
      (getch d t).t.ram (frameMode d) = FRAME_UART ∨
      ((getch d t).t.ram (frameMode d)).val ≤ 240) := by
  obtain ⟨a1, a2, a3⟩ := modeStep_of_kept _ _ (pushBuffer_kept d t 0 hP).1
  unfold getch
  dsimp only
  cases ho : (pushBuffer d t 0).outcome with
  | done =>
    dsimp only
    obtain ⟨b1, b2, b3⟩ := getchLoop_mode d hP ((pushBuffer d t 0).t.rx.length + 1)
      (pushBuffer d t 0).t
    exact ⟨fun h => b1 (a1 h), fun h => b2 (a2 h), fun h => b3 (a3 h)⟩
  | blocked => exact ⟨a1, a2, fun h => Or.inl (a3 h)⟩
  | outOfFuel => exact ⟨a1, a2, fun h => Or.inl (a3 h)⟩

theorem call_mode (d : Layout) (t : Target) (c : Call) (hP : 4 ≤ d.SPM_PAGESIZE) :
    (t.ram (frameMode d) = FRAME_UART → (c.state d t).ram (frameMode d) = FRAME_UART) ∧
    ((t.ram (frameMode d)).val ≤ 240 → ((c.state d t).ram (frameMode d)).val ≤ 240) ∧
    (t.ram (frameMode d) = FRAME_UNKNOWN →
      (c.state d t).ram (frameMode d) = FRAME_UNKNOWN ∨
      (c.state d t).ram (frameMode d) = FRAME_UART ∨
      ((c.state d t).ram (frameMode d)).val ≤ 240) := by
  cases c with
  | getch => exact getch_mode d t hP
  | putch ch =>
    obtain ⟨a1, a2, a3⟩ := modeStep_of_kept _ _ (putch_kept d t ch hP)
    exact ⟨a1, a2, fun h => Or.inl (a3 h)⟩

/-- C32. Target mode never switches: on a layout whose page holds the four
variables of page 3, for every UART input (`t.rx`) and every sequence of calls
of `getch` and `putch` from state `t`, in the state reached (at the end, or at a
call that waits for ever): if `frameMode` was `FRAME_UART` it still is; if it
was in 0..240 (frame mode chosen) it still is, so it is neither `FRAME_UART` nor
`FRAME_UNKNOWN` and has not wrapped below 0; if it was `FRAME_UNKNOWN` it is
`FRAME_UNKNOWN`, `FRAME_UART` or in 0..240.  So once it is not `FRAME_UNKNOWN`,
it is not again. -/
theorem target_mode_stable (d : Layout) (hP : 4 ≤ d.SPM_PAGESIZE) (calls : List Call)
    (t : Target) :
    (t.ram (frameMode d) = FRAME_UART → (runCalls d calls t).ram (frameMode d) = FRAME_UART) ∧
    ((t.ram (frameMode d)).val ≤ 240 → ((runCalls d calls t).ram (frameMode d)).val ≤ 240) ∧
    (t.ram (frameMode d) = FRAME_UNKNOWN →
      (runCalls d calls t).ram (frameMode d) = FRAME_UNKNOWN ∨
      (runCalls d calls t).ram (frameMode d) = FRAME_UART ∨
      ((runCalls d calls t).ram (frameMode d)).val ≤ 240) := by
  induction calls generalizing t with
  | nil => exact ⟨fun h => h, fun h => h, fun h => Or.inl h⟩
  | cons c rest ih =>
    obtain ⟨a1, a2, a3⟩ := call_mode d t c hP
    rw [runCalls]
    by_cases hr : c.returns d t = true
    · rw [if_pos hr]
      obtain ⟨b1, b2, b3⟩ := ih (c.state d t)
      refine ⟨fun h => b1 (a1 h), fun h => b2 (a2 h), fun h => ?_⟩
      rcases a3 h with h1 | h1 | h1
      · exact b3 h1
      · exact Or.inr (Or.inl (b1 h1))
      · exact Or.inr (Or.inr (b2 h1))
    · rw [if_neg hr]
      exact ⟨a1, a2, a3⟩

theorem target_mode_stable_witness :
    4 ≤ atmega328p.SPM_PAGESIZE ∧
    ((runCalls atmega328p [.getch, .putch 0x14, .getch] (requestTarget [0x41, 0x42])).ram
      (frameMode atmega328p)).val ≤ 240 :=
  ⟨by decide, (target_mode_stable atmega328p (by decide) [.getch, .putch 0x14, .getch]
    (requestTarget [0x41, 0x42])).2.1 (by decide)⟩

end Xbeeboot

namespace Xbeeboot

/-! ## C33: the frames `poll` learns the address from -/

theorem copyAddress_learned (d : Layout) (hP : 9 ≤ d.SPM_PAGESIZE) :
    ∀ (count index : Nat) (t : Target) (i : Nat), index ≤ i → i < index + count → i < 10 →
      (copyAddress d count index t).ram (lastAddress d i) = t.ram (packet d (1 + i)) := by
  intro count
  induction count with
  | zero => intro index t i h1 h2; omega
  | succ count ih =>
    intro index t i h1 h2 h3
    rw [copyAddress]
    by_cases hi : i = index
    · rw [hi, copyAddress_other d count (index + 1) _ _ (fun k _ => by
        unfold lastAddress outputBuffer; omega), store_ram_eq]
    · rw [ih (index + 1) _ i (by omega) (by omega) h3]
      exact store_ram_ne _ _ _ _ (by unfold packet lastAddress outputBuffer; omega)

theorem sendAck_address (d : Layout) (t : Target) (s : Byte) (a : Nat)
    (h : outputBuffer d 2 ≤ a ∧ a < outputBuffer d 12) : (sendAck d t s).ram a = t.ram a := by
  unfold sendAck
  rw [transmit_below _ _ _ _ (Or.inr (Or.inr h))]
  have e0 : a ≠ outputPayload d 0 := by unfold outputPayload outputBuffer at *; omega
  have e1 : a ≠ outputPayload d 1 := by unfold outputPayload outputBuffer at *; omega
  rw [store_ram_ne _ _ _ _ e1, store_ram_ne _ _ _ _ e0]

theorem addressBytes_ext (d : Layout) (t t1 : Target)
    (h : ∀ i, i < 10 → t1.ram (lastAddress d i) = t.ram (lastAddress d i)) :
    addressBytes d t1 = addressBytes d t := by
  unfold addressBytes
  apply List.map_congr_left
  intro i hi
  exact h i (List.mem_range.mp hi)

theorem addressBytes_learned (d : Layout) (t1 : Target) (p : List Byte) (h16 : 16 ≤ p.length)
    (h : ∀ i, i < 10 → t1.ram (lastAddress d i) = p.getD (1 + i) 0) :
    addressBytes d t1 = (p.drop 1).take 10 := by
  apply List.ext_getElem
  · simp [addressBytes]; omega
  · intro i h1 h2
    have hi : i < 10 := by simpa [addressBytes] using h1
    simp only [addressBytes, List.getElem_map, List.getElem_range, List.getElem_take,
      List.getElem_drop]
    rw [h i hi, List.getD_eq_getElem _ _ (by omega)]

/-- C33 (amended). Target address learning: for a pass of `poll` over the bytes
of a whole frame (0x7E, escaped length bytes `msb`, `len`, escaped payload `p`
of `len` bytes, escaped checksum byte `c`) that ends before `lastAddress`
(`len <= SPM_PAGESIZE + 2`).  If the frame meets `LearnsAddress` (length MSB 0,
checksum valid, API type 0x90, length at least 16, REQUEST (1) of type 23), the
pass overwrites the 10 bytes of `lastAddress` with bytes 1..10 of the frame,
whether or not it then accepts the frame: the sequence and `frameMode` play no
part.  For every other frame it leaves `lastAddress` unchanged. -/
theorem target_address_learning (d : Layout) (w s : Byte) (t : Target) (msb len : Byte)
    (p : List Byte) (c : Byte) (rest : List Byte)
    (hlen : p.length = len.val) (hfit : p.length ≤ d.SPM_PAGESIZE + 2)
    (hrx : t.rx = 0x7e :: (escapeBytes (msb :: len :: p) ++ escapeBytes [c] ++ rest)) :
    (LearnsAddress msb len p c →
      addressBytes d (pollIteration d w s t).t = (p.drop 1).take 10) ∧
    (¬ LearnsAddress msb len p c →
      addressBytes d (pollIteration d w s t).t = addressBytes d t) := by
  have ht : t = { t with rx := 0x7e :: (escapeBytes (msb :: len :: p) ++ escapeBytes [c] ++ rest) } := by
    rw [← hrx]
  have hit := pollIteration_frame d w s t msb len p c rest hlen
  rw [← ht] at hit
  obtain ⟨S, hS⟩ : ∃ S : Target, S = { Target.storeAll t (packet d) 0 p with rx := rest } :=
    ⟨_, rfl⟩
  rw [← hS] at hit
  have hSa : ∀ i, i < 10 → S.ram (lastAddress d i) = t.ram (lastAddress d i) := by
    intro i hi
    rw [hS]
    exact storeAll_other t (packet d) 0 p _ (fun j hj => by
      unfold lastAddress outputBuffer packet; omega)
  have hSp : ∀ i, i < p.length → S.ram (packet d i) = p.getD i 0 := by
    intro i hi
    rw [hS]; exact packet_stored d t p rest i hi
  constructor
  · rintro ⟨hm, hc, h0, h16, h12, h14⟩
    have hl16 : 16 ≤ p.length := by omega
    have hP : 4 ≤ d.SPM_PAGESIZE := by omega
    have hcopy : ∀ i, i < 10 → (copyAddress d 10 0 S).ram (lastAddress d i) = p.getD (1 + i) 0 := by
      intro i hi
      rw [copyAddress_learned d (by omega) 10 0 S i (by omega) (by omega) hi, hSp _ (by omega)]
    have hin : ∀ i, i < 10 → outputBuffer d 2 ≤ lastAddress d i ∧ lastAddress d i < outputBuffer d 12 := by
      intro i hi; unfold lastAddress outputBuffer; omega
    apply addressBytes_learned d _ p hl16
    intro i hi
    rw [hit, if_neg (not_not.mpr hm), if_neg (by rw [hc, checksumByte_eq]; simp)]
    have p0 : S.ram (packet d 0) = 0x90 := by rw [hSp 0 (by omega), h0]
    have p12 : S.ram (packet d 12) = 1 := by rw [hSp 12 (by omega), h12]
    have p14 : S.ram (packet d 14) = 23 := by rw [hSp 14 (by omega), h14]
    by_cases h13 : S.ram (packet d 13) = nextSequence (S.ram (lastIncomingSequence d))
    · by_cases hfm : S.ram (frameMode d) = FRAME_FRAME
      · rw [pollFrame_accept d w len s S hP p0 h16 p12 p14 h13 hfm]
        have hv : (len - 12 - 3 : Byte).val = len.val - 15 := by
          have := len.isLt
          rw [sub_sub, Fin.sub_def]
          simp only [Fin.val_mk]
          norm_num
          omega
        have key : ((sendAck d ((copyPayload d (len - 12 - 3).val (len - 12 - 3).val 0
            (copyAddress d 10 0 S)).store (frameMode d) (len - 12 - 3))
            (S.ram (packet d 13))).store (lastIncomingSequence d) (S.ram (packet d 13))).ram
              (lastAddress d i) = p.getD (1 + i) 0 := by
          rw [store_ram_ne _ _ _ _ (by unfold lastAddress outputBuffer lastIncomingSequence; omega),
            sendAck_address _ _ _ _ (hin i hi),
            store_ram_ne _ _ _ _ (by unfold lastAddress outputBuffer frameMode; omega),
            copyPayload_other _ _ _ _ _ _ (fun k _ _ => by
              rw [hv]; unfold lastAddress outputBuffer packetBuffer; omega),
            hcopy i hi]
        by_cases hw : w = 0
        · rw [if_pos hw]; exact key
        · rw [if_neg hw]; exact key
      · rw [pollFrame_busy d w len s S hP p0 h16 p12 p14 h13 hfm]
        exact hcopy i hi
    · rw [pollFrame_wrong d w len s S hP p0 h16 p12 p14 h13]
      dsimp only [Iteration.t]
      by_cases hs : s ≠ 0
      · rw [if_pos hs, sendAck_address _ _ _ _ (hin i hi)]
        exact hcopy i hi
      · rw [if_neg hs]
        exact hcopy i hi
  · intro hno
    apply addressBytes_ext
    intro i hi
    rw [hit]
    by_cases hm : msb ≠ 0
    · rw [if_pos hm]; rfl
    rw [if_neg hm]
    by_cases hc : 0xff - p.sum ≠ c
    · rw [if_pos hc]
      exact hSa i hi
    rw [if_neg hc]
    have hig := pollFrame_ignore d w len s S (by
      rintro ⟨h0, h16, h12, h14⟩
      have hl16 : 16 ≤ p.length := by omega
      rw [hSp 0 (by omega)] at h0
      rw [hSp 12 (by omega)] at h12
      rw [hSp 14 (by omega)] at h14
      exact hno ⟨not_not.mp hm, by rw [checksumByte_eq]; exact (not_not.mp hc).symm, h0, h16,
        h12, h14⟩)
    rcases hpf : pollFrame d w len s S with ⟨rc, s1, t1⟩
    rw [hpf] at hig
    have e : t1 = S := hig.1
    rw [e]
    cases rc <;> exact hSa i hi

theorem target_address_learning_witness :
    addressBytes atmega328p (pollIteration atmega328p 0 0
      { idleTarget with rx := apiFrame (deliverPayload 1 [0x41, 0x42]) }).t
      = [0, 0, 0, 0, 0, 0, 0, 0, 0x12, 0x34] :=
  (target_address_learning atmega328p 0 0
    { idleTarget with rx := apiFrame (deliverPayload 1 [0x41, 0x42]) } 0 17
    (deliverPayload 1 [0x41, 0x42]) (checksumByte (deliverPayload 1 [0x41, 0x42])) []
    (by decide) (by decide) (by decide)).1
    ⟨by decide, rfl, by decide, by decide, by decide, by decide⟩

/-- C33, counterexample to the claim as stated.  A target in frame mode whose
`lastAddress` is all zero and whose `lastIncomingSequence` is 0 reads a valid
REQUEST of type 23 with sequence 5 (not the expected 1) from the 16-bit address
`12 34`: the frame is not accepted (nothing transmitted, `lastIncomingSequence`
and `frameMode` unchanged), yet `lastAddress` now holds its address.  The same
happens for the in-sequence frame that arrives while the receive buffer is not
empty (`frameMode` 3). -/
theorem target_address_learning_counterexample :
    addressBytes atmega328p idleTarget = [0, 0, 0, 0, 0, 0, 0, 0, 0, 0] ∧
    (pollIteration atmega328p 0 0
      { idleTarget with rx := apiFrame (deliverPayload 5 [0x41]) }).t.tx = [] ∧
    (pollIteration atmega328p 0 0
      { idleTarget with rx := apiFrame (deliverPayload 5 [0x41]) }).t.ram
        (lastIncomingSequence atmega328p) = 0 ∧
    (pollIteration atmega328p 0 0
      { idleTarget with rx := apiFrame (deliverPayload 5 [0x41]) }).t.ram
        (frameMode atmega328p) = 0 ∧
    addressBytes atmega328p (pollIteration atmega328p 0 0
      { idleTarget with rx := apiFrame (deliverPayload 5 [0x41]) }).t
      = [0, 0, 0, 0, 0, 0, 0, 0, 0x12, 0x34] ∧
    (pollIteration atmega328p 0 0
      { idleTarget.store (frameMode atmega328p) 3 with
        rx := apiFrame (deliverPayload 1 [0x41]) }).t.tx = [] ∧
    (pollIteration atmega328p 0 0
      { idleTarget.store (frameMode atmega328p) 3 with
        rx := apiFrame (deliverPayload 1 [0x41]) }).t.ram (lastIncomingSequence atmega328p) = 0 ∧
    addressBytes atmega328p (pollIteration atmega328p 0 0
      { idleTarget.store (frameMode atmega328p) 3 with
        rx := apiFrame (deliverPayload 1 [0x41]) }).t
      = [0, 0, 0, 0, 0, 0, 0, 0, 0x12, 0x34] := by
  decide

end Xbeeboot

namespace Xbeeboot

/-! ## C34: REQUEST frames with a wrong sequence -/

theorem apiFrame_length_pos (p : List Byte) : 1 ≤ (apiFrame p).length := by
  rw [← List.append_nil (apiFrame p), apiFrame_rx]
  simp

/-- The pass of `poll` over a valid REQUEST of type 23 whose sequence is not the
expected one, with `sawInvalid` at `s`: `continue` with `sawInvalid` at `s + 1`;
nothing is stored below `packet`; nothing is transmitted when `s` is 0, one ACK
for `lastIncomingSequence` else. -/
theorem pollIteration_wrong (d : Layout) (w s : Byte) (t : Target) (p rest : List Byte)
    (hP : 4 ≤ d.SPM_PAGESIZE) (h255 : p.length ≤ 255) (hrx : t.rx = apiFrame p ++ rest)
    (h0 : p.getD 0 0 = 0x90) (h16 : 16 ≤ p.length) (h12 : p.getD 12 0 = 1)
    (h14 : p.getD 14 0 = 23)
    (h13 : p.getD 13 0 ≠ nextSequence (t.ram (lastIncomingSequence d))) :
    ∃ t1 : Target, pollIteration d w s t = .again (s + 1) t1 ∧ t1.rx = rest ∧
      (∀ a, a < packet d 0 → t1.ram a = t.ram a) ∧
      (s = 0 → t1.tx = t.tx) ∧
      (s ≠ 0 → ∃ q : List Byte, q.length = 16 ∧ q.getD 0 0 = 0x10 ∧
        q.drop 14 = [0, t.ram (lastIncomingSequence d)] ∧ t1.tx = t.tx ++ apiFrame q) := by
  have hlen : p.length = (toUChar (p.length : Int)).val := by
    rw [toUChar_val]
    omega
  have ht : t = { t with rx := 0x7e :: (escapeBytes (0 :: toUChar (p.length : Int) :: p) ++
      escapeBytes [checksumByte p] ++ rest) } := by
    rw [← apiFrame_rx, ← hrx]
  have hit := pollIteration_frame d w s t 0 (toUChar (p.length : Int)) p (checksumByte p) rest hlen
  rw [← ht] at hit
  obtain ⟨S, hS⟩ : ∃ S : Target, S = { Target.storeAll t (packet d) 0 p with rx := rest } :=
    ⟨_, rfl⟩
  rw [← hS] at hit
  have hSp : ∀ i, i < p.length → S.ram (packet d i) = p.getD i 0 := by
    intro i hi
    rw [hS]; exact packet_stored d t p rest i hi
  have hSb : ∀ a, a < packet d 0 → S.ram a = t.ram a := by
    intro a ha
    rw [hS]; exact packet_stored_below d t p rest a ha
  have hSl : S.ram (lastIncomingSequence d) = t.ram (lastIncomingSequence d) :=
    hSb _ (by unfold lastIncomingSequence packet; omega)
  have hStx : S.tx = t.tx := by rw [hS]; exact storeAll_tx _ _ _ _
  have hSrx : S.rx = rest := by rw [hS]
  have hpo : ∀ a, a < packet d 0 → a < outputBuffer d 0 := fun a ha => by
    unfold outputBuffer packet at *; omega
  have hw := pollFrame_wrong d w (toUChar (p.length : Int)) s S hP
    (by rw [hSp 0 (by omega), h0]) (by omega) (by rw [hSp 12 (by omega), h12])
    (by rw [hSp 14 (by omega), h14]) (by rw [hSp 13 (by omega), hSl]; exact h13)
  rw [if_neg (by decide), if_neg (by rw [checksumByte_eq]; simp), hw] at hit
  dsimp only at hit
  refine ⟨_, hit, ?_, fun a ha => ?_, fun hs => ?_, fun hs => ?_⟩
  · split_ifs
    · rw [sendAck_rx, copyAddress_rx, hSrx]
    · rw [copyAddress_rx, hSrx]
  · split_ifs
    · rw [sendAck_below _ _ _ _ (hpo a ha), copyAddress_below _ _ _ _ _ (hpo a ha), hSb a ha]
    · rw [copyAddress_below _ _ _ _ _ (hpo a ha), hSb a ha]
  · rw [if_neg (not_not.mpr hs), copyAddress_tx, hStx]
  · rw [if_pos hs]
    obtain ⟨q, q1, q2, q3, q4⟩ := sendAck_frame d (copyAddress d 10 0 S)
      (S.ram (lastIncomingSequence d))
    rw [hSl] at q3
    exact ⟨q, q1, q2, q3, by rw [q4, copyAddress_tx, hStx]⟩

/-- C34 (amended). Target re-ACK: for a pass of `poll` over a valid REQUEST of
type FIRMWARE_DELIVER `p` whose sequence is not `succ(lastIncomingSequence)`,
with `s` the value of `sawInvalid` (0 at the start of each invocation of `poll`,
incremented by every such frame and by every wrong ACK while an ACK is
awaited): the pass goes on with `sawInvalid` at `s + 1`; it leaves the memory
below `packet` (`lastIncomingSequence`, `frameMode`, the page of `packetBuffer`)
unchanged; it transmits nothing when `s` is 0 and exactly one ACK carrying
`lastIncomingSequence` when `s` is not 0.  So when an invocation of `poll`
reads two such frames first, the first causes no transmission and the second
the one ACK, and the invocation goes on with `sawInvalid` at 2. -/
theorem target_reack (d : Layout) (w s : Byte) (t : Target) (p rest : List Byte)
    (hP : 4 ≤ d.SPM_PAGESIZE) (h255 : p.length ≤ 255) (hrx : t.rx = apiFrame p ++ rest)
    (h0 : p.getD 0 0 = 0x90) (h16 : 16 ≤ p.length) (h12 : p.getD 12 0 = 1)
    (h14 : p.getD 14 0 = 23)
    (h13 : p.getD 13 0 ≠ nextSequence (t.ram (lastIncomingSequence d))) :
    (∃ t1 : Target, pollIteration d w s t = .again (s + 1) t1 ∧ t1.rx = rest ∧
      t1.ram (lastIncomingSequence d) = t.ram (lastIncomingSequence d) ∧
      t1.ram (frameMode d) = t.ram (frameMode d) ∧
      (∀ i, i < d.SPM_PAGESIZE → t1.ram (packetBuffer d i) = t.ram (packetBuffer d i)) ∧
      (s = 0 → t1.tx = t.tx) ∧
      (s ≠ 0 → ∃ q : List Byte, q.length = 16 ∧ q.getD 0 0 = 0x10 ∧
        q.drop 14 = [0, t.ram (lastIncomingSequence d)] ∧ t1.tx = t.tx ++ apiFrame q)) ∧
    (∀ p2 rest2 : List Byte, rest = apiFrame p2 ++ rest2 → p2.length ≤ 255 →
      p2.getD 0 0 = 0x90 → 16 ≤ p2.length → p2.getD 12 0 = 1 → p2.getD 14 0 = 23 →
      p2.getD 13 0 ≠ nextSequence (t.ram (lastIncomingSequence d)) →
      ∃ (t1 t2 : Target) (q : List Byte),
        pollIteration d w 0 t = .again 1 t1 ∧ t1.tx = t.tx ∧
        pollIteration d w 1 t1 = .again 2 t2 ∧ t2.tx = t.tx ++ apiFrame q ∧
        q.length = 16 ∧ q.getD 0 0 = 0x10 ∧ q.drop 14 = [0, t.ram (lastIncomingSequence d)] ∧
        poll d t w = pollLoop d w (rest2.length + 1) 2 t2 ∧ t2.rx = rest2 ∧
        t2.ram (lastIncomingSequence d) = t.ram (lastIncomingSequence d) ∧
        t2.ram (frameMode d) = t.ram (frameMode d) ∧
        (∀ i, i < d.SPM_PAGESIZE → t2.ram (packetBuffer d i) = t.ram (packetBuffer d i))) := by
  have hlp : lastIncomingSequence d < packet d 0 := by unfold lastIncomingSequence packet; omega
  have hfp : frameMode d < packet d 0 := by unfold frameMode packet; omega
  have hbp : ∀ i, i < d.SPM_PAGESIZE → packetBuffer d i < packet d 0 := fun i hi => by
    unfold packetBuffer packet; omega
  constructor
  · obtain ⟨t1, a1, a2, a3, a4, a5⟩ := pollIteration_wrong d w s t p rest hP h255 hrx h0 h16 h12
      h14 h13
    exact ⟨t1, a1, a2, a3 _ hlp, a3 _ hfp, fun i hi => a3 _ (hbp i hi), a4, a5⟩
  · intro p2 rest2 hr g255 g0 g16 g12 g14 g13
    obtain ⟨t1, a1, a2, a3, a4, -⟩ := pollIteration_wrong d w 0 t p rest hP h255 hrx h0 h16 h12
      h14 h13
    obtain ⟨t2, b1, b2, b3, -, b5⟩ := pollIteration_wrong d w 1 t1 p2 rest2 hP g255
      (by rw [a2, hr]) g0 g16 g12 g14 (by rw [a3 _ hlp]; exact g13)
    obtain ⟨q, q1, q2, q3, q4⟩ := b5 (by decide)
    rw [a3 _ hlp] at q3
    rw [a4 rfl] at q4
    have e01 : (0 : Byte) + 1 = 1 := by decide
    have e12 : (1 : Byte) + 1 = 2 := by decide
    rw [e01] at a1
    rw [e12] at b1
    refine ⟨t1, t2, q, a1, a4 rfl, b1, q4, q1, q2, q3, ?_, b2, ?_, ?_, ?_⟩
    · have l1 := apiFrame_length_pos p
      have l2 := apiFrame_length_pos p2
      obtain ⟨k, hk⟩ : ∃ k, t.rx.length + 1 = (rest2.length + 1 + k) + 1 + 1 := by
        refine ⟨(apiFrame p).length + (apiFrame p2).length - 2, ?_⟩
        rw [hrx, hr]
        simp only [List.length_append]
        omega
      unfold poll
      rw [hk, pollLoop, a1]
      dsimp only
      rw [pollLoop, b1]
      dsimp only
      exact pollLoop_fuel d w (rest2.length + 1) k 2 t2 (by rw [b2]; omega)
    · rw [b3 _ hlp, a3 _ hlp]
    · rw [b3 _ hfp, a3 _ hfp]
    · intro i hi
      rw [b3 _ (hbp i hi), a3 _ (hbp i hi)]

theorem target_reack_witness :
    ∃ t1 : Target, pollIteration atmega328p 0 0
        { idleTarget with rx := apiFrame (deliverPayload 5 [0x41]) ++ [] } = .again 1 t1 ∧
      t1.tx = [] := by
  obtain ⟨t1, a1, -, -, -, -, a6, -⟩ := (target_reack atmega328p 0 0
    { idleTarget with rx := apiFrame (deliverPayload 5 [0x41]) ++ [] }
    (deliverPayload 5 [0x41]) [] (by decide) (by decide) rfl (by decide) (by decide) (by decide)
    (by decide) (by decide)).1
  exact ⟨t1, a1, a6 rfl⟩

/-- C34, counterexample to the claim as stated.  A target that awaits the ACK
for sequence 7 reads an ACK for sequence 5 and then a valid REQUEST of type 23
with sequence 5 where 1 is expected: this is the first such REQUEST of the
invocation, and it causes the transmission of an ACK (for
`lastIncomingSequence`, 0), because the wrong ACK has been counted in
`sawInvalid` before.  Without the wrong ACK the same frame causes no
transmission. -/
theorem target_reack_counterexample :
    (poll atmega328p { idleTarget with
        rx := apiFrame ([0x90, 0, 0, 0, 0, 0, 0, 0, 0, 0x12, 0x34, 0, 0, 5]) ++
          apiFrame (deliverPayload 5 [0x41]) } 7).t.tx
      = apiFrame [0x10, 0, 0, 0, 0, 0, 0, 0, 0, 0, 0x12, 0x34, 0, 0, 0, 0] ∧
    (poll atmega328p { idleTarget with
        rx := apiFrame ([0x90, 0, 0, 0, 0, 0, 0, 0, 0, 0x12, 0x34, 0, 0, 5]) ++
          apiFrame (deliverPayload 5 [0x41]) } 7).t.ram (lastIncomingSequence atmega328p) = 0 ∧
    (poll atmega328p { idleTarget with rx := apiFrame (deliverPayload 5 [0x41]) } 7).t.tx = [] := by
  decide

end Xbeeboot

namespace Xbeeboot

/-! ## C40: `poll` while the receive buffer is not empty -/

/-- The pass of `poll` over a valid REQUEST of type 23 with the expected sequence
while `frameMode` is not 0: `continue`; nothing is stored below `packet` and
nothing is transmitted. -/
theorem pollIteration_busy (d : Layout) (w s : Byte) (t : Target) (p rest : List Byte)
    (hP : 4 ≤ d.SPM_PAGESIZE) (h255 : p.length ≤ 255) (hrx : t.rx = apiFrame p ++ rest)
    (h0 : p.getD 0 0 = 0x90) (h16 : 16 ≤ p.length) (h12 : p.getD 12 0 = 1)
    (h14 : p.getD 14 0 = 23)
    (h13 : p.getD 13 0 = nextSequence (t.ram (lastIncomingSequence d)))
    (hfm : t.ram (frameMode d) ≠ FRAME_FRAME) :
    ∃ t1 : Target, pollIteration d w s t = .again s t1 ∧ t1.rx = rest ∧ t1.tx = t.tx ∧
      (∀ a, a < packet d 0 → t1.ram a = t.ram a) := by
  have hlen : p.length = (toUChar (p.length : Int)).val := by
    rw [toUChar_val]
    omega
  have ht : t = { t with rx := 0x7e :: (escapeBytes (0 :: toUChar (p.length : Int) :: p) ++
      escapeBytes [checksumByte p] ++ rest) } := by
    rw [← apiFrame_rx, ← hrx]
  have hit := pollIteration_frame d w s t 0 (toUChar (p.length : Int)) p (checksumByte p) rest hlen
  rw [← ht] at hit
  obtain ⟨S, hS⟩ : ∃ S : Target, S = { Target.storeAll t (packet d) 0 p with rx := rest } :=
    ⟨_, rfl⟩
  rw [← hS] at hit
  have hSp : ∀ i, i < p.length → S.ram (packet d i) = p.getD i 0 := by
    intro i hi
    rw [hS]; exact packet_stored d t p rest i hi
  have hSb : ∀ a, a < packet d 0 → S.ram a = t.ram a := by
    intro a ha
    rw [hS]; exact packet_stored_below d t p rest a ha
  have hSl : S.ram (lastIncomingSequence d) = t.ram (lastIncomingSequence d) :=
    hSb _ (by unfold lastIncomingSequence packet; omega)
  have hSf : S.ram (frameMode d) = t.ram (frameMode d) :=
    hSb _ (by unfold frameMode packet; omega)
  have hStx : S.tx = t.tx := by rw [hS]; exact storeAll_tx _ _ _ _
  have hSrx : S.rx = rest := by rw [hS]
  have hpo : ∀ a, a < packet d 0 → a < outputBuffer d 0 := fun a ha => by
    unfold outputBuffer packet at *; omega
  have hb := pollFrame_busy d w (toUChar (p.length : Int)) s S hP
    (by rw [hSp 0 (by omega), h0]) (by omega) (by rw [hSp 12 (by omega), h12])
    (by rw [hSp 14 (by omega), h14]) (by rw [hSp 13 (by omega), hSl]; exact h13)
    (by rw [hSf]; exact hfm)
  rw [if_neg (by decide), if_neg (by rw [checksumByte_eq]; simp), hb] at hit
  dsimp only at hit
  exact ⟨_, hit, by rw [copyAddress_rx, hSrx], by rw [copyAddress_tx, hStx],
    fun a ha => by rw [copyAddress_below _ _ _ _ _ (hpo a ha), hSb a ha]⟩

/-- C40 (amended). While `frameMode` is not 0, on a layout whose page holds the
four variables of page 3: a call of `poll`, whatever the input, whatever ACK it
awaits and however it ends, stores nothing below `packet`, so `frameMode`,
`lastIncomingSequence` and the `SPM_PAGESIZE` bytes of the page of
`packetBuffer` keep their values; so does a call of `pushBuffer` (which changes
only `lastOutgoingSequence` and `outputIndex` there); and the pass over a valid
in-sequence REQUEST of type 23 goes on with nothing transmitted.  Bytes
buffered at `packetBuffer[i]` with `i < SPM_PAGESIZE` are therefore kept until
`getch` returns them. -/
theorem target_buffer_kept (d : Layout) (w : Byte) (t : Target) (hP : 4 ≤ d.SPM_PAGESIZE)
    (hfm : t.ram (frameMode d) ≠ FRAME_FRAME) :
    ((poll d t w).t.ram (frameMode d) = t.ram (frameMode d) ∧
      (poll d t w).t.ram (lastIncomingSequence d) = t.ram (lastIncomingSequence d) ∧
      ∀ i, i < d.SPM_PAGESIZE → (poll d t w).t.ram (packetBuffer d i) = t.ram (packetBuffer d i)) ∧
    (∀ max : Byte,
      (pushBuffer d t max).t.ram (frameMode d) = t.ram (frameMode d) ∧
      (pushBuffer d t max).t.ram (lastIncomingSequence d) = t.ram (lastIncomingSequence d) ∧
      ∀ i, i < d.SPM_PAGESIZE →
        (pushBuffer d t max).t.ram (packetBuffer d i) = t.ram (packetBuffer d i)) ∧
    (∀ (s : Byte) (p rest : List Byte), t.rx = apiFrame p ++ rest → p.length ≤ 255 →
      p.getD 0 0 = 0x90 → 16 ≤ p.length → p.getD 12 0 = 1 → p.getD 14 0 = 23 →
      p.getD 13 0 = nextSequence (t.ram (lastIncomingSequence d)) →
      ∃ t1 : Target, pollIteration d w s t = .again s t1 ∧ t1.rx = rest ∧ t1.tx = t.tx ∧
        t1.ram (frameMode d) = t.ram (frameMode d) ∧
        t1.ram (lastIncomingSequence d) = t.ram (lastIncomingSequence d) ∧
        ∀ i, i < d.SPM_PAGESIZE → t1.ram (packetBuffer d i) = t.ram (packetBuffer d i)) := by
  have hlp : lastIncomingSequence d < packet d 0 := by unfold lastIncomingSequence packet; omega
  have hfp : frameMode d < packet d 0 := by unfold frameMode packet; omega
  have hbp : ∀ i, i < d.SPM_PAGESIZE → packetBuffer d i < packet d 0 := fun i hi => by
    unfold packetBuffer packet; omega
  refine ⟨?_, fun max => ?_, fun s p rest hrx h255 h0 h16 h12 h14 h13 => ?_⟩
  · obtain ⟨-, k2, -, -⟩ := pollLoop_kept d w hP (t.rx.length + 1) 0 t
    have hpoll : poll d t w = pollLoop d w (t.rx.length + 1) 0 t := rfl
    rw [hpoll]
    exact ⟨k2 hfm _ hfp, k2 hfm _ hlp, fun i hi => k2 hfm _ (hbp i hi)⟩
  · obtain ⟨-, k2⟩ := pushBuffer_kept d t max hP
    refine ⟨k2 hfm _ hfp ?_ ?_, k2 hfm _ hlp ?_ ?_, fun i hi => k2 hfm _ (hbp i hi) ?_ ?_⟩
    · unfold frameMode lastOutgoingSequence; omega
    · unfold frameMode outputIndex; omega
    · unfold lastIncomingSequence lastOutgoingSequence; omega
    · unfold lastIncomingSequence outputIndex; omega
    · unfold packetBuffer lastOutgoingSequence; omega
    · unfold packetBuffer outputIndex; omega
  · obtain ⟨t1, a1, a2, a3, a4⟩ := pollIteration_busy d w s t p rest hP h255 hrx h0 h16 h12 h14
      h13 hfm
    exact ⟨t1, a1, a2, a3, a4 _ hfp, a4 _ hlp, fun i hi => a4 _ (hbp i hi)⟩

theorem target_buffer_kept_witness :
    (poll atmega328p { idleTarget.store (frameMode atmega328p) 3 with
      rx := apiFrame (deliverPayload 1 [0x41]) } 0).t.ram (frameMode atmega328p) = 3 :=
  (target_buffer_kept atmega328p 0
    { idleTarget.store (frameMode atmega328p) 3 with rx := apiFrame (deliverPayload 1 [0x41]) }
    (by decide) (by decide)).1.1.trans (by decide)

/-- C40, counterexample to the claim as stated, on the ATmega328P layout (page
of 128 bytes).  A target that awaits the ACK for sequence 1 accepts a valid
in-sequence REQUEST with 130 data bytes 1, 2, ..., 130: `frameMode` is 130 and
`packetBuffer[129]`, the byte `getch` returns first, holds the first data byte,
1.  The same invocation of `poll` then reads the awaited ACK, whose second byte
is 0xAA: it stores the ACK into `packet`, which overlaps `packetBuffer` from
index 128 on, so with `frameMode` still 130 `packetBuffer[129]` now holds 0xAA,
and that is what `getch` returns. -/
theorem target_buffer_kept_counterexample :
    (poll atmega328p { idleTarget with
      rx := apiFrame (deliverPayload 1 (countBytes 130)) } 1).t.ram (frameMode atmega328p)
      = 130 ∧
    (poll atmega328p { idleTarget with
      rx := apiFrame (deliverPayload 1 (countBytes 130)) } 1).t.ram
        (packetBuffer atmega328p 129) = 1 ∧
    (poll atmega328p { (poll atmega328p { idleTarget with
        rx := apiFrame (deliverPayload 1 (countBytes 130)) } 1).t with
      rx := apiFrame [0x90, 0xaa, 0, 0, 0, 0, 0, 0, 0, 0x12, 0x34, 0, 0, 1] } 1).t.ram
        (frameMode atmega328p) = 130 ∧
    (poll atmega328p { (poll atmega328p { idleTarget with
        rx := apiFrame (deliverPayload 1 (countBytes 130)) } 1).t with
      rx := apiFrame [0x90, 0xaa, 0, 0, 0, 0, 0, 0, 0, 0x12, 0x34, 0, 0, 1] } 1).t.ram
        (packetBuffer atmega328p 129) = 0xaa ∧
    (getch atmega328p (poll atmega328p { idleTarget with
      rx := apiFrame (deliverPayload 1 (countBytes 130)) ++
        apiFrame [0x90, 0xaa, 0, 0, 0, 0, 0, 0, 0, 0x12, 0x34, 0, 0, 1] } 1).t).outcome
      = .returned 0xaa := by
  decide

end Xbeeboot

/-! ## C39: no unescaped control byte on the wire -/

theorem escapeBytes_plain (x : List Byte) :
    ∀ b ∈ escapeBytes x, b ≠ 0x7e ∧ b ≠ 0x11 ∧ b ≠ 0x13 := by
  have key0 : ∀ v : Byte, (escapeByte v = [v] ∧ v ≠ 0x7e ∧ v ≠ 0x11 ∧ v ≠ 0x13) ∨
      (escapeByte v = [0x7d, v ^^^ 0x20] ∧ v ^^^ 0x20 ≠ 0x7e ∧ v ^^^ 0x20 ≠ 0x11 ∧
        v ^^^ 0x20 ≠ 0x13) := by decide
  have key : ∀ v : Byte, ∀ b ∈ escapeByte v, b ≠ 0x7e ∧ b ≠ 0x11 ∧ b ≠ 0x13 := by
    intro v b hb
    rcases key0 v with ⟨e, h⟩ | ⟨e, h⟩
    · rw [e, List.mem_singleton] at hb
      rw [hb]; exact h
    · rw [e] at hb
      simp only [List.mem_cons, List.mem_singleton, List.not_mem_nil, or_false] at hb
      rcases hb with hb | hb
      · rw [hb]; decide
      · rw [hb]; exact h
  induction x with
  | nil => intro b hb; simp [escapeBytes] at hb
  | cons v x ih =>
    intro b hb
    rw [escapeBytes_cons, List.mem_append] at hb
    exact hb.elim (key v b) (ih b)

theorem escapeBytes_leadIn (x : List Byte) :
    ∀ i, i < (escapeBytes x).length → (escapeBytes x).getD i 0 = 0x7d →
      i + 1 < (escapeBytes x).length ∧
        ((escapeBytes x).getD (i + 1) 0 = 0x5e ∨ (escapeBytes x).getD (i + 1) 0 = 0x5d ∨
          (escapeBytes x).getD (i + 1) 0 = 0x31 ∨ (escapeBytes x).getD (i + 1) 0 = 0x33) := by
  have key0 : ∀ v : Byte, (escapeByte v = [v] ∧ v ≠ 0x7d) ∨
      (escapeByte v = [0x7d, v ^^^ 0x20] ∧ v ^^^ 0x20 ≠ 0x7d ∧
        (v ^^^ 0x20 = 0x5e ∨ v ^^^ 0x20 = 0x5d ∨ v ^^^ 0x20 = 0x31 ∨ v ^^^ 0x20 = 0x33)) := by
    decide
  have key : ∀ v : Byte, (escapeByte v = [v] ∧ v ≠ 0x7d) ∨
      ∃ w : Byte, escapeByte v = [0x7d, w] ∧ w ≠ 0x7d ∧
        (w = 0x5e ∨ w = 0x5d ∨ w = 0x31 ∨ w = 0x33) := by
    intro v
    rcases key0 v with h | h
    · exact Or.inl h
    · exact Or.inr ⟨_, h⟩
  induction x with
  | nil => intro i hi; simp [escapeBytes] at hi
  | cons v x ih =>
    intro i hi h7
    rw [escapeBytes_cons] at hi h7 ⊢
    rcases key v with ⟨e, hv⟩ | ⟨w, e, hw, hs⟩
    · rw [e] at hi h7 ⊢
      cases i with
      | zero => exact absurd h7 hv
      | succ i =>
        simp only [List.singleton_append, List.length_cons, List.getD_cons_succ] at hi h7 ⊢
        obtain ⟨a1, a2⟩ := ih i (by omega) h7
        exact ⟨by omega, a2⟩
    · rw [e] at hi h7 ⊢
      cases i with
      | zero =>
        simp only [List.cons_append, List.length_cons, List.getD_cons_succ,
          List.getD_cons_zero]
        exact ⟨by omega, hs⟩
      | succ i =>
        cases i with
        | zero =>
          simp only [List.cons_append, List.getD_cons_succ, List.getD_cons_zero] at h7
          exact absurd h7 hw
        | succ i =>
          simp only [List.cons_append, List.nil_append, List.length_cons,
            List.getD_cons_succ] at hi h7 ⊢
          obtain ⟨a1, a2⟩ := ih i (by omega) h7
          exact ⟨by omega, a2⟩

theorem apiFrame_clean (p : List Byte) : WireClean (apiFrame p) := by
  have e : apiFrame p
      = 0x7e :: escapeBytes ([0x00, toUChar (p.length : Int)] ++ p ++ [checksumByte p]) := by
    rw [escapeBytes_append, escapeBytes_append]
    rfl
  rw [e]
  refine ⟨rfl, fun b hb => escapeBytes_plain _ b hb, fun i hi h7 => ?_⟩
  cases i with
  | zero => simp at h7
  | succ i =>
    simp only [List.length_cons, List.getD_cons_succ] at hi h7 ⊢
    obtain ⟨a1, a2⟩ := escapeBytes_leadIn _ i (by omega) h7
    exact ⟨by omega, a2⟩

/-- C39. No unescaped control bytes on the wire: every byte string that the
host's `sendAPIRequest` hands to the serial device, and every byte string that
one call of the target's `transmit` writes to the UART, starts with 0x7E and
has no other 0x7E, has no 0x11 and no 0x13 after the first byte, and has 0x7D
only directly in front of one of 0x5E, 0x5D, 0x31, 0x33. -/
theorem wire_control_bytes :
    (∀ (xbs : Xbee.XBeeBootSession) (apiType : Byte)
      (apiOption prePayload1 prePayload2 packetType sequence appType : Int)
      (data wire : List Byte),
      Xbee.sendAPIRequest xbs apiType apiOption prePayload1 prePayload2 packetType sequence
        appType data = some wire → WireClean wire) ∧
    (∀ (d : Xbeeboot.Layout) (t : Xbeeboot.Target) (n : Byte),
      ∃ wire : List Byte, (Xbeeboot.transmit d t n).tx = t.tx ++ wire ∧ WireClean wire) := by
  constructor
  · intro xbs apiType apiOption prePayload1 prePayload2 packetType sequence appType data wire h
    rw [Xbee.sendAPIRequest_some _ _ _ _ _ _ _ _ _ _ h]
    exact apiFrame_clean _
  · intro d t n
    exact ⟨_, Xbeeboot.transmit_tx d t n, apiFrame_clean _⟩

theorem wire_control_bytes_witness :
    WireClean [0x7e, 0x00, 0x04, 0x08, 0x01, 0x7d, 0x5e, 0x7d, 0x31, 0x67] :=
  wire_control_bytes.1 Xbee.XBeeBootSessionInit 0x08 (-1) (-1) (-1) (-1) 1 (-1) [0x7e, 0x11] _
    (by decide)

namespace Xbee

/-! ## C38: the stores of `sendAPIRequest` into `frame` -/

theorem apiPayload_length (xbs : XBeeBootSession) (apiType : Byte)
    (apiOption prePayload1 prePayload2 packetType sequence appType : Int) (data : List Byte) :
    (apiPayload xbs apiType apiOption prePayload1 prePayload2 packetType sequence appType
      data).length ≤ 17 + data.length := by
  have h1 := optionalByte_length apiOption
  have h2 := optionalByte_length prePayload1
  have h3 := optionalByte_length prePayload2
  have h4 := optionalByte_length packetType
  have h5 := optionalByte_length sequence
  have h6 := optionalByte_length appType
  unfold apiPayload
  simp only [List.length_append, List.length_singleton]
  split
  · simp only [List.length_map, List.length_range]
    omega
  · simp only [List.length_nil]
    omega

/-- C38. Host encoder stays in bounds: for every call of `sendAPIRequest` with
at most 64 data bytes, with `body` the encoder after the checksum is stored
(its `out` is what was written from `frame[5]` on) and `start` the encoder
after the two length bytes are stored behind the 0x7E of `frame[0]`: the body
ends at or before index 169 (`5 + body.out.length <= 169`), the frame start is 3
or 4 bytes long, so it fits in the 5 bytes in front of the body, and the call
produces the frame start followed by the body. -/
theorem host_encoder_bounds (xbs : XBeeBootSession) (apiType : Byte)
    (apiOption prePayload1 prePayload2 packetType sequence appType : Int) (data : List Byte)
    (hlen : data.length ≤ 64) :
    5 + (fpput (encodePayload xbs apiType apiOption prePayload1 prePayload2 packetType sequence
        appType data) (encodePayload xbs apiType apiOption prePayload1 prePayload2 packetType
        sequence appType data).checksum).out.length ≤ 169 ∧
    ((fpput (fpput { out := [0x7e], checksum := 0, length := 0 } 0)
        (encodePayload xbs apiType apiOption prePayload1 prePayload2 packetType sequence
          appType data).length).out.length = 3 ∨
      (fpput (fpput { out := [0x7e], checksum := 0, length := 0 } 0)
        (encodePayload xbs apiType apiOption prePayload1 prePayload2 packetType sequence
          appType data).length).out.length = 4) ∧
    sendAPIRequest xbs apiType apiOption prePayload1 prePayload2 packetType sequence appType data
      = some ((fpput (fpput { out := [0x7e], checksum := 0, length := 0 } 0)
          (encodePayload xbs apiType apiOption prePayload1 prePayload2 packetType sequence
            appType data).length).out ++
        (fpput (encodePayload xbs apiType apiOption prePayload1 prePayload2 packetType sequence
          appType data) (encodePayload xbs apiType apiOption prePayload1 prePayload2 packetType
          sequence appType data).checksum).out) := by
  obtain ⟨e, he⟩ : ∃ e, e = encodePayload xbs apiType apiOption prePayload1 prePayload2
    packetType sequence appType data := ⟨_, rfl⟩
  have hp := apiPayload_length xbs apiType apiOption prePayload1 prePayload2 packetType sequence
    appType data
  have hout : e.out = escapeBytes (apiPayload xbs apiType apiOption prePayload1 prePayload2
      packetType sequence appType data) := by
    rw [he, encodePayload_eq, foldl_fpput]
    rfl
  have hbody : 5 + (fpput e e.checksum).out.length ≤ 169 := by
    have h1 := escapeBytes_length_le (apiPayload xbs apiType apiOption prePayload1 prePayload2
      packetType sequence appType data)
    have h2 := escapeByte_length_le e.checksum
    rw [fpput_out, List.length_append, hout]
    omega
  have hstart : (fpput (fpput { out := [0x7e], checksum := 0, length := 0 } 0) e.length).out.length
        = 3 ∨
      (fpput (fpput { out := [0x7e], checksum := 0, length := 0 } 0) e.length).out.length = 4 := by
    have h2 := escapeByte_length_le e.length
    have h3 : 1 ≤ (escapeByte e.length).length := by
      unfold escapeByte; split <;> simp
    have h0 : escapeByte 0 = [0] := by decide
    rw [fpput_out, fpput_out, h0]
    simp only [List.length_append, List.length_singleton, List.length_cons, List.length_nil]
    omega
  rw [← he]
  refine ⟨hbody, hstart, ?_⟩
  unfold sendAPIRequest
  rw [← he]
  dsimp only
  have hs : ∀ c l, (fpput (fpput { out := [0x7e], checksum := c, length := l } 0) e.length).out
      = (fpput (fpput { out := [0x7e], checksum := 0, length := 0 } 0) e.length).out := by
    intro c l
    rw [fpput_out, fpput_out, fpput_out, fpput_out]
  rw [hs]
  rw [if_pos ⟨by omega, by rcases hstart with h | h <;> omega⟩]

theorem host_encoder_bounds_witness :
    5 + (fpput (encodePayload XBeeBootSessionInit 0x90 1 (-1) (-1) 1 1 23
        (List.replicate 64 0x7e)) (encodePayload XBeeBootSessionInit 0x90 1 (-1) (-1) 1 1 23
        (List.replicate 64 0x7e)).checksum).out.length ≤ 169 :=
  (host_encoder_bounds XBeeBootSessionInit 0x90 1 (-1) (-1) 1 1 23 (List.replicate 64 0x7e)
    (by decide)).1

end Xbee

namespace Xbee

/-! ## C36: frames too long for `frame` -/

theorem shift_or_val (b0 b1 : Byte) : b0.val <<< 8 ||| b1.val = b0.val * 256 + b1.val := by
  have h1 : b1.val < 2 ^ 8 := b1.isLt
  rw [Nat.shiftLeft_eq, Nat.mul_comm, ← Nat.mul_add_lt_is_or h1]

theorem readerRun_first : ∀ b0 : Byte,
    readerRun (.inFrame [] false 2) (escapeByte b0) = some (.inFrame [b0] false 2) := by
  decide

/-- The second length byte: the frame size is known, and the frame is given up
at once when it does not fit. -/
theorem readerRun_second (b0 b1 : Byte) :
    readerRun (.inFrame [b0] false 2) (escapeByte b1)
      = some (if b0.val * 256 + b1.val + 2 + 1 ≥ 256 then .beforeFrame
          else .inFrame [b0, b1] false (b0.val * 256 + b1.val + 2 + 1)) := by
  have h1 : unescapeByte false 0x7d = .leadIn := by decide
  have hs := shift_or_val b0 b1
  by_cases h : b1 = 0x7e ∨ b1 = 0x7d ∨ b1 = 0x11 ∨ b1 = 0x13
  · simp only [escapeByte, h, if_true, readerRun, parseByte, h1, (special_facts b1).1 h,
      List.length_singleton, List.length_append, List.singleton_append, List.getD_cons_zero,
      List.getD_cons_succ, List.length_cons, List.length_nil, hs]
    split_ifs <;> first | rfl | (exfalso; omega)
  · simp only [escapeByte, h, if_false, readerRun, parseByte, (special_facts b1).2 h,
      List.length_singleton, List.length_append, List.singleton_append, List.getD_cons_zero,
      List.getD_cons_succ, List.length_cons, List.length_nil, hs]
    split_ifs <;> first | rfl | (exfalso; omega)

theorem readerRun_lengthBytes (b0 b1 : Byte) :
    readerRun .beforeFrame (0x7e :: escapeBytes [b0, b1])
      = some (if b0.val * 256 + b1.val + 2 + 1 ≥ 256 then .beforeFrame
          else .inFrame [b0, b1] false (b0.val * 256 + b1.val + 2 + 1)) := by
  have e : escapeBytes [b0, b1] = escapeByte b0 ++ escapeByte b1 := by
    rw [escapeBytes_cons, escapeBytes_cons]; simp [escapeBytes]
  have h0 : readerRun .beforeFrame (0x7e :: escapeBytes [b0, b1])
      = readerRun (.inFrame [] false 2) (escapeBytes [b0, b1]) := rfl
  rw [h0, e, readerRun_append _ _ _ _ (readerRun_first b0), readerRun_second]

theorem readerRun_skip (g : List Byte) (hg : ∀ b ∈ g, b ≠ 0x7e) :
    readerRun .beforeFrame (g ++ [0x7e]) = some (.inFrame [] false 2) := by
  induction g with
  | nil => rfl
  | cons b g ih =>
    have hb : b ≠ 0x7e := hg b (List.mem_cons_self _ _)
    simp only [List.cons_append, readerRun, parseByte, hb, ne_eq, not_false_eq_true, if_true]
    exact ih (fun c hc => hg c (List.mem_cons_of_mem _ hc))

/-- C36. Oversize rejection on the host: for a running `xbeedev_poll` at
`before_frame` that reads 0x7E and the escaped length bytes `b0`, `b1`, with
`L = 256 * b0 + b1` the declared length.  If `L >= 253` (`L + 3 >= 256`), the
reader is back at `before_frame` as soon as both length bytes are read, with no
frame in progress and the host state unchanged, and it skips what follows up to
the next 0x7E, where it starts a new frame.  If `L <= 252`, then for every `L +
1` bytes `x` that follow in escaped form, all wire bytes but the last leave the
reader inside the frame with the host state unchanged (nothing is checked yet),
and the last one completes the stored frame `b0 b1 x` of `L + 3` bytes. -/
theorem host_oversize (bufNonNull : Bool) (wa ws : Int) (c : PollCfg) (b0 b1 : Byte)
    (hst : c.st = .beforeFrame) :
    (253 ≤ b0.val * 256 + b1.val →
      pollRun bufNonNull wa ws c (0x7e :: escapeBytes [b0, b1]) = some c ∧
      ∀ g : List Byte, (∀ b ∈ g, b ≠ 0x7e) →
        pollRun bufNonNull wa ws c (0x7e :: escapeBytes [b0, b1] ++ (g ++ [0x7e]))
          = some { c with st := .inFrame [] false 2 }) ∧
    (b0.val * 256 + b1.val ≤ 252 →
      ∀ x : List Byte, x.length = b0.val * 256 + b1.val + 1 →
        ∃ (q : List Byte) (wl : Byte) (st : ParserState), escapeBytes x = q ++ [wl] ∧
          pollRun bufNonNull wa ws c (0x7e :: escapeBytes [b0, b1] ++ q) = some { c with st := st } ∧
          parseByte st wl = .complete ([b0, b1] ++ x) (b0.val * 256 + b1.val + 3)) := by
  have hc : c = { c with st := .beforeFrame } := by rw [← hst]
  constructor
  · intro hL
    have h1 : readerRun c.st (0x7e :: escapeBytes [b0, b1]) = some .beforeFrame := by
      rw [hst, readerRun_lengthBytes, if_pos (by omega)]
    refine ⟨?_, fun g hg => ?_⟩
    · rw [pollRun_of_readerRun bufNonNull wa ws c _ _ h1, ← hc]
    · have h2 : readerRun c.st (0x7e :: escapeBytes [b0, b1] ++ (g ++ [0x7e]))
          = some (.inFrame [] false 2) := by
        rw [readerRun_append _ _ _ _ h1, readerRun_skip g hg]
      rw [pollRun_of_readerRun bufNonNull wa ws c _ _ h2]
  · intro hL x hx
    have h1 : readerRun c.st (0x7e :: escapeBytes [b0, b1])
        = some (.inFrame [b0, b1] false (b0.val * 256 + b1.val + 3)) := by
      rw [hst, readerRun_lengthBytes, if_neg (by omega)]
    obtain ⟨y, l, rfl⟩ : ∃ y l, x = y ++ [l] := by
      cases hx' : x.reverse with
      | nil =>
        have : x = [] := List.reverse_eq_nil_iff.mp hx'
        rw [this] at hx; simp at hx
      | cons l r =>
        exact ⟨r.reverse, l, by rw [← List.reverse_reverse x, hx']; simp⟩
    simp only [List.length_append, List.length_singleton] at hx
    have h2 := readerRun_escapeBytes y [b0, b1] (b0.val * 256 + b1.val + 3) (by simp)
      (by simp; omega) (by omega)
    obtain ⟨pre, wl, st, e1, e2, e3⟩ := parse_last ([b0, b1] ++ y) (b0.val * 256 + b1.val + 3) l
      (by simp) (by simp; omega) (by omega)
    refine ⟨escapeBytes y ++ pre, wl, st, ?_, ?_, ?_⟩
    · rw [escapeBytes_append, List.append_assoc, ← e1]
      simp [escapeBytes]
    · have h3 : readerRun c.st (0x7e :: escapeBytes [b0, b1] ++ (escapeBytes y ++ pre))
          = some st := by
        rw [readerRun_append _ _ _ _ h1, readerRun_append _ _ _ _ h2, e2]
      exact pollRun_of_readerRun bufNonNull wa ws c _ _ h3
    · rw [e3, List.append_assoc]

theorem host_oversize_witness :
    pollRun true (-1) (-1) { st := .beforeFrame, host := initHost, buflen := 1, written := [] }
      (0x7e :: escapeBytes [0x00, 0xfd])
      = some { st := .beforeFrame, host := initHost, buflen := 1, written := [] } :=
  ((host_oversize true (-1) (-1)
    { st := .beforeFrame, host := initHost, buflen := 1, written := [] } 0x00 0xfd rfl).1
    (by decide)).1

end Xbee

namespace Xbee

/-! ## C37: the indices into `frame` in `xbeedev_poll` -/

/-- One byte through the frame reader keeps `index < frameSize <= 255`. -/
theorem parseByte_more (st st1 : ParserState) (byte : Byte) (hok : ParserOk st)
    (h : parseByte st byte = .more st1) : ParserOk st1 := by
  unfold parseByte at h
  split at h
  · split_ifs at h
    · simp only [ParseStep.more.injEq] at h; subst h; exact True.intro
    · simp only [ParseStep.more.injEq] at h; subst h
      exact ⟨by simp, by omega, fun _ => rfl⟩
  · obtain ⟨h1, h2, h3⟩ := hok
    split at h
    · simp only [ParseStep.more.injEq] at h; subst h
      exact ⟨by simp, by omega, fun _ => rfl⟩
    · simp only [ParseStep.more.injEq] at h; subst h
      exact ⟨h1, h2, h3⟩
    · dsimp only at h
      split_ifs at h
      all_goals
        simp only [ParseStep.more.injEq] at h
        subst h
        first
        | exact True.intro
        | (refine ⟨?_, ?_, ?_⟩ <;>
            simp only [List.length_append, List.length_singleton, List.length_nil] at * <;>
            omega)

/-- A frame is complete exactly when `index` reaches `frameSize`, which is then
between 3 and 255. -/
theorem parseByte_complete (st : ParserState) (byte : Byte) (frame : List Byte)
    (frameSize : Nat) (hok : ParserOk st)
    (h : parseByte st byte = .complete frame frameSize) :
    frame.length = frameSize ∧ 3 ≤ frameSize ∧ frameSize ≤ 255 := by
  unfold parseByte at h
  split at h
  · split_ifs at h
  · obtain ⟨h1, h2, h3⟩ := hok
    split at h
    · simp at h
    · simp at h
    · dsimp only at h
      split_ifs at h
      all_goals
        simp only [ParseStep.complete.injEq] at h
        obtain ⟨rfl, rfl⟩ := h
        simp only [List.length_append, List.length_singleton, List.length_nil] at *
        omega

theorem pollByte_ok (bufNonNull : Bool) (wa ws : Int) (c : PollCfg) (byte : Byte)
    (hok : ParserOk c.st) : ParserOk (pollByte bufNonNull wa ws c byte).cfg.st := by
  rw [pollByte_st]
  cases hp : parseByte c.st byte with
  | more st1 => exact parseByte_more c.st st1 byte hok hp
  | complete frame frameSize => exact True.intro

theorem pollRun_ok (bufNonNull : Bool) (wa ws : Int) (q : List Byte) :
    ∀ (c c1 : PollCfg), ParserOk c.st → pollRun bufNonNull wa ws c q = some c1 →
      ParserOk c1.st := by
  induction q with
  | nil =>
    intro c c1 hok h
    simp only [pollRun, Option.some.injEq] at h
    rw [← h]; exact hok
  | cons b q ih =>
    intro c c1 hok h
    have hb := pollByte_ok bufNonNull wa ws c b hok
    rw [pollRun] at h
    cases hp : pollByte bufNonNull wa ws c b with
    | running c2 =>
      rw [hp] at h hb
      exact ih c2 c1 hb h
    | done o c2 =>
      rw [hp] at h
      simp at h

theorem dataReads_bound (c : PollCfg) (frame : List Byte) (dataStart dataLength : Nat) :
    ∀ i ∈ dataReads c frame dataStart dataLength, i < dataStart + dataLength := by
  intro i hi
  unfold dataReads at hi
  by_cases h2 : dataLength ≥ 2
  swap
  · rw [if_neg h2] at hi; simp at hi
  rw [if_pos h2] at hi
  dsimp only at hi
  rw [List.mem_append] at hi
  rcases hi with hi | hi
  · simp only [List.mem_cons, List.mem_singleton, List.not_mem_nil, or_false] at hi
    omega
  by_cases hp0 : frame.getD dataStart 0 = 0
  · rw [if_pos hp0] at hi; simp at hi
  rw [if_neg hp0] at hi
  by_cases hp1 : frame.getD dataStart 0 = 1 ∧ dataLength ≥ 4
  swap
  · rw [if_neg hp1] at hi; simp at hi
  rw [if_pos hp1, List.mem_append] at hi
  rcases hi with hi | hi
  · simp only [List.mem_singleton] at hi
    omega
  by_cases hacc : frame.getD (dataStart + 2) 0 = 24 ∧
      frame.getD (dataStart + 1) 0 = nextSequence c.host.xbs.inSequence
  swap
  · rw [if_neg hacc] at hi; simp at hi
  rw [if_pos hacc] at hi
  simp only [List.mem_map, List.mem_range] at hi
  obtain ⟨k, hk, rfl⟩ := hi
  omega

theorem frameReads_bound (c : PollCfg) (frame : List Byte) (frameSize : Nat)
    (hl : frame.length = frameSize) (h3 : 3 ≤ frameSize) :
    ∀ i ∈ frameReads c frame frameSize, i < frame.length := by
  intro i hi
  unfold frameReads at hi
  rw [List.mem_append] at hi
  rcases hi with hi | hi
  · simp only [List.mem_map, List.mem_range] at hi
    obtain ⟨k, hk, rfl⟩ := hi
    omega
  have hd16 := dataReads_bound c frame (2 + 1 + 1 + 8 + 2 + 1 + 1)
    (frameSize - (2 + 1 + 1 + 8 + 2 + 1 + 1) - 1) i
  have hd14 := dataReads_bound c frame (2 + 1 + 8 + 2 + 1) (frameSize - (2 + 1 + 8 + 2 + 1) - 1) i
  by_cases hck : frameChecksum frame ≠ 0
  · rw [if_pos hck] at hi; simp at hi
  rw [if_neg hck] at hi
  dsimp only at hi
  rw [List.mem_append] at hi
  rcases hi with hi | hi
  · simp only [List.mem_singleton] at hi
    omega
  by_cases h97 : frame.getD 2 0 = 0x97 ∧ frameSize > 16
  · rw [if_pos h97] at hi
    simp only [List.mem_cons, List.mem_singleton, List.not_mem_nil, or_false] at hi
    omega
  rw [if_neg h97] at hi
  by_cases h88 : frame.getD 2 0 = 0x88 ∧ frameSize > 6
  · rw [if_pos h88] at hi
    simp only [List.mem_cons, List.mem_singleton, List.not_mem_nil, or_false] at hi
    omega
  rw [if_neg h88] at hi
  by_cases h8b : frame.getD 2 0 = 0x8b ∧ frameSize > 7
  · rw [if_pos h8b] at hi
    simp only [List.mem_cons, List.mem_singleton, List.not_mem_nil, or_false] at hi
    omega
  rw [if_neg h8b] at hi
  by_cases h10 : frame.getD 2 0 = 0x10
  · rw [if_pos h10] at hi
    by_cases hs : frameSize ≤ 2 + 1 + 1 + 8 + 2 + 1 + 1 + 1
    · rw [if_pos hs] at hi; simp at hi
    rw [if_neg hs] at hi
    have := hd16 hi
    omega
  rw [if_neg h10] at hi
  by_cases h90 : frame.getD 2 0 = 0x90
  swap
  · rw [if_neg h90] at hi; simp at hi
  rw [if_pos h90] at hi
  by_cases hs : frameSize ≤ 2 + 1 + 8 + 2 + 1 + 1
  · rw [if_pos hs] at hi; simp at hi
  rw [if_neg hs, List.mem_append] at hi
  rcases hi with hi | hi
  · simp only [List.mem_map, List.mem_range] at hi
    obtain ⟨k, hk, rfl⟩ := hi
    omega
  by_cases hm : (frame.drop (2 + 1)).take 8 ≠ c.host.xbs.xbee_address.take 8
  · rw [if_pos hm] at hi; simp at hi
  rw [if_neg hm, List.mem_append] at hi
  rcases hi with hi | hi
  · simp only [List.mem_map, List.mem_range] at hi
    obtain ⟨k, hk, rfl⟩ := hi
    omega
  · have := hd14 hi
    omega

/-- C37. Host parser stays in bounds: in every state `c` that a running
`xbeedev_poll` reaches from `before_frame` over any bytes `q`, while the reader
loop is inside a frame the number of bytes stored (`index`, the position of the
next store) is below `frameSize`, which is at most 255, so every store
`frame[index]` has `index < 256` and the guard `index >= sizeof(frame)` is
false; and when the next byte completes a frame, exactly `frameSize <= 255`
bytes are stored and every index at which the frame is then read (the checksum
loop, `frame[2]`, `frame[3]`, `frame[16]`, `frame[4..7]`, the address bytes,
`dataStart[0 .. dataLength)`) is below the number of bytes stored. -/
theorem host_parser_bounds (bufNonNull : Bool) (wa ws : Int) (c0 c : PollCfg) (q : List Byte)
    (byte : Byte) (hst : c0.st = .beforeFrame)
    (hrun : pollRun bufNonNull wa ws c0 q = some c) :
    (∀ frame escaped frameSize, c.st = .inFrame frame escaped frameSize →
      frame.length < frameSize ∧ frameSize ≤ 255 ∧ ¬ frame.length ≥ 256) ∧
    (∀ frame frameSize, parseByte c.st byte = .complete frame frameSize →
      frame.length = frameSize ∧ frameSize ≤ 255 ∧
      ∀ i ∈ frameReads c frame frameSize, i < frame.length ∧ i < 256) := by
  have hok : ParserOk c.st :=
    pollRun_ok bufNonNull wa ws q c0 c (by rw [hst]; exact True.intro) hrun
  constructor
  · intro frame escaped frameSize he
    rw [he] at hok
    obtain ⟨h1, h2, -⟩ := hok
    exact ⟨h1, h2, by omega⟩
  · intro frame frameSize hp
    obtain ⟨h1, h2, h3⟩ := parseByte_complete c.st byte frame frameSize hok hp
    refine ⟨h1, h3, fun i hi => ?_⟩
    have := frameReads_bound c frame frameSize h1 h2 i hi
    exact ⟨this, by omega⟩

theorem host_parser_bounds_witness :
    ([0x00, 0x04] : List Byte).length < 7 ∧ 7 ≤ 255 ∧ ¬ ([0x00, 0x04] : List Byte).length ≥ 256 :=
  (host_parser_bounds true (-1) (-1)
    { st := .beforeFrame, host := initHost, buflen := 1, written := [] }
    { st := .inFrame [0x00, 0x04] false 7, host := initHost, buflen := 1, written := [] }
    [0x7e, 0x00, 0x04] 0x08 rfl (by decide)).1 [0x00, 0x04] false 7 rfl

end Xbee

namespace Xbee

/-! ## C35: `xbeedev_drain` -/

theorem ringPending_empty (xbs : XBeeBootSession) (h : xbs.inInIndex = xbs.inOutIndex) :
    ringPending xbs = [] := by
  unfold ringPending
  have : (xbs.inInIndex + 256 - xbs.inOutIndex) % 256 = 0 := by
    rw [h]; omega
  rw [this]
  rfl

/-- The application part of a frame in the poll of `xbeedev_drain`: it is
ignored, or it is accepted, which fills the one-byte buffer and ends the poll
with 0. -/
theorem processData_drain (c : PollCfg) (frame : List Byte) (dataStart dataLength : Nat)
    (hb : c.buflen = 1) (hin : c.host.xbs.inInIndex = 0) (hout : c.host.xbs.inOutIndex = 0)
    (hbuf : c.host.xbs.inBuffer.length = 256)
    (hfr : dataStart + dataLength ≤ frame.length) (hdl : dataLength ≤ 255) :
    processData true (-1) c frame dataStart dataLength = .running c ∨
    ∃ c1, processData true (-1) c frame dataStart dataLength = .done (.ret 0) c1 ∧
      c1.host.xbs.inBuffer.length = 256 := by
  by_cases hacc : dataLength ≥ 4 ∧ frame.getD dataStart 0 = 1 ∧
      frame.getD (dataStart + 2) 0 = 24 ∧
      frame.getD (dataStart + 1) 0 = nextSequence c.host.xbs.inSequence
  · obtain ⟨h4, h1, h24, hs⟩ := hacc
    right
    have hok : RingOk c.host.xbs := ⟨hbuf, by omega, by omega⟩
    have hemp : ringPending c.host.xbs = [] :=
      ringPending_empty c.host.xbs (by rw [hin, hout])
    have htl : ((frame.drop (dataStart + 3)).take (dataLength - 3)).length = dataLength - 3 := by
      rw [List.length_take, List.length_drop]
      omega
    obtain ⟨c1, ack, e1, -, -, e4, -, -, -, -, -, e10⟩ :=
      processData_accept true (-1) c frame dataStart dataLength h4 h1 hs h24 hok (by
        rw [hemp, List.length_drop, htl]
        simp only [List.length_nil]
        omega)
    rw [htl, hb] at e4
    have hb0 : c1.buflen = 0 := by omega
    rw [if_pos ⟨hb0, rfl⟩] at e1
    exact ⟨c1, e1, e10.1⟩
  · left
    unfold processData
    by_cases h2 : dataLength ≥ 2
    swap
    · rw [if_neg h2]
    rw [if_pos h2]
    dsimp only
    by_cases hp0 : frame.getD dataStart 0 = 0
    · rw [if_pos hp0, if_neg (by omega)]
    rw [if_neg hp0]
    by_cases hreq : frame.getD dataStart 0 = 1 ∧ dataLength ≥ 4 ∧
        frame.getD (dataStart + 2) 0 = 24
    swap
    · rw [if_neg hreq]
    rw [if_pos hreq]
    rw [if_neg (fun hs => hacc ⟨hreq.2.1, hreq.1, hreq.2.2, hs⟩)]

/-- A checksum-valid frame in the poll of `xbeedev_drain`: the poll goes on in a
state that is still `Draining`, or the frame carried data that was accepted and
the poll ends with 0. -/
theorem processFrame_drain (c : PollCfg) (frame : List Byte) (frameSize : Nat)
    (hd : Draining c) (hl : frame.length = frameSize) (h255 : frameSize ≤ 255) :
    (∃ c1, processFrame true (-1) (-1) c frame frameSize = .running c1 ∧ Draining c1) ∨
    ∃ c1, processFrame true (-1) (-1) c frame frameSize = .done (.ret 0) c1 ∧
      c1.host.xbs.inBuffer.length = 256 := by
  obtain ⟨hb, hin, hout, hbuf, hst⟩ := hd
  have hsame : ∃ c1, PollStep.running c = .running c1 ∧ Draining c1 :=
    ⟨c, rfl, hb, hin, hout, hbuf, hst⟩
  unfold processFrame
  dsimp only
  by_cases h97 : frame.getD 2 0 = 0x97 ∧ frameSize > 16
  · rw [if_pos h97, if_neg (by omega)]
    exact Or.inl hsame
  rw [if_neg h97]
  by_cases h88 : frame.getD 2 0 = 0x88 ∧ frameSize > 6
  · rw [if_pos h88, if_neg (by omega)]
    exact Or.inl hsame
  rw [if_neg h88]
  by_cases h8b : frame.getD 2 0 = 0x8b ∧ frameSize > 7
  · rw [if_pos h8b]
    exact Or.inl hsame
  rw [if_neg h8b]
  by_cases h10 : frame.getD 2 0 = 0x10
  · rw [if_pos h10]
    by_cases hs : frameSize ≤ 2 + 1 + 1 + 8 + 2 + 1 + 1 + 1
    · rw [if_pos hs]
      exact Or.inl hsame
    rw [if_neg hs]
    rcases processData_drain c frame (2 + 1 + 1 + 8 + 2 + 1 + 1)
        (frameSize - (2 + 1 + 1 + 8 + 2 + 1 + 1) - 1) hb hin hout hbuf (by omega) (by omega)
      with h | h
    · rw [h]; exact Or.inl hsame
    · exact Or.inr h
  rw [if_neg h10]
  by_cases h90 : frame.getD 2 0 = 0x90
  swap
  · rw [if_neg h90]
    exact Or.inl hsame
  rw [if_pos h90]
  by_cases hs : frameSize ≤ 2 + 1 + 8 + 2 + 1 + 1
  · rw [if_pos hs]
    exact Or.inl hsame
  rw [if_neg hs]
  by_cases hm : (frame.drop (2 + 1)).take 8 ≠ c.host.xbs.xbee_address.take 8
  · rw [if_pos hm]
    exact Or.inl hsame
  rw [if_neg hm]
  obtain ⟨x2, hx2⟩ : ∃ x2 : XBeeBootSession, x2 =
      (if (frame.drop (2 + 1 + 8)).take 2 ≠ (c.host.xbs.xbee_address.drop 8).take 2 then
        { c.host.xbs with xbee_address := c.host.xbs.xbee_address.take 8 ++
            (frame.drop (2 + 1 + 8)).take 2 }
      else c.host.xbs) := ⟨_, rfl⟩
  rw [← hx2]
  obtain ⟨c2, hc2⟩ : ∃ c2 : PollCfg, c2 = { c with host := { c.host with xbs := x2 } } :=
    ⟨_, rfl⟩
  rw [← hc2]
  have k1 : c2.buflen = 1 := by rw [hc2]; exact hb
  have k2 : c2.host.xbs.inInIndex = 0 := by
    rw [hc2, hx2]; dsimp only; split_ifs <;> exact hin
  have k3 : c2.host.xbs.inOutIndex = 0 := by
    rw [hc2, hx2]; dsimp only; split_ifs <;> exact hout
  have k4 : c2.host.xbs.inBuffer.length = 256 := by
    rw [hc2, hx2]; dsimp only; split_ifs <;> exact hbuf
  have k5 : ParserOk c2.st := by rw [hc2]; exact hst
  rcases processData_drain c2 frame (2 + 1 + 8 + 2 + 1)
      (frameSize - (2 + 1 + 8 + 2 + 1) - 1) k1 k2 k3 k4 (by omega) (by omega)
    with h | h
  · rw [h]; exact Or.inl ⟨c2, rfl, k1, k2, k3, k4, k5⟩
  · exact Or.inr h

/-- One byte through the poll of `xbeedev_drain`. -/
theorem pollByte_drain (c : PollCfg) (byte : Byte) (hd : Draining c) :
    (∃ c1, pollByte true (-1) (-1) c byte = .running c1 ∧ Draining c1) ∨
    ∃ c1, pollByte true (-1) (-1) c byte = .done (.ret 0) c1 ∧
      c1.host.xbs.inBuffer.length = 256 := by
  obtain ⟨hb, hin, hout, hbuf, hst⟩ := hd
  unfold pollByte
  cases hp : parseByte c.st byte with
  | more st1 =>
    exact Or.inl ⟨_, rfl, hb, hin, hout, hbuf, parseByte_more c.st st1 byte hst hp⟩
  | complete frame frameSize =>
    obtain ⟨h1, h2, h3⟩ := parseByte_complete c.st byte frame frameSize hst hp
    dsimp only
    by_cases hck : frameChecksum frame ≠ 0
    · rw [if_pos hck]
      exact Or.inl ⟨_, rfl, hb, hin, hout, hbuf, True.intro⟩
    · rw [if_neg hck]
      exact processFrame_drain { c with st := .beforeFrame } frame frameSize
        ⟨hb, hin, hout, hbuf, True.intro⟩ h1 h3

/-- The poll of `xbeedev_drain` over any input: it times out with the ring
buffer still empty at index 0, or it returns 0 having read at least one input
event. -/
theorem pollLoop_drain (input : List (Option Byte)) : ∀ (c : PollCfg), Draining c →
    ((pollLoop true (-1) (-1) c input).outcome = .ret (-1) ∧
      (pollLoop true (-1) (-1) c input).cfg.host.xbs.inInIndex = 0 ∧
      (pollLoop true (-1) (-1) c input).cfg.host.xbs.inOutIndex = 0) ∨
    ((pollLoop true (-1) (-1) c input).outcome = .ret 0 ∧
      (pollLoop true (-1) (-1) c input).cfg.host.xbs.inBuffer.length = 256 ∧
      (pollLoop true (-1) (-1) c input).rest.length < input.length) := by
  induction input with
  | nil =>
    intro c hd
    exact Or.inl ⟨rfl, hd.2.1, hd.2.2.1⟩
  | cons ev input ih =>
    intro c hd
    cases ev with
    | none => exact Or.inl ⟨rfl, hd.2.1, hd.2.2.1⟩
    | some byte =>
      rw [pollLoop]
      rcases pollByte_drain c byte hd with ⟨c1, e, hd1⟩ | ⟨c1, e, hb1⟩
      · rw [e]
        dsimp only
        rcases ih c1 hd1 with h | ⟨h1, h2, h3⟩
        · exact Or.inl h
        · exact Or.inr ⟨h1, h2, by rw [List.length_cons]; omega⟩
      · rw [e]
        exact Or.inr ⟨rfl, hb1, by simp⟩

theorem drainLoop_returns : ∀ (fuel : Nat) (h : Host) (input : List (Option Byte)),
    h.xbs.inBuffer.length = 256 → input.length < fuel →
    ∃ r, drainLoop fuel h input = some r ∧ r.outcome = .ret 0 ∧
      r.host.xbs.inInIndex = 0 ∧ r.host.xbs.inOutIndex = 0 := by
  intro fuel
  induction fuel with
  | zero => intro h input _ hf; omega
  | succ fuel ih =>
    intro h input hbuf hf
    obtain ⟨c, hc⟩ : ∃ c : PollCfg, c = ⟨.beforeFrame,
        { h with xbs := { h.xbs with inInIndex := 0, inOutIndex := 0 } }, 1, []⟩ := ⟨_, rfl⟩
    have hd : Draining c := by
      rw [hc]; exact ⟨rfl, rfl, rfl, hbuf, True.intro⟩
    rw [drainLoop]
    dsimp only
    unfold xbeedev_poll
    rw [← hc]
    rcases pollLoop_drain input c hd with ⟨h1, h2, h3⟩ | ⟨h1, h2, h3⟩
    · rw [h1]
      dsimp only
      rw [if_neg (by decide)]
      exact ⟨_, rfl, rfl, h2, h3⟩
    · rw [h1]
      dsimp only
      rw [if_pos rfl]
      exact ih _ _ h2 (by omega)

/-- C35. Drain empties the reassembly buffer: for every serial input (a finite
list of events, after which every `recv` times out) and every host state whose
`inBuffer` has its 256 entries, `xbeedev_drain` returns, it returns 0, and
`inInIndex = inOutIndex = 0` then, so that the ring buffer holds no byte. -/
theorem host_drain (h : Host) (input : List (Option Byte))
    (hbuf : h.xbs.inBuffer.length = 256) :
    ∃ r, xbeedev_drain h input = some r ∧ r.outcome = .ret 0 ∧
      r.host.xbs.inInIndex = 0 ∧ r.host.xbs.inOutIndex = 0 ∧ ringPending r.host.xbs = [] := by
  obtain ⟨r, h1, h2, h3, h4⟩ := drainLoop_returns (input.length + 1) h input hbuf (by omega)
  exact ⟨r, h1, h2, h3, h4, ringPending_empty r.host.xbs (by rw [h3, h4])⟩

theorem host_drain_witness :
    ∃ r, xbeedev_drain initHost
        ((apiFrame (replyPayload 1)).map some ++ [none]) = some r ∧ r.outcome = .ret 0 ∧
      r.host.xbs.inInIndex = 0 ∧ r.host.xbs.inOutIndex = 0 ∧ ringPending r.host.xbs = [] :=
  host_drain initHost ((apiFrame (replyPayload 1)).map some ++ [none]) (by decide)

end Xbee
